import Mathlib

/-!
Dynamic-light spatial index (gl/dynlights/a_dynlight.cpp)

A shallow embedding of the light-node registry (`AddLightNode`, `DeleteLightNode`),
the point-to-segment distance (`DistToSeg`), the flood fill (`CollectWithinRadius`)
and the relink / unlink operations (`LinkLight`, `UnlinkLight`).

Memory model.  `FLightNode` objects live at addresses `0, 1, 2, ...`; the heap keeps
one function per field of the struct ("structure of arrays") plus the set of live
addresses.  `new` hands out the address `nextFree`, `delete` clears the live bit.
A `FLightNode **` is a *slot*.  The program stores in `prevTarget` only the address of
a light's `touching_sides` / `touching_subsectors` member or of a node's `nextTarget`
field (`TSlot`), and in `prevLight` only the address of a target's `lighthead[b]` or of
a node's `nextLight` field (`LSlot`).  Every access to freed memory makes the operation
return `none`.  `double` values are idealised as rationals and their arithmetic is
exact.  A conversion to `float` that decides a comparison is rounded (`toFloat`): the
squared radius handed to `CollectWithinRadius` and the threshold of the flicker test.
-/

namespace DynLight

/-! ## Definitions: the embedding of the source and the specification predicates -/

/-- The object a node links its light to: the `targ` union of `FLightNode`
(a `side_t *` or a `subsector_t *`), by index into the level arrays. -/
inductive Target
  | side (i : Nat)
  | subsector (i : Nat)
  deriving DecidableEq, Repr

/-- Slots of the per-light chain (`prevTarget` / `nextTarget`). -/
inductive TSlot
  | touching_sides (light : Nat)
  | touching_subsectors (light : Nat)
  | nextTarget (node : Nat)
  deriving DecidableEq, Repr

/-- Slots of the per-target chain (`prevLight` / `nextLight`). -/
inductive LSlot
  | lighthead (t : Target) (additive : Bool)
  | nextLight (node : Nat)
  deriving DecidableEq, Repr

/-- The registry memory: the fields of every `FLightNode`, the two chain heads of every
light and the two `lighthead` buckets of every target. -/
structure Heap where
  alive : Nat → Bool
  nextFree : Nat
  prevTarget : Nat → TSlot
  nextTarget : Nat → Option Nat
  prevLight : Nat → LSlot
  nextLight : Nat → Option Nat
  lightsource : Nat → Option Nat
  targ : Nat → Target
  touching_sides : Nat → Option Nat
  touching_subsectors : Nat → Option Nat
  lighthead : Target → Bool → Option Nat

/-- The index with no node at all. -/
def Heap.empty : Heap where
  alive := fun _ => false
  nextFree := 0
  prevTarget := fun _ => TSlot.touching_sides 0
  nextTarget := fun _ => none
  prevLight := fun _ => LSlot.lighthead (Target.side 0) false
  nextLight := fun _ => none
  lightsource := fun _ => none
  targ := fun _ => Target.side 0
  touching_sides := fun _ => none
  touching_subsectors := fun _ => none
  lighthead := fun _ _ => none

/-- Whether the slot lies in live memory. -/
def Heap.okT (h : Heap) : TSlot → Bool
  | .touching_sides _ => true
  | .touching_subsectors _ => true
  | .nextTarget n => h.alive n

/-- The pointer stored in a slot of a per-light chain. -/
def Heap.getT (h : Heap) : TSlot → Option Nat
  | .touching_sides l => h.touching_sides l
  | .touching_subsectors l => h.touching_subsectors l
  | .nextTarget n => h.nextTarget n

/-- Assignment `*slot = v` for a slot of a per-light chain. -/
def Heap.setT (h : Heap) (s : TSlot) (v : Option Nat) : Heap :=
  match s with
  | .touching_sides l => { h with touching_sides := Function.update h.touching_sides l v }
  | .touching_subsectors l =>
    { h with touching_subsectors := Function.update h.touching_subsectors l v }
  | .nextTarget n => { h with nextTarget := Function.update h.nextTarget n v }

/-- Whether the slot lies in live memory. -/
def Heap.okL (h : Heap) : LSlot → Bool
  | .lighthead _ _ => true
  | .nextLight n => h.alive n

/-- The pointer stored in a slot of a per-target chain. -/
def Heap.getL (h : Heap) : LSlot → Option Nat
  | .lighthead t b => h.lighthead t b
  | .nextLight n => h.nextLight n

/-- Assignment `*slot = v` for a slot of a per-target chain. -/
def Heap.setL (h : Heap) (s : LSlot) (v : Option Nat) : Heap :=
  match s with
  | .lighthead t b =>
    { h with lighthead := Function.update h.lighthead t (Function.update (h.lighthead t) b v) }
  | .nextLight n => { h with nextLight := Function.update h.nextLight n v }

/-- Checked store `*slot = v`. -/
def Heap.storeT (h : Heap) (s : TSlot) (v : Option Nat) : Option Heap :=
  if h.okT s then some (h.setT s v) else none

/-- Checked store `*slot = v`. -/
def Heap.storeL (h : Heap) (s : LSlot) (v : Option Nat) : Option Heap :=
  if h.okL s then some (h.setL s v) else none

/-- Checked store `n->prevTarget = s`. -/
def Heap.storePrevTarget (h : Heap) (n : Nat) (s : TSlot) : Option Heap :=
  if h.alive n then some { h with prevTarget := Function.update h.prevTarget n s } else none

/-- Checked store `n->prevLight = s`. -/
def Heap.storePrevLight (h : Heap) (n : Nat) (s : LSlot) : Option Heap :=
  if h.alive n then some { h with prevLight := Function.update h.prevLight n s } else none

/-- The search loop of `AddLightNode` (lines 437-446): walks the light's chain from
`node` and stops at the first node whose `targ` is `linkto`.  `some (some n)`: found at
`n`; `some none`: the chain ended; `none`: freed memory was read or the fuel ran out. -/
def findNode (h : Heap) (linkto : Target) : Nat → Option Nat → Option (Option Nat)
  | _, none => some none
  | 0, some _ => none
  | fuel + 1, some node =>
    if h.alive node then
      if h.targ node = linkto then some (some node)
      else findNode h linkto fuel (h.nextTarget node)
    else none

/-- Source function `FLightNode * AddLightNode(FLightNode ** thread, void * linkto, ADynamicLight * light,
FLightNode *& nextnode)`.  Returns the new heap and the returned pointer.  The search
loop gets `nextFree + 1` iterations, one more than the number of addresses ever handed
out, so it only runs dry on a cyclic chain. -/
def AddLightNode (thread : LSlot) (linkto : Target) (light : Nat) (nextnode : TSlot)
    (h : Heap) : Option (Heap × Option Nat) :=
  if h.okT nextnode then
    match findNode h linkto (h.nextFree + 1) (h.getT nextnode) with
    | none => none
    | some (some node) =>
      -- node->lightsource = light; return(nextnode);
      some ({ h with lightsource := Function.update h.lightsource node (some light) },
        h.getT nextnode)
    | some none =>
      -- node = new FLightNode;
      let node := h.nextFree
      let h1 : Heap := { h with alive := Function.update h.alive node true, nextFree := node + 1 }
      -- node->targ = linkto; node->lightsource = light;
      -- node->prevTarget = &nextnode; node->nextTarget = nextnode;
      let h2 : Heap :=
        { h1 with
          targ := Function.update h1.targ node linkto
          lightsource := Function.update h1.lightsource node (some light)
          prevTarget := Function.update h1.prevTarget node nextnode
          nextTarget := Function.update h1.nextTarget node (h1.getT nextnode) }
      -- if (nextnode) nextnode->prevTarget = &node->nextTarget;
      (match h2.getT nextnode with
        | none => some h2
        | some old => h2.storePrevTarget old (TSlot.nextTarget node)).bind fun h3 =>
      -- node->prevLight = thread; node->nextLight = *thread;
      if h3.okL thread then
        let h4 : Heap :=
          { h3 with
            prevLight := Function.update h3.prevLight node thread
            nextLight := Function.update h3.nextLight node (h3.getL thread) }
        -- if (node->nextLight) node->nextLight->prevLight=&node->nextLight;
        (match h4.nextLight node with
          | none => some h4
          | some nx => h4.storePrevLight nx (LSlot.nextLight node)).bind fun h5 =>
        -- *thread = node; return(node);
        some (h5.setL thread (some node), some node)
      else none
  else none

/-- The call as every caller writes it, `head = AddLightNode(thread, linkto, light, head)`
(lines 545 and 561): the returned pointer is stored back into the slot `nextnode`. -/
def AddLightNodeAssign (thread : LSlot) (linkto : Target) (light : Nat) (nextnode : TSlot)
    (h : Heap) : Option Heap :=
  (AddLightNode thread linkto light nextnode h).bind fun r => r.1.storeT nextnode r.2

/-- Lines 486-487 of `DeleteLightNode`, the unlinking from the light's chain:
`*node->prevTarget = node->nextTarget;`
`if (node->nextTarget) node->nextTarget->prevTarget=node->prevTarget;`
Every statement reads the fields of `node` afresh, as the C++ does. -/
def unlinkTarget (h : Heap) (node : Nat) : Option Heap :=
  (h.storeT (h.prevTarget node) (h.nextTarget node)).bind fun h1 =>
  match h1.nextTarget node with
  | none => some h1
  | some nx => h1.storePrevTarget nx (h1.prevTarget node)

/-- Lines 489-490 of `DeleteLightNode`, the unlinking from the target's chain:
`*node->prevLight = node->nextLight;`
`if (node->nextLight) node->nextLight->prevLight=node->prevLight;` -/
def unlinkLight (h : Heap) (node : Nat) : Option Heap :=
  (h.storeL (h.prevLight node) (h.nextLight node)).bind fun h3 =>
  match h3.nextLight node with
  | none => some h3
  | some nx => h3.storePrevLight nx (h3.prevLight node)

/-- Source function `static FLightNode * DeleteLightNode(FLightNode * node)`: unlink from both chains,
then `tn=node->nextTarget; delete node; return(tn);`. -/
def DeleteLightNode (h : Heap) : Option Nat → Option (Heap × Option Nat)
  | none => some (h, none)
  | some node =>
    if h.alive node then
      (unlinkTarget h node).bind fun h2 =>
      (unlinkLight h2 node).bind fun h4 =>
      some ({ h4 with alive := Function.update h4.alive node false }, h4.nextTarget node)
    else none

/-- Horizontal vector (`DVector2`). -/
structure DVector2 where
  X : ℚ
  Y : ℚ
  deriving DecidableEq

/-- Position (`DVector3`). -/
structure DVector3 where
  X : ℚ
  Y : ℚ
  Z : ℚ
  deriving DecidableEq

/-- The fields of `seg_t` the linking code reads: both vertices, the side and line the
seg belongs to (null on a miniseg), the partner seg and the seg's own subsector. -/
structure seg_t where
  v1 : DVector2
  v2 : DVector2
  sidedef : Option Nat
  linedef : Option Nat
  PartnerSeg : Option Nat
  Subsector : Option Nat

/-- Source function `double ADynamicLight::DistToSeg(const DVector3 &pos, seg_t *seg)`, for a seg
with `v1 ≠ v2`.  For a seg of length zero the source divides zero by zero in line 516 and
returns a NaN (see `DistToSeg_isNumber`); the rational value has no meaning then. -/
def DistToSeg (pos : DVector3) (seg : seg_t) : ℚ :=
  let seg_dx := seg.v2.X - seg.v1.X
  let seg_dy := seg.v2.Y - seg.v1.Y
  let seg_length_sq := seg_dx * seg_dx + seg_dy * seg_dy
  let u := (((pos.X - seg.v1.X) * seg_dx) + (pos.Y - seg.v1.Y) * seg_dy) / seg_length_sq
  let u := if u < 0 then 0 else if u > 1 then 1 else u
  let px := seg.v1.X + (u * seg_dx)
  let py := seg.v1.Y + (u * seg_dy)
  let px := px - pos.X
  let py := py - pos.Y
  (px * px) + (py * py)

/-- Whether the result of `DistToSeg` is a number.  If `seg_length_sq` is zero, so are
`seg_dx` and `seg_dy` and with them the dividend of line 516: the quotient `0. / 0.` is a
NaN, both tests of lines 517-518 fail on it, and the value returned is a NaN, on which
every comparison fails. -/
def DistToSeg_isNumber (seg : seg_t) : Bool :=
  let seg_dx := seg.v2.X - seg.v1.X
  let seg_dy := seg.v2.Y - seg.v1.Y
  let seg_length_sq := seg_dx * seg_dx + seg_dy * seg_dy
  decide (seg_length_sq ≠ 0)

/-- The integer nearest to a rational, a tie going to the even neighbour (the rounding
mode of the floating-point unit). -/
def roundHalfEven (x : ℚ) : Int :=
  let f := Int.floor x
  if x - f < 1 / 2 then f
  else if 1 / 2 < x - f then f + 1
  else if f % 2 = 0 then f else f + 1

/-- The conversion of a `double` to `float`: the nearest number with a significand of 24
bits, a tie going to the even significand; below `2 ^ (-126)` the spacing stays
`2 ^ (-149)`.  Magnitudes from `2 ^ 128` on, which the conversion turns into an
infinity, are outside this model. -/
def toFloat (x : ℚ) : ℚ :=
  if x = 0 then 0
  else
    let e := max (Int.log 2 |x|) (-126)
    (roundHalfEven (x / 2 ^ (e - 23)) : ℚ) * 2 ^ (e - 23)

/-- Plane index of a sector (`sector_t::floor`, `sector_t::ceiling`). -/
inductive Plane
  | floor
  | ceiling
  deriving DecidableEq, Repr

/-- The fields of `FLinePortal` the traversal reads; `linked` stands for the test
`mType == PORTT_LINKED`. -/
structure FLinePortal where
  linked : Bool
  mDestination : Nat

/-- The fields of `line_t` the traversal reads (its `validcount` lives in `World`):
both vertices (`Delta()` is `v2 - v1`) and the result of `getPortal()`. -/
structure line_t where
  v1 : DVector2
  v2 : DVector2
  getPortal : Option FLinePortal

/-- The fields of a sky box actor the traversal reads. -/
structure SkyBox where
  specialf1 : ℚ
  Scale : DVector2

/-- The parts of `sector_t` the traversal reads. -/
structure sector_t where
  PortalBlocksSight : Plane → Bool
  SkyBoxes : Plane → Option SkyBox

/-- The fields of `subsector_t` the traversal reads (its `validcount` and its
`lighthead[]` live in `World`): `firstline` is an index into the seg array. -/
structure subsector_t where
  firstline : Nat
  numlines : Nat
  sector : Nat

/-- The fields of the light actor the linking code reads: its address (`this`), its
position, the `radius` member and the bit `flags4 & MF4_ADDITIVE`. -/
structure ADynamicLight where
  self : Nat
  Pos : DVector3
  radius : ℚ
  additive : Bool

/-- The level and the host functions the traversal consumes; none of it changes during
a relink.  `R_PointInSubsector` is the BSP point location, `PosRelativeLine` /
`PosRelativeSector` are `AActor::PosRelative` for a line and for a sector. -/
structure Level where
  numsubsectors : Nat
  subsectors : Nat → subsector_t
  segs : Nat → seg_t
  lines : Nat → line_t
  sectors : Nat → sector_t
  R_PointInSubsector : DVector2 → Nat
  PosRelativeLine : ADynamicLight → Nat → DVector3
  PosRelativeSector : ADynamicLight → Nat → DVector3

/-- Everything a relink can change or read besides the level: the node registry, the
global `::validcount`, the `validcount` stamp of every subsector and line, the CVAR
`gl_lights_additive`, and (ghost) the list of targets `AddLightNode` was called for.
The counters are unbounded integers: the wrap-around of the C++ `int` is not modelled. -/
structure World where
  heap : Heap
  validcount : Int
  sub_validcount : Nat → Int
  line_validcount : Nat → Int
  gl_lights_additive : Bool
  calls : List Target

/-- The chain of the light a target is linked into: `touching_sides` for a side,
`touching_subsectors` for a subsector. -/
def chainOf (light : Nat) : Target → TSlot
  | .side _ => TSlot.touching_sides light
  | .subsector _ => TSlot.touching_subsectors light

/-- The two call sites of `AddLightNode` in `CollectWithinRadius` (lines 545 and 561):
`touching_x = AddLightNode(&t->lighthead[additive], t, this, touching_x)`; the ghost
list records the target. -/
def World.link (w : World) (additive : Bool) (t : Target) (light : Nat) : Option World :=
  (AddLightNodeAssign (LSlot.lighthead t additive) t light (chainOf light t) w.heap).map
    fun h => { w with heap := h, calls := w.calls ++ [t] }

/-- The midpoint `other->v1->fPos() + other->Delta() / 2` of a line. -/
def line_t.mid (l : line_t) : DVector2 :=
  ⟨l.v1.X + (l.v2.X - l.v1.X) / 2, l.v1.Y + (l.v2.Y - l.v1.Y) / 2⟩

/-- Lines 555-563: the surface of the seg. -/
def collectSide (self : ADynamicLight) (additive : Bool) (pos : DVector3) (seg : seg_t)
    (w : World) : Option World :=
  match seg.sidedef, seg.linedef with
  | some sidedef, some linedef =>
    if w.line_validcount linedef ≠ w.validcount then
      if (pos.Y - seg.v1.Y) * (seg.v2.X - seg.v1.X)
          + (seg.v1.X - pos.X * (seg.v2.Y - seg.v1.Y)) ≤ 0 then
        World.link
          { w with line_validcount := Function.update w.line_validcount linedef w.validcount }
          additive (Target.side sidedef) self.self
      else some w
    else some w
  | _, _ => some w

/-- Lines 564-576: the linked portal of the seg's line. -/
def collectPortal (lv : Level) (self : ADynamicLight)
    (recurse : DVector3 → Option Nat → ℚ → World → Option World)
    (seg : seg_t) (radius : ℚ) (w : World) : Option World :=
  match seg.linedef with
  | none => some w
  | some linedef =>
    match (lv.lines linedef).getPortal with
    | none => some w
    | some port =>
      if port.linked then
        let other := port.mDestination
        if w.line_validcount other ≠ w.validcount then
          let othersub := lv.R_PointInSubsector (lv.lines other).mid
          if w.sub_validcount othersub ≠ w.validcount then
            recurse (lv.PosRelativeLine self other) (some othersub) radius w
          else some w
        else some w
      else some w

/-- Lines 578-586: the subsector on the other side of the seg. -/
def collectPartner (lv : Level)
    (recurse : DVector3 → Option Nat → ℚ → World → Option World)
    (pos : DVector3) (seg : seg_t) (radius : ℚ) (w : World) : Option World :=
  match seg.PartnerSeg with
  | none => some w
  | some partner =>
    match (lv.segs partner).Subsector with
    | none => some w
    | some sub =>
      if w.sub_validcount sub ≠ w.validcount then recurse pos (some sub) radius w
      else some w

/-- The body of the loop over the segs of the subsector (lines 549-587).  The test of
line 553, `DistToSeg(pos, seg) <= radius`, fails when the distance is a NaN. -/
def collectSeg (lv : Level) (self : ADynamicLight) (additive : Bool)
    (recurse : DVector3 → Option Nat → ℚ → World → Option World)
    (pos : DVector3) (subSec : Nat) (radius : ℚ) (w : World) (i : Nat) : Option World :=
  let seg := lv.segs ((lv.subsectors subSec).firstline + i)
  if DistToSeg_isNumber seg = true ∧ DistToSeg pos seg ≤ radius then
    (collectSide self additive pos seg w).bind fun w =>
    (collectPortal lv self recurse seg radius w).bind fun w =>
    collectPartner lv recurse pos seg radius w
  else some w

/-- Lines 589-599 (ceiling) and 600-610 (floor): the sky transfer of the sector.  The
comparison is `sb->specialf1 < Z() + radius` for the ceiling and
`sb->specialf1 > Z() - radius` for the floor, with `Z()` the height of the light and
`radius` the parameter of `CollectWithinRadius`.  Reading through a null `sb` or a null
`other` gives `none`. -/
def collectPlane (lv : Level) (self : ADynamicLight)
    (recurse : DVector3 → Option Nat → ℚ → World → Option World)
    (plane : Plane) (subSec : Nat) (radius : ℚ) (w : World) : Option World :=
  let sector := lv.sectors (lv.subsectors subSec).sector
  if !sector.PortalBlocksSight plane then
    let other := (lv.segs (lv.subsectors subSec).firstline).linedef
    match sector.SkyBoxes plane with
    | none => none
    | some sb =>
      if (match plane with
          | Plane.ceiling => decide (sb.specialf1 < self.Pos.Z + radius)
          | Plane.floor => decide (sb.specialf1 > self.Pos.Z - radius)) then
        match other with
        | none => none
        | some other =>
          let refpos : DVector2 :=
            ⟨(lv.lines other).mid.X + sb.Scale.X, (lv.lines other).mid.Y + sb.Scale.Y⟩
          let othersub := lv.R_PointInSubsector refpos
          if w.sub_validcount othersub ≠ w.validcount then
            recurse (lv.PosRelativeSector self (lv.subsectors othersub).sector)
              (some othersub) radius w
          else some w
      else some w
  else some w

/-- Source function `void ADynamicLight::CollectWithinRadius(const DVector3 &pos, subsector_t *subSec,
float radius)`.  The first argument bounds the recursion depth; `none` means that the
bound was hit or that freed or null memory was read. -/
def CollectWithinRadius (lv : Level) (self : ADynamicLight) :
    Nat → DVector3 → Option Nat → ℚ → World → Option World
  | _, _, none, _, w => some w
  | 0, _, some _, _, _ => none
  | fuel + 1, pos, some subSec, radius, w =>
    let additive := self.additive || w.gl_lights_additive
    -- subSec->validcount = ::validcount;
    let w1 : World :=
      { w with sub_validcount := Function.update w.sub_validcount subSec w.validcount }
    (World.link w1 additive (Target.subsector subSec) self.self).bind fun w2 =>
    ((List.range (lv.subsectors subSec).numlines).foldlM
      (collectSeg lv self additive (CollectWithinRadius lv self fuel) pos subSec radius)
      w2).bind fun w3 =>
    (collectPlane lv self (CollectWithinRadius lv self fuel) Plane.ceiling subSec radius
      w3).bind fun w4 =>
    collectPlane lv self (CollectWithinRadius lv self fuel) Plane.floor subSec radius w4

/-- The mark loops of `LinkLight` (lines 628-639):
`while (node) { node->lightsource = NULL; node = node->nextTarget; }`. -/
def markLoop : Nat → Heap → Option Nat → Option Heap
  | _, h, none => some h
  | 0, _, some _ => none
  | fuel + 1, h, some node =>
    if h.alive node then
      markLoop fuel { h with lightsource := Function.update h.lightsource node none }
        (h.nextTarget node)
    else none

/-- The sweep loops of `LinkLight` (lines 653-673):
`while (node) { if (node->lightsource == NULL) node = DeleteLightNode(node);`
`else node = node->nextTarget; }`. -/
def sweepLoop : Nat → Heap → Option Nat → Option Heap
  | _, h, none => some h
  | 0, _, some _ => none
  | fuel + 1, h, some node =>
    if h.alive node then
      if h.lightsource node = none then
        (DeleteLightNode h (some node)).bind fun r => sweepLoop fuel r.1 r.2
      else sweepLoop fuel h (h.nextTarget node)
    else none

/-- Lines 641-648 of `LinkLight`: `if (radius>0) { subsector_t * subSec =
R_PointInSubsector(Pos()); ::validcount++; CollectWithinRadius(Pos(), subSec,
radius*radius); }`.  The third parameter of `CollectWithinRadius` is a `float`
(line 537): the product arrives there rounded. -/
def linkTraverse (lv : Level) (self : ADynamicLight) (fuel : Nat) (w : World) :
    Option World :=
  if self.radius > 0 then
    let subSec := lv.R_PointInSubsector ⟨self.Pos.X, self.Pos.Y⟩
    let w2 : World := { w with validcount := w.validcount + 1 }
    CollectWithinRadius lv self fuel self.Pos (some subSec)
      (toFloat (self.radius * self.radius)) w2
  else some w

/-- Source function `void ADynamicLight::LinkLight()`: mark the old nodes (lines 628-639), traverse
(lines 641-648), delete the nodes that were not reconfirmed (lines 653-673).  `fuel`
bounds the recursion depth of the flood fill; the list loops get one iteration more than
the number of addresses handed out.  The ghost list `calls` is emptied on entry, so
that on return it holds the targets this call's traversal invoked `AddLightNode` for.
(The debugging statement of lines 621-624 has no effect and is left out.) -/
def LinkLight (lv : Level) (self : ADynamicLight) (fuel : Nat) (w : World) : Option World :=
  (markLoop (w.heap.nextFree + 1) w.heap (w.heap.touching_sides self.self)).bind fun h1 =>
  (markLoop (h1.nextFree + 1) h1 (h1.touching_subsectors self.self)).bind fun h2 =>
  (linkTraverse lv self fuel { w with heap := h2, calls := [] }).bind fun w3 =>
  (sweepLoop (w3.heap.nextFree + 1) w3.heap (w3.heap.touching_sides self.self)).bind fun h4 =>
  (sweepLoop (h4.nextFree + 1) h4 (h4.touching_subsectors self.self)).bind fun h5 =>
  some { w3 with heap := h5 }

/-- The loops of `UnlinkLight` (lines 696-697):
`while (touching_x) touching_x = DeleteLightNode(touching_x);`. -/
def unlinkLoop (slot : TSlot) : Nat → Heap → Option Heap
  | 0, h => if h.getT slot = none then some h else none
  | fuel + 1, h =>
    match h.getT slot with
    | none => some h
    | some node =>
      (DeleteLightNode h (some node)).bind fun r =>
      (r.1.storeT slot r.2).bind fun h1 => unlinkLoop slot fuel h1

/-- Source function `void ADynamicLight::UnlinkLight ()`, the part that touches the registry (the
removal of the light from its owner's `dynamiclights` array is not modelled). -/
def UnlinkLight (self : Nat) (h : Heap) : Option Heap :=
  (unlinkLoop (TSlot.touching_sides self) (h.nextFree + 1) h).bind fun h1 =>
  unlinkLoop (TSlot.touching_subsectors self) (h1.nextFree + 1) h1

/-- The per-light chain read from slot `s` is exactly the list `l` of live nodes. -/
def ChainT (h : Heap) : TSlot → List Nat → Prop
  | s, [] => h.getT s = none
  | s, n :: ns => h.getT s = some n ∧ h.alive n = true ∧ ChainT h (TSlot.nextTarget n) ns

/-- The per-target chain read from slot `s` is exactly the list `l` of live nodes. -/
def ChainL (h : Heap) : LSlot → List Nat → Prop
  | s, [] => h.getL s = none
  | s, n :: ns => h.getL s = some n ∧ h.alive n = true ∧ ChainL h (LSlot.nextLight n) ns

/-- Chain well-formedness of the whole registry.  `backT` / `backL`: the slot stored in
a live node's `prevTarget` (`prevLight`) is live and holds that node.  `fwdT` / `fwdL`:
a live slot that holds a pointer holds a live node, and it is the very slot that node
records as its predecessor slot (so a head slot's node is first, any other node follows
its predecessor, and nothing refers to a released node).  `fresh`: the allocator has
not handed out the addresses from `nextFree` on. -/
structure WF (h : Heap) : Prop where
  fresh : ∀ k, h.nextFree ≤ k → h.alive k = false
  backT : ∀ n, h.alive n = true →
    h.okT (h.prevTarget n) = true ∧ h.getT (h.prevTarget n) = some n
  backL : ∀ n, h.alive n = true →
    h.okL (h.prevLight n) = true ∧ h.getL (h.prevLight n) = some n
  fwdT : ∀ s n, h.okT s = true → h.getT s = some n → h.alive n = true ∧ h.prevTarget n = s
  fwdL : ∀ s n, h.okL s = true → h.getL s = some n → h.alive n = true ∧ h.prevLight n = s

/-- The heap the creation path of `AddLightNode` builds (lines 451-467), without the
liveness checks. -/
def createNode (thread : LSlot) (linkto : Target) (light : Nat) (nextnode : TSlot)
    (h : Heap) : Heap :=
  let node := h.nextFree
  let h2 : Heap :=
    { h with
      alive := Function.update h.alive node true
      nextFree := node + 1
      targ := Function.update h.targ node linkto
      lightsource := Function.update h.lightsource node (some light)
      prevTarget := Function.update h.prevTarget node nextnode
      nextTarget := Function.update h.nextTarget node (h.getT nextnode) }
  let h3 : Heap :=
    match h.getT nextnode with
    | none => h2
    | some old => { h2 with prevTarget := Function.update h2.prevTarget old (TSlot.nextTarget node) }
  let h4 : Heap :=
    { h3 with
      prevLight := Function.update h3.prevLight node thread
      nextLight := Function.update h3.nextLight node (h.getL thread) }
  let h5 : Heap :=
    match h.getL thread with
    | none => h4
    | some nx => { h4 with prevLight := Function.update h4.prevLight nx (LSlot.nextLight node) }
  h5.setL thread (some node)

/-- The assignment `n->lightsource = v`, the only kind of write the mark phase and the
reuse path perform. -/
def Heap.mark (h : Heap) (n : Nat) (v : Option Nat) : Heap :=
  { h with lightsource := Function.update h.lightsource n v }

/-- The heap after `head = AddLightNode(...)` took the creation path. -/
def linkNew (thread : LSlot) (linkto : Target) (light : Nat) (nextnode : TSlot)
    (h : Heap) : Heap :=
  (createNode thread linkto light nextnode h).setT nextnode (some h.nextFree)

/-- The heap after lines 486-487, with the fields of `n` read once. -/
def cutT (h : Heap) (n : Nat) : Heap :=
  let h1 := h.setT (h.prevTarget n) (h.nextTarget n)
  match h.nextTarget n with
  | none => h1
  | some nx => { h1 with prevTarget := Function.update h1.prevTarget nx (h.prevTarget n) }

/-- The heap after lines 489-490, with the fields of `n` read once. -/
def cutL (h : Heap) (n : Nat) : Heap :=
  let h3 := h.setL (h.prevLight n) (h.nextLight n)
  match h.nextLight n with
  | none => h3
  | some nx => { h3 with prevLight := Function.update h3.prevLight nx (h.prevLight n) }

/-- The heap `DeleteLightNode(n)` builds, without the liveness checks. -/
def unlinkNode (h : Heap) (n : Nat) : Heap :=
  let h4 := cutL (cutT h n) n
  { h4 with alive := Function.update h4.alive n false }

/-- Head slots: a light's `touching_sides` / `touching_subsectors` member. -/
def TSlot.isHead : TSlot → Bool
  | .nextTarget _ => false
  | _ => true

/-- Head slots: a target's `lighthead[b]`. -/
def LSlot.isHead : LSlot → Bool
  | .nextLight _ => false
  | _ => true

/-- Number of live nodes. -/
def liveCount (h : Heap) : Nat :=
  ((Finset.range h.nextFree).filter (fun a => h.alive a = true)).card

/-- Marks every node of the list as stale. -/
def markAll (h : Heap) (l : List Nat) : Heap := l.foldl (fun g n => g.mark n none) h

/-- Deletes the nodes of the list one after the other. -/
def unlinkAll (h : Heap) (l : List Nat) : Heap := l.foldl unlinkNode h

/-- The heap after one `head = AddLightNode(&t->lighthead[additive], t, light, head)`
when the light's chain for `t` is the list `l`. -/
def linkStep (h : Heap) (additive : Bool) (t : Target) (light : Nat) (l : List Nat) : Heap :=
  match l.find? (fun m => decide (h.targ m = t)) with
  | some n => h.mark n (some light)
  | none => linkNew (LSlot.lighthead t additive) t light (chainOf light t) h

/-- Light 7 linked to subsector 0, built by the code from the empty index. -/
def sample1 : Heap :=
  (AddLightNodeAssign (LSlot.lighthead (Target.subsector 0) false) (Target.subsector 0) 7
    (TSlot.touching_subsectors 7) Heap.empty).getD Heap.empty

/-- Light 7 linked to subsector 0 and then to subsector 1: its chain is node 1
(subsector 1) followed by node 0 (subsector 0). -/
def sample2 : Heap :=
  (AddLightNodeAssign (LSlot.lighthead (Target.subsector 1) false) (Target.subsector 1) 7
    (TSlot.touching_subsectors 7) sample1).getD Heap.empty

/-- The calls `head = AddLightNode(&t->lighthead[additive], t, light, head)` for the
targets of the list, in order. -/
def linkAll (additive : Bool) (light : Nat) : List Target → Heap → Option Heap
  | [], h => some h
  | t :: ts, h =>
    (AddLightNodeAssign (LSlot.lighthead t additive) t light (chainOf light t) h).bind
      (linkAll additive light ts)

/-- What a traversal may do to the world: it keeps `::validcount` and the CVAR, never
clears a visited stamp of the current epoch, only ever writes the current `::validcount`
into a stamp, and changes the registry only through the calls it appends to the ghost
list. -/
structure Traced (light : ADynamicLight) (w w' : World) : Prop where
  validcount : w'.validcount = w.validcount
  additive : w'.gl_lights_additive = w.gl_lights_additive
  visited : ∀ i, w.sub_validcount i = w.validcount → w'.sub_validcount i = w.validcount
  subStamp : ∀ i, w'.sub_validcount i = w.sub_validcount i ∨
    w'.sub_validcount i = w.validcount
  lineStamp : ∀ i, w'.line_validcount i = w.line_validcount i ∨
    w'.line_validcount i = w.validcount
  calls : ∃ cs, w'.calls = w.calls ++ cs ∧
    linkAll (light.additive || w.gl_lights_additive) light.self cs w.heap = some w'.heap

/-- What the host guarantees about a level with finitely many subsectors: every
subsector pointer the traversal obtains points into the subsector array, a plane that
does not block sight has a sky box, and the first seg of a subsector under such a plane
has a line. -/
structure Level.Valid (lv : Level) : Prop where
  point : ∀ p, lv.R_PointInSubsector p < lv.numsubsectors
  partner : ∀ k s, (lv.segs k).Subsector = some s → s < lv.numsubsectors
  skybox : ∀ k pl, (lv.sectors k).PortalBlocksSight pl = false →
    (lv.sectors k).SkyBoxes pl ≠ none
  firstline : ∀ i pl, (lv.sectors (lv.subsectors i).sector).PortalBlocksSight pl = false →
    (lv.segs (lv.subsectors i).firstline).linedef ≠ none

/-- Number of subsectors whose stamp differs from the current `::validcount`. -/
def unvisited (lv : Level) (w : World) : Nat :=
  ((Finset.range lv.numsubsectors).filter
    (fun i => w.sub_validcount i ≠ w.validcount)).card

/-- The assignment `subSec->validcount = ::validcount`. -/
def World.stamp (w : World) (subSec : Nat) : World :=
  { w with sub_validcount := Function.update w.sub_validcount subSec w.validcount }

/-- The list of the chain a target is linked into. -/
def chainList (ss bs : List Nat) : Target → List Nat
  | .side _ => ss
  | .subsector _ => bs

/-- The lists after a node `N` was put in front of the chain of target `t`. -/
def consChain (t : Target) (N : Nat) (ss bs : List Nat) : List Nat × List Nat :=
  match t with
  | .side _ => (N :: ss, bs)
  | .subsector _ => (ss, N :: bs)

/-- State of the two chains of light `L` during a relink, after the mark phase: `ss` and
`bs` are the chains, every marker is null or `L`, a node carries the marker `L` only if
its target was called for (and lies in the chain of that kind of target), every target
called for has a node with marker `L`, and a node with marker `L` is the first node of
its chain with its target. -/
structure Relink (L : Nat) (h : Heap) (ss bs : List Nat) (calls : List Target) : Prop where
  wf : WF h
  sides : ChainT h (TSlot.touching_sides L) ss
  subs : ChainT h (TSlot.touching_subsectors L) bs
  marker : ∀ t, ∀ n ∈ chainList ss bs t, h.lightsource n = none ∨ h.lightsource n = some L
  called : ∀ t, ∀ n ∈ chainList ss bs t, h.lightsource n = some L →
    h.targ n ∈ calls ∧ chainOf L (h.targ n) = chainOf L t
  linked : ∀ t ∈ calls, ∃ n ∈ chainList ss bs t, h.targ n = t ∧ h.lightsource n = some L
  first : ∀ t, ∀ n ∈ chainList ss bs t, h.lightsource n = some L →
    (chainList ss bs t).find? (fun m => decide (h.targ m = h.targ n)) = some n

/-- The test of the sweep loop, `node->lightsource == NULL`. -/
def stale (h : Heap) (n : Nat) : Bool := decide (h.lightsource n = none)

/-- The heap after both sweep loops when the chains are `ss` and `bs`. -/
def sweepHeap (h : Heap) (ss bs : List Nat) : Heap :=
  unlinkAll (unlinkAll h (ss.filter (stale h))) (bs.filter (stale h))

/-- The world after the mark loops when the chains are `ss` and `bs`. -/
def markedWorld (w : World) (ss bs : List Nat) : World :=
  { w with heap := markAll (markAll w.heap ss) bs, calls := [] }

/-- The projection parameter `u` of `DistToSeg` before clamping. -/
def projParam (pos : DVector3) (seg : seg_t) : ℚ :=
  ((pos.X - seg.v1.X) * (seg.v2.X - seg.v1.X) + (pos.Y - seg.v1.Y) * (seg.v2.Y - seg.v1.Y))
    / ((seg.v2.X - seg.v1.X) * (seg.v2.X - seg.v1.X)
      + (seg.v2.Y - seg.v1.Y) * (seg.v2.Y - seg.v1.Y))

/-- The segment from (0,0) to (10,0) of the example. -/
def sampleSeg : seg_t :=
  { v1 := ⟨0, 0⟩, v2 := ⟨10, 0⟩, sidedef := none, linedef := none, PartnerSeg := none,
    Subsector := none }

/-- A level with two subsectors without segs whose sectors block sight through floor
and ceiling; every point lies in subsector 0. -/
def sampleLevel : Level where
  numsubsectors := 2
  subsectors := fun _ => { firstline := 0, numlines := 0, sector := 0 }
  segs := fun _ => sampleSeg
  lines := fun _ => { v1 := ⟨0, 0⟩, v2 := ⟨0, 0⟩, getPortal := none }
  sectors := fun _ => { PortalBlocksSight := fun _ => true, SkyBoxes := fun _ => none }
  R_PointInSubsector := fun _ => 0
  PosRelativeLine := fun l _ => l.Pos
  PosRelativeSector := fun l _ => l.Pos

/-- Light 7 at the origin with link radius 100. -/
def sampleLight : ADynamicLight := { self := 7, Pos := ⟨0, 0, 0⟩, radius := 100, additive := false }

/-- Light 7 at the origin with link radius 0. -/
def darkLight : ADynamicLight := { self := 7, Pos := ⟨0, 0, 0⟩, radius := 0, additive := false }

/-- A world in which light 7 is linked to subsectors 0 and 1 and no stamp is ahead of
`::validcount`. -/
def sampleWorld : World where
  heap := sample2
  validcount := 0
  sub_validcount := fun _ => 0
  line_validcount := fun _ => 0
  gl_lights_additive := false
  calls := []

/-- Two worlds in which the same subsectors and the same lines carry the stamp of the
current epoch, with the same CVAR and the same ghost list. -/
structure SameVisit (w1 w2 : World) : Prop where
  sub : ∀ i, w1.sub_validcount i = w1.validcount ↔ w2.sub_validcount i = w2.validcount
  line : ∀ i, w1.line_validcount i = w1.validcount ↔ w2.line_validcount i = w2.validcount
  additive : w1.gl_lights_additive = w2.gl_lights_additive
  calls : w1.calls = w2.calls

/-- The heap with the marker of every node replaced. -/
def Heap.setMarkers (h : Heap) (f : Nat → Option Nat) : Heap := { h with lightsource := f }

/-- The world after the sample relink. -/
def relinkedWorld : World :=
  (LinkLight sampleLevel sampleLight 3 sampleWorld).getD sampleWorld

/-- The duality invariant: the registry is well formed, and every live node is a member
of the chain of some light head and of a `lighthead` chain of its own target. -/
structure Dual (h : Heap) : Prop where
  wf : WF h
  inLight : ∀ n, h.alive n = true →
    ∃ (s : TSlot) (l : List Nat), s.isHead = true ∧ ChainT h s l ∧ n ∈ l
  inTarget : ∀ n, h.alive n = true →
    ∃ (b : Bool) (l : List Nat), ChainL h (LSlot.lighthead (h.targ n) b) l ∧ n ∈ l

/-- The registries the program can reach from the empty index: by a call
`head = AddLightNode(&t->lighthead[b], t, light, head)` on a light's head (the shape of
both call sites), by `DeleteLightNode` of a node, by `LinkLight` and by `UnlinkLight`. -/
inductive Reachable : Heap → Prop
  | empty : Reachable Heap.empty
  | add (h h' : Heap) (t : Target) (b : Bool) (light : Nat) (head : TSlot) :
      Reachable h → head.isHead = true →
      AddLightNodeAssign (LSlot.lighthead t b) t light head h = some h' → Reachable h'
  | delete (h h' : Heap) (n : Nat) (r : Option Nat) :
      Reachable h → DeleteLightNode h (some n) = some (h', r) → Reachable h'
  | link (lv : Level) (self : ADynamicLight) (fuel : Nat) (w w' : World) :
      Reachable w.heap → LinkLight lv self fuel w = some w' → Reachable w'.heap
  | unlink (h h' : Heap) (light : Nat) :
      Reachable h → UnlinkLight light h = some h' → Reachable h'

/-- Seg `k` of the example with a cycle: it runs from (0,0) to (10,0), belongs to
subsector `k % 2` and has seg `1 - k` as its partner. -/
def loopSeg (k : Nat) : seg_t :=
  { v1 := ⟨0, 0⟩, v2 := ⟨10, 0⟩, sidedef := none, linedef := none,
    PartnerSeg := some (1 - k), Subsector := some (k % 2) }

/-- A level with two subsectors of one seg each; the two segs are partners of each
other, so that the connectivity graph has a cycle.  No plane lets light through, and every point lies in subsector 0. -/
def loopLevel : Level where
  numsubsectors := 2
  subsectors := fun i => { firstline := i, numlines := 1, sector := 0 }
  segs := loopSeg
  lines := fun _ => { v1 := ⟨0, 0⟩, v2 := ⟨0, 0⟩, getPortal := none }
  sectors := fun _ => { PortalBlocksSight := fun _ => true, SkyBoxes := fun _ => none }
  R_PointInSubsector := fun _ => 0
  PosRelativeLine := fun l _ => l.Pos
  PosRelativeSector := fun l _ => l.Pos

/-- The body of `CollectWithinRadius` for a non-null subsector (lines 541-610), with the
function that the nested calls go to as a parameter. -/
def collectBody (lv : Level) (self : ADynamicLight)
    (recurse : DVector3 → Option Nat → ℚ → World → Option World)
    (pos : DVector3) (subSec : Nat) (radius : ℚ) (w : World) : Option World :=
  let additive := self.additive || w.gl_lights_additive
  (World.link (w.stamp subSec) additive (Target.subsector subSec) self.self).bind fun w2 =>
  ((List.range (lv.subsectors subSec).numlines).foldlM
    (collectSeg lv self additive recurse pos subSec radius) w2).bind fun w3 =>
  (collectPlane lv self recurse Plane.ceiling subSec radius w3).bind fun w4 =>
  collectPlane lv self recurse Plane.floor subSec radius w4

/-- Invariant of the flood fill on the ghost list: a subsector that was entered (the
call of line 545 is the only one whose target is a subsector, and every entry makes it)
carries the current stamp, and no subsector was entered twice. -/
structure EnteredOnce (w : World) : Prop where
  stamped : ∀ s, Target.subsector s ∈ w.calls → w.sub_validcount s = w.validcount
  logged : ∀ s, w.sub_validcount s = w.validcount → Target.subsector s ∈ w.calls
  once : ∀ s, w.calls.count (Target.subsector s) ≤ 1

/-- Source function `void ADynamicLight::Destroy()`: `UnlinkLight(); Super::Destroy();`.  The part of
the base class, which does not touch the registry, is not modelled. -/
def Destroy (self : Nat) (h : Heap) : Option Heap :=
  UnlinkLight self h

/-- Seg `k` of the square room of the example: the four sides of the square with
corners (±200, ±200), each with a side and a line of its own and no partner. -/
def squareSeg (k : Nat) : seg_t :=
  match k with
  | 0 => { v1 := ⟨-200, -200⟩, v2 := ⟨200, -200⟩, sidedef := some 0, linedef := some 0,
           PartnerSeg := none, Subsector := some 0 }
  | 1 => { v1 := ⟨200, -200⟩, v2 := ⟨200, 200⟩, sidedef := some 1, linedef := some 1,
           PartnerSeg := none, Subsector := some 0 }
  | 2 => { v1 := ⟨200, 200⟩, v2 := ⟨-200, 200⟩, sidedef := some 2, linedef := some 2,
           PartnerSeg := none, Subsector := some 0 }
  | _ => { v1 := ⟨-200, 200⟩, v2 := ⟨-200, -200⟩, sidedef := some 3, linedef := some 3,
           PartnerSeg := none, Subsector := some 0 }

/-- The values of the member `lighttype` (the table `ltype_values` of line 72). -/
inductive LightType
  | PointLight
  | PulseLight
  | FlickerLight
  | SectorLight
  | RandomFlickerLight
  | ColorPulseLight
  | ColorFlickerLight
  | RandomColorFlickerLight
  deriving DecidableEq, Repr

/-- The state of the oscillator `m_cycler` of a pulse light.  The class `FCycler` is
the host's; its state is a bag of numbers that only the host functions of `Host`
interpret. -/
structure FCycler where
  data : List ℚ

/-- What `Tick` and `UpdateLocation` read of the actor a light is attached to
(`target`): whether `target->state` is non-null, the bit `target->flags & MF_UNMORPHED`,
`target->Pos()`, and, as a function of the offset `m_off` of the light, the point
`target->Vec3Offset(m_off.X * c + m_off.Y * s, m_off.X * s - m_off.Y * c,
m_off.Z + target->GetBobOffset())` of lines 352-353, in which the sine `s` and cosine `c`
of the owner's yaw and the bob offset are computed by the host. -/
structure Owner where
  state : Bool
  unmorphed : Bool
  Pos : DVector3
  offsetPos : DVector3 → DVector3

/-- The globals and host functions the animation consumes: the CVARs `vid_renderer`
and `gl_lights_size`, `level.maptime`, the constant `TICRATE`, `lightlevel` of every
sector, and the three operations on the oscillator (`cycler_SetParams` stands for the
calls `SetParams(start, end, cycle); ShouldCycle(true); SetCycleType(CYCLE_Sin)` of
lines 199-201). -/
structure Host where
  vid_renderer : Int
  gl_lights_size : ℚ
  maptime : Int
  TICRATE : ℚ
  lightlevel : Nat → Int
  cycler_SetParams : FCycler → ℚ → ℚ → ℚ → FCycler
  cycler_Update : FCycler → ℚ → FCycler
  cycler_GetVal : FCycler → ℚ

/-- The members of `ADynamicLight` that `Activate`, `Tick` and `UpdateLocation` read or
write.  `dormant` is the bit `flags2 & MF2_DORMANT`, `additive` the bit
`flags4 & MF4_ADDITIVE`, `Yaw` is `Angles.Yaw.Degrees`, `scaleArg` is
`args[LIGHT_SCALE]`, `owned` is the result of `IsOwned()`, `Sector` the index of the
sector the member `Sector` points to.  Floats and doubles are rationals (the rounding
of a `float` is modelled where a comparison depends on it, see `tickSwitch`);
`m_tickCount` is an unbounded counter. -/
structure LightActor where
  self : Nat
  Pos : DVector3
  Prev : DVector3
  radius : ℚ
  additive : Bool
  dormant : Bool
  lighttype : LightType
  m_Radius : Nat → Int
  m_currentRadius : ℚ
  m_tickCount : Nat
  m_lastUpdate : Int
  m_cycler : FCycler
  m_off : DVector3
  Yaw : ℚ
  scaleArg : Int
  owned : Bool
  target : Option Owner
  subsector : Nat
  Sector : Nat

/-- Modelled from the spec: `IsActive()` is declared in a header outside this file; a
light is active unless it is dormant, the bit that `Activate` clears and `Deactivate`
sets. -/
def LightActor.IsActive (l : LightActor) : Bool := !l.dormant

/-- The conversion `(BYTE)` of line 202 applied to a float: the fraction is dropped
(rounding toward zero) and the integer is reduced modulo 256.  The reduction only
matters for values outside 0..255, for which the language leaves the result open; it is
what the conversion through `int` gives. -/
def toBYTE (v : ℚ) : ℚ :=
  (((if v < 0 then Int.ceil v else Int.floor v) % 256 : Int) : ℚ)

/-- Modelled from the spec: the template `clamp<float>` (its header is outside this file)
limits its first argument to the interval between the other two. -/
def clamp (x lo hi : ℚ) : ℚ := if x ≤ lo then lo else if x ≥ hi then hi else x

/-- The light handed to the linking code: `this` with its position and `radius`. -/
def LightActor.toLink (l : LightActor) : ADynamicLight :=
  { self := l.self, Pos := l.Pos, radius := l.radius, additive := l.additive }

/-- Source function `void ADynamicLight::Activate(AActor *activator)` (lines 186-204). -/
def Activate (h : Host) (l : LightActor) : LightActor :=
  let l1 : LightActor :=
    { l with dormant := false, m_currentRadius := ((l.m_Radius 0 : Int) : ℚ),
             m_tickCount := 0 }
  if l1.lighttype = LightType.PulseLight then
    let pulseTime := l1.Yaw / h.TICRATE
    let c := h.cycler_SetParams l1.m_cycler ((l1.m_Radius 1 : Int) : ℚ)
      ((l1.m_Radius 0 : Int) : ℚ) pulseTime
    { l1 with m_lastUpdate := h.maptime, m_cycler := c,
              m_currentRadius := toBYTE (h.cycler_GetVal c) }
  else l1

/-- Source function `void ADynamicLight::Deactivate(AActor *activator)`. -/
def Deactivate (l : LightActor) : LightActor := { l with dormant := true }

/-- Source function `void ADynamicLight::UpdateLocation()` (lines 338-380).  The second component
tells whether the call `LinkLight()` of line 377 is made. -/
def UpdateLocation (h : Host) (lv : Level) (l : LightActor) : LightActor × Bool :=
  let oldx := l.Pos.X
  let oldy := l.Pos.Y
  let oldradius := l.radius
  if l.IsActive then
    let l1 : LightActor :=
      match l.target with
      | some target =>
        let sub := lv.R_PointInSubsector ⟨target.Pos.X, target.Pos.Y⟩
        { l with Pos := target.offsetPos l.m_off, Prev := target.Pos, subsector := sub,
                 Sector := (lv.subsectors sub).sector }
      | none => l
    let intensity : ℚ :=
      if l1.lighttype = LightType.FlickerLight ∨ l1.lighttype = LightType.RandomFlickerLight
          ∨ l1.lighttype = LightType.PulseLight then
        ((max (l1.m_Radius 0) (l1.m_Radius 1) : Int) : ℚ)
      else l1.m_currentRadius
    let l2 : LightActor := { l1 with radius := intensity * 2 * h.gl_lights_size }
    (l2, decide (l2.Pos.X ≠ oldx ∨ l2.Pos.Y ≠ oldy ∨ l2.radius ≠ oldradius))
  else (l, false)

/-- What one call of `Tick` did: the light afterwards, the number of calls of
`randLight()`, whether `LinkLight()` was called (through `UpdateLocation`), and whether
`Destroy()` was called. -/
structure TickResult where
  light : LightActor
  randCalls : Nat
  relinked : Bool
  destroyed : Bool

/-- The `switch (lighttype)` of `Tick` (lines 245-325): the light afterwards and the
number of calls of `randLight()`; `rnd` is the value such a call returns.  In the
flicker case `pct` is a `float` and so is the product `pct * 255` the byte is compared
with (lines 260-262); both are rounded.  The values stored by the other cases are given
exactly, that is up to the rounding of a `float`. -/
def tickSwitch (h : Host) (rnd : Nat) (l : LightActor) : LightActor × Nat :=
  match l.lighttype with
  | LightType.PulseLight =>
    let diff := ((h.maptime - l.m_lastUpdate : Int) : ℚ) / h.TICRATE
    let c := h.cycler_Update l.m_cycler diff
    ({ l with m_lastUpdate := h.maptime, m_cycler := c,
              m_currentRadius := h.cycler_GetVal c }, 0)
  | LightType.FlickerLight =>
    let rnd : Nat := rnd % 256
    let pct := toFloat (l.Yaw / 360)
    ({ l with m_currentRadius :=
        ((l.m_Radius (if (rnd : ℚ) ≥ toFloat (pct * 255) then 1 else 0) : Int) : ℚ) }, 1)
  | LightType.RandomFlickerLight =>
    let flickerRange : Int := l.m_Radius 1 - l.m_Radius 0
    let amt : ℚ := (rnd : ℚ) / 255
    let l1 : LightActor := { l with m_tickCount := l.m_tickCount + 1 }
    if (l1.m_tickCount : ℚ) > l1.Yaw then
      ({ l1 with m_currentRadius := ((l1.m_Radius 0 : Int) : ℚ) + amt * (flickerRange : ℚ),
                 m_tickCount := 0 }, 1)
    else (l1, 1)
  | LightType.SectorLight =>
    let scale : ℚ := (l.scaleArg : ℚ) / 8
    let scale : ℚ := if scale = 0 then 1 else scale
    let intensity : ℚ := (h.lightlevel l.Sector : ℚ) * scale
    let intensity : ℚ := clamp intensity 0 255
    ({ l with m_currentRadius := intensity }, 0)
  | LightType.PointLight =>
    ({ l with m_currentRadius := ((l.m_Radius 0 : Int) : ℚ) }, 0)
  | _ => (l, 0)

/-- The tests of lines 226-241 of `Tick`: the renderer is not the software one, an
owned light has an owner with a state that is not unmorphed, and the light is
active. -/
def tickGuards (h : Host) (l : LightActor) : Bool :=
  decide (h.vid_renderer ≠ 0) &&
  (!l.owned ||
    (match l.target with
     | none => false
     | some target => target.state && !target.unmorphed)) &&
  l.IsActive

/-- Source function `void ADynamicLight::Tick()` (lines 224-328); `rnd` is the value a call of
`randLight()` returns. -/
def Tick (h : Host) (lv : Level) (rnd : Nat) (l : LightActor) : TickResult :=
  if h.vid_renderer = 0 then ⟨l, 0, false, false⟩
  else if l.owned && (match l.target with
      | none => true
      | some target => !target.state) then
    -- this->Destroy(); return;
    ⟨l, 0, false, true⟩
  else if l.owned && (match l.target with
      | none => false
      | some target => target.unmorphed) then ⟨l, 0, false, false⟩
  else if !l.IsActive then ⟨l, 0, false, false⟩
  else
    let s := tickSwitch h rnd l
    let u := UpdateLocation h lv s.1
    ⟨u.1, s.2, u.2, false⟩

/-- The effect of one `Tick` on the registry: `Destroy()` unlinks the light, and
`LinkLight()` relinks it at its new position and link radius. -/
def TickWorld (h : Host) (lv : Level) (fuel : Nat) (rnd : Nat) (l : LightActor)
    (w : World) : Option (LightActor × World) :=
  let r := Tick h lv rnd l
  if r.destroyed then
    (Destroy l.self w.heap).map fun hp => (r.light, { w with heap := hp })
  else if r.relinked then
    (LinkLight lv r.light.toLink fuel w).map fun w1 => (r.light, w1)
  else some (r.light, w)

/-- Successive calls of `Tick`, one for each pair of a host state and a value of
`randLight()`. -/
def Ticks (lv : Level) : List (Host × Nat) → LightActor → LightActor
  | [], l => l
  | s :: ss, l => Ticks lv ss (Tick s.1 lv s.2 l).light

/-- A host with a hardware renderer, size factor 1 and sector light level 160. -/
def sampleHost : Host where
  vid_renderer := 1
  gl_lights_size := 1
  maptime := 0
  TICRATE := 35
  lightlevel := fun _ => 160
  cycler_SetParams := fun c _ _ _ => c
  cycler_Update := fun c _ => c
  cycler_GetVal := fun _ => 0

/-- The sample host with the software renderer selected (`vid_renderer == 0`). -/
def softwareHost : Host := { sampleHost with vid_renderer := 0 }

/-- An active, unattached light at the origin with `R0 = 32`, `R1 = 64`, current
radius 32, angle 180 and scale argument 0. -/
def sampleActor (t : LightType) : LightActor where
  self := 7
  Pos := ⟨0, 0, 0⟩
  Prev := ⟨0, 0, 0⟩
  radius := 128
  additive := false
  dormant := false
  lighttype := t
  m_Radius := fun i => if i = 0 then 32 else 64
  m_currentRadius := 32
  m_tickCount := 0
  m_lastUpdate := 0
  m_cycler := ⟨[]⟩
  m_off := ⟨0, 0, 0⟩
  Yaw := 180
  scaleArg := 0
  owned := false
  target := none
  subsector := 0
  Sector := 0

/-- An owner that stands at (0, 0, 5), faces along yaw 0 (cosine 1, sine 0) and does
not bob. -/
def liftedOwner : Owner where
  state := true
  unmorphed := false
  Pos := ⟨0, 0, 5⟩
  offsetPos := fun off => ⟨0 + (off.X * 1 + off.Y * 0), 0 + (off.X * 0 - off.Y * 1), 5 + (off.Z + 0)⟩

/-- The steady sample light with link radius 64 and offset 0, still at the origin, and
attached to the owner that has risen to height 5. -/
def liftedActor : LightActor :=
  { sampleActor LightType.PointLight with
    radius := 64
    target := some liftedOwner }

/-- The flicker sample light with the angle `120 + 2 ^ (-17)`, the `double`
`15728641 / 131072 = 120.00000762939453125`. -/
def skewActor : LightActor :=
  { sampleActor LightType.FlickerLight with Yaw := 15728641 / 131072 }

/-- The current radius lies between the configured radii. -/
def InRange (l : LightActor) : Prop :=
  ((min (l.m_Radius 0) (l.m_Radius 1) : Int) : ℚ) ≤ l.m_currentRadius ∧
  l.m_currentRadius ≤ ((max (l.m_Radius 0) (l.m_Radius 1) : Int) : ℚ)

/-- The clamping of lines 517-518: `if (u < 0.) u = 0.; else if (u > 1.) u = 1.;`. -/
def clampUnit (u : ℚ) : ℚ := if u < 0 then 0 else if u > 1 then 1 else u

/-- The point `v1 + t * (v2 - v1)` of the line through a seg. -/
def seg_t.point (seg : seg_t) (t : ℚ) : DVector2 :=
  ⟨seg.v1.X + t * (seg.v2.X - seg.v1.X), seg.v1.Y + t * (seg.v2.Y - seg.v1.Y)⟩

/-- The squared horizontal distance from a position to a point of the plane. -/
def sqDist (pos : DVector3) (q : DVector2) : ℚ :=
  (q.X - pos.X) * (q.X - pos.X) + (q.Y - pos.Y) * (q.Y - pos.Y)

/-- The seg with its two vertices exchanged. -/
def seg_t.swap (seg : seg_t) : seg_t := { seg with v1 := seg.v2, v2 := seg.v1 }

/-- Seg `k` of the room of the example: the four walls of the square with corners
(±200, ±200), run through clockwise (west wall northwards, north wall eastwards, east
wall southwards, south wall westwards), so that the room lies on the right-hand side,
the front, of each of them.  Each has a side and a line of its own and no partner. -/
def roomSeg (k : Nat) : seg_t :=
  match k with
  | 0 => { v1 := ⟨-200, -200⟩, v2 := ⟨-200, 200⟩, sidedef := some 0, linedef := some 0,
           PartnerSeg := none, Subsector := some 0 }
  | 1 => { v1 := ⟨-200, 200⟩, v2 := ⟨200, 200⟩, sidedef := some 1, linedef := some 1,
           PartnerSeg := none, Subsector := some 0 }
  | 2 => { v1 := ⟨200, 200⟩, v2 := ⟨200, -200⟩, sidedef := some 2, linedef := some 2,
           PartnerSeg := none, Subsector := some 0 }
  | _ => { v1 := ⟨200, -200⟩, v2 := ⟨-200, -200⟩, sidedef := some 3, linedef := some 3,
           PartnerSeg := none, Subsector := some 0 }

/-- A level that is one room: a single subsector with the four segs of `roomSeg`, whose
sector blocks sight through floor and ceiling. -/
def roomLevel : Level where
  numsubsectors := 1
  subsectors := fun _ => { firstline := 0, numlines := 4, sector := 0 }
  segs := roomSeg
  lines := fun _ => { v1 := ⟨0, 0⟩, v2 := ⟨0, 0⟩, getPortal := none }
  sectors := fun _ => { PortalBlocksSight := fun _ => true, SkyBoxes := fun _ => none }
  R_PointInSubsector := fun _ => 0
  PosRelativeLine := fun l _ => l.Pos
  PosRelativeSector := fun l _ => l.Pos

/-- Light 7 at the origin with link radius 300. -/
def wideLight : ADynamicLight :=
  { self := 7, Pos := ⟨0, 0, 0⟩, radius := 300, additive := false }

/-- A world with an empty registry in the first epoch: `::validcount` is 1 and every
stamp is 0. -/
def freshWorld : World where
  heap := Heap.empty
  validcount := 1
  sub_validcount := fun _ => 0
  line_validcount := fun _ => 0
  gl_lights_additive := false
  calls := []

/-- The cross product of the direction of a seg with the vector from its first vertex
to a position, `(pos.Y - v1.Y) * (v2.X - v1.X) - (pos.X - v1.X) * (v2.Y - v1.Y)`. -/
def crossProduct (pos : DVector3) (seg : seg_t) : ℚ :=
  (pos.Y - seg.v1.Y) * (seg.v2.X - seg.v1.X) - (pos.X - seg.v1.X) * (seg.v2.Y - seg.v1.Y)

/-- A level with two subsectors without segs.  The sector of subsector 0 lets light
through its ceiling, which has a sky transfer at height 5000 with offset (0,0); its
floor and both planes of the sector of subsector 1 block sight.  The first seg of every
subsector belongs to line 0, whose midpoint is (1000, 1000).  Points with `X ≥ 500` lie
in subsector 1, all others in subsector 0. -/
def skyLevel : Level where
  numsubsectors := 2
  subsectors := fun i => { firstline := 0, numlines := 0, sector := i }
  segs := fun _ => { sampleSeg with linedef := some 0 }
  lines := fun _ => { v1 := ⟨1000, 1000⟩, v2 := ⟨1000, 1000⟩, getPortal := none }
  sectors := fun k =>
    { PortalBlocksSight := fun pl => !(decide (k = 0) && decide (pl = Plane.ceiling)),
      SkyBoxes := fun _ => some { specialf1 := 5000, Scale := ⟨0, 0⟩ } }
  R_PointInSubsector := fun p => if p.X ≥ 500 then 1 else 0
  PosRelativeLine := fun l _ => l.Pos
  PosRelativeSector := fun l _ => l.Pos

/-- A world in which light 7 is linked to subsector 0 by a node of the bucket
`lighthead[0]` (the registry `sample1`), and in which the global additive setting
`gl_lights_additive` has since been switched on. -/
def additiveWorld : World where
  heap := sample1
  validcount := 0
  sub_validcount := fun _ => 0
  line_validcount := fun _ => 0
  gl_lights_additive := true
  calls := []

/-- Node `n` belongs to light `L`: it is a member of one of the two chains of the
light. -/
def Heap.joins (h : Heap) (L : Nat) (n : Nat) : Prop :=
  ∃ (t : Target) (l : List Nat), ChainT h (chainOf L t) l ∧ n ∈ l

/-- The invariant behind unique links.  Besides duality: a chain of surface nodes holds
nodes for sides and a chain of subsector nodes holds nodes for subsectors (`kind`), no
two nodes of a chain have the same target (`uniq`), and the marker `lightsource` of a
node names the light whose chain it is in (`owner`), except for the light `x` that is
being relinked, if any. -/
structure OneNode (h : Heap) (x : Option Nat) : Prop where
  dual : Dual h
  kind : ∀ (L : Nat) (t : Target) (l : List Nat), ChainT h (chainOf L t) l →
    ∀ n ∈ l, chainOf L (h.targ n) = chainOf L t
  uniq : ∀ (s : TSlot) (l : List Nat), s.isHead = true → ChainT h s l →
    ∀ n ∈ l, ∀ m ∈ l, h.targ n = h.targ m → n = m
  owner : ∀ (L : Nat) (t : Target) (l : List Nat), some L ≠ x → ChainT h (chainOf L t) l →
    ∀ n ∈ l, h.lightsource n = some L

/-- The registries that can be reached from the empty index through `LinkLight` and
`UnlinkLight`. -/
inductive LinkReachable : Heap → Prop
  | empty : LinkReachable Heap.empty
  | link (lv : Level) (self : ADynamicLight) (fuel : Nat) (w w' : World) :
      LinkReachable w.heap → LinkLight lv self fuel w = some w' → LinkReachable w'.heap
  | unlink (h h' : Heap) (light : Nat) :
      LinkReachable h → UnlinkLight light h = some h' → LinkReachable h'

/-! ## Lemmas and theorems -/

/-- A rational less than one half away from an integer is rounded to that integer. -/
theorem roundHalfEven_near (x : ℚ) (k : Int) (h1 : (k : ℚ) - 1 / 2 < x)
    (h2 : x < (k : ℚ) + 1 / 2) : roundHalfEven x = k := by
  unfold roundHalfEven
  simp only
  rcases le_or_lt (k : ℚ) x with h | h
  · have hf : Int.floor x = k := Int.floor_eq_iff.2 ⟨h, by linarith⟩
    rw [hf, if_pos (by linarith)]
  · have hf : Int.floor x = k - 1 :=
      Int.floor_eq_iff.2 ⟨by push_cast; linarith, by push_cast; linarith⟩
    rw [hf, if_neg (by push_cast; linarith), if_pos (by push_cast; linarith)]
    ring

/-- The conversion of a positive number between `2 ^ e` and `2 ^ (e + 1)`: its multiple
of `2 ^ (e - 23)` is rounded to an integer. -/
theorem toFloat_of_bounds (x : ℚ) (e : Int) (he : -126 ≤ e) (h1 : (2 : ℚ) ^ e ≤ x)
    (h2 : x < (2 : ℚ) ^ (e + 1)) :
    toFloat x = (roundHalfEven (x / 2 ^ (e - 23)) : ℚ) * 2 ^ (e - 23) := by
  have hpos : 0 < x := lt_of_lt_of_le (by positivity) h1
  have hlog : Int.log 2 |x| = e := by
    rw [abs_of_pos hpos]
    apply le_antisymm
    · have := (Int.lt_zpow_iff_log_lt (b := 2) (by norm_num) hpos (x := e + 1)).1
        (by exact_mod_cast h2)
      omega
    · exact (Int.zpow_le_iff_le_log (b := 2) (by norm_num) hpos).1 (by exact_mod_cast h1)
  unfold toFloat
  rw [if_neg (ne_of_gt hpos)]
  simp only [hlog, max_eq_left he]

/-- The square of the radius 100 is a `float`. -/
theorem toFloat_sq100 : toFloat (100 * 100) = 10000 := by
  rw [toFloat_of_bounds _ 13 (by norm_num) (by norm_num) (by norm_num)]
  rw [roundHalfEven_near _ 10240000 (by norm_num) (by norm_num)]
  norm_num

theorem getT_setT (h : Heap) (s s' : TSlot) (v : Option Nat) :
    (h.setT s v).getT s' = if s' = s then v else h.getT s' := by
  cases s <;> cases s' <;> simp [Heap.setT, Heap.getT, Function.update_apply]

theorem getL_setL (h : Heap) (s s' : LSlot) (v : Option Nat) :
    (h.setL s v).getL s' = if s' = s then v else h.getL s' := by
  cases s <;> cases s' <;> simp [Heap.setL, Heap.getL, Function.update_apply]
  rename_i t b t' b'
  by_cases ht : t' = t
  · subst ht; simp [Function.update_apply]
  · simp [ht]

@[simp] theorem setT_alive (h : Heap) (s : TSlot) (v : Option Nat) :
    (h.setT s v).alive = h.alive := by cases s <;> rfl

@[simp] theorem setT_nextFree (h : Heap) (s : TSlot) (v : Option Nat) :
    (h.setT s v).nextFree = h.nextFree := by cases s <;> rfl

@[simp] theorem setT_prevTarget (h : Heap) (s : TSlot) (v : Option Nat) :
    (h.setT s v).prevTarget = h.prevTarget := by cases s <;> rfl

@[simp] theorem setT_prevLight (h : Heap) (s : TSlot) (v : Option Nat) :
    (h.setT s v).prevLight = h.prevLight := by cases s <;> rfl

@[simp] theorem setT_nextLight (h : Heap) (s : TSlot) (v : Option Nat) :
    (h.setT s v).nextLight = h.nextLight := by cases s <;> rfl

@[simp] theorem setT_lightsource (h : Heap) (s : TSlot) (v : Option Nat) :
    (h.setT s v).lightsource = h.lightsource := by cases s <;> rfl

@[simp] theorem setT_targ (h : Heap) (s : TSlot) (v : Option Nat) :
    (h.setT s v).targ = h.targ := by cases s <;> rfl

@[simp] theorem setT_lighthead (h : Heap) (s : TSlot) (v : Option Nat) :
    (h.setT s v).lighthead = h.lighthead := by cases s <;> rfl

@[simp] theorem setT_getL (h : Heap) (s : TSlot) (v : Option Nat) (t : LSlot) :
    (h.setT s v).getL t = h.getL t := by cases s <;> cases t <;> rfl

@[simp] theorem setT_okT (h : Heap) (s : TSlot) (v : Option Nat) (t : TSlot) :
    (h.setT s v).okT t = h.okT t := by cases s <;> cases t <;> rfl

@[simp] theorem setT_okL (h : Heap) (s : TSlot) (v : Option Nat) (t : LSlot) :
    (h.setT s v).okL t = h.okL t := by cases s <;> cases t <;> rfl

@[simp] theorem setL_alive (h : Heap) (s : LSlot) (v : Option Nat) :
    (h.setL s v).alive = h.alive := by cases s <;> rfl

@[simp] theorem setL_nextFree (h : Heap) (s : LSlot) (v : Option Nat) :
    (h.setL s v).nextFree = h.nextFree := by cases s <;> rfl

@[simp] theorem setL_prevTarget (h : Heap) (s : LSlot) (v : Option Nat) :
    (h.setL s v).prevTarget = h.prevTarget := by cases s <;> rfl

@[simp] theorem setL_prevLight (h : Heap) (s : LSlot) (v : Option Nat) :
    (h.setL s v).prevLight = h.prevLight := by cases s <;> rfl

@[simp] theorem setL_nextTarget (h : Heap) (s : LSlot) (v : Option Nat) :
    (h.setL s v).nextTarget = h.nextTarget := by cases s <;> rfl

@[simp] theorem setL_lightsource (h : Heap) (s : LSlot) (v : Option Nat) :
    (h.setL s v).lightsource = h.lightsource := by cases s <;> rfl

@[simp] theorem setL_targ (h : Heap) (s : LSlot) (v : Option Nat) :
    (h.setL s v).targ = h.targ := by cases s <;> rfl

@[simp] theorem setL_touching_sides (h : Heap) (s : LSlot) (v : Option Nat) :
    (h.setL s v).touching_sides = h.touching_sides := by cases s <;> rfl

@[simp] theorem setL_touching_subsectors (h : Heap) (s : LSlot) (v : Option Nat) :
    (h.setL s v).touching_subsectors = h.touching_subsectors := by cases s <;> rfl

@[simp] theorem setL_getT (h : Heap) (s : LSlot) (v : Option Nat) (t : TSlot) :
    (h.setL s v).getT t = h.getT t := by cases s <;> cases t <;> rfl

@[simp] theorem setL_okT (h : Heap) (s : LSlot) (v : Option Nat) (t : TSlot) :
    (h.setL s v).okT t = h.okT t := by cases s <;> cases t <;> rfl

@[simp] theorem setL_okL (h : Heap) (s : LSlot) (v : Option Nat) (t : LSlot) :
    (h.setL s v).okL t = h.okL t := by cases s <;> cases t <;> rfl

theorem setT_getT_self (h : Heap) (s : TSlot) : h.setT s (h.getT s) = h := by
  cases s <;> simp [Heap.setT, Heap.getT]

theorem ChainT_det (h : Heap) : ∀ (l1 l2 : List Nat) (s : TSlot),
    ChainT h s l1 → ChainT h s l2 → l1 = l2
  | [], [], _, _, _ => rfl
  | [], _ :: _, _, h1, h2 => by simp [ChainT] at h1 h2; rw [h1] at h2; cases h2.1
  | _ :: _, [], _, h1, h2 => by simp [ChainT] at h1 h2; rw [h2] at h1; cases h1.1
  | a :: l1, b :: l2, s, h1, h2 => by
    simp only [ChainT] at h1 h2
    have hab : a = b := by
      have := h1.1.symm.trans h2.1
      exact Option.some.inj this
    subst hab
    rw [ChainT_det h l1 l2 _ h1.2.2 h2.2.2]

theorem ChainT_suffix (h : Heap) : ∀ (xs : List Nat) (s : TSlot) (n : Nat) (ys : List Nat),
    ChainT h s (xs ++ n :: ys) → ChainT h (TSlot.nextTarget n) ys
  | [], _, _, _, hc => hc.2.2
  | _ :: xs, _, n, ys, hc => ChainT_suffix h xs _ n ys hc.2.2

theorem ChainT_alive (h : Heap) : ∀ (l : List Nat) (s : TSlot), ChainT h s l →
    ∀ n ∈ l, h.alive n = true
  | [], _, _, _, hn => by cases hn
  | a :: l, _, hc, n, hn => by
    rcases List.mem_cons.1 hn with rfl | hn
    · exact hc.2.1
    · exact ChainT_alive h l _ hc.2.2 n hn

theorem ChainT_not_mem_self (h : Heap) (n : Nat) (l : List Nat)
    (hc : ChainT h (TSlot.nextTarget n) l) : n ∉ l := by
  intro hn
  obtain ⟨xs, ys, rfl⟩ := List.append_of_mem hn
  have h2 := ChainT_suffix h xs _ n ys hc
  have := ChainT_det h _ _ _ hc h2
  have hlen := congrArg List.length this
  simp at hlen
  omega

theorem ChainT_nodup (h : Heap) : ∀ (l : List Nat) (s : TSlot), ChainT h s l → l.Nodup
  | [], _, _ => List.nodup_nil
  | a :: l, _, hc =>
    List.nodup_cons.2 ⟨ChainT_not_mem_self h a l hc.2.2, ChainT_nodup h l _ hc.2.2⟩

theorem ChainL_det (h : Heap) : ∀ (l1 l2 : List Nat) (s : LSlot),
    ChainL h s l1 → ChainL h s l2 → l1 = l2
  | [], [], _, _, _ => rfl
  | [], _ :: _, _, h1, h2 => by simp [ChainL] at h1 h2; rw [h1] at h2; cases h2.1
  | _ :: _, [], _, h1, h2 => by simp [ChainL] at h1 h2; rw [h2] at h1; cases h1.1
  | a :: l1, b :: l2, s, h1, h2 => by
    simp only [ChainL] at h1 h2
    have hab : a = b := by
      have := h1.1.symm.trans h2.1
      exact Option.some.inj this
    subst hab
    rw [ChainL_det h l1 l2 _ h1.2.2 h2.2.2]

theorem ChainL_suffix (h : Heap) : ∀ (xs : List Nat) (s : LSlot) (n : Nat) (ys : List Nat),
    ChainL h s (xs ++ n :: ys) → ChainL h (LSlot.nextLight n) ys
  | [], _, _, _, hc => hc.2.2
  | _ :: xs, _, n, ys, hc => ChainL_suffix h xs _ n ys hc.2.2

theorem ChainL_alive (h : Heap) : ∀ (l : List Nat) (s : LSlot), ChainL h s l →
    ∀ n ∈ l, h.alive n = true
  | [], _, _, _, hn => by cases hn
  | a :: l, _, hc, n, hn => by
    rcases List.mem_cons.1 hn with rfl | hn
    · exact hc.2.1
    · exact ChainL_alive h l _ hc.2.2 n hn

theorem ChainL_not_mem_self (h : Heap) (n : Nat) (l : List Nat)
    (hc : ChainL h (LSlot.nextLight n) l) : n ∉ l := by
  intro hn
  obtain ⟨xs, ys, rfl⟩ := List.append_of_mem hn
  have h2 := ChainL_suffix h xs _ n ys hc
  have := ChainL_det h _ _ _ hc h2
  have hlen := congrArg List.length this
  simp at hlen
  omega

theorem ChainL_nodup (h : Heap) : ∀ (l : List Nat) (s : LSlot), ChainL h s l → l.Nodup
  | [], _, _ => List.nodup_nil
  | a :: l, _, hc =>
    List.nodup_cons.2 ⟨ChainL_not_mem_self h a l hc.2.2, ChainL_nodup h l _ hc.2.2⟩

/-- Frame rule: a chain only depends on its head slot, the live bits and the
`nextTarget` fields of its own nodes. -/
theorem ChainT_congr (h h' : Heap) : ∀ (l : List Nat) (s s' : TSlot),
    h'.getT s' = h.getT s →
    (∀ m ∈ l, h'.alive m = true ∧ h'.nextTarget m = h.nextTarget m) →
    ChainT h s l → ChainT h' s' l
  | [], _, _, hs, _, hc => by simp only [ChainT] at hc ⊢; rw [hs, hc]
  | a :: l, _, _, hs, hl, hc => by
    simp only [ChainT] at hc ⊢
    refine ⟨by rw [hs, hc.1], (hl a (List.mem_cons_self _ _)).1, ?_⟩
    exact ChainT_congr h h' l (TSlot.nextTarget a) (TSlot.nextTarget a)
      (hl a (List.mem_cons_self _ _)).2
      (fun m hm => hl m (List.mem_cons_of_mem _ hm)) hc.2.2

/-- Frame rule for per-target chains. -/
theorem ChainL_congr (h h' : Heap) : ∀ (l : List Nat) (s s' : LSlot),
    h'.getL s' = h.getL s →
    (∀ m ∈ l, h'.alive m = true ∧ h'.nextLight m = h.nextLight m) →
    ChainL h s l → ChainL h' s' l
  | [], _, _, hs, _, hc => by simp only [ChainL] at hc ⊢; rw [hs, hc]
  | a :: l, _, _, hs, hl, hc => by
    simp only [ChainL] at hc ⊢
    refine ⟨by rw [hs, hc.1], (hl a (List.mem_cons_self _ _)).1, ?_⟩
    exact ChainL_congr h h' l (LSlot.nextLight a) (LSlot.nextLight a)
      (hl a (List.mem_cons_self _ _)).2
      (fun m hm => hl m (List.mem_cons_of_mem _ hm)) hc.2.2

/-- A chain of live nodes cannot be longer than the number of addresses handed out. -/
theorem nodup_bounded_length (l : List Nat) (N : Nat) (hnd : l.Nodup) (hb : ∀ n ∈ l, n < N) :
    l.length ≤ N := by
  have h1 : l.toFinset ⊆ Finset.range N := by
    intro x hx
    exact Finset.mem_range.2 (hb x (List.mem_toFinset.1 hx))
  have h2 := Finset.card_le_card h1
  rw [List.toFinset_card_of_nodup hnd, Finset.card_range] at h2
  exact h2

theorem alive_lt (h : Heap) (hw : WF h) (n : Nat) (hn : h.alive n = true) : n < h.nextFree := by
  by_contra hc
  have := hw.fresh n (Nat.le_of_not_lt hc)
  rw [this] at hn; cases hn

theorem ChainT_length (h : Heap) (hw : WF h) (l : List Nat) (s : TSlot) (hc : ChainT h s l) :
    l.length ≤ h.nextFree :=
  nodup_bounded_length l _ (ChainT_nodup h l s hc)
    (fun n hn => alive_lt h hw n (ChainT_alive h l s hc n hn))

/-- The search loop returns the first node of the chain whose target is `linkto`. -/
theorem findNode_chain (h : Heap) (linkto : Target) : ∀ (l : List Nat) (s : TSlot) (fuel : Nat),
    ChainT h s l → l.length < fuel →
    findNode h linkto fuel (h.getT s) = some (l.find? (fun n => decide (h.targ n = linkto)))
  | [], s, fuel, hc, _ => by
    simp only [ChainT] at hc
    rw [hc]; cases fuel <;> simp [findNode]
  | a :: l, s, 0, _, hf => by simp at hf
  | a :: l, s, fuel + 1, hc, hf => by
    simp only [ChainT] at hc
    rw [hc.1]
    simp only [findNode, hc.2.1, if_true]
    by_cases ht : h.targ a = linkto
    · simp [ht]
    · simp only [ht, if_false]
      have := findNode_chain h linkto l (TSlot.nextTarget a) fuel hc.2.2
        (by simp at hf; omega)
      simp only [Heap.getT] at this
      rw [this]
      simp [List.find?, ht]

theorem okT_ne_fresh (h : Heap) (hw : WF h) (s : TSlot) (hok : h.okT s = true) :
    s ≠ TSlot.nextTarget h.nextFree := by
  rintro rfl
  simp [Heap.okT, hw.fresh h.nextFree (le_refl _)] at hok

theorem okL_ne_fresh (h : Heap) (hw : WF h) (s : LSlot) (hok : h.okL s = true) :
    s ≠ LSlot.nextLight h.nextFree := by
  rintro rfl
  simp [Heap.okL, hw.fresh h.nextFree (le_refl _)] at hok

theorem AddLightNode_reuse (h : Heap) (hw : WF h) (thread : LSlot) (linkto : Target)
    (light : Nat) (nextnode : TSlot) (l : List Nat) (n : Nat)
    (hok : h.okT nextnode = true) (hc : ChainT h nextnode l)
    (hf : l.find? (fun m => decide (h.targ m = linkto)) = some n) :
    AddLightNode thread linkto light nextnode h =
      some ({ h with lightsource := Function.update h.lightsource n (some light) },
        h.getT nextnode) := by
  have hfind := findNode_chain h linkto l nextnode (h.nextFree + 1) hc
    (Nat.lt_succ_of_le (ChainT_length h hw l nextnode hc))
  simp only [AddLightNode, hok, if_true, hfind, hf]

theorem AddLightNode_create (h : Heap) (hw : WF h) (thread : LSlot) (linkto : Target)
    (light : Nat) (nextnode : TSlot) (l : List Nat)
    (hok : h.okT nextnode = true) (hokL : h.okL thread = true) (hc : ChainT h nextnode l)
    (hf : l.find? (fun m => decide (h.targ m = linkto)) = none) :
    AddLightNode thread linkto light nextnode h =
      some (createNode thread linkto light nextnode h, some h.nextFree) := by
  have hfind := findNode_chain h linkto l nextnode (h.nextFree + 1) hc
    (Nat.lt_succ_of_le (ChainT_length h hw l nextnode hc))
  have hne := okT_ne_fresh h hw nextnode hok
  have hneL := okL_ne_fresh h hw thread hokL
  have hfr := hw.fresh h.nextFree (le_refl _)
  simp only [AddLightNode, hok, if_true, hfind, hf]
  have hT : ∀ v, h.getT nextnode = some v → h.alive v = true := fun v hv =>
    (hw.fwdT nextnode v hok hv).1
  have hL : ∀ v, h.getL thread = some v → h.alive v = true := fun v hv =>
    (hw.fwdL thread v hokL hv).1
  have hTn : ∀ v, h.getT nextnode = some v → v ≠ h.nextFree := by
    intro v hv e; have := hT v hv; rw [e, hfr] at this; cases this
  have hLn : ∀ v, h.getL thread = some v → v ≠ h.nextFree := by
    intro v hv e; have := hL v hv; rw [e, hfr] at this; cases this
  cases hTv : h.getT nextnode <;> cases hLv : h.getL thread <;> cases nextnode <;>
    cases thread <;>
    simp_all [createNode, Heap.getT, Heap.getL, Heap.okL, Heap.okT, Heap.storePrevTarget,
      Heap.storePrevLight, Function.update_apply]

@[simp] theorem mark_getT (h : Heap) (n : Nat) (v : Option Nat) (s : TSlot) :
    (h.mark n v).getT s = h.getT s := by cases s <;> rfl

@[simp] theorem mark_getL (h : Heap) (n : Nat) (v : Option Nat) (s : LSlot) :
    (h.mark n v).getL s = h.getL s := by cases s <;> rfl

@[simp] theorem mark_okT (h : Heap) (n : Nat) (v : Option Nat) (s : TSlot) :
    (h.mark n v).okT s = h.okT s := by cases s <;> rfl

@[simp] theorem mark_okL (h : Heap) (n : Nat) (v : Option Nat) (s : LSlot) :
    (h.mark n v).okL s = h.okL s := by cases s <;> rfl

@[simp] theorem mark_alive (h : Heap) (n : Nat) (v : Option Nat) :
    (h.mark n v).alive = h.alive := rfl

@[simp] theorem mark_nextFree (h : Heap) (n : Nat) (v : Option Nat) :
    (h.mark n v).nextFree = h.nextFree := rfl

@[simp] theorem mark_prevTarget (h : Heap) (n : Nat) (v : Option Nat) :
    (h.mark n v).prevTarget = h.prevTarget := rfl

@[simp] theorem mark_prevLight (h : Heap) (n : Nat) (v : Option Nat) :
    (h.mark n v).prevLight = h.prevLight := rfl

@[simp] theorem mark_nextTarget (h : Heap) (n : Nat) (v : Option Nat) :
    (h.mark n v).nextTarget = h.nextTarget := rfl

@[simp] theorem mark_nextLight (h : Heap) (n : Nat) (v : Option Nat) :
    (h.mark n v).nextLight = h.nextLight := rfl

@[simp] theorem mark_targ (h : Heap) (n : Nat) (v : Option Nat) :
    (h.mark n v).targ = h.targ := rfl

theorem mark_lightsource (h : Heap) (n : Nat) (v : Option Nat) (m : Nat) :
    (h.mark n v).lightsource m = if m = n then v else h.lightsource m := by
  simp [Heap.mark, Function.update_apply]

theorem WF_mark (h : Heap) (hw : WF h) (n : Nat) (v : Option Nat) : WF (h.mark n v) :=
  ⟨by simpa using hw.fresh, by simpa using hw.backT, by simpa using hw.backL,
   by simpa using hw.fwdT, by simpa using hw.fwdL⟩

theorem ChainT_mark (h : Heap) (n : Nat) (v : Option Nat) (s : TSlot) (l : List Nat) :
    ChainT (h.mark n v) s l ↔ ChainT h s l :=
  ⟨fun hc => ChainT_congr _ _ l s s (by simp)
      (fun m hm => ⟨by simpa using ChainT_alive _ l s hc m hm, by simp⟩) hc,
   fun hc => ChainT_congr _ _ l s s (by simp)
      (fun m hm => ⟨by simpa using ChainT_alive _ l s hc m hm, by simp⟩) hc⟩

theorem ChainL_mark (h : Heap) (n : Nat) (v : Option Nat) (s : LSlot) (l : List Nat) :
    ChainL (h.mark n v) s l ↔ ChainL h s l :=
  ⟨fun hc => ChainL_congr _ _ l s s (by simp)
      (fun m hm => ⟨by simpa using ChainL_alive _ l s hc m hm, by simp⟩) hc,
   fun hc => ChainL_congr _ _ l s s (by simp)
      (fun m hm => ⟨by simpa using ChainL_alive _ l s hc m hm, by simp⟩) hc⟩

theorem createNode_alive (thread : LSlot) (linkto : Target) (light : Nat) (nextnode : TSlot)
    (h : Heap) : (createNode thread linkto light nextnode h).alive =
      Function.update h.alive h.nextFree true := by
  cases hT : h.getT nextnode <;> cases hL : h.getL thread <;> simp [createNode, hT, hL]

theorem createNode_nextFree (thread : LSlot) (linkto : Target) (light : Nat)
    (nextnode : TSlot) (h : Heap) :
    (createNode thread linkto light nextnode h).nextFree = h.nextFree + 1 := by
  cases hT : h.getT nextnode <;> cases hL : h.getL thread <;> simp [createNode, hT, hL]

theorem createNode_targ (thread : LSlot) (linkto : Target) (light : Nat) (nextnode : TSlot)
    (h : Heap) : (createNode thread linkto light nextnode h).targ =
      Function.update h.targ h.nextFree linkto := by
  cases hT : h.getT nextnode <;> cases hL : h.getL thread <;> simp [createNode, hT, hL]

theorem createNode_lightsource (thread : LSlot) (linkto : Target) (light : Nat)
    (nextnode : TSlot) (h : Heap) : (createNode thread linkto light nextnode h).lightsource =
      Function.update h.lightsource h.nextFree (some light) := by
  cases hT : h.getT nextnode <;> cases hL : h.getL thread <;> simp [createNode, hT, hL]

theorem createNode_getT (thread : LSlot) (linkto : Target) (light : Nat) (nextnode : TSlot)
    (h : Heap) (s : TSlot) : (createNode thread linkto light nextnode h).getT s =
      if s = TSlot.nextTarget h.nextFree then h.getT nextnode else h.getT s := by
  cases hT : h.getT nextnode <;> cases hL : h.getL thread <;>
    simp only [createNode, hT, hL, setL_getT] <;> cases s <;>
    simp [Heap.getT, Function.update_apply]

theorem createNode_prevTarget (thread : LSlot) (linkto : Target) (light : Nat)
    (nextnode : TSlot) (h : Heap) (a : Nat) :
    (createNode thread linkto light nextnode h).prevTarget a =
      if h.getT nextnode = some a then TSlot.nextTarget h.nextFree
      else if a = h.nextFree then nextnode else h.prevTarget a := by
  cases hT : h.getT nextnode <;> cases hL : h.getL thread <;>
    simp [createNode, hT, hL, Function.update_apply, eq_comm]

theorem createNode_getL (thread : LSlot) (linkto : Target) (light : Nat) (nextnode : TSlot)
    (h : Heap) (s : LSlot) : (createNode thread linkto light nextnode h).getL s =
      if s = thread then some h.nextFree
      else if s = LSlot.nextLight h.nextFree then h.getL thread else h.getL s := by
  rw [createNode, getL_setL]
  by_cases hs : s = thread
  · simp [hs]
  · simp only [hs, if_false]
    cases hT : h.getT nextnode <;> cases hL : h.getL thread <;> simp only [] <;> cases s <;>
      simp [Heap.getL, Function.update_apply]

theorem createNode_prevLight (thread : LSlot) (linkto : Target) (light : Nat)
    (nextnode : TSlot) (h : Heap) (a : Nat) :
    (createNode thread linkto light nextnode h).prevLight a =
      if h.getL thread = some a then LSlot.nextLight h.nextFree
      else if a = h.nextFree then thread else h.prevLight a := by
  cases hT : h.getT nextnode <;> cases hL : h.getL thread <;>
    simp [createNode, hT, hL, Function.update_apply, eq_comm]

theorem AddLightNodeAssign_reuse (h : Heap) (hw : WF h) (thread : LSlot) (linkto : Target)
    (light : Nat) (nextnode : TSlot) (l : List Nat) (n : Nat)
    (hok : h.okT nextnode = true) (hc : ChainT h nextnode l)
    (hf : l.find? (fun m => decide (h.targ m = linkto)) = some n) :
    AddLightNodeAssign thread linkto light nextnode h = some (h.mark n (some light)) := by
  rw [AddLightNodeAssign, AddLightNode_reuse h hw thread linkto light nextnode l n hok hc hf]
  have h1 : (h.mark n (some light)).okT nextnode = true := by simpa using hok
  have h2 : (h.mark n (some light)).setT nextnode (h.getT nextnode) = h.mark n (some light) := by
    have := setT_getT_self (h.mark n (some light)) nextnode
    simpa using this
  show (Heap.storeT (h.mark n (some light)) nextnode (h.getT nextnode)) = _
  rw [Heap.storeT, h1, if_pos rfl, h2]

theorem AddLightNodeAssign_create (h : Heap) (hw : WF h) (thread : LSlot) (linkto : Target)
    (light : Nat) (nextnode : TSlot) (l : List Nat)
    (hok : h.okT nextnode = true) (hokL : h.okL thread = true) (hc : ChainT h nextnode l)
    (hf : l.find? (fun m => decide (h.targ m = linkto)) = none) :
    AddLightNodeAssign thread linkto light nextnode h =
      some (linkNew thread linkto light nextnode h) := by
  rw [AddLightNodeAssign,
    AddLightNode_create h hw thread linkto light nextnode l hok hokL hc hf]
  have h1 : (createNode thread linkto light nextnode h).okT nextnode = true := by
    cases nextnode with
    | nextTarget k =>
      simp only [Heap.okT] at hok ⊢
      rw [createNode_alive, Function.update_apply]
      split <;> simp [hok]
    | _ => rfl
  show Heap.storeT _ nextnode (some h.nextFree) = _
  rw [Heap.storeT, h1, if_pos rfl, linkNew]

theorem linkNew_alive (thread : LSlot) (linkto : Target) (light : Nat) (nextnode : TSlot)
    (h : Heap) (a : Nat) : (linkNew thread linkto light nextnode h).alive a =
      if a = h.nextFree then true else h.alive a := by
  rw [linkNew, setT_alive, createNode_alive, Function.update_apply]

theorem linkNew_nextFree (thread : LSlot) (linkto : Target) (light : Nat) (nextnode : TSlot)
    (h : Heap) : (linkNew thread linkto light nextnode h).nextFree = h.nextFree + 1 := by
  rw [linkNew, setT_nextFree, createNode_nextFree]

theorem linkNew_targ (thread : LSlot) (linkto : Target) (light : Nat) (nextnode : TSlot)
    (h : Heap) (a : Nat) : (linkNew thread linkto light nextnode h).targ a =
      if a = h.nextFree then linkto else h.targ a := by
  rw [linkNew, setT_targ, createNode_targ, Function.update_apply]

theorem linkNew_lightsource (thread : LSlot) (linkto : Target) (light : Nat)
    (nextnode : TSlot) (h : Heap) (a : Nat) :
    (linkNew thread linkto light nextnode h).lightsource a =
      if a = h.nextFree then some light else h.lightsource a := by
  rw [linkNew, setT_lightsource, createNode_lightsource, Function.update_apply]

theorem linkNew_getT (thread : LSlot) (linkto : Target) (light : Nat) (nextnode : TSlot)
    (h : Heap) (s : TSlot) : (linkNew thread linkto light nextnode h).getT s =
      if s = nextnode then some h.nextFree
      else if s = TSlot.nextTarget h.nextFree then h.getT nextnode else h.getT s := by
  rw [linkNew, getT_setT, createNode_getT]

theorem linkNew_getL (thread : LSlot) (linkto : Target) (light : Nat) (nextnode : TSlot)
    (h : Heap) (s : LSlot) : (linkNew thread linkto light nextnode h).getL s =
      if s = thread then some h.nextFree
      else if s = LSlot.nextLight h.nextFree then h.getL thread else h.getL s := by
  rw [linkNew, setT_getL, createNode_getL]

theorem linkNew_prevTarget (thread : LSlot) (linkto : Target) (light : Nat)
    (nextnode : TSlot) (h : Heap) (a : Nat) :
    (linkNew thread linkto light nextnode h).prevTarget a =
      if h.getT nextnode = some a then TSlot.nextTarget h.nextFree
      else if a = h.nextFree then nextnode else h.prevTarget a := by
  rw [linkNew, setT_prevTarget, createNode_prevTarget]

theorem linkNew_prevLight (thread : LSlot) (linkto : Target) (light : Nat)
    (nextnode : TSlot) (h : Heap) (a : Nat) :
    (linkNew thread linkto light nextnode h).prevLight a =
      if h.getL thread = some a then LSlot.nextLight h.nextFree
      else if a = h.nextFree then thread else h.prevLight a := by
  rw [linkNew, setT_prevLight, createNode_prevLight]

theorem linkNew_okT (thread : LSlot) (linkto : Target) (light : Nat) (nextnode : TSlot)
    (h : Heap) (s : TSlot) : (linkNew thread linkto light nextnode h).okT s =
      if s = TSlot.nextTarget h.nextFree then true else h.okT s := by
  cases s <;> simp [Heap.okT, linkNew_alive]

theorem linkNew_okL (thread : LSlot) (linkto : Target) (light : Nat) (nextnode : TSlot)
    (h : Heap) (s : LSlot) : (linkNew thread linkto light nextnode h).okL s =
      if s = LSlot.nextLight h.nextFree then true else h.okL s := by
  cases s <;> simp [Heap.okL, linkNew_alive]

/-- The creation path followed by the head assignment keeps the registry well formed. -/
theorem WF_linkNew (h : Heap) (hw : WF h) (thread : LSlot) (linkto : Target) (light : Nat)
    (nextnode : TSlot) (hok : h.okT nextnode = true) (hokL : h.okL thread = true) :
    WF (linkNew thread linkto light nextnode h) := by
  have hfr := hw.fresh h.nextFree (le_refl _)
  have hne := okT_ne_fresh h hw nextnode hok
  have hneL := okL_ne_fresh h hw thread hokL
  have hnotT : ∀ a, h.getT nextnode = some a → a ≠ h.nextFree := by
    intro a ha e; have := (hw.fwdT nextnode a hok ha).1; rw [e, hfr] at this; cases this
  have hnotL : ∀ a, h.getL thread = some a → a ≠ h.nextFree := by
    intro a ha e; have := (hw.fwdL thread a hokL ha).1; rw [e, hfr] at this; cases this
  refine ⟨?_, ?_, ?_, ?_, ?_⟩
  · intro k hk
    rw [linkNew_nextFree] at hk
    rw [linkNew_alive, if_neg (by omega)]
    exact hw.fresh k (by omega)
  · intro a ha
    rw [linkNew_alive] at ha
    rw [linkNew_prevTarget, linkNew_okT, linkNew_getT]
    by_cases h1 : h.getT nextnode = some a
    · simp [h1, hne.symm]
    · by_cases h2 : a = h.nextFree
      · subst h2; simp [h1, hne, hok]
      · simp only [h1, h2, if_false] at ha ⊢
        obtain ⟨hb1, hb2⟩ := hw.backT a ha
        have e1 : h.prevTarget a ≠ TSlot.nextTarget h.nextFree := okT_ne_fresh h hw _ hb1
        have e2 : h.prevTarget a ≠ nextnode := by
          intro e; rw [e] at hb2; exact h1 hb2
        simp [e1, e2, hb1, hb2]
  · intro a ha
    rw [linkNew_alive] at ha
    rw [linkNew_prevLight, linkNew_okL, linkNew_getL]
    by_cases h1 : h.getL thread = some a
    · simp [h1, hneL.symm]
    · by_cases h2 : a = h.nextFree
      · subst h2; simp [h1, hneL, hokL]
      · simp only [h1, h2, if_false] at ha ⊢
        obtain ⟨hb1, hb2⟩ := hw.backL a ha
        have e1 : h.prevLight a ≠ LSlot.nextLight h.nextFree := okL_ne_fresh h hw _ hb1
        have e2 : h.prevLight a ≠ thread := by
          intro e; rw [e] at hb2; exact h1 hb2
        simp [e1, e2, hb1, hb2]
  · intro s a hs ha
    rw [linkNew_okT] at hs
    rw [linkNew_getT] at ha
    rw [linkNew_alive, linkNew_prevTarget]
    by_cases h1 : s = nextnode
    · subst h1
      simp only [if_true] at ha
      have : a = h.nextFree := (Option.some.inj ha).symm
      subst this
      have : ¬ h.getT s = some h.nextFree := fun e => hnotT _ e rfl
      simp [this]
    · simp only [h1, if_false] at ha
      by_cases h2 : s = TSlot.nextTarget h.nextFree
      · simp only [h2, if_true] at ha
        have := (hw.fwdT nextnode a hok ha).1
        simp [ha, this, h2]
      · simp only [h2, if_false] at ha hs
        obtain ⟨hf1, hf2⟩ := hw.fwdT s a hs ha
        have e1 : ¬ h.getT nextnode = some a := by
          intro e; exact h1 (hf2.symm.trans (hw.fwdT nextnode a hok e).2)
        have e2 : a ≠ h.nextFree := by
          intro e; rw [e, hfr] at hf1; cases hf1
        simp [e1, e2, hf1, hf2]
  · intro s a hs ha
    rw [linkNew_okL] at hs
    rw [linkNew_getL] at ha
    rw [linkNew_alive, linkNew_prevLight]
    by_cases h1 : s = thread
    · subst h1
      simp only [if_true] at ha
      have : a = h.nextFree := (Option.some.inj ha).symm
      subst this
      have : ¬ h.getL s = some h.nextFree := fun e => hnotL _ e rfl
      simp [this]
    · simp only [h1, if_false] at ha
      by_cases h2 : s = LSlot.nextLight h.nextFree
      · simp only [h2, if_true] at ha
        have := (hw.fwdL thread a hokL ha).1
        simp [ha, this, h2]
      · simp only [h2, if_false] at ha hs
        obtain ⟨hf1, hf2⟩ := hw.fwdL s a hs ha
        have e1 : ¬ h.getL thread = some a := by
          intro e; exact h1 (hf2.symm.trans (hw.fwdL thread a hokL e).2)
        have e2 : a ≠ h.nextFree := by
          intro e; rw [e, hfr] at hf1; cases hf1
        simp [e1, e2, hf1, hf2]

theorem ChainT_head (h : Heap) (s : TSlot) (l : List Nat) (hc : ChainT h s l) :
    h.getT s = l.head? := by
  cases l with
  | nil => exact hc
  | cons a l => exact hc.1

theorem ChainL_head (h : Heap) (s : LSlot) (l : List Nat) (hc : ChainL h s l) :
    h.getL s = l.head? := by
  cases l with
  | nil => exact hc
  | cons a l => exact hc.1

/-- The successor of a chain member is a chain member. -/
theorem ChainT_next_mem (h : Heap) (s : TSlot) (l : List Nat) (hc : ChainT h s l) (m k : Nat)
    (hm : m ∈ l) (hk : h.nextTarget m = some k) : k ∈ l := by
  obtain ⟨xs, ys, rfl⟩ := List.append_of_mem hm
  have h2 := ChainT_head h _ ys (ChainT_suffix h xs s m ys hc)
  simp only [Heap.getT] at h2
  rw [hk] at h2
  cases ys with
  | nil => cases h2
  | cons y ys =>
    have : k = y := Option.some.inj h2
    subst this; simp

theorem ChainL_next_mem (h : Heap) (s : LSlot) (l : List Nat) (hc : ChainL h s l) (m k : Nat)
    (hm : m ∈ l) (hk : h.nextLight m = some k) : k ∈ l := by
  obtain ⟨xs, ys, rfl⟩ := List.append_of_mem hm
  have h2 := ChainL_head h _ ys (ChainL_suffix h xs s m ys hc)
  simp only [Heap.getL] at h2
  rw [hk] at h2
  cases ys with
  | nil => cases h2
  | cons y ys =>
    have : k = y := Option.some.inj h2
    subst this; simp

/-- After the creation path the new node heads the light's chain and the old chain
follows it. -/
theorem ChainT_linkNew_head (h : Heap) (hw : WF h) (thread : LSlot) (linkto : Target)
    (light : Nat) (nextnode : TSlot) (l : List Nat) (hok : h.okT nextnode = true)
    (hc : ChainT h nextnode l) :
    ChainT (linkNew thread linkto light nextnode h) nextnode (h.nextFree :: l) := by
  have hfr := hw.fresh h.nextFree (le_refl _)
  have hne := okT_ne_fresh h hw nextnode hok
  refine ⟨by rw [linkNew_getT, if_pos rfl], by rw [linkNew_alive, if_pos rfl], ?_⟩
  refine ChainT_congr h _ l nextnode _ ?_ ?_ hc
  · rw [linkNew_getT, if_neg hne.symm, if_pos rfl]
  · intro m hm
    have hma := ChainT_alive h l nextnode hc m hm
    have hmn : m ≠ h.nextFree := by intro e; rw [e, hfr] at hma; cases hma
    refine ⟨by rw [linkNew_alive, if_neg hmn]; exact hma, ?_⟩
    have := linkNew_getT thread linkto light nextnode h (TSlot.nextTarget m)
    simp only [Heap.getT] at this
    rw [this, if_neg, if_neg]
    · simpa using hmn
    · intro e
      rw [← e] at hc
      exact ChainT_not_mem_self h m l hc hm

/-- After the creation path the new node heads the target's chain and the old chain
follows it. -/
theorem ChainL_linkNew_head (h : Heap) (hw : WF h) (thread : LSlot) (linkto : Target)
    (light : Nat) (nextnode : TSlot) (l : List Nat) (hok : h.okL thread = true)
    (hc : ChainL h thread l) :
    ChainL (linkNew thread linkto light nextnode h) thread (h.nextFree :: l) := by
  have hfr := hw.fresh h.nextFree (le_refl _)
  have hne := okL_ne_fresh h hw thread hok
  refine ⟨by rw [linkNew_getL, if_pos rfl], by rw [linkNew_alive, if_pos rfl], ?_⟩
  refine ChainL_congr h _ l thread _ ?_ ?_ hc
  · rw [linkNew_getL, if_neg hne.symm, if_pos rfl]
  · intro m hm
    have hma := ChainL_alive h l thread hc m hm
    have hmn : m ≠ h.nextFree := by intro e; rw [e, hfr] at hma; cases hma
    refine ⟨by rw [linkNew_alive, if_neg hmn]; exact hma, ?_⟩
    have := linkNew_getL thread linkto light nextnode h (LSlot.nextLight m)
    simp only [Heap.getL] at this
    rw [this, if_neg, if_neg]
    · simpa using hmn
    · intro e
      rw [← e] at hc
      exact ChainL_not_mem_self h m l hc hm

/-- Frame: a per-light chain that does not pass through the slot `nextnode` is
untouched by the creation path. -/
theorem ChainT_linkNew_frame (h : Heap) (hw : WF h) (thread : LSlot) (linkto : Target)
    (light : Nat) (nextnode : TSlot) (s : TSlot) (l : List Nat)
    (hs : s ≠ nextnode) (hsok : h.okT s = true)
    (hl : ∀ m ∈ l, TSlot.nextTarget m ≠ nextnode) (hc : ChainT h s l) :
    ChainT (linkNew thread linkto light nextnode h) s l := by
  have hfr := hw.fresh h.nextFree (le_refl _)
  refine ChainT_congr h _ l s s ?_ ?_ hc
  · rw [linkNew_getT, if_neg hs, if_neg (okT_ne_fresh h hw s hsok)]
  · intro m hm
    have hma := ChainT_alive h l s hc m hm
    have hmn : m ≠ h.nextFree := by intro e; rw [e, hfr] at hma; cases hma
    refine ⟨by rw [linkNew_alive, if_neg hmn]; exact hma, ?_⟩
    have := linkNew_getT thread linkto light nextnode h (TSlot.nextTarget m)
    simp only [Heap.getT] at this
    rw [this, if_neg (hl m hm), if_neg]
    simpa using hmn

/-- Frame: a per-target chain that does not pass through the slot `thread` is untouched
by the creation path. -/
theorem ChainL_linkNew_frame (h : Heap) (hw : WF h) (thread : LSlot) (linkto : Target)
    (light : Nat) (nextnode : TSlot) (s : LSlot) (l : List Nat)
    (hs : s ≠ thread) (hsok : h.okL s = true)
    (hl : ∀ m ∈ l, LSlot.nextLight m ≠ thread) (hc : ChainL h s l) :
    ChainL (linkNew thread linkto light nextnode h) s l := by
  have hfr := hw.fresh h.nextFree (le_refl _)
  refine ChainL_congr h _ l s s ?_ ?_ hc
  · rw [linkNew_getL, if_neg hs, if_neg (okL_ne_fresh h hw s hsok)]
  · intro m hm
    have hma := ChainL_alive h l s hc m hm
    have hmn : m ≠ h.nextFree := by intro e; rw [e, hfr] at hma; cases hma
    refine ⟨by rw [linkNew_alive, if_neg hmn]; exact hma, ?_⟩
    have := linkNew_getL thread linkto light nextnode h (LSlot.nextLight m)
    simp only [Heap.getL] at this
    rw [this, if_neg (hl m hm), if_neg]
    simpa using hmn

theorem setT_nextTarget_self (h : Heap) (s : TSlot) (n : Nat) :
    (h.setT s (h.nextTarget n)).nextTarget n = h.nextTarget n := by
  cases s <;> simp [Heap.setT, Function.update_apply]

theorem setL_nextLight_self (h : Heap) (s : LSlot) (n : Nat) :
    (h.setL s (h.nextLight n)).nextLight n = h.nextLight n := by
  cases s <;> simp [Heap.setL, Function.update_apply]

theorem unlinkTarget_eq (h : Heap) (n : Nat) (hok : h.okT (h.prevTarget n) = true)
    (hT : ∀ v, h.nextTarget n = some v → h.alive v = true) :
    unlinkTarget h n = some (cutT h n) := by
  simp only [unlinkTarget, Heap.storeT, hok, if_true, Option.some_bind, setT_nextTarget_self,
    setT_prevTarget, cutT]
  cases hv : h.nextTarget n with
  | none => rfl
  | some v => simp only [Heap.storePrevTarget, setT_alive, hT v hv, if_true, setT_prevTarget]

theorem unlinkLight_eq (h : Heap) (n : Nat) (hok : h.okL (h.prevLight n) = true)
    (hL : ∀ v, h.nextLight n = some v → h.alive v = true) :
    unlinkLight h n = some (cutL h n) := by
  simp only [unlinkLight, Heap.storeL, hok, if_true, Option.some_bind, setL_nextLight_self,
    setL_prevLight, cutL]
  cases hv : h.nextLight n with
  | none => rfl
  | some v => simp only [Heap.storePrevLight, setL_alive, hL v hv, if_true, setL_prevLight]

@[simp] theorem cutT_alive (h : Heap) (n : Nat) : (cutT h n).alive = h.alive := by
  unfold cutT; cases h.nextTarget n <;> simp

@[simp] theorem cutT_nextFree (h : Heap) (n : Nat) : (cutT h n).nextFree = h.nextFree := by
  unfold cutT; cases h.nextTarget n <;> simp

@[simp] theorem cutT_prevLight (h : Heap) (n : Nat) : (cutT h n).prevLight = h.prevLight := by
  unfold cutT; cases h.nextTarget n <;> simp

@[simp] theorem cutT_nextLight (h : Heap) (n : Nat) : (cutT h n).nextLight = h.nextLight := by
  unfold cutT; cases h.nextTarget n <;> simp

@[simp] theorem cutT_lightsource (h : Heap) (n : Nat) :
    (cutT h n).lightsource = h.lightsource := by
  unfold cutT; cases h.nextTarget n <;> simp

@[simp] theorem cutT_targ (h : Heap) (n : Nat) : (cutT h n).targ = h.targ := by
  unfold cutT; cases h.nextTarget n <;> simp

@[simp] theorem cutT_lighthead (h : Heap) (n : Nat) : (cutT h n).lighthead = h.lighthead := by
  unfold cutT; cases h.nextTarget n <;> simp

@[simp] theorem cutT_getL (h : Heap) (n : Nat) (s : LSlot) : (cutT h n).getL s = h.getL s := by
  cases s <;> simp [Heap.getL]

@[simp] theorem cutT_okL (h : Heap) (n : Nat) (s : LSlot) : (cutT h n).okL s = h.okL s := by
  cases s <;> simp [Heap.okL]

@[simp] theorem cutT_okT (h : Heap) (n : Nat) (s : TSlot) : (cutT h n).okT s = h.okT s := by
  cases s <;> simp [Heap.okT]

theorem cutT_getT (h : Heap) (n : Nat) (s : TSlot) :
    (cutT h n).getT s = if s = h.prevTarget n then h.nextTarget n else h.getT s := by
  have e : ∀ (g : Heap) (f : Nat → TSlot),
      Heap.getT { g with prevTarget := f } s = g.getT s := by
    intro g f; cases s <;> rfl
  unfold cutT; cases h.nextTarget n <;> simp only [e, getT_setT]

theorem cutT_prevTarget (h : Heap) (n : Nat) (a : Nat) :
    (cutT h n).prevTarget a =
      if h.nextTarget n = some a then h.prevTarget n else h.prevTarget a := by
  unfold cutT; cases h.nextTarget n <;> simp [Function.update_apply, eq_comm]

theorem cutT_nextTarget_self (h : Heap) (n : Nat) :
    (cutT h n).nextTarget n = h.nextTarget n := by
  have := cutT_getT h n (TSlot.nextTarget n)
  simp only [Heap.getT] at this
  rw [this]; split <;> rfl

@[simp] theorem cutL_alive (h : Heap) (n : Nat) : (cutL h n).alive = h.alive := by
  unfold cutL; cases h.nextLight n <;> simp

@[simp] theorem cutL_nextFree (h : Heap) (n : Nat) : (cutL h n).nextFree = h.nextFree := by
  unfold cutL; cases h.nextLight n <;> simp

@[simp] theorem cutL_prevTarget (h : Heap) (n : Nat) : (cutL h n).prevTarget = h.prevTarget := by
  unfold cutL; cases h.nextLight n <;> simp

@[simp] theorem cutL_nextTarget (h : Heap) (n : Nat) : (cutL h n).nextTarget = h.nextTarget := by
  unfold cutL; cases h.nextLight n <;> simp

@[simp] theorem cutL_lightsource (h : Heap) (n : Nat) :
    (cutL h n).lightsource = h.lightsource := by
  unfold cutL; cases h.nextLight n <;> simp

@[simp] theorem cutL_targ (h : Heap) (n : Nat) : (cutL h n).targ = h.targ := by
  unfold cutL; cases h.nextLight n <;> simp

@[simp] theorem cutL_getT (h : Heap) (n : Nat) (s : TSlot) : (cutL h n).getT s = h.getT s := by
  have e : ∀ (g : Heap) (f : Nat → LSlot),
      Heap.getT { g with prevLight := f } s = g.getT s := by
    intro g f; cases s <;> rfl
  unfold cutL; cases h.nextLight n <;> simp only [e, setL_getT]

@[simp] theorem cutL_okL (h : Heap) (n : Nat) (s : LSlot) : (cutL h n).okL s = h.okL s := by
  cases s <;> simp [Heap.okL]

@[simp] theorem cutL_okT (h : Heap) (n : Nat) (s : TSlot) : (cutL h n).okT s = h.okT s := by
  cases s <;> simp [Heap.okT]

theorem cutL_getL (h : Heap) (n : Nat) (s : LSlot) :
    (cutL h n).getL s = if s = h.prevLight n then h.nextLight n else h.getL s := by
  have e : ∀ (g : Heap) (f : Nat → LSlot),
      Heap.getL { g with prevLight := f } s = g.getL s := by
    intro g f; cases s <;> rfl
  unfold cutL; cases h.nextLight n <;> simp only [e, getL_setL]

theorem cutL_prevLight (h : Heap) (n : Nat) (a : Nat) :
    (cutL h n).prevLight a =
      if h.nextLight n = some a then h.prevLight n else h.prevLight a := by
  unfold cutL; cases h.nextLight n <;> simp [Function.update_apply, eq_comm]

theorem DeleteLightNode_eq (h : Heap) (hw : WF h) (n : Nat) (hn : h.alive n = true) :
    DeleteLightNode h (some n) = some (unlinkNode h n, h.nextTarget n) := by
  obtain ⟨hb1, -⟩ := hw.backT n hn
  obtain ⟨hb2, -⟩ := hw.backL n hn
  have hT : ∀ v, h.nextTarget n = some v → h.alive v = true := fun v hv =>
    (hw.fwdT (TSlot.nextTarget n) v hn hv).1
  have hL : ∀ v, h.nextLight n = some v → h.alive v = true := fun v hv =>
    (hw.fwdL (LSlot.nextLight n) v hn hv).1
  have e1 := unlinkTarget_eq h n hb1 hT
  have e2 := unlinkLight_eq (cutT h n) n (by simpa using hb2) (by simpa using hL)
  simp only [DeleteLightNode, hn, if_true, e1, e2, Option.some_bind, unlinkNode,
    cutL_nextTarget, cutT_nextTarget_self]

theorem unlinkNode_alive (h : Heap) (n a : Nat) :
    (unlinkNode h n).alive a = if a = n then false else h.alive a := by
  simp [unlinkNode, Function.update_apply]

@[simp] theorem unlinkNode_nextFree (h : Heap) (n : Nat) :
    (unlinkNode h n).nextFree = h.nextFree := by simp [unlinkNode]

@[simp] theorem unlinkNode_lightsource (h : Heap) (n : Nat) :
    (unlinkNode h n).lightsource = h.lightsource := by simp [unlinkNode]

@[simp] theorem unlinkNode_targ (h : Heap) (n : Nat) :
    (unlinkNode h n).targ = h.targ := by simp [unlinkNode]

theorem unlinkNode_getT (h : Heap) (n : Nat) (s : TSlot) :
    (unlinkNode h n).getT s = if s = h.prevTarget n then h.nextTarget n else h.getT s := by
  have e : ∀ (g : Heap) (f : Nat → Bool), Heap.getT { g with alive := f } s = g.getT s := by
    intro g f; cases s <;> rfl
  rw [unlinkNode]; simp only [e, cutL_getT, cutT_getT]

theorem unlinkNode_getL (h : Heap) (n : Nat) (s : LSlot) :
    (unlinkNode h n).getL s = if s = h.prevLight n then h.nextLight n else h.getL s := by
  have e : ∀ (g : Heap) (f : Nat → Bool), Heap.getL { g with alive := f } s = g.getL s := by
    intro g f; cases s <;> rfl
  rw [unlinkNode]; simp only [e, cutL_getL, cutT_prevLight, cutT_nextLight, cutT_getL]

theorem unlinkNode_prevTarget (h : Heap) (n a : Nat) :
    (unlinkNode h n).prevTarget a =
      if h.nextTarget n = some a then h.prevTarget n else h.prevTarget a := by
  simp [unlinkNode, cutT_prevTarget]

theorem unlinkNode_prevLight (h : Heap) (n a : Nat) :
    (unlinkNode h n).prevLight a =
      if h.nextLight n = some a then h.prevLight n else h.prevLight a := by
  simp [unlinkNode, cutL_prevLight]

theorem unlinkNode_okT (h : Heap) (n : Nat) (s : TSlot) :
    (unlinkNode h n).okT s = if s = TSlot.nextTarget n then false else h.okT s := by
  cases s <;> simp [Heap.okT, unlinkNode_alive]

theorem unlinkNode_okL (h : Heap) (n : Nat) (s : LSlot) :
    (unlinkNode h n).okL s = if s = LSlot.nextLight n then false else h.okL s := by
  cases s <;> simp [Heap.okL, unlinkNode_alive]

/-- Deleting a live node keeps the registry well formed. -/
theorem WF_unlinkNode (h : Heap) (hw : WF h) (n : Nat) (hn : h.alive n = true) :
    WF (unlinkNode h n) := by
  obtain ⟨hbT1, hbT2⟩ := hw.backT n hn
  obtain ⟨hbL1, hbL2⟩ := hw.backL n hn
  refine ⟨?_, ?_, ?_, ?_, ?_⟩
  · intro k hk
    rw [unlinkNode_alive]
    split
    · rfl
    · exact hw.fresh k (by simpa using hk)
  · intro a ha
    rw [unlinkNode_alive] at ha
    by_cases han : a = n
    · simp [han] at ha
    · simp only [han, if_false] at ha
      rw [unlinkNode_prevTarget, unlinkNode_okT, unlinkNode_getT]
      by_cases h1 : h.nextTarget n = some a
      · have hne : h.prevTarget n ≠ TSlot.nextTarget n := by
          intro e
          rw [e] at hbT2
          simp only [Heap.getT] at hbT2
          rw [hbT2] at h1
          exact han (Option.some.inj h1).symm
        simp [h1, hne, hbT1]
      · obtain ⟨hb1, hb2⟩ := hw.backT a ha
        have e1 : h.prevTarget a ≠ TSlot.nextTarget n := by
          intro e; rw [e] at hb2; exact h1 hb2
        have e2 : h.prevTarget a ≠ h.prevTarget n := by
          intro e; rw [e, hbT2] at hb2; exact han (Option.some.inj hb2).symm
        simp [h1, e1, e2, hb1, hb2]
  · intro a ha
    rw [unlinkNode_alive] at ha
    by_cases han : a = n
    · simp [han] at ha
    · simp only [han, if_false] at ha
      rw [unlinkNode_prevLight, unlinkNode_okL, unlinkNode_getL]
      by_cases h1 : h.nextLight n = some a
      · have hne : h.prevLight n ≠ LSlot.nextLight n := by
          intro e
          rw [e] at hbL2
          simp only [Heap.getL] at hbL2
          rw [hbL2] at h1
          exact han (Option.some.inj h1).symm
        simp [h1, hne, hbL1]
      · obtain ⟨hb1, hb2⟩ := hw.backL a ha
        have e1 : h.prevLight a ≠ LSlot.nextLight n := by
          intro e; rw [e] at hb2; exact h1 hb2
        have e2 : h.prevLight a ≠ h.prevLight n := by
          intro e; rw [e, hbL2] at hb2; exact han (Option.some.inj hb2).symm
        simp [h1, e1, e2, hb1, hb2]
  · intro s a hs ha
    rw [unlinkNode_okT] at hs
    rw [unlinkNode_getT] at ha
    rw [unlinkNode_alive, unlinkNode_prevTarget]
    by_cases hsn : s = TSlot.nextTarget n
    · simp [hsn] at hs
    · simp only [hsn, if_false] at hs
      by_cases h1 : s = h.prevTarget n
      · simp only [h1, if_true] at ha
        obtain ⟨hf1, hf2⟩ := hw.fwdT (TSlot.nextTarget n) a hn ha
        have han : a ≠ n := by
          intro e; rw [e] at hf2; exact hsn (h1.trans hf2)
        simp [ha, han, hf1, h1]
      · simp only [h1, if_false] at ha
        obtain ⟨hf1, hf2⟩ := hw.fwdT s a hs ha
        have han : a ≠ n := by
          intro e; rw [e] at hf2; exact h1 hf2.symm
        have e1 : ¬ h.nextTarget n = some a := by
          intro e
          exact hsn (hf2.symm.trans (hw.fwdT (TSlot.nextTarget n) a hn e).2)
        simp [han, e1, hf1, hf2]
  · intro s a hs ha
    rw [unlinkNode_okL] at hs
    rw [unlinkNode_getL] at ha
    rw [unlinkNode_alive, unlinkNode_prevLight]
    by_cases hsn : s = LSlot.nextLight n
    · simp [hsn] at hs
    · simp only [hsn, if_false] at hs
      by_cases h1 : s = h.prevLight n
      · simp only [h1, if_true] at ha
        obtain ⟨hf1, hf2⟩ := hw.fwdL (LSlot.nextLight n) a hn ha
        have han : a ≠ n := by
          intro e; rw [e] at hf2; exact hsn (h1.trans hf2)
        simp [ha, han, hf1, h1]
      · simp only [h1, if_false] at ha
        obtain ⟨hf1, hf2⟩ := hw.fwdL s a hs ha
        have han : a ≠ n := by
          intro e; rw [e] at hf2; exact h1 hf2.symm
        have e1 : ¬ h.nextLight n = some a := by
          intro e
          exact hsn (hf2.symm.trans (hw.fwdL (LSlot.nextLight n) a hn e).2)
        simp [han, e1, hf1, hf2]

/-- Deleting `n` removes exactly `n` from every per-light chain and keeps the order of
the other nodes. -/
theorem ChainT_unlinkNode (h : Heap) (hw : WF h) (n : Nat) (hn : h.alive n = true) :
    ∀ (l : List Nat) (s : TSlot), h.okT s = true → s ≠ TSlot.nextTarget n →
      ChainT h s l → ChainT (unlinkNode h n) s (l.erase n)
  | [], s, hs, _, hc => by
    simp only [List.erase_nil, ChainT] at hc ⊢
    rw [unlinkNode_getT, if_neg, hc]
    intro e
    rw [e, (hw.backT n hn).2] at hc
    cases hc
  | a :: l, s, hs, hsn, hc => by
    by_cases han : a = n
    · subst han
      rw [List.erase_cons_head]
      have hs' : s = h.prevTarget a := ((hw.fwdT s a hs hc.1).2).symm
      have hnl : a ∉ l := ChainT_not_mem_self h a l hc.2.2
      refine ChainT_congr h _ l (TSlot.nextTarget a) s ?_ ?_ hc.2.2
      · rw [unlinkNode_getT, if_pos hs']; rfl
      · intro m hm
        have hma : m ≠ a := fun e => hnl (e ▸ hm)
        refine ⟨?_, ?_⟩
        · rw [unlinkNode_alive, if_neg hma]
          exact ChainT_alive h l _ hc.2.2 m hm
        · have := unlinkNode_getT h a (TSlot.nextTarget m)
          simp only [Heap.getT] at this
          rw [this, if_neg]
          intro e
          have h2 := (hw.backT a hn).2
          rw [← e] at h2
          simp only [Heap.getT] at h2
          exact hnl (ChainT_next_mem h _ l hc.2.2 m a hm h2)
    · rw [List.erase_cons_tail (by simpa using han)]
      have hsp : s ≠ h.prevTarget n := by
        intro e
        have := (hw.backT n hn).2
        rw [← e, hc.1] at this
        exact han (Option.some.inj this)
      refine ⟨by rw [unlinkNode_getT, if_neg hsp]; exact hc.1,
        by rw [unlinkNode_alive, if_neg han]; exact hc.2.1, ?_⟩
      exact ChainT_unlinkNode h hw n hn l (TSlot.nextTarget a) hc.2.1
        (by simpa using han) hc.2.2

/-- Deleting `n` removes exactly `n` from every per-target chain and keeps the order of
the other nodes. -/
theorem ChainL_unlinkNode (h : Heap) (hw : WF h) (n : Nat) (hn : h.alive n = true) :
    ∀ (l : List Nat) (s : LSlot), h.okL s = true → s ≠ LSlot.nextLight n →
      ChainL h s l → ChainL (unlinkNode h n) s (l.erase n)
  | [], s, hs, _, hc => by
    simp only [List.erase_nil, ChainL] at hc ⊢
    rw [unlinkNode_getL, if_neg, hc]
    intro e
    rw [e, (hw.backL n hn).2] at hc
    cases hc
  | a :: l, s, hs, hsn, hc => by
    by_cases han : a = n
    · subst han
      rw [List.erase_cons_head]
      have hs' : s = h.prevLight a := ((hw.fwdL s a hs hc.1).2).symm
      have hnl : a ∉ l := ChainL_not_mem_self h a l hc.2.2
      refine ChainL_congr h _ l (LSlot.nextLight a) s ?_ ?_ hc.2.2
      · rw [unlinkNode_getL, if_pos hs']; rfl
      · intro m hm
        have hma : m ≠ a := fun e => hnl (e ▸ hm)
        refine ⟨?_, ?_⟩
        · rw [unlinkNode_alive, if_neg hma]
          exact ChainL_alive h l _ hc.2.2 m hm
        · have := unlinkNode_getL h a (LSlot.nextLight m)
          simp only [Heap.getL] at this
          rw [this, if_neg]
          intro e
          have h2 := (hw.backL a hn).2
          rw [← e] at h2
          simp only [Heap.getL] at h2
          exact hnl (ChainL_next_mem h _ l hc.2.2 m a hm h2)
    · rw [List.erase_cons_tail (by simpa using han)]
      have hsp : s ≠ h.prevLight n := by
        intro e
        have := (hw.backL n hn).2
        rw [← e, hc.1] at this
        exact han (Option.some.inj this)
      refine ⟨by rw [unlinkNode_getL, if_neg hsp]; exact hc.1,
        by rw [unlinkNode_alive, if_neg han]; exact hc.2.1, ?_⟩
      exact ChainL_unlinkNode h hw n hn l (LSlot.nextLight a) hc.2.1
        (by simpa using han) hc.2.2

theorem TSlot.isHead_okT (h : Heap) (s : TSlot) (hs : s.isHead = true) : h.okT s = true := by
  cases s <;> simp_all [TSlot.isHead, Heap.okT]

theorem LSlot.isHead_okL (h : Heap) (s : LSlot) (hs : s.isHead = true) : h.okL s = true := by
  cases s <;> simp_all [LSlot.isHead, Heap.okL]

theorem liveCount_unlinkNode (h : Heap) (hw : WF h) (n : Nat) (hn : h.alive n = true) :
    liveCount (unlinkNode h n) < liveCount h := by
  unfold liveCount
  rw [unlinkNode_nextFree]
  apply Finset.card_lt_card
  rw [Finset.ssubset_iff_of_subset]
  · refine ⟨n, ?_, ?_⟩
    · simp [hn, alive_lt h hw n hn]
    · simp [unlinkNode_alive]
  · intro a ha
    simp only [Finset.mem_filter, Finset.mem_range, unlinkNode_alive] at ha ⊢
    refine ⟨ha.1, ?_⟩
    by_cases e : a = n
    · simp [e] at ha
    · simpa [e] using ha.2

theorem exists_ChainT_aux : ∀ (k : Nat) (h : Heap), WF h → liveCount h ≤ k →
    ∀ s : TSlot, s.isHead = true → ∃ l, ChainT h s l := by
  intro k
  induction k with
  | zero =>
    intro h hw hk s hs
    cases hg : h.getT s with
    | none => exact ⟨[], hg⟩
    | some n =>
      have hn := (hw.fwdT s n (TSlot.isHead_okT h s hs) hg).1
      have := liveCount_unlinkNode h hw n hn
      omega
  | succ k ih =>
    intro h hw hk s hs
    cases hg : h.getT s with
    | none => exact ⟨[], hg⟩
    | some n =>
      obtain ⟨hn, hp⟩ := hw.fwdT s n (TSlot.isHead_okT h s hs) hg
      have hlt := liveCount_unlinkNode h hw n hn
      obtain ⟨l, hl⟩ := ih (unlinkNode h n) (WF_unlinkNode h hw n hn) (by omega) s hs
      refine ⟨n :: l, hg, hn, ?_⟩
      refine ChainT_congr (unlinkNode h n) h l s (TSlot.nextTarget n) ?_ ?_ hl
      · rw [unlinkNode_getT, if_pos hp.symm]; rfl
      · intro m hm
        have hma := ChainT_alive _ l s hl m hm
        rw [unlinkNode_alive] at hma
        by_cases e : m = n
        · simp [e] at hma
        · simp only [e, if_false] at hma
          refine ⟨hma, ?_⟩
          have := unlinkNode_getT h n (TSlot.nextTarget m)
          simp only [Heap.getT] at this
          rw [this, if_neg]
          intro e2
          rw [hp] at e2
          rw [← e2] at hs
          simp [TSlot.isHead] at hs

/-- On a well-formed registry the chain hanging off a light's head is a finite list. -/
theorem exists_ChainT (h : Heap) (hw : WF h) (s : TSlot) (hs : s.isHead = true) :
    ∃ l, ChainT h s l :=
  exists_ChainT_aux (liveCount h) h hw (le_refl _) s hs

theorem exists_ChainL_aux : ∀ (k : Nat) (h : Heap), WF h → liveCount h ≤ k →
    ∀ s : LSlot, s.isHead = true → ∃ l, ChainL h s l := by
  intro k
  induction k with
  | zero =>
    intro h hw hk s hs
    cases hg : h.getL s with
    | none => exact ⟨[], hg⟩
    | some n =>
      have hn := (hw.fwdL s n (LSlot.isHead_okL h s hs) hg).1
      have := liveCount_unlinkNode h hw n hn
      omega
  | succ k ih =>
    intro h hw hk s hs
    cases hg : h.getL s with
    | none => exact ⟨[], hg⟩
    | some n =>
      obtain ⟨hn, hp⟩ := hw.fwdL s n (LSlot.isHead_okL h s hs) hg
      have hlt := liveCount_unlinkNode h hw n hn
      obtain ⟨l, hl⟩ := ih (unlinkNode h n) (WF_unlinkNode h hw n hn) (by omega) s hs
      refine ⟨n :: l, hg, hn, ?_⟩
      refine ChainL_congr (unlinkNode h n) h l s (LSlot.nextLight n) ?_ ?_ hl
      · rw [unlinkNode_getL, if_pos hp.symm]; rfl
      · intro m hm
        have hma := ChainL_alive _ l s hl m hm
        rw [unlinkNode_alive] at hma
        by_cases e : m = n
        · simp [e] at hma
        · simp only [e, if_false] at hma
          refine ⟨hma, ?_⟩
          have := unlinkNode_getL h n (LSlot.nextLight m)
          simp only [Heap.getL] at this
          rw [this, if_neg]
          intro e2
          rw [hp] at e2
          rw [← e2] at hs
          simp [LSlot.isHead] at hs

/-- On a well-formed registry the chain hanging off a target's head is a finite list. -/
theorem exists_ChainL (h : Heap) (hw : WF h) (s : LSlot) (hs : s.isHead = true) :
    ∃ l, ChainL h s l :=
  exists_ChainL_aux (liveCount h) h hw (le_refl _) s hs

theorem WF_empty : WF Heap.empty := by
  refine ⟨fun _ _ => rfl, ?_, ?_, ?_, ?_⟩
  · intro n hn; cases hn
  · intro n hn; cases hn
  · intro s n _ hg; cases s <;> cases hg
  · intro s n _ hg; cases s <;> cases hg

theorem markAll_nil (h : Heap) : markAll h [] = h := rfl

theorem markAll_cons (h : Heap) (a : Nat) (l : List Nat) :
    markAll h (a :: l) = markAll (h.mark a none) l := rfl

@[simp] theorem markAll_getT (h : Heap) (l : List Nat) (s : TSlot) :
    (markAll h l).getT s = h.getT s := by
  induction l generalizing h with
  | nil => rfl
  | cons a l ih => rw [markAll_cons, ih, mark_getT]

@[simp] theorem markAll_getL (h : Heap) (l : List Nat) (s : LSlot) :
    (markAll h l).getL s = h.getL s := by
  induction l generalizing h with
  | nil => rfl
  | cons a l ih => rw [markAll_cons, ih, mark_getL]

@[simp] theorem markAll_alive (h : Heap) (l : List Nat) : (markAll h l).alive = h.alive := by
  induction l generalizing h with
  | nil => rfl
  | cons a l ih => rw [markAll_cons, ih, mark_alive]

@[simp] theorem markAll_nextFree (h : Heap) (l : List Nat) :
    (markAll h l).nextFree = h.nextFree := by
  induction l generalizing h with
  | nil => rfl
  | cons a l ih => rw [markAll_cons, ih, mark_nextFree]

@[simp] theorem markAll_targ (h : Heap) (l : List Nat) : (markAll h l).targ = h.targ := by
  induction l generalizing h with
  | nil => rfl
  | cons a l ih => rw [markAll_cons, ih, mark_targ]

@[simp] theorem markAll_nextTarget (h : Heap) (l : List Nat) :
    (markAll h l).nextTarget = h.nextTarget := by
  induction l generalizing h with
  | nil => rfl
  | cons a l ih => rw [markAll_cons, ih, mark_nextTarget]

@[simp] theorem markAll_nextLight (h : Heap) (l : List Nat) :
    (markAll h l).nextLight = h.nextLight := by
  induction l generalizing h with
  | nil => rfl
  | cons a l ih => rw [markAll_cons, ih, mark_nextLight]

@[simp] theorem markAll_prevTarget (h : Heap) (l : List Nat) :
    (markAll h l).prevTarget = h.prevTarget := by
  induction l generalizing h with
  | nil => rfl
  | cons a l ih => rw [markAll_cons, ih, mark_prevTarget]

@[simp] theorem markAll_prevLight (h : Heap) (l : List Nat) :
    (markAll h l).prevLight = h.prevLight := by
  induction l generalizing h with
  | nil => rfl
  | cons a l ih => rw [markAll_cons, ih, mark_prevLight]

theorem markAll_lightsource (h : Heap) (l : List Nat) (m : Nat) :
    (markAll h l).lightsource m = if m ∈ l then none else h.lightsource m := by
  induction l generalizing h with
  | nil => simp [markAll_nil]
  | cons a l ih =>
    rw [markAll_cons, ih, mark_lightsource]
    by_cases h1 : m ∈ l
    · simp [h1]
    · by_cases h2 : m = a
      · simp [h2]
      · simp [h1, h2]

theorem WF_markAll (h : Heap) (hw : WF h) (l : List Nat) : WF (markAll h l) := by
  induction l generalizing h with
  | nil => exact hw
  | cons a l ih => exact ih _ (WF_mark h hw a none)

theorem ChainT_markAll (h : Heap) (l : List Nat) (s : TSlot) (l' : List Nat) :
    ChainT (markAll h l) s l' ↔ ChainT h s l' := by
  induction l generalizing h with
  | nil => rfl
  | cons a l ih => rw [markAll_cons, ih, ChainT_mark]

theorem ChainL_markAll (h : Heap) (l : List Nat) (s : LSlot) (l' : List Nat) :
    ChainL (markAll h l) s l' ↔ ChainL h s l' := by
  induction l generalizing h with
  | nil => rfl
  | cons a l ih => rw [markAll_cons, ih, ChainL_mark]

/-- The mark loop sets the marker of every node of the chain to null and nothing else. -/
theorem markLoop_chain : ∀ (l : List Nat) (h : Heap) (s : TSlot) (fuel : Nat),
    ChainT h s l → l.length < fuel → markLoop fuel h (h.getT s) = some (markAll h l)
  | [], h, s, fuel, hc, _ => by
    simp only [ChainT] at hc
    rw [hc]; cases fuel <;> rfl
  | a :: l, h, s, 0, _, hf => by simp at hf
  | a :: l, h, s, fuel + 1, hc, hf => by
    simp only [ChainT] at hc
    rw [hc.1]
    simp only [markLoop, hc.2.1, if_true]
    have hc' : ChainT (h.mark a none) (TSlot.nextTarget a) l :=
      (ChainT_mark h a none _ l).2 hc.2.2
    have := markLoop_chain l (h.mark a none) (TSlot.nextTarget a) fuel hc'
      (by simp at hf; omega)
    simp only [Heap.getT, mark_nextTarget] at this
    exact this

theorem unlinkAll_nil (h : Heap) : unlinkAll h [] = h := rfl

theorem unlinkAll_cons (h : Heap) (a : Nat) (l : List Nat) :
    unlinkAll h (a :: l) = unlinkAll (unlinkNode h a) l := rfl

@[simp] theorem unlinkAll_lightsource (h : Heap) (l : List Nat) :
    (unlinkAll h l).lightsource = h.lightsource := by
  induction l generalizing h with
  | nil => rfl
  | cons a l ih => rw [unlinkAll_cons, ih, unlinkNode_lightsource]

@[simp] theorem unlinkAll_targ (h : Heap) (l : List Nat) : (unlinkAll h l).targ = h.targ := by
  induction l generalizing h with
  | nil => rfl
  | cons a l ih => rw [unlinkAll_cons, ih, unlinkNode_targ]

@[simp] theorem unlinkAll_nextFree (h : Heap) (l : List Nat) :
    (unlinkAll h l).nextFree = h.nextFree := by
  induction l generalizing h with
  | nil => rfl
  | cons a l ih => rw [unlinkAll_cons, ih, unlinkNode_nextFree]

theorem unlinkAll_alive (h : Heap) (l : List Nat) (a : Nat) :
    (unlinkAll h l).alive a = if a ∈ l then false else h.alive a := by
  induction l generalizing h with
  | nil => simp [unlinkAll_nil]
  | cons b l ih =>
    rw [unlinkAll_cons, ih, unlinkNode_alive]
    by_cases h1 : a ∈ l
    · simp [h1]
    · by_cases h2 : a = b
      · simp [h2]
      · simp [h1, h2]

/-- Deleting a list of distinct live nodes keeps the registry well formed. -/
theorem WF_unlinkAll : ∀ (l : List Nat) (h : Heap), WF h → l.Nodup →
    (∀ n ∈ l, h.alive n = true) → WF (unlinkAll h l)
  | [], _, hw, _, _ => hw
  | a :: l, h, hw, hnd, hal => by
    rw [unlinkAll_cons]
    have hnd' := List.nodup_cons.1 hnd
    refine WF_unlinkAll l _ (WF_unlinkNode h hw a (hal a (List.mem_cons_self _ _))) hnd'.2 ?_
    intro n hn
    rw [unlinkNode_alive, if_neg (fun e : n = a => hnd'.1 (e ▸ hn))]
    exact hal n (List.mem_cons_of_mem _ hn)

/-- Deleting a list of distinct live nodes removes exactly them from a per-light chain
that starts at a head slot. -/
theorem ChainT_unlinkAll : ∀ (l : List Nat) (h : Heap), WF h → l.Nodup →
    (∀ n ∈ l, h.alive n = true) → ∀ (s : TSlot) (c : List Nat), s.isHead = true →
    ChainT h s c → ChainT (unlinkAll h l) s (c.filter (fun n => decide (n ∉ l)))
  | [], h, _, _, _, s, c, _, hc => by simpa [unlinkAll_nil] using hc
  | a :: l, h, hw, hnd, hal, s, c, hs, hc => by
    rw [unlinkAll_cons]
    have hnd' := List.nodup_cons.1 hnd
    have ha := hal a (List.mem_cons_self _ _)
    have h1 := ChainT_unlinkNode h hw a ha c s (TSlot.isHead_okT h s hs)
      (by intro e; rw [e] at hs; simp [TSlot.isHead] at hs) hc
    have h2 := ChainT_unlinkAll l _ (WF_unlinkNode h hw a ha) hnd'.2
      (by
        intro n hn
        rw [unlinkNode_alive, if_neg (fun e : n = a => hnd'.1 (e ▸ hn))]
        exact hal n (List.mem_cons_of_mem _ hn)) s _ hs h1
    have hcn := ChainT_nodup h c s hc
    have e : (c.erase a).filter (fun n => decide (n ∉ l))
        = c.filter (fun n => decide (n ∉ a :: l)) := by
      rw [List.Nodup.erase_eq_filter hcn, List.filter_filter]
      congr 1
      funext n
      by_cases e1 : n = a <;> by_cases e2 : n ∈ l <;> simp [e1, e2]
    rw [e] at h2
    exact h2

/-- Deleting a list of distinct live nodes removes exactly them from a per-target chain
that starts at a head slot. -/
theorem ChainL_unlinkAll : ∀ (l : List Nat) (h : Heap), WF h → l.Nodup →
    (∀ n ∈ l, h.alive n = true) → ∀ (s : LSlot) (c : List Nat), s.isHead = true →
    ChainL h s c → ChainL (unlinkAll h l) s (c.filter (fun n => decide (n ∉ l)))
  | [], h, _, _, _, s, c, _, hc => by simpa [unlinkAll_nil] using hc
  | a :: l, h, hw, hnd, hal, s, c, hs, hc => by
    rw [unlinkAll_cons]
    have hnd' := List.nodup_cons.1 hnd
    have ha := hal a (List.mem_cons_self _ _)
    have h1 := ChainL_unlinkNode h hw a ha c s (LSlot.isHead_okL h s hs)
      (by intro e; rw [e] at hs; simp [LSlot.isHead] at hs) hc
    have h2 := ChainL_unlinkAll l _ (WF_unlinkNode h hw a ha) hnd'.2
      (by
        intro n hn
        rw [unlinkNode_alive, if_neg (fun e : n = a => hnd'.1 (e ▸ hn))]
        exact hal n (List.mem_cons_of_mem _ hn)) s _ hs h1
    have hcn := ChainL_nodup h c s hc
    have e : (c.erase a).filter (fun n => decide (n ∉ l))
        = c.filter (fun n => decide (n ∉ a :: l)) := by
      rw [List.Nodup.erase_eq_filter hcn, List.filter_filter]
      congr 1
      funext n
      by_cases e1 : n = a <;> by_cases e2 : n ∈ l <;> simp [e1, e2]
    rw [e] at h2
    exact h2

/-- The sweep loop deletes exactly the nodes of the chain whose marker is null. -/
theorem sweepLoop_chain : ∀ (l : List Nat) (h : Heap) (s : TSlot) (fuel : Nat),
    WF h → h.okT s = true → ChainT h s l → l.length < fuel →
    sweepLoop fuel h (h.getT s) =
      some (unlinkAll h (l.filter (fun n => decide (h.lightsource n = none))))
  | [], h, s, fuel, _, _, hc, _ => by
    simp only [ChainT] at hc
    rw [hc]; cases fuel <;> rfl
  | a :: l, h, s, 0, _, _, _, hf => by simp at hf
  | a :: l, h, s, fuel + 1, hw, hs, hc, hf => by
    have hc0 := hc
    simp only [ChainT] at hc
    rw [hc.1]
    simp only [sweepLoop, hc.2.1, if_true]
    have hlen : l.length < fuel := by simp at hf; omega
    by_cases hm : h.lightsource a = none
    · simp only [hm, if_true, DeleteLightNode_eq h hw a hc.2.1, Option.some_bind]
      have hsn : s ≠ TSlot.nextTarget a := by
        intro e
        rw [e] at hc0
        exact ChainT_not_mem_self h a _ hc0 (List.mem_cons_self _ _)
      have hc1 := ChainT_unlinkNode h hw a hc.2.1 (a :: l) s hs hsn hc0
      rw [List.erase_cons_head] at hc1
      have hhead : h.nextTarget a = (unlinkNode h a).getT s := by
        rw [ChainT_head _ _ _ hc1]
        exact ChainT_head h _ l hc.2.2
      rw [hhead]
      have hs1 : (unlinkNode h a).okT s = true := by
        rw [unlinkNode_okT, if_neg hsn]; exact hs
      rw [sweepLoop_chain l (unlinkNode h a) s fuel (WF_unlinkNode h hw a hc.2.1) hs1 hc1 hlen]
      simp [List.filter_cons, hm, unlinkAll_cons]
    · simp only [hm, if_false]
      have := sweepLoop_chain l h (TSlot.nextTarget a) fuel hw hc.2.1 hc.2.2 hlen
      simp only [Heap.getT] at this
      rw [this]
      simp [List.filter_cons, hm]

theorem chainOf_isHead (light : Nat) (t : Target) : (chainOf light t).isHead = true := by
  cases t <;> rfl

theorem AddLightNodeAssign_linkStep (h : Heap) (hw : WF h) (additive : Bool) (t : Target)
    (light : Nat) (l : List Nat) (hc : ChainT h (chainOf light t) l) :
    AddLightNodeAssign (LSlot.lighthead t additive) t light (chainOf light t) h =
      some (linkStep h additive t light l) := by
  have hok := TSlot.isHead_okT h _ (chainOf_isHead light t)
  unfold linkStep
  cases hf : l.find? (fun m => decide (h.targ m = t)) with
  | some n => exact AddLightNodeAssign_reuse h hw _ t light _ l n hok hc hf
  | none => exact AddLightNodeAssign_create h hw _ t light _ l hok rfl hc hf

theorem WF_linkStep (h : Heap) (hw : WF h) (additive : Bool) (t : Target) (light : Nat)
    (l : List Nat) : WF (linkStep h additive t light l) := by
  unfold linkStep
  cases l.find? (fun m => decide (h.targ m = t)) with
  | some n => exact WF_mark h hw n _
  | none =>
    exact WF_linkNew h hw _ t light _ (TSlot.isHead_okT h _ (chainOf_isHead light t)) rfl

/-- Every call `head = AddLightNode(...)` on a light's head slot succeeds on a
well-formed registry and leaves it well formed. -/
theorem AddLightNodeAssign_WF (h : Heap) (hw : WF h) (thread : LSlot) (linkto : Target)
    (light : Nat) (nextnode : TSlot) (hn : nextnode.isHead = true)
    (hokL : h.okL thread = true) :
    ∃ h', AddLightNodeAssign thread linkto light nextnode h = some h' ∧ WF h' := by
  obtain ⟨l, hc⟩ := exists_ChainT h hw nextnode hn
  have hok := TSlot.isHead_okT h _ hn
  cases hf : l.find? (fun m => decide (h.targ m = linkto)) with
  | some n =>
    exact ⟨_, AddLightNodeAssign_reuse h hw thread linkto light nextnode l n hok hc hf,
      WF_mark h hw n _⟩
  | none =>
    exact ⟨_, AddLightNodeAssign_create h hw thread linkto light nextnode l hok hokL hc hf,
      WF_linkNew h hw thread linkto light nextnode hok hokL⟩

/-- The slot a chain member was read from is the slot its `prevTarget` records. -/
theorem ChainT_prev (h : Heap) (hw : WF h) : ∀ (l : List Nat) (s : TSlot),
    h.okT s = true → ChainT h s l → ∀ n ∈ l,
      h.prevTarget n = s ∨ ∃ m ∈ l, h.prevTarget n = TSlot.nextTarget m
  | [], _, _, _, _, hn => by cases hn
  | a :: l, s, hs, hc, n, hn => by
    rcases List.mem_cons.1 hn with rfl | hn
    · exact Or.inl (hw.fwdT s n hs hc.1).2
    · rcases ChainT_prev h hw l (TSlot.nextTarget a) hc.2.1 hc.2.2 n hn with e | ⟨m, hm, e⟩
      · exact Or.inr ⟨a, List.mem_cons_self _ _, e⟩
      · exact Or.inr ⟨m, List.mem_cons_of_mem _ hm, e⟩

theorem ChainL_prev (h : Heap) (hw : WF h) : ∀ (l : List Nat) (s : LSlot),
    h.okL s = true → ChainL h s l → ∀ n ∈ l,
      h.prevLight n = s ∨ ∃ m ∈ l, h.prevLight n = LSlot.nextLight m
  | [], _, _, _, _, hn => by cases hn
  | a :: l, s, hs, hc, n, hn => by
    rcases List.mem_cons.1 hn with rfl | hn
    · exact Or.inl (hw.fwdL s n hs hc.1).2
    · rcases ChainL_prev h hw l (LSlot.nextLight a) hc.2.1 hc.2.2 n hn with e | ⟨m, hm, e⟩
      · exact Or.inr ⟨a, List.mem_cons_self _ _, e⟩
      · exact Or.inr ⟨m, List.mem_cons_of_mem _ hm, e⟩

theorem ChainT_root (h : Heap) (hw : WF h) (s' : TSlot) (l' : List Nat)
    (hs' : s'.isHead = true) (hc' : ChainT h s' l') : ∀ (l : List Nat) (s : TSlot),
    h.okT s = true → ChainT h s l → ∀ n ∈ l, n ∈ l' →
      s = s' ∨ ∃ m ∈ l', s = TSlot.nextTarget m
  | [], _, _, _, _, hn, _ => by cases hn
  | a :: l, s, hs, hc, n, hn, hn' => by
    have key : a ∈ l' → s = s' ∨ ∃ m ∈ l', s = TSlot.nextTarget m := by
      intro ha
      have e := (hw.fwdT s a hs hc.1).2
      rcases ChainT_prev h hw l' s' (TSlot.isHead_okT h s' hs') hc' a ha with e2 | ⟨m, hm, e2⟩
      · exact Or.inl (e.symm.trans e2)
      · exact Or.inr ⟨m, hm, e.symm.trans e2⟩
    rcases List.mem_cons.1 hn with rfl | hn
    · exact key hn'
    · rcases ChainT_root h hw s' l' hs' hc' l (TSlot.nextTarget a) hc.2.1 hc.2.2 n hn hn'
        with e | ⟨m, hm, e⟩
      · rw [← e] at hs'; simp [TSlot.isHead] at hs'
      · have : a = m := by simpa using e
        exact key (this ▸ hm)

/-- Two per-light chains that start at head slots and share a node start at the same
head. -/
theorem ChainT_unique (h : Heap) (hw : WF h) (s s' : TSlot) (l l' : List Nat)
    (hs : s.isHead = true) (hs' : s'.isHead = true) (hc : ChainT h s l)
    (hc' : ChainT h s' l') (n : Nat) (hn : n ∈ l) (hn' : n ∈ l') : s = s' := by
  rcases ChainT_root h hw s' l' hs' hc' l s (TSlot.isHead_okT h s hs) hc n hn hn'
    with e | ⟨m, _, e⟩
  · exact e
  · rw [e] at hs; simp [TSlot.isHead] at hs

theorem ChainL_root (h : Heap) (hw : WF h) (s' : LSlot) (l' : List Nat)
    (hs' : s'.isHead = true) (hc' : ChainL h s' l') : ∀ (l : List Nat) (s : LSlot),
    h.okL s = true → ChainL h s l → ∀ n ∈ l, n ∈ l' →
      s = s' ∨ ∃ m ∈ l', s = LSlot.nextLight m
  | [], _, _, _, _, hn, _ => by cases hn
  | a :: l, s, hs, hc, n, hn, hn' => by
    have key : a ∈ l' → s = s' ∨ ∃ m ∈ l', s = LSlot.nextLight m := by
      intro ha
      have e := (hw.fwdL s a hs hc.1).2
      rcases ChainL_prev h hw l' s' (LSlot.isHead_okL h s' hs') hc' a ha with e2 | ⟨m, hm, e2⟩
      · exact Or.inl (e.symm.trans e2)
      · exact Or.inr ⟨m, hm, e.symm.trans e2⟩
    rcases List.mem_cons.1 hn with rfl | hn
    · exact key hn'
    · rcases ChainL_root h hw s' l' hs' hc' l (LSlot.nextLight a) hc.2.1 hc.2.2 n hn hn'
        with e | ⟨m, hm, e⟩
      · rw [← e] at hs'; simp [LSlot.isHead] at hs'
      · have : a = m := by simpa using e
        exact key (this ▸ hm)

/-- Two per-target chains that start at head slots and share a node start at the same
head. -/
theorem ChainL_unique (h : Heap) (hw : WF h) (s s' : LSlot) (l l' : List Nat)
    (hs : s.isHead = true) (hs' : s'.isHead = true) (hc : ChainL h s l)
    (hc' : ChainL h s' l') (n : Nat) (hn : n ∈ l) (hn' : n ∈ l') : s = s' := by
  rcases ChainL_root h hw s' l' hs' hc' l s (LSlot.isHead_okL h s hs) hc n hn hn'
    with e | ⟨m, _, e⟩
  · exact e
  · rw [e] at hs; simp [LSlot.isHead] at hs

theorem ChainT_empty (s : TSlot) (hs : s.isHead = true) : ChainT Heap.empty s [] := by
  cases s with
  | nextTarget n => simp [TSlot.isHead] at hs
  | _ => rfl

theorem ChainL_empty (s : LSlot) (hs : s.isHead = true) : ChainL Heap.empty s [] := by
  cases s with
  | nextLight n => simp [LSlot.isHead] at hs
  | _ => rfl

theorem sample1_eq : sample1 = linkNew (LSlot.lighthead (Target.subsector 0) false)
    (Target.subsector 0) 7 (TSlot.touching_subsectors 7) Heap.empty := by
  unfold sample1
  rw [AddLightNodeAssign_create Heap.empty WF_empty (LSlot.lighthead (Target.subsector 0) false)
    (Target.subsector 0) 7 (TSlot.touching_subsectors 7) [] rfl rfl (ChainT_empty _ rfl) rfl]
  rfl

theorem WF_sample1 : WF sample1 := by
  rw [sample1_eq]; exact WF_linkNew _ WF_empty _ _ _ _ rfl rfl

theorem ChainT_sample1 : ChainT sample1 (TSlot.touching_subsectors 7) [0] := by
  rw [sample1_eq]
  exact ChainT_linkNew_head _ WF_empty _ _ _ _ [] rfl (ChainT_empty _ rfl)

theorem ChainL_sample1 :
    ChainL sample1 (LSlot.lighthead (Target.subsector 0) false) [0] := by
  rw [sample1_eq]
  exact ChainL_linkNew_head _ WF_empty _ _ _ _ [] rfl (ChainL_empty _ rfl)

theorem sample1_nextFree : sample1.nextFree = 1 := by
  rw [sample1_eq, linkNew_nextFree]; rfl

theorem sample1_targ : sample1.targ 0 = Target.subsector 0 := by
  rw [sample1_eq, linkNew_targ]; rfl

theorem sample2_eq : sample2 = linkNew (LSlot.lighthead (Target.subsector 1) false)
    (Target.subsector 1) 7 (TSlot.touching_subsectors 7) sample1 := by
  unfold sample2
  rw [AddLightNodeAssign_create sample1 WF_sample1 (LSlot.lighthead (Target.subsector 1) false)
    (Target.subsector 1) 7 (TSlot.touching_subsectors 7) [0] rfl rfl ChainT_sample1
    (by simp [sample1_targ])]
  rfl

theorem WF_sample2 : WF sample2 := by
  rw [sample2_eq]; exact WF_linkNew _ WF_sample1 _ _ _ _ rfl rfl

theorem ChainT_sample2 : ChainT sample2 (TSlot.touching_subsectors 7) [1, 0] := by
  rw [sample2_eq]
  have := ChainT_linkNew_head _ WF_sample1 (LSlot.lighthead (Target.subsector 1) false)
    (Target.subsector 1) 7 (TSlot.touching_subsectors 7) [0] rfl ChainT_sample1
  rw [sample1_nextFree] at this
  exact this

theorem sample2_targ0 : sample2.targ 0 = Target.subsector 0 := by
  rw [sample2_eq, linkNew_targ, sample1_nextFree, if_neg (by decide), sample1_targ]

theorem sample2_targ1 : sample2.targ 1 = Target.subsector 1 := by
  rw [sample2_eq, linkNew_targ, sample1_nextFree, if_pos rfl]

theorem linkAll_append (a : Bool) (L : Nat) : ∀ (cs ds : List Target) (h : Heap),
    linkAll a L (cs ++ ds) h = (linkAll a L cs h).bind (linkAll a L ds)
  | [], _, _ => rfl
  | c :: cs, ds, h => by
    simp only [List.cons_append, linkAll]
    cases AddLightNodeAssign (LSlot.lighthead c a) c L (chainOf L c) h with
    | none => rfl
    | some h1 => simp only [Option.some_bind]; exact linkAll_append a L cs ds h1

theorem Traced.refl (self : ADynamicLight) (w : World) : Traced self w w :=
  ⟨rfl, rfl, fun _ hi => hi, fun _ => Or.inl rfl, fun _ => Or.inl rfl, [], by simp, rfl⟩

theorem Traced.trans {self : ADynamicLight} {w1 w2 w3 : World} (h12 : Traced self w1 w2)
    (h23 : Traced self w2 w3) : Traced self w1 w3 := by
  obtain ⟨cs, hc1, hl1⟩ := h12.calls
  obtain ⟨ds, hc2, hl2⟩ := h23.calls
  refine ⟨h23.validcount.trans h12.validcount, h23.additive.trans h12.additive, ?_, ?_, ?_,
    cs ++ ds, ?_, ?_⟩
  · intro i hi
    have := h12.visited i hi
    rw [← h12.validcount] at this
    rw [h23.visited i this, h12.validcount]
  · intro i
    rcases h23.subStamp i with e | e
    · rw [e]; exact h12.subStamp i
    · rw [e]; exact Or.inr h12.validcount
  · intro i
    rcases h23.lineStamp i with e | e
    · rw [e]; exact h12.lineStamp i
    · rw [e]; exact Or.inr h12.validcount
  · rw [hc2, hc1, List.append_assoc]
  · rw [linkAll_append, hl1, Option.some_bind]
    rw [h12.additive] at hl2
    exact hl2

theorem Traced_link (self : ADynamicLight) (w w' : World) (t : Target)
    (hl : World.link w (self.additive || w.gl_lights_additive) t self.self = some w') :
    Traced self w w' := by
  unfold World.link at hl
  cases hA : AddLightNodeAssign (LSlot.lighthead t (self.additive || w.gl_lights_additive)) t
      self.self (chainOf self.self t) w.heap with
  | none => rw [hA] at hl; cases hl
  | some h1 =>
    rw [hA] at hl
    simp only [Option.map_some', Option.some.injEq] at hl
    subst hl
    exact ⟨rfl, rfl, fun _ hi => hi, fun _ => Or.inl rfl, fun _ => Or.inl rfl, [t], rfl,
      by simp [linkAll, hA]⟩

theorem Traced_stampLine (self : ADynamicLight) (w : World) (i : Nat) :
    Traced self w
      { w with line_validcount := Function.update w.line_validcount i w.validcount } := by
  refine ⟨rfl, rfl, fun _ hi => hi, fun _ => Or.inl rfl, ?_, [], by simp, rfl⟩
  intro j
  simp only [Function.update_apply]
  split
  · exact Or.inr rfl
  · exact Or.inl rfl

theorem Traced_stampSub (self : ADynamicLight) (w : World) (i : Nat) :
    Traced self w
      { w with sub_validcount := Function.update w.sub_validcount i w.validcount } := by
  refine ⟨rfl, rfl, ?_, ?_, fun _ => Or.inl rfl, [], by simp, rfl⟩
  · intro j hj
    simp only [Function.update_apply]
    split
    · rfl
    · exact hj
  · intro j
    simp only [Function.update_apply]
    split
    · exact Or.inr rfl
    · exact Or.inl rfl

theorem collectSide_traced (self : ADynamicLight) (pos : DVector3) (seg : seg_t)
    (w w' : World)
    (hs : collectSide self (self.additive || w.gl_lights_additive) pos seg w = some w') :
    Traced self w w' := by
  unfold collectSide at hs
  split at hs
  · split at hs
    · split at hs
      · exact (Traced_stampLine self w _).trans (Traced_link self _ w' _ hs)
      · cases hs; exact Traced.refl self w
    · cases hs; exact Traced.refl self w
  · cases hs; exact Traced.refl self w

theorem collectPortal_traced (lv : Level) (self : ADynamicLight)
    (recurse : DVector3 → Option Nat → ℚ → World → Option World)
    (hrec : ∀ pos sub r w w', recurse pos sub r w = some w' → Traced self w w')
    (seg : seg_t) (radius : ℚ) (w w' : World)
    (hs : collectPortal lv self recurse seg radius w = some w') : Traced self w w' := by
  unfold collectPortal at hs
  split at hs
  · cases hs; exact Traced.refl self w
  · split at hs
    · cases hs; exact Traced.refl self w
    · split at hs
      · simp only at hs
        split at hs
        · split at hs
          · exact hrec _ _ _ _ _ hs
          · cases hs; exact Traced.refl self w
        · cases hs; exact Traced.refl self w
      · cases hs; exact Traced.refl self w

theorem collectPartner_traced (lv : Level) (self : ADynamicLight)
    (recurse : DVector3 → Option Nat → ℚ → World → Option World)
    (hrec : ∀ pos sub r w w', recurse pos sub r w = some w' → Traced self w w')
    (pos : DVector3) (seg : seg_t) (radius : ℚ) (w w' : World)
    (hs : collectPartner lv recurse pos seg radius w = some w') : Traced self w w' := by
  unfold collectPartner at hs
  split at hs
  · cases hs; exact Traced.refl self w
  · split at hs
    · cases hs; exact Traced.refl self w
    · split at hs
      · exact hrec _ _ _ _ _ hs
      · cases hs; exact Traced.refl self w

theorem collectSeg_traced (lv : Level) (self : ADynamicLight)
    (recurse : DVector3 → Option Nat → ℚ → World → Option World)
    (hrec : ∀ pos sub r w w', recurse pos sub r w = some w' → Traced self w w')
    (pos : DVector3) (subSec : Nat) (radius : ℚ) (w w' : World) (i : Nat)
    (hs : collectSeg lv self (self.additive || w.gl_lights_additive) recurse pos subSec radius
      w i = some w') : Traced self w w' := by
  unfold collectSeg at hs
  simp only at hs
  split at hs
  · obtain ⟨w1, h1, hs⟩ := Option.bind_eq_some.1 hs
    obtain ⟨w2, h2, hs⟩ := Option.bind_eq_some.1 hs
    exact ((collectSide_traced self pos _ w w1 h1).trans
      (collectPortal_traced lv self recurse hrec _ radius w1 w2 h2)).trans
      (collectPartner_traced lv self recurse hrec pos _ radius w2 w' hs)
  · cases hs; exact Traced.refl self w

theorem foldlM_traced (self : ADynamicLight) (a : Bool) (f : World → Nat → Option World)
    (hf : ∀ i w w', (self.additive || w.gl_lights_additive) = a → f w i = some w' →
      Traced self w w') : ∀ (l : List Nat) (w w' : World),
    (self.additive || w.gl_lights_additive) = a → l.foldlM f w = some w' → Traced self w w'
  | [], w, w', _, hs => by
    simp only [List.foldlM_nil] at hs
    cases hs; exact Traced.refl self w
  | i :: l, w, w', ha, hs => by
    simp only [List.foldlM_cons] at hs
    obtain ⟨w1, h1, hs⟩ := Option.bind_eq_some.1 hs
    have t1 := hf i w w1 ha h1
    exact t1.trans (foldlM_traced self a f hf l w1 w' (by rw [t1.additive]; exact ha) hs)

theorem collectPlane_traced (lv : Level) (self : ADynamicLight)
    (recurse : DVector3 → Option Nat → ℚ → World → Option World)
    (hrec : ∀ pos sub r w w', recurse pos sub r w = some w' → Traced self w w')
    (plane : Plane) (subSec : Nat) (radius : ℚ) (w w' : World)
    (hs : collectPlane lv self recurse plane subSec radius w = some w') :
    Traced self w w' := by
  unfold collectPlane at hs
  simp only at hs
  split at hs
  · split at hs
    · cases hs
    · split at hs
      · split at hs
        · cases hs
        · split at hs
          · exact hrec _ _ _ _ _ hs
          · cases hs; exact Traced.refl self w
      · cases hs; exact Traced.refl self w
  · cases hs; exact Traced.refl self w

/-- Whatever the flood fill returns, it got there by stamping and by the logged calls
of `AddLightNode` alone. -/
theorem CollectWithinRadius_traced (lv : Level) (self : ADynamicLight) :
    ∀ (fuel : Nat) (pos : DVector3) (sub : Option Nat) (r : ℚ) (w w' : World),
    CollectWithinRadius lv self fuel pos sub r w = some w' → Traced self w w' := by
  intro fuel
  induction fuel with
  | zero =>
    intro pos sub r w w' hs
    cases sub with
    | none => simp only [CollectWithinRadius] at hs; cases hs; exact Traced.refl self w
    | some s => simp [CollectWithinRadius] at hs
  | succ fuel ih =>
    intro pos sub r w w' hs
    cases sub with
    | none => simp only [CollectWithinRadius] at hs; cases hs; exact Traced.refl self w
    | some s =>
      simp only [CollectWithinRadius] at hs
      obtain ⟨w2, h2, hs⟩ := Option.bind_eq_some.1 hs
      obtain ⟨w3, h3, hs⟩ := Option.bind_eq_some.1 hs
      obtain ⟨w4, h4, hs⟩ := Option.bind_eq_some.1 hs
      have t1 := Traced_stampSub self w s
      have t2 := Traced_link self _ w2 _ h2
      have t12 := t1.trans t2
      have t3 := foldlM_traced self (self.additive || w.gl_lights_additive) _
        (fun i u u' hu hf => by
          rw [← hu] at hf
          exact collectSeg_traced lv self _ ih pos s r u u' i hf) _ w2 w3
        (by rw [t12.additive]) h3
      have t4 := collectPlane_traced lv self _ ih _ s r w3 w4 h4
      have t5 := collectPlane_traced lv self _ ih _ s r w4 w' hs
      exact ((t12.trans t3).trans t4).trans t5

theorem unvisited_le (lv : Level) (w : World) : unvisited lv w ≤ lv.numsubsectors := by
  unfold unvisited
  exact (Finset.card_filter_le _ _).trans (by simp)

theorem Traced.unvisited_mono {light : ADynamicLight} {w w' : World} (lv : Level)
    (ht : Traced light w w') : unvisited lv w' ≤ unvisited lv w := by
  unfold unvisited
  apply Finset.card_le_card
  intro i hi
  simp only [Finset.mem_filter, Finset.mem_range] at hi ⊢
  refine ⟨hi.1, fun e => hi.2 ?_⟩
  rw [ht.visited i e, ht.validcount]

theorem unvisited_stamp_lt (lv : Level) (w : World) (s : Nat) (hs : s < lv.numsubsectors)
    (hne : w.sub_validcount s ≠ w.validcount) :
    unvisited lv (w.stamp s) < unvisited lv w := by
  unfold unvisited
  apply Finset.card_lt_card
  rw [Finset.ssubset_iff_of_subset]
  · refine ⟨s, ?_, ?_⟩
    · simp [hs, hne]
    · simp [World.stamp]
  · intro i hi
    simp only [Finset.mem_filter, Finset.mem_range, World.stamp, Function.update_apply] at hi ⊢
    refine ⟨hi.1, ?_⟩
    by_cases e : i = s
    · simp [e] at hi
    · simpa [e] using hi.2

theorem linkAll_WF (a : Bool) (L : Nat) : ∀ (cs : List Target) (h : Heap), WF h →
    ∃ h', linkAll a L cs h = some h' ∧ WF h'
  | [], h, hw => ⟨h, rfl, hw⟩
  | c :: cs, h, hw => by
    obtain ⟨h1, e1, hw1⟩ := AddLightNodeAssign_WF h hw (LSlot.lighthead c a) c L
      (chainOf L c) (chainOf_isHead L c) rfl
    obtain ⟨h2, e2, hw2⟩ := linkAll_WF a L cs h1 hw1
    exact ⟨h2, by simp only [linkAll, e1, Option.some_bind, e2], hw2⟩

theorem Traced.heap_WF {light : ADynamicLight} {w w' : World} (ht : Traced light w w')
    (hw : WF w.heap) : WF w'.heap := by
  obtain ⟨cs, _, hl⟩ := ht.calls
  obtain ⟨h', e, hw'⟩ := linkAll_WF _ light.self cs w.heap hw
  rw [hl] at e
  rw [Option.some.inj e]; exact hw'

theorem link_runs (w : World) (hw : WF w.heap) (a : Bool) (t : Target) (L : Nat) :
    ∃ w', World.link w a t L = some w' := by
  obtain ⟨h1, e1, _⟩ := AddLightNodeAssign_WF w.heap hw (LSlot.lighthead t a) t L
    (chainOf L t) (chainOf_isHead L t) rfl
  rw [World.link, e1]
  exact ⟨_, rfl⟩

theorem CollectWithinRadius_succ (lv : Level) (self : ADynamicLight) (fuel : Nat)
    (pos : DVector3) (sub : Nat) (r : ℚ) (w : World) :
    CollectWithinRadius lv self (fuel + 1) pos (some sub) r w =
      (World.link (w.stamp sub) (self.additive || w.gl_lights_additive)
        (Target.subsector sub) self.self).bind fun w2 =>
      ((List.range (lv.subsectors sub).numlines).foldlM
        (collectSeg lv self (self.additive || w.gl_lights_additive)
          (CollectWithinRadius lv self fuel) pos sub r) w2).bind fun w3 =>
      (collectPlane lv self (CollectWithinRadius lv self fuel) Plane.ceiling sub r w3).bind
        fun w4 =>
      collectPlane lv self (CollectWithinRadius lv self fuel) Plane.floor sub r w4 := by
  simp only [CollectWithinRadius, World.stamp]

theorem collectSide_runs (self : ADynamicLight) (a : Bool) (pos : DVector3) (seg : seg_t)
    (w : World) (hw : WF w.heap) : ∃ w', collectSide self a pos seg w = some w' := by
  unfold collectSide
  split
  · split
    · split
      · apply link_runs
        exact hw
      · exact ⟨w, rfl⟩
    · exact ⟨w, rfl⟩
  · exact ⟨w, rfl⟩

theorem collectPortal_runs (lv : Level) (hv : lv.Valid) (self : ADynamicLight) (fuel : Nat)
    (recurse : DVector3 → Option Nat → ℚ → World → Option World)
    (hrec : ∀ pos sub r w, WF w.heap → sub < lv.numsubsectors →
      unvisited lv (w.stamp sub) < fuel → ∃ w', recurse pos (some sub) r w = some w')
    (seg : seg_t) (radius : ℚ) (w : World) (hw : WF w.heap) (hu : unvisited lv w ≤ fuel) :
    ∃ w', collectPortal lv self recurse seg radius w = some w' := by
  unfold collectPortal
  split
  · exact ⟨w, rfl⟩
  · split
    · exact ⟨w, rfl⟩
    · split
      · simp only
        split
        · split
          · rename_i hne
            exact hrec _ _ _ w hw (hv.point _)
              (lt_of_lt_of_le (unvisited_stamp_lt lv w _ (hv.point _) hne) hu)
          · exact ⟨w, rfl⟩
        · exact ⟨w, rfl⟩
      · exact ⟨w, rfl⟩

theorem collectPartner_runs (lv : Level) (hv : lv.Valid) (fuel : Nat)
    (recurse : DVector3 → Option Nat → ℚ → World → Option World)
    (hrec : ∀ pos sub r w, WF w.heap → sub < lv.numsubsectors →
      unvisited lv (w.stamp sub) < fuel → ∃ w', recurse pos (some sub) r w = some w')
    (pos : DVector3) (seg : seg_t) (radius : ℚ) (w : World) (hw : WF w.heap)
    (hu : unvisited lv w ≤ fuel) :
    ∃ w', collectPartner lv recurse pos seg radius w = some w' := by
  unfold collectPartner
  split
  · exact ⟨w, rfl⟩
  · split
    · exact ⟨w, rfl⟩
    · split
      · rename_i partner sub hsub hne
        exact hrec _ _ _ w hw (hv.partner _ _ hsub)
          (lt_of_lt_of_le (unvisited_stamp_lt lv w _ (hv.partner _ _ hsub) hne) hu)
      · exact ⟨w, rfl⟩

theorem collectPlane_runs (lv : Level) (hv : lv.Valid) (self : ADynamicLight) (fuel : Nat)
    (recurse : DVector3 → Option Nat → ℚ → World → Option World)
    (hrec : ∀ pos sub r w, WF w.heap → sub < lv.numsubsectors →
      unvisited lv (w.stamp sub) < fuel → ∃ w', recurse pos (some sub) r w = some w')
    (plane : Plane) (subSec : Nat) (radius : ℚ) (w : World) (hw : WF w.heap)
    (hu : unvisited lv w ≤ fuel) :
    ∃ w', collectPlane lv self recurse plane subSec radius w = some w' := by
  unfold collectPlane
  simp only
  split
  · rename_i hb
    have hb' : (lv.sectors (lv.subsectors subSec).sector).PortalBlocksSight plane = false := by
      simpa using hb
    split
    · rename_i hsb
      exact absurd hsb (hv.skybox _ _ hb')
    · split
      · split
        · rename_i hother
          exact absurd hother (hv.firstline _ _ hb')
        · split
          · rename_i hne
            exact hrec _ _ _ w hw (hv.point _)
              (lt_of_lt_of_le (unvisited_stamp_lt lv w _ (hv.point _) hne) hu)
          · exact ⟨w, rfl⟩
      · exact ⟨w, rfl⟩
  · exact ⟨w, rfl⟩

theorem collectSeg_runs (lv : Level) (hv : lv.Valid) (self : ADynamicLight) (fuel : Nat)
    (recurse : DVector3 → Option Nat → ℚ → World → Option World)
    (hrec : ∀ pos sub r w, WF w.heap → sub < lv.numsubsectors →
      unvisited lv (w.stamp sub) < fuel → ∃ w', recurse pos (some sub) r w = some w')
    (hsound : ∀ pos sub r w w', recurse pos sub r w = some w' → Traced self w w')
    (pos : DVector3) (subSec : Nat) (radius : ℚ) (w : World) (i : Nat) (hw : WF w.heap)
    (hu : unvisited lv w ≤ fuel) :
    ∃ w', collectSeg lv self (self.additive || w.gl_lights_additive) recurse pos subSec
      radius w i = some w' := by
  unfold collectSeg
  simp only
  split
  · obtain ⟨w1, h1⟩ := collectSide_runs self (self.additive || w.gl_lights_additive) pos
      (lv.segs ((lv.subsectors subSec).firstline + i)) w hw
    have t1 := collectSide_traced self pos _ w w1 h1
    obtain ⟨w2, h2⟩ := collectPortal_runs lv hv self fuel recurse hrec
      (lv.segs ((lv.subsectors subSec).firstline + i)) radius w1 (t1.heap_WF hw)
      ((t1.unvisited_mono lv).trans hu)
    have t2 := collectPortal_traced lv self recurse hsound _ radius w1 w2 h2
    obtain ⟨w3, h3⟩ := collectPartner_runs lv hv fuel recurse hrec pos
      (lv.segs ((lv.subsectors subSec).firstline + i)) radius w2 (t2.heap_WF (t1.heap_WF hw))
      (((t2.unvisited_mono lv).trans (t1.unvisited_mono lv)).trans hu)
    exact ⟨w3, by simp only [h1, h2, h3, Option.some_bind]⟩
  · exact ⟨w, rfl⟩

theorem foldlM_runs (lv : Level) (self : ADynamicLight) (fuel : Nat) (a : Bool)
    (f : World → Nat → Option World)
    (hf : ∀ i w, WF w.heap → unvisited lv w ≤ fuel →
      (self.additive || w.gl_lights_additive) = a → ∃ w', f w i = some w')
    (hs : ∀ i w w', (self.additive || w.gl_lights_additive) = a → f w i = some w' →
      Traced self w w') : ∀ (l : List Nat) (w : World), WF w.heap → unvisited lv w ≤ fuel →
    (self.additive || w.gl_lights_additive) = a → ∃ w', l.foldlM f w = some w'
  | [], w, _, _, _ => ⟨w, rfl⟩
  | i :: l, w, hw, hu, ha => by
    obtain ⟨w1, h1⟩ := hf i w hw hu ha
    have t1 := hs i w w1 ha h1
    obtain ⟨w2, h2⟩ := foldlM_runs lv self fuel a f hf hs l w1 (t1.heap_WF hw)
      ((t1.unvisited_mono lv).trans hu) (by rw [t1.additive]; exact ha)
    exact ⟨w2, by simp only [List.foldlM_cons, h1]; exact h2⟩

/-- The flood fill returns as soon as the fuel exceeds the number of subsectors that
are unvisited once the entered one is stamped. -/
theorem CollectWithinRadius_runs (lv : Level) (hv : lv.Valid) (self : ADynamicLight) :
    ∀ (fuel : Nat) (pos : DVector3) (sub : Nat) (r : ℚ) (w : World), WF w.heap →
    sub < lv.numsubsectors → unvisited lv (w.stamp sub) < fuel →
    ∃ w', CollectWithinRadius lv self fuel pos (some sub) r w = some w' := by
  intro fuel
  induction fuel with
  | zero => intro pos sub r w _ _ hu; omega
  | succ fuel ih =>
    intro pos sub r w hw hsub hu
    have hsound := CollectWithinRadius_traced lv self fuel
    have hu1 : unvisited lv (w.stamp sub) ≤ fuel := by omega
    have hw1 : WF (w.stamp sub).heap := hw
    obtain ⟨w2, h2⟩ := link_runs (w.stamp sub) hw1 (self.additive || w.gl_lights_additive)
      (Target.subsector sub) self.self
    have t2 : Traced self (w.stamp sub) w2 := Traced_link self _ w2 _ h2
    obtain ⟨w3, h3⟩ := foldlM_runs lv self fuel (self.additive || w.gl_lights_additive)
      (collectSeg lv self (self.additive || w.gl_lights_additive)
        (CollectWithinRadius lv self fuel) pos sub r)
      (fun i u hwu huu hau => by
        have := collectSeg_runs lv hv self fuel _ ih hsound pos sub r u i hwu huu
        rw [hau] at this
        exact this)
      (fun i u u' hau hf => by
        rw [← hau] at hf
        exact collectSeg_traced lv self _ hsound pos sub r u u' i hf)
      (List.range (lv.subsectors sub).numlines) w2 (t2.heap_WF hw1)
      ((t2.unvisited_mono lv).trans hu1) (by rw [t2.additive]; rfl)
    have t3 : Traced self w2 w3 := foldlM_traced self (self.additive || w.gl_lights_additive) _
      (fun i u u' hau hf => by
        rw [← hau] at hf
        exact collectSeg_traced lv self _ hsound pos sub r u u' i hf) _ w2 w3
      (by rw [t2.additive]; rfl) h3
    have t23 := t2.trans t3
    obtain ⟨w4, h4⟩ := collectPlane_runs lv hv self fuel _ ih Plane.ceiling sub r w3
      (t23.heap_WF hw1) ((t23.unvisited_mono lv).trans hu1)
    have t4 := collectPlane_traced lv self _ hsound Plane.ceiling sub r w3 w4 h4
    have t234 := t23.trans t4
    obtain ⟨w5, h5⟩ := collectPlane_runs lv hv self fuel _ ih Plane.floor sub r w4
      (t234.heap_WF hw1) ((t234.unvisited_mono lv).trans hu1)
    refine ⟨w5, ?_⟩
    simp only [CollectWithinRadius_succ, h2, Option.some_bind, h3, h4, h5]

theorem find?_congr_mem {α : Type} (p q : α → Bool) : ∀ (l : List α),
    (∀ x ∈ l, p x = q x) → l.find? p = l.find? q
  | [], _ => rfl
  | a :: l, hpq => by
    have ha := hpq a (List.mem_cons_self _ _)
    have := find?_congr_mem p q l (fun x hx => hpq x (List.mem_cons_of_mem _ hx))
    simp only [List.find?, ha, this]

theorem find?_filter_of_some {α : Type} (p q : α → Bool) (x : α) : ∀ (l : List α),
    l.find? p = some x → q x = true → (l.filter q).find? p = some x
  | [], hf, _ => by cases hf
  | a :: l, hf, hq => by
    by_cases hpa : p a = true
    · simp only [List.find?, hpa] at hf
      have : a = x := Option.some.inj hf
      subst this
      simp [List.filter, hq, List.find?, hpa]
    · simp only [List.find?, hpa] at hf
      have ih := find?_filter_of_some p q x l hf hq
      by_cases hqa : q a = true
      · simp [List.filter, hqa, List.find?, hpa, ih]
      · simp [List.filter, hqa, ih]

theorem chainOf_eq_iff (L : Nat) (t t2 : Target) (ss bs : List Nat)
    (he : chainOf L t2 = chainOf L t) : chainList ss bs t2 = chainList ss bs t := by
  cases t <;> cases t2 <;> first | rfl | (simp [chainOf] at he)

theorem consChain_same (L : Nat) (t t2 : Target) (N : Nat) (ss bs : List Nat)
    (he : chainOf L t2 = chainOf L t) :
    chainList (consChain t N ss bs).1 (consChain t N ss bs).2 t2 = N :: chainList ss bs t2 := by
  cases t <;> cases t2 <;> first | rfl | (simp [chainOf] at he)

theorem consChain_other (L : Nat) (t t2 : Target) (N : Nat) (ss bs : List Nat)
    (he : chainOf L t2 ≠ chainOf L t) :
    chainList (consChain t N ss bs).1 (consChain t N ss bs).2 t2 = chainList ss bs t2 := by
  cases t <;> cases t2 <;> first | rfl | (simp [chainOf] at he)

theorem chain_of_lists (L : Nat) (h : Heap) (ss bs : List Nat)
    (h1 : ChainT h (TSlot.touching_sides L) ss)
    (h2 : ChainT h (TSlot.touching_subsectors L) bs) (t : Target) :
    ChainT h (chainOf L t) (chainList ss bs t) := by
  cases t
  · exact h1
  · exact h2

theorem Relink.chain {L : Nat} {h : Heap} {ss bs : List Nat} {calls : List Target}
    (hr : Relink L h ss bs calls) (t : Target) :
    ChainT h (chainOf L t) (chainList ss bs t) :=
  chain_of_lists L h ss bs hr.sides hr.subs t

theorem Relink.disjoint {L : Nat} {h : Heap} {ss bs : List Nat} {calls : List Target}
    (hr : Relink L h ss bs calls) : ∀ n ∈ ss, n ∉ bs := by
  intro n h1 h2
  have := ChainT_unique h hr.wf (TSlot.touching_sides L) (TSlot.touching_subsectors L) ss bs
    rfl rfl hr.sides hr.subs n h1 h2
  cases this

/-- One call of `AddLightNode` during the traversal keeps the relink invariant. -/
theorem Relink.step {L : Nat} {h : Heap} {ss bs : List Nat} {calls : List Target}
    (hr : Relink L h ss bs calls) (a : Bool) (t : Target) :
    ∃ ss' bs', Relink L (linkStep h a t L (chainList ss bs t)) ss' bs' (calls ++ [t]) ∧
      (∀ n ∈ ss, n ∈ ss') ∧ (∀ n ∈ bs, n ∈ bs') := by
  unfold linkStep
  cases hf : (chainList ss bs t).find? (fun m => decide (h.targ m = t)) with
  | some n =>
    have hn : n ∈ chainList ss bs t := List.mem_of_find?_eq_some hf
    have ht : h.targ n = t := by simpa using List.find?_some hf
    refine ⟨ss, bs, ⟨WF_mark h hr.wf n _, (ChainT_mark h n _ _ ss).2 hr.sides,
      (ChainT_mark h n _ _ bs).2 hr.subs, ?_, ?_, ?_, ?_⟩, fun _ hm => hm, fun _ hm => hm⟩
    · intro t2 m hm
      rw [mark_lightsource]
      split
      · exact Or.inr rfl
      · exact hr.marker t2 m hm
    · intro t2 m hm hl
      rw [mark_lightsource] at hl
      rw [mark_targ]
      by_cases e : m = n
      · subst e
        rw [ht]
        refine ⟨by simp, ?_⟩
        exact (ChainT_unique h hr.wf _ _ _ _ (chainOf_isHead L t2) (chainOf_isHead L t)
          (hr.chain t2) (hr.chain t) m hm hn).symm
      · rw [if_neg e] at hl
        obtain ⟨h1, h2⟩ := hr.called t2 m hm hl
        exact ⟨List.mem_append_left _ h1, h2⟩
    · intro t2 ht2
      rcases List.mem_append.1 ht2 with h1 | h1
      · obtain ⟨m, hm, hmt, hml⟩ := hr.linked t2 h1
        refine ⟨m, hm, hmt, ?_⟩
        rw [mark_lightsource]
        split
        · rfl
        · exact hml
      · have : t2 = t := by simpa using h1
        subst this
        exact ⟨n, hn, ht, by rw [mark_lightsource, if_pos rfl]⟩
    · intro t2 m hm hl
      rw [mark_lightsource] at hl
      simp only [mark_targ]
      by_cases e : m = n
      · subst e
        have he := ChainT_unique h hr.wf _ _ _ _ (chainOf_isHead L t2) (chainOf_isHead L t)
          (hr.chain t2) (hr.chain t) m hm hn
        rw [chainOf_eq_iff L t t2 ss bs he]
        have : (fun k => decide (h.targ k = h.targ m)) = (fun k => decide (h.targ k = t)) := by
          funext k; rw [ht]
        rw [this]
        exact hf
      · rw [if_neg e] at hl
        exact hr.first t2 m hm hl
  | none =>
    have hno : ∀ m ∈ chainList ss bs t, h.targ m ≠ t := by
      intro m hm
      simpa using List.find?_eq_none.1 hf m hm
    have hfr := hr.wf.fresh h.nextFree (le_refl _)
    have hnew : ∀ t2, ∀ m ∈ chainList ss bs t2, m ≠ h.nextFree := by
      intro t2 m hm e
      have := ChainT_alive h _ _ (hr.chain t2) m hm
      rw [e, hfr] at this; cases this
    have hchain : ∀ t2, ChainT (linkNew (LSlot.lighthead t a) t L (chainOf L t) h)
        (chainOf L t2)
        (chainList (consChain t h.nextFree ss bs).1 (consChain t h.nextFree ss bs).2 t2) := by
      intro t2
      by_cases he : chainOf L t2 = chainOf L t
      · rw [consChain_same L t t2 _ ss bs he, he, chainOf_eq_iff L t t2 ss bs he]
        exact ChainT_linkNew_head h hr.wf _ t L _ _
          (TSlot.isHead_okT h _ (chainOf_isHead L t)) (hr.chain t)
      · rw [consChain_other L t t2 _ ss bs he]
        refine ChainT_linkNew_frame h hr.wf _ t L _ _ _ he
          (TSlot.isHead_okT h _ (chainOf_isHead L t2)) ?_ (hr.chain t2)
        intro m _ e
        have := chainOf_isHead L t
        rw [← e] at this
        simp [TSlot.isHead] at this
    have hmem : ∀ t2 m, m ∈ chainList (consChain t h.nextFree ss bs).1
        (consChain t h.nextFree ss bs).2 t2 →
        (m = h.nextFree ∧ chainOf L t2 = chainOf L t) ∨ m ∈ chainList ss bs t2 := by
      intro t2 m hm
      by_cases he : chainOf L t2 = chainOf L t
      · rw [consChain_same L t t2 _ ss bs he] at hm
        rcases List.mem_cons.1 hm with e | e
        · exact Or.inl ⟨e, he⟩
        · exact Or.inr e
      · rw [consChain_other L t t2 _ ss bs he] at hm
        exact Or.inr hm
    have hsub : ∀ t2 m, m ∈ chainList ss bs t2 → m ∈ chainList (consChain t h.nextFree ss bs).1
        (consChain t h.nextFree ss bs).2 t2 := by
      intro t2 m hm
      by_cases he : chainOf L t2 = chainOf L t
      · rw [consChain_same L t t2 _ ss bs he]; exact List.mem_cons_of_mem _ hm
      · rw [consChain_other L t t2 _ ss bs he]; exact hm
    refine ⟨(consChain t h.nextFree ss bs).1, (consChain t h.nextFree ss bs).2,
      ⟨WF_linkNew h hr.wf _ t L _ (TSlot.isHead_okT h _ (chainOf_isHead L t)) rfl,
        hchain (Target.side 0), hchain (Target.subsector 0), ?_, ?_, ?_, ?_⟩,
      fun n hn => hsub (Target.side 0) n hn, fun n hn => hsub (Target.subsector 0) n hn⟩
    · intro t2 m hm
      rw [linkNew_lightsource]
      split
      · exact Or.inr rfl
      · rcases hmem t2 m hm with ⟨e, _⟩ | hm'
        · contradiction
        · exact hr.marker t2 m hm'
    · intro t2 m hm hl
      rw [linkNew_lightsource] at hl
      rw [linkNew_targ]
      rcases hmem t2 m hm with ⟨e, he⟩ | hm'
      · rw [if_pos e]
        exact ⟨by simp, he.symm⟩
      · have e := hnew t2 m hm'
        rw [if_neg e] at hl ⊢
        obtain ⟨h1, h2⟩ := hr.called t2 m hm' hl
        exact ⟨List.mem_append_left _ h1, h2⟩
    · intro t2 ht2
      rcases List.mem_append.1 ht2 with h1 | h1
      · obtain ⟨m, hm, hmt, hml⟩ := hr.linked t2 h1
        have e := hnew t2 m hm
        exact ⟨m, hsub t2 m hm, by rw [linkNew_targ, if_neg e]; exact hmt,
          by rw [linkNew_lightsource, if_neg e]; exact hml⟩
      · have : t2 = t := by simpa using h1
        subst this
        refine ⟨h.nextFree, ?_, by rw [linkNew_targ, if_pos rfl],
          by rw [linkNew_lightsource, if_pos rfl]⟩
        rw [consChain_same L t2 t2 _ ss bs rfl]
        exact List.mem_cons_self _ _
    · intro t2 m hm hl
      rw [linkNew_lightsource] at hl
      have hcongr : ∀ (x : Target), (chainList ss bs t2).find?
          (fun k => decide ((linkNew (LSlot.lighthead t a) t L (chainOf L t) h).targ k = x))
          = (chainList ss bs t2).find? (fun k => decide (h.targ k = x)) := by
        intro x
        apply find?_congr_mem
        intro k hk
        rw [linkNew_targ, if_neg (hnew t2 k hk)]
      by_cases he : chainOf L t2 = chainOf L t
      · rw [consChain_same L t t2 _ ss bs he]
        rcases hmem t2 m hm with ⟨e, _⟩ | hm'
        · subst e
          simp [List.find?]
        · have e := hnew t2 m hm'
          rw [if_neg e] at hl
          have hmt : h.targ m ≠ t := by
            rw [chainOf_eq_iff L t t2 ss bs he] at hm'
            exact hno m hm'
          have h1 : (linkNew (LSlot.lighthead t a) t L (chainOf L t) h).targ m = h.targ m := by
            rw [linkNew_targ, if_neg e]
          have h2 : (linkNew (LSlot.lighthead t a) t L (chainOf L t) h).targ h.nextFree = t := by
            rw [linkNew_targ, if_pos rfl]
          rw [List.find?, h1, h2]
          simp only [decide_eq_true_eq, hmt.symm, decide_False]
          rw [hcongr]
          exact hr.first t2 m hm' hl
      · rw [consChain_other L t t2 _ ss bs he] at hm ⊢
        have e := hnew t2 m hm
        rw [if_neg e] at hl
        rw [linkNew_targ, if_neg e, hcongr]
        exact hr.first t2 m hm hl

/-- The calls of a traversal keep the relink invariant; the chains only grow. -/
theorem Relink.linkAll_inv {L : Nat} (a : Bool) : ∀ (cs : List Target) (h : Heap)
    (ss bs : List Nat) (calls : List Target), Relink L h ss bs calls →
    ∃ h' ss' bs', linkAll a L cs h = some h' ∧ Relink L h' ss' bs' (calls ++ cs) ∧
      (∀ n ∈ ss, n ∈ ss') ∧ (∀ n ∈ bs, n ∈ bs')
  | [], h, ss, bs, calls, hr =>
    ⟨h, ss, bs, rfl, by simpa using hr, fun _ hn => hn, fun _ hn => hn⟩
  | c :: cs, h, ss, bs, calls, hr => by
    obtain ⟨ss1, bs1, hr1, hs1, hb1⟩ := hr.step a c
    obtain ⟨h2, ss2, bs2, e2, hr2, hs2, hb2⟩ := Relink.linkAll_inv a cs _ ss1 bs1 _ hr1
    refine ⟨h2, ss2, bs2, ?_, ?_, fun n hn => hs2 n (hs1 n hn), fun n hn => hb2 n (hb1 n hn)⟩
    · simp only [DynLight.linkAll,
        AddLightNodeAssign_linkStep h hr.wf a c L _ (hr.chain c), Option.some_bind]
      exact e2
    · simpa using hr2

theorem filter_not_mem_filter (l : List Nat) (p : Nat → Bool) :
    l.filter (fun n => decide (n ∉ l.filter p)) = l.filter (fun n => !p n) := by
  apply List.filter_congr
  intro x hx
  by_cases hp : p x = true
  · simp [hp, hx]
  · simp [hp]

theorem filter_disjoint (l d : List Nat) (hd : ∀ n ∈ l, n ∉ d) :
    l.filter (fun n => decide (n ∉ d)) = l := by
  rw [List.filter_eq_self]
  intro x hx
  simpa using hd x hx

theorem chainList_filter (ss bs : List Nat) (p : Nat → Bool) (t : Target) :
    chainList (ss.filter p) (bs.filter p) t = (chainList ss bs t).filter p := by
  cases t <;> rfl

theorem unlinkAll_append (h : Heap) (l1 l2 : List Nat) :
    unlinkAll h (l1 ++ l2) = unlinkAll (unlinkAll h l1) l2 := by
  simp [unlinkAll, List.foldl_append]

/-- What the two sweep loops do once the traversal is over. -/
theorem Relink.sweep {L : Nat} {h : Heap} {ss bs : List Nat} {calls : List Target}
    (hr : Relink L h ss bs calls) :
    sweepLoop (h.nextFree + 1) h (h.touching_sides L)
      = some (unlinkAll h (ss.filter (stale h))) ∧
    sweepLoop ((unlinkAll h (ss.filter (stale h))).nextFree + 1)
      (unlinkAll h (ss.filter (stale h)))
      ((unlinkAll h (ss.filter (stale h))).touching_subsectors L)
      = some (sweepHeap h ss bs) ∧
    Relink L (sweepHeap h ss bs) (ss.filter (fun n => !stale h n))
      (bs.filter (fun n => !stale h n)) calls ∧
    (∀ n ∈ ss.filter (fun n => !stale h n) ++ bs.filter (fun n => !stale h n),
      (sweepHeap h ss bs).lightsource n = some L) ∧
    (sweepHeap h ss bs).lightsource = h.lightsource ∧
    (sweepHeap h ss bs).targ = h.targ ∧
    (sweepHeap h ss bs).nextFree = h.nextFree ∧
    (∀ a, (sweepHeap h ss bs).alive a =
      if a ∈ ss.filter (stale h) ++ bs.filter (stale h) then false else h.alive a) := by
  have hdis := hr.disjoint
  have hnd1 : (ss.filter (stale h)).Nodup := (ChainT_nodup h ss _ hr.sides).filter _
  have hnd2 : (bs.filter (stale h)).Nodup := (ChainT_nodup h bs _ hr.subs).filter _
  have hal1 : ∀ n ∈ ss.filter (stale h), h.alive n = true := fun n hn =>
    ChainT_alive h ss _ hr.sides n (List.mem_of_mem_filter hn)
  have hw4 := WF_unlinkAll _ h hr.wf hnd1 hal1
  have hal2 : ∀ n ∈ bs.filter (stale h), (unlinkAll h (ss.filter (stale h))).alive n = true := by
    intro n hn
    have hb := List.mem_of_mem_filter hn
    rw [unlinkAll_alive, if_neg]
    · exact ChainT_alive h bs _ hr.subs n hb
    · intro h1
      exact hdis n (List.mem_of_mem_filter h1) hb
  -- the chains after the first loop
  have hs4 : ChainT (unlinkAll h (ss.filter (stale h))) (TSlot.touching_sides L)
      (ss.filter (fun n => !stale h n)) := by
    have := ChainT_unlinkAll _ h hr.wf hnd1 hal1 (TSlot.touching_sides L) ss rfl hr.sides
    rw [filter_not_mem_filter] at this
    exact this
  have hb4 : ChainT (unlinkAll h (ss.filter (stale h))) (TSlot.touching_subsectors L) bs := by
    have := ChainT_unlinkAll _ h hr.wf hnd1 hal1 (TSlot.touching_subsectors L) bs rfl hr.subs
    rw [filter_disjoint] at this
    · exact this
    · intro n hn h1
      exact hdis n (List.mem_of_mem_filter h1) hn
  -- the chains after the second loop
  have hs5 : ChainT (sweepHeap h ss bs) (TSlot.touching_sides L)
      (ss.filter (fun n => !stale h n)) := by
    have := ChainT_unlinkAll _ _ hw4 hnd2 hal2 (TSlot.touching_sides L) _ rfl hs4
    rw [filter_disjoint] at this
    · exact this
    · intro n hn h1
      exact hdis n (List.mem_of_mem_filter hn) (List.mem_of_mem_filter h1)
  have hb5 : ChainT (sweepHeap h ss bs) (TSlot.touching_subsectors L)
      (bs.filter (fun n => !stale h n)) := by
    have := ChainT_unlinkAll _ _ hw4 hnd2 hal2 (TSlot.touching_subsectors L) _ rfl hb4
    rw [filter_not_mem_filter] at this
    exact this
  have hls : (sweepHeap h ss bs).lightsource = h.lightsource := by
    simp [sweepHeap]
  have htg : (sweepHeap h ss bs).targ = h.targ := by
    simp [sweepHeap]
  have hkeep : ∀ t n, n ∈ chainList (ss.filter (fun n => !stale h n))
      (bs.filter (fun n => !stale h n)) t →
      n ∈ chainList ss bs t ∧ h.lightsource n ≠ none := by
    intro t n hn
    rw [chainList_filter] at hn
    have := List.mem_filter.1 hn
    exact ⟨this.1, by simpa [stale] using this.2⟩
  refine ⟨?_, ?_, ⟨WF_unlinkAll _ _ hw4 hnd2 hal2, hs5, hb5, ?_, ?_, ?_, ?_⟩, ?_, hls, htg,
    by simp [sweepHeap], ?_⟩
  · exact sweepLoop_chain ss h (TSlot.touching_sides L) _ hr.wf rfl hr.sides
      (Nat.lt_succ_of_le (ChainT_length h hr.wf ss _ hr.sides))
  · have := sweepLoop_chain bs _ (TSlot.touching_subsectors L)
      ((unlinkAll h (ss.filter (stale h))).nextFree + 1) hw4 rfl hb4
      (Nat.lt_succ_of_le (ChainT_length _ hw4 bs _ hb4))
    simp only [unlinkAll_lightsource] at this
    exact this
  · intro t n hn
    rw [hls]
    exact hr.marker t n (hkeep t n hn).1
  · intro t n hn hl
    rw [hls] at hl
    rw [htg]
    exact hr.called t n (hkeep t n hn).1 hl
  · intro t ht
    obtain ⟨n, hn, hnt, hnl⟩ := hr.linked t ht
    refine ⟨n, ?_, by rw [htg]; exact hnt, by rw [hls]; exact hnl⟩
    rw [chainList_filter]
    exact List.mem_filter.2 ⟨hn, by simp [stale, hnl]⟩
  · intro t n hn hl
    rw [hls] at hl
    rw [htg, chainList_filter]
    exact find?_filter_of_some _ _ n _ (hr.first t n (hkeep t n hn).1 hl)
      (by simp [stale, hl])
  · intro n hn
    rw [hls]
    have : ∃ t, n ∈ chainList (ss.filter (fun n => !stale h n))
        (bs.filter (fun n => !stale h n)) t := by
      rcases List.mem_append.1 hn with h1 | h1
      · exact ⟨Target.side 0, h1⟩
      · exact ⟨Target.subsector 0, h1⟩
    obtain ⟨t, ht⟩ := this
    rcases hr.marker t n (hkeep t n ht).1 with h1 | h1
    · exact absurd h1 (hkeep t n ht).2
    · exact h1
  · intro a
    rw [sweepHeap, ← unlinkAll_append, unlinkAll_alive]

theorem markedWorld_relink (L : Nat) (w : World) (hw : WF w.heap) (ss bs : List Nat)
    (hss : ChainT w.heap (TSlot.touching_sides L) ss)
    (hbs : ChainT w.heap (TSlot.touching_subsectors L) bs) :
    Relink L (markedWorld w ss bs).heap ss bs [] := by
  have hnone : ∀ t, ∀ n ∈ chainList ss bs t, (markedWorld w ss bs).heap.lightsource n = none := by
    intro t n hn
    show (markAll (markAll w.heap ss) bs).lightsource n = none
    rw [markAll_lightsource, markAll_lightsource]
    cases t with
    | side i =>
      have : n ∈ ss := hn
      simp [this]
    | subsector i =>
      have : n ∈ bs := hn
      simp [this]
  refine ⟨WF_markAll _ (WF_markAll _ hw ss) bs, ?_, ?_, ?_, ?_, ?_, ?_⟩
  · exact (ChainT_markAll _ bs _ _).2 ((ChainT_markAll _ ss _ _).2 hss)
  · exact (ChainT_markAll _ bs _ _).2 ((ChainT_markAll _ ss _ _).2 hbs)
  · intro t n hn; exact Or.inl (hnone t n hn)
  · intro t n hn hl; rw [hnone t n hn] at hl; cases hl
  · intro t ht; cases ht
  · intro t n hn hl; rw [hnone t n hn] at hl; cases hl

theorem markLoops_eq (L : Nat) (w : World) (hw : WF w.heap) (ss bs : List Nat)
    (hss : ChainT w.heap (TSlot.touching_sides L) ss)
    (hbs : ChainT w.heap (TSlot.touching_subsectors L) bs) :
    markLoop (w.heap.nextFree + 1) w.heap (w.heap.touching_sides L)
      = some (markAll w.heap ss) ∧
    markLoop ((markAll w.heap ss).nextFree + 1) (markAll w.heap ss)
      ((markAll w.heap ss).touching_subsectors L) = some (markAll (markAll w.heap ss) bs) := by
  constructor
  · exact markLoop_chain ss w.heap (TSlot.touching_sides L) _ hss
      (Nat.lt_succ_of_le (ChainT_length _ hw ss _ hss))
  · have hbs' : ChainT (markAll w.heap ss) (TSlot.touching_subsectors L) bs :=
      (ChainT_markAll _ ss _ _).2 hbs
    exact markLoop_chain bs (markAll w.heap ss) (TSlot.touching_subsectors L) _ hbs'
      (Nat.lt_succ_of_le (ChainT_length _ (WF_markAll _ hw ss) bs _ hbs'))

/-- The traversal step of `LinkLight` changes the world as a traced traversal does,
apart from the increment of `::validcount`. -/
theorem linkTraverse_traced (lv : Level) (self : ADynamicLight) (fuel : Nat) (w w3 : World)
    (ht : linkTraverse lv self fuel w = some w3) :
    w3.gl_lights_additive = w.gl_lights_additive ∧
    ∃ cs, w3.calls = w.calls ++ cs ∧
      linkAll (self.additive || w.gl_lights_additive) self.self cs w.heap = some w3.heap := by
  unfold linkTraverse at ht
  split at ht
  · have := CollectWithinRadius_traced lv self fuel _ _ _ _ w3 ht
    exact ⟨this.additive, this.calls⟩
  · cases ht
    exact ⟨rfl, [], by simp, rfl⟩

/-- The result of `LinkLight` in terms of the world `w3` its traversal step returns: the chains of the
light in `w3` satisfy the relink invariant for the calls made, and the result is `w3`
with the stale nodes deleted. -/
theorem LinkLight_of_traverse (lv : Level) (self : ADynamicLight) (fuel : Nat) (w w3 : World)
    (hw : WF w.heap) (ss bs : List Nat)
    (hss : ChainT w.heap (TSlot.touching_sides self.self) ss)
    (hbs : ChainT w.heap (TSlot.touching_subsectors self.self) bs)
    (ht : linkTraverse lv self fuel (markedWorld w ss bs) = some w3) :
    ∃ ss3 bs3, Relink self.self w3.heap ss3 bs3 w3.calls ∧
      (∀ n ∈ ss, n ∈ ss3) ∧ (∀ n ∈ bs, n ∈ bs3) ∧
      LinkLight lv self fuel w = some { w3 with heap := sweepHeap w3.heap ss3 bs3 } := by
  obtain ⟨_, cs, hcs, hl⟩ := linkTraverse_traced lv self fuel _ w3 ht
  obtain ⟨h', ss3, bs3, e, hr, h1, h2⟩ := Relink.linkAll_inv
    (self.additive || (markedWorld w ss bs).gl_lights_additive) cs _ ss bs []
    (markedWorld_relink self.self w hw ss bs hss hbs)
  rw [hl] at e
  have e' : w3.heap = h' := Option.some.inj e
  rw [← e'] at hr
  have hcalls : w3.calls = [] ++ cs := hcs
  rw [← hcalls] at hr
  refine ⟨ss3, bs3, hr, h1, h2, ?_⟩
  obtain ⟨m1, m2⟩ := markLoops_eq self.self w hw ss bs hss hbs
  obtain ⟨s1, s2, -⟩ := hr.sweep
  unfold LinkLight
  rw [m1, Option.some_bind, m2, Option.some_bind]
  have ht' : linkTraverse lv self fuel
      { w with heap := markAll (markAll w.heap ss) bs, calls := [] } = some w3 := ht
  rw [ht', Option.some_bind, s1, Option.some_bind, s2, Option.some_bind]

/-- The traversal step of `LinkLight` returns on a valid level once the fuel exceeds
the number of subsectors. -/
theorem linkTraverse_runs (lv : Level) (hv : lv.Valid) (self : ADynamicLight) (fuel : Nat)
    (w : World) (hw : WF w.heap) (hf : lv.numsubsectors < fuel) :
    ∃ w3, linkTraverse lv self fuel w = some w3 := by
  unfold linkTraverse
  split
  · apply CollectWithinRadius_runs lv hv self fuel
    · exact hw
    · exact hv.point _
    · exact lt_of_le_of_lt (unvisited_le lv _) hf
  · exact ⟨w, rfl⟩

/-- C3 (reuse path of `AddLightNode`).  If the light's chain passed as `nextnode`
already holds a node whose `targ` is `linkto`, then `AddLightNode` allocates nothing,
sets the `lightsource` of that node (the first such node `n` of the chain) to the light
and changes nothing else: the resulting heap is the old heap with only
`lightsource n` overwritten, so the allocator, the live set, every pointer field and
every head (in particular `*thread`) are untouched, and every per-light and per-target
chain is the same list as before. -/
theorem AddLightNode_reuse_path (h : Heap) (hw : WF h) (thread : LSlot) (linkto : Target)
    (light : Nat) (nextnode : TSlot) (l : List Nat)
    (hok : h.okT nextnode = true) (hc : ChainT h nextnode l)
    (hex : ∃ m ∈ l, h.targ m = linkto) :
    ∃ n ∈ l, ∃ h' : Heap, h.targ n = linkto ∧
      AddLightNode thread linkto light nextnode h = some (h', h.getT nextnode) ∧
      h' = { h with lightsource := Function.update h.lightsource n (some light) } ∧
      h'.lightsource n = some light ∧
      h'.nextFree = h.nextFree ∧ h'.alive = h.alive ∧
      ChainT h' nextnode l ∧ h'.getL thread = h.getL thread ∧
      (∀ s c, ChainT h' s c ↔ ChainT h s c) ∧ (∀ s c, ChainL h' s c ↔ ChainL h s c) ∧
      (∀ m, m ≠ n → h'.lightsource m = h.lightsource m) := by
  obtain ⟨m, hm, hmt⟩ := hex
  cases hf : l.find? (fun a => decide (h.targ a = linkto)) with
  | none =>
    have := List.find?_eq_none.1 hf m hm
    simp [hmt] at this
  | some n =>
    have hn := List.mem_of_find?_eq_some hf
    have ht : h.targ n = linkto := by simpa using List.find?_some hf
    refine ⟨n, hn, h.mark n (some light), ht,
      AddLightNode_reuse h hw thread linkto light nextnode l n hok hc hf, rfl, ?_, rfl, rfl,
      (ChainT_mark h n _ nextnode l).2 hc, mark_getL h n _ thread,
      fun s c => ChainT_mark h n _ s c, fun s c => ChainL_mark h n _ s c, ?_⟩
    · rw [mark_lightsource, if_pos rfl]
    · intro a ha
      rw [mark_lightsource, if_neg ha]

/-- C3, witness: light 7 is linked to subsector 0 and is linked to it again. -/
theorem AddLightNode_reuse_path_witness :
    ∃ n ∈ [0], ∃ h' : Heap, sample1.targ n = Target.subsector 0 ∧
      AddLightNode (LSlot.lighthead (Target.subsector 0) false) (Target.subsector 0) 7
        (TSlot.touching_subsectors 7) sample1
        = some (h', sample1.getT (TSlot.touching_subsectors 7)) ∧
      h' = { sample1 with
        lightsource := Function.update sample1.lightsource n (some 7) } ∧
      h'.lightsource n = some 7 ∧
      h'.nextFree = sample1.nextFree ∧ h'.alive = sample1.alive ∧
      ChainT h' (TSlot.touching_subsectors 7) [0] ∧
      h'.getL (LSlot.lighthead (Target.subsector 0) false)
        = sample1.getL (LSlot.lighthead (Target.subsector 0) false) ∧
      (∀ s c, ChainT h' s c ↔ ChainT sample1 s c) ∧
      (∀ s c, ChainL h' s c ↔ ChainL sample1 s c) ∧
      (∀ m, m ≠ n → h'.lightsource m = sample1.lightsource m) :=
  AddLightNode_reuse_path sample1 WF_sample1 (LSlot.lighthead (Target.subsector 0) false)
    (Target.subsector 0) 7 (TSlot.touching_subsectors 7) [0] rfl ChainT_sample1
    ⟨0, List.mem_cons_self _ _, sample1_targ⟩

/-- C4, counterexample: on the reuse path the returned pointer is the head of the
light's chain, not the node that links the light to `linkto`.  Light 7 has the chain
node 1 (subsector 1), node 0 (subsector 0); `AddLightNode` for subsector 0 returns
node 1, whose `targ` is subsector 1. -/
theorem AddLightNode_return_counterexample :
    ∃ (h' : Heap) (r : Nat), WF sample2 ∧
      AddLightNode (LSlot.lighthead (Target.subsector 0) false) (Target.subsector 0) 7
        (TSlot.touching_subsectors 7) sample2 = some (h', some r) ∧
      h'.targ r ≠ Target.subsector 0 := by
  refine ⟨sample2.mark 0 (some 7), 1, WF_sample2, ?_, ?_⟩
  · have := AddLightNode_reuse sample2 WF_sample2 (LSlot.lighthead (Target.subsector 0) false)
      (Target.subsector 0) 7 (TSlot.touching_subsectors 7) [1, 0] 0 rfl ChainT_sample2
      (by simp [List.find?, sample2_targ0, sample2_targ1])
    rw [this, ChainT_sample2.1]
    rfl
  · rw [mark_targ, sample2_targ1]; decide

/-- C4 (return value of `AddLightNode`, amended).  On a well-formed registry the call
returns.  On the creation path the returned pointer is the new node, whose `targ` is
`linkto`.  On the reuse path the returned pointer is the current head of the light's
chain (so that `head = AddLightNode(...)` leaves the head unchanged); the node that
links the light to `linkto` is a member of the chain and carries the marker. -/
theorem AddLightNode_return (h : Heap) (hw : WF h) (thread : LSlot) (linkto : Target)
    (light : Nat) (nextnode : TSlot) (l : List Nat)
    (hok : h.okT nextnode = true) (hokL : h.okL thread = true) (hc : ChainT h nextnode l) :
    ∃ (h' : Heap) (r : Option Nat),
      AddLightNode thread linkto light nextnode h = some (h', r) ∧
      ((∀ n ∈ l, h.targ n ≠ linkto) →
        r = some h.nextFree ∧ h.alive h.nextFree = false ∧
        h'.alive h.nextFree = true ∧ h'.targ h.nextFree = linkto) ∧
      ((∃ n ∈ l, h.targ n = linkto) →
        r = l.head? ∧ ∃ n ∈ l, h'.alive n = true ∧ h'.targ n = linkto ∧
          h'.lightsource n = some light) := by
  cases hf : l.find? (fun a => decide (h.targ a = linkto)) with
  | none =>
    refine ⟨_, _, AddLightNode_create h hw thread linkto light nextnode l hok hokL hc hf,
      ?_, ?_⟩
    · intro _
      refine ⟨rfl, hw.fresh _ (le_refl _), ?_, ?_⟩
      · rw [createNode_alive, Function.update_same]
      · rw [createNode_targ, Function.update_same]
    · rintro ⟨n, hn, ht⟩
      have := List.find?_eq_none.1 hf n hn
      simp [ht] at this
  | some n =>
    have hn := List.mem_of_find?_eq_some hf
    have ht : h.targ n = linkto := by simpa using List.find?_some hf
    refine ⟨_, _, AddLightNode_reuse h hw thread linkto light nextnode l n hok hc hf, ?_, ?_⟩
    · intro hall
      exact absurd ht (hall n hn)
    · intro _
      refine ⟨ChainT_head h nextnode l hc, n, hn, ChainT_alive h l nextnode hc n hn, ht, ?_⟩
      show (h.mark n (some light)).lightsource n = some light
      rw [mark_lightsource, if_pos rfl]

/-- C4, witness of the amended statement on the registry of the counterexample. -/
theorem AddLightNode_return_witness :
    ∃ (h' : Heap) (r : Option Nat),
      AddLightNode (LSlot.lighthead (Target.subsector 0) false) (Target.subsector 0) 7
        (TSlot.touching_subsectors 7) sample2 = some (h', r) ∧
      ((∀ n ∈ [1, 0], sample2.targ n ≠ Target.subsector 0) →
        r = some sample2.nextFree ∧ sample2.alive sample2.nextFree = false ∧
        h'.alive sample2.nextFree = true ∧ h'.targ sample2.nextFree = Target.subsector 0) ∧
      ((∃ n ∈ [1, 0], sample2.targ n = Target.subsector 0) →
        r = [1, 0].head? ∧ ∃ n ∈ [1, 0], h'.alive n = true ∧
          h'.targ n = Target.subsector 0 ∧ h'.lightsource n = some 7) :=
  AddLightNode_return sample2 WF_sample2 (LSlot.lighthead (Target.subsector 0) false)
    (Target.subsector 0) 7 (TSlot.touching_subsectors 7) [1, 0] rfl rfl ChainT_sample2

/-- C5 (creation path of `AddLightNode`).  If no node of the light's chain has `targ`
equal to `linkto`, then `head = AddLightNode(thread, linkto, light, head)` returns and
afterwards exactly one new node exists (the live set grew by the fresh address `N`
alone), with `targ = linkto` and `lightsource = light`; `N` is the first element of the
light's chain and of the target chain `*thread`, and the previous elements of both
chains follow it in their original order. -/
theorem AddLightNode_creation_path (h : Heap) (hw : WF h) (thread : LSlot)
    (linkto : Target) (light : Nat) (nextnode : TSlot) (l ms : List Nat)
    (hok : h.okT nextnode = true) (hokL : h.okL thread = true)
    (hc : ChainT h nextnode l) (hcL : ChainL h thread ms)
    (hno : ∀ n ∈ l, h.targ n ≠ linkto) :
    ∃ h' : Heap, AddLightNodeAssign thread linkto light nextnode h = some h' ∧
      h.alive h.nextFree = false ∧
      (∀ a, h'.alive a = true ↔ (a = h.nextFree ∨ h.alive a = true)) ∧
      h'.targ h.nextFree = linkto ∧ h'.lightsource h.nextFree = some light ∧
      (∀ a, a ≠ h.nextFree → h'.targ a = h.targ a ∧ h'.lightsource a = h.lightsource a) ∧
      h'.getT nextnode = some h.nextFree ∧ h'.getL thread = some h.nextFree ∧
      ChainT h' nextnode (h.nextFree :: l) ∧ ChainL h' thread (h.nextFree :: ms) := by
  have hf : l.find? (fun a => decide (h.targ a = linkto)) = none := by
    rw [List.find?_eq_none]
    intro n hn
    simpa using hno n hn
  refine ⟨_, AddLightNodeAssign_create h hw thread linkto light nextnode l hok hokL hc hf,
    hw.fresh _ (le_refl _), ?_, ?_, ?_, ?_, ?_, ?_,
    ChainT_linkNew_head h hw thread linkto light nextnode l hok hc,
    ChainL_linkNew_head h hw thread linkto light nextnode ms hokL hcL⟩
  · intro a
    rw [linkNew_alive]
    by_cases e : a = h.nextFree <;> simp [e]
  · rw [linkNew_targ, if_pos rfl]
  · rw [linkNew_lightsource, if_pos rfl]
  · intro a ha
    rw [linkNew_targ, linkNew_lightsource, if_neg ha, if_neg ha]
    exact ⟨rfl, rfl⟩
  · rw [linkNew_getT, if_pos rfl]
  · rw [linkNew_getL, if_pos rfl]

/-- C5, witness: light 7, already linked to subsector 0, is linked to subsector 1. -/
theorem AddLightNode_creation_path_witness :
    ∃ h' : Heap, AddLightNodeAssign (LSlot.lighthead (Target.subsector 1) false)
        (Target.subsector 1) 7 (TSlot.touching_subsectors 7) sample1 = some h' ∧
      sample1.alive sample1.nextFree = false ∧
      (∀ a, h'.alive a = true ↔ (a = sample1.nextFree ∨ sample1.alive a = true)) ∧
      h'.targ sample1.nextFree = Target.subsector 1 ∧
      h'.lightsource sample1.nextFree = some 7 ∧
      (∀ a, a ≠ sample1.nextFree →
        h'.targ a = sample1.targ a ∧ h'.lightsource a = sample1.lightsource a) ∧
      h'.getT (TSlot.touching_subsectors 7) = some sample1.nextFree ∧
      h'.getL (LSlot.lighthead (Target.subsector 1) false) = some sample1.nextFree ∧
      ChainT h' (TSlot.touching_subsectors 7) (sample1.nextFree :: [0]) ∧
      ChainL h' (LSlot.lighthead (Target.subsector 1) false) (sample1.nextFree :: []) :=
  AddLightNode_creation_path sample1 WF_sample1 (LSlot.lighthead (Target.subsector 1) false)
    (Target.subsector 1) 7 (TSlot.touching_subsectors 7) [0] [] rfl rfl ChainT_sample1
    (by rw [sample1_eq]; rfl)
    (by
      intro n hn
      rw [List.mem_singleton.1 hn, sample1_targ]
      decide)

/-- C6 (`DeleteLightNode`).  On a well-formed registry, for a node `n` that is a member
of the per-light chain at slot `s` and of the per-target chain at slot `t`, the call
returns the node that followed `n` in the light's chain (`nextTarget`, null if `n` was
last), removes exactly `n` from both chains and keeps the other nodes in their order;
when `n` was first the slot `s` (resp. `t`) itself now holds the successor.  Only `n`
is released and no other node changes its target or marker.
`DeleteLightNode(NULL)` returns null and changes nothing. -/
theorem DeleteLightNode_spec (h : Heap) (hw : WF h) (s : TSlot) (t : LSlot) (n : Nat)
    (xs ys us vs : List Nat) (hs : h.okT s = true) (ht : h.okL t = true)
    (hc : ChainT h s (xs ++ n :: ys)) (hcL : ChainL h t (us ++ n :: vs)) :
    DeleteLightNode h none = some (h, none) ∧
    ∃ h' : Heap, DeleteLightNode h (some n) = some (h', ys.head?) ∧
      h.nextTarget n = ys.head? ∧
      ChainT h' s (xs ++ ys) ∧ ChainL h' t (us ++ vs) ∧
      h'.getT s = (xs ++ ys).head? ∧ h'.getL t = (us ++ vs).head? ∧
      h'.alive n = false ∧ (∀ a, a ≠ n → h'.alive a = h.alive a) ∧
      h'.targ = h.targ ∧ h'.lightsource = h.lightsource := by
  have hn : h.alive n = true := ChainT_alive h _ s hc n (by simp)
  have hnext : h.nextTarget n = ys.head? := ChainT_head h _ ys (ChainT_suffix h xs s n ys hc)
  have hsn : s ≠ TSlot.nextTarget n := by
    intro e; rw [e] at hc
    exact ChainT_not_mem_self h n _ hc (by simp)
  have htn : t ≠ LSlot.nextLight n := by
    intro e; rw [e] at hcL
    exact ChainL_not_mem_self h n _ hcL (by simp)
  have hnx : n ∉ xs := by
    have := ChainT_nodup h _ s hc
    intro hx
    exact (List.disjoint_of_nodup_append this) hx (List.mem_cons_self _ _)
  have hnu : n ∉ us := by
    have := ChainL_nodup h _ t hcL
    intro hx
    exact (List.disjoint_of_nodup_append this) hx (List.mem_cons_self _ _)
  have h1 := ChainT_unlinkNode h hw n hn _ s hs hsn hc
  rw [List.erase_append_right _ hnx, List.erase_cons_head] at h1
  have h2 := ChainL_unlinkNode h hw n hn _ t ht htn hcL
  rw [List.erase_append_right _ hnu, List.erase_cons_head] at h2
  refine ⟨rfl, unlinkNode h n, ?_, hnext, h1, h2, ChainT_head _ _ _ h1, ChainL_head _ _ _ h2,
    ?_, ?_, unlinkNode_targ h n, unlinkNode_lightsource h n⟩
  · rw [DeleteLightNode_eq h hw n hn, hnext]
  · rw [unlinkNode_alive, if_pos rfl]
  · intro a ha
    rw [unlinkNode_alive, if_neg ha]

/-- C6, witness: the only node of light 7 (and of subsector 0) is deleted. -/
theorem DeleteLightNode_spec_witness :
    DeleteLightNode sample1 none = some (sample1, none) ∧
    ∃ h' : Heap, DeleteLightNode sample1 (some 0) = some (h', ([] : List Nat).head?) ∧
      sample1.nextTarget 0 = ([] : List Nat).head? ∧
      ChainT h' (TSlot.touching_subsectors 7) ([] ++ []) ∧
      ChainL h' (LSlot.lighthead (Target.subsector 0) false) ([] ++ []) ∧
      h'.getT (TSlot.touching_subsectors 7) = ([] ++ [] : List Nat).head? ∧
      h'.getL (LSlot.lighthead (Target.subsector 0) false) = ([] ++ [] : List Nat).head? ∧
      h'.alive 0 = false ∧ (∀ a, a ≠ 0 → h'.alive a = sample1.alive a) ∧
      h'.targ = sample1.targ ∧ h'.lightsource = sample1.lightsource :=
  DeleteLightNode_spec sample1 WF_sample1 (TSlot.touching_subsectors 7)
    (LSlot.lighthead (Target.subsector 0) false) 0 [] [] [] [] rfl rfl ChainT_sample1
    ChainL_sample1

/-- C7 (chain well-formedness is an invariant of the registry).  If the registry is
well formed (`WF`: the slot stored in every live node's `prevTarget` / `prevLight` holds
that node, every pointer held by a live slot is a live node whose predecessor slot is
that slot), then `head = AddLightNode(thread, target, light, head)` on a light's head
returns a well-formed registry, and so does `DeleteLightNode(n)` for every live node
`n`, whatever its position in its two chains. -/
theorem WF_preserved (h : Heap) (hw : WF h) :
    (∀ (thread : LSlot) (target : Target) (light : Nat) (head : TSlot),
      head.isHead = true → h.okL thread = true →
      ∃ h', AddLightNodeAssign thread target light head h = some h' ∧ WF h') ∧
    (∀ n, h.alive n = true →
      ∃ h' r, DeleteLightNode h (some n) = some (h', r) ∧ WF h' ∧ h'.alive n = false) := by
  refine ⟨fun thread target light head hh ht =>
    AddLightNodeAssign_WF h hw thread target light head hh ht, ?_⟩
  intro n hn
  refine ⟨_, _, DeleteLightNode_eq h hw n hn, WF_unlinkNode h hw n hn, ?_⟩
  rw [unlinkNode_alive, if_pos rfl]

/-- C7, witness: the registry in which light 7 is linked to subsectors 0 and 1. -/
theorem WF_preserved_witness :
    (∀ (thread : LSlot) (target : Target) (light : Nat) (head : TSlot),
      head.isHead = true → sample2.okL thread = true →
      ∃ h', AddLightNodeAssign thread target light head sample2 = some h' ∧ WF h') ∧
    (∀ n, sample2.alive n = true →
      ∃ h' r, DeleteLightNode sample2 (some n) = some (h', r) ∧ WF h' ∧
        h'.alive n = false) :=
  WF_preserved sample2 WF_sample2

/-- C9 (`DistToSeg` endpoint clamping).  For a segment with `v1 ≠ v2` the squared
length by which the projection parameter is divided is positive; if the projection
parameter of the point is below 0 the result is the squared horizontal distance to
`v1`, and if it is above 1 the result is the squared horizontal distance to `v2`. -/
theorem DistToSeg_clamp (pos : DVector3) (seg : seg_t) (hne : seg.v1 ≠ seg.v2) :
    0 < (seg.v2.X - seg.v1.X) * (seg.v2.X - seg.v1.X)
      + (seg.v2.Y - seg.v1.Y) * (seg.v2.Y - seg.v1.Y) ∧
    (projParam pos seg < 0 →
      DistToSeg pos seg = (pos.X - seg.v1.X) ^ 2 + (pos.Y - seg.v1.Y) ^ 2) ∧
    (1 < projParam pos seg →
      DistToSeg pos seg = (pos.X - seg.v2.X) ^ 2 + (pos.Y - seg.v2.Y) ^ 2) := by
  refine ⟨?_, ?_, ?_⟩
  · by_contra hc
    have h1 := mul_self_nonneg (seg.v2.X - seg.v1.X)
    have h2 := mul_self_nonneg (seg.v2.Y - seg.v1.Y)
    have hx : (seg.v2.X - seg.v1.X) * (seg.v2.X - seg.v1.X) = 0 := by linarith
    have hy : (seg.v2.Y - seg.v1.Y) * (seg.v2.Y - seg.v1.Y) = 0 := by linarith
    have ex : seg.v1.X = seg.v2.X := by
      have := mul_self_eq_zero.1 hx
      linarith
    have ey : seg.v1.Y = seg.v2.Y := by
      have := mul_self_eq_zero.1 hy
      linarith
    apply hne
    cases hv1 : seg.v1
    cases hv2 : seg.v2
    rw [hv1, hv2] at ex ey
    simp only at ex ey
    rw [ex, ey]
  · intro hu
    unfold projParam at hu
    simp only [DistToSeg, hu, if_true]
    ring
  · intro hu
    unfold projParam at hu
    have h0 : ¬ projParam pos seg < 0 := not_lt.2 (le_of_lt (lt_trans zero_lt_one hu))
    unfold projParam at h0
    simp only [DistToSeg, h0, if_false, gt_iff_lt, hu, if_true]
    ring

/-- C9, witness: segment (0,0)-(10,0) and point (15,5): the projection parameter is
3/2, the result is 50 (the squared distance to `v2`), not 25. -/
theorem DistToSeg_clamp_witness :
    sampleSeg.v1 ≠ sampleSeg.v2 ∧ (1 : ℚ) < projParam ⟨15, 5, 0⟩ sampleSeg ∧
      DistToSeg ⟨15, 5, 0⟩ sampleSeg = 50 := by
  have hne : sampleSeg.v1 ≠ sampleSeg.v2 := by decide
  have hu : (1 : ℚ) < projParam ⟨15, 5, 0⟩ sampleSeg := by
    norm_num [projParam, sampleSeg]
  refine ⟨hne, hu, ?_⟩
  rw [(DistToSeg_clamp ⟨15, 5, 0⟩ sampleSeg hne).2.2 hu]
  norm_num [sampleSeg]

theorem linkStep_old (h : Heap) (hw : WF h) (a : Bool) (t : Target) (L : Nat) (l : List Nat)
    (n : Nat) (hn : h.alive n = true) :
    (linkStep h a t L l).alive n = true ∧ (linkStep h a t L l).targ n = h.targ n := by
  have hne : n ≠ h.nextFree := by
    intro e; rw [e, hw.fresh _ (le_refl _)] at hn; cases hn
  unfold linkStep
  cases l.find? (fun m => decide (h.targ m = t)) with
  | some k => exact ⟨hn, rfl⟩
  | none =>
    simp only
    rw [linkNew_alive, linkNew_targ, if_neg hne, if_neg hne]
    exact ⟨hn, rfl⟩

/-- The calls of a traversal release no node and change no target. -/
theorem linkAll_old (a : Bool) (L : Nat) : ∀ (cs : List Target) (h h' : Heap), WF h →
    linkAll a L cs h = some h' → ∀ n, h.alive n = true →
    h'.alive n = true ∧ h'.targ n = h.targ n
  | [], h, h', _, e, n, hn => by
    simp only [linkAll, Option.some.injEq] at e
    subst e; exact ⟨hn, rfl⟩
  | c :: cs, h, h', hw, e, n, hn => by
    obtain ⟨l, hl⟩ := exists_ChainT h hw (chainOf L c) (chainOf_isHead L c)
    simp only [linkAll, AddLightNodeAssign_linkStep h hw a c L l hl, Option.some_bind] at e
    obtain ⟨h1, h2⟩ := linkStep_old h hw a c L l n hn
    obtain ⟨h3, h4⟩ := linkAll_old a L cs _ h' (WF_linkStep h hw a c L l) e n h1
    exact ⟨h3, h4.trans h2⟩

theorem sampleLevel_valid : sampleLevel.Valid := by
  refine ⟨?_, ?_, ?_, ?_⟩
  · intro p
    show (0 : Nat) < 2
    decide
  · intro k s hs; cases hs
  · intro k pl hb; cases hb
  · intro i pl hb; cases hb

/-- One call of `AddLightNode` for light `L` leaves the chain of any other head, and the
nodes in it, as they are. -/
theorem linkStep_frame (h : Heap) (hw : WF h) (a : Bool) (t : Target) (L : Nat)
    (l : List Nat) (hl : ChainT h (chainOf L t) l) (s : TSlot) (c : List Nat)
    (hs : s.isHead = true) (h1 : s ≠ TSlot.touching_sides L)
    (h2 : s ≠ TSlot.touching_subsectors L) (hc : ChainT h s c) :
    ChainT (linkStep h a t L l) s c ∧
    ∀ n ∈ c, (linkStep h a t L l).lightsource n = h.lightsource n ∧
      (linkStep h a t L l).targ n = h.targ n := by
  have hne : s ≠ chainOf L t := by
    cases t
    · exact h1
    · exact h2
  unfold linkStep
  cases hf : l.find? (fun m => decide (h.targ m = t)) with
  | some k =>
    have hk : k ∈ l := List.mem_of_find?_eq_some hf
    refine ⟨(ChainT_mark h k _ s c).2 hc, fun n hn => ⟨?_, rfl⟩⟩
    rw [mark_lightsource, if_neg]
    intro e
    subst e
    exact hne (ChainT_unique h hw s (chainOf L t) c l hs (chainOf_isHead L t) hc hl n hn hk)
  | none =>
    simp only
    refine ⟨ChainT_linkNew_frame h hw _ t L (chainOf L t) s c hne (TSlot.isHead_okT h s hs)
      (fun m _ e => by cases t <;> cases e) hc, fun n hn => ?_⟩
    have hna := ChainT_alive h c s hc n hn
    have hnf : n ≠ h.nextFree := by
      intro e
      rw [e, hw.fresh _ (le_refl _)] at hna
      cases hna
    rw [linkNew_lightsource, linkNew_targ, if_neg hnf, if_neg hnf]
    exact ⟨rfl, rfl⟩

/-- The calls of a traversal for light `L` leave the chain of any other head, and the
nodes in it, as they are. -/
theorem linkAll_frame (a : Bool) (L : Nat) : ∀ (cs : List Target) (h h' : Heap), WF h →
    linkAll a L cs h = some h' → ∀ (s : TSlot) (c : List Nat), s.isHead = true →
    s ≠ TSlot.touching_sides L → s ≠ TSlot.touching_subsectors L → ChainT h s c →
    ChainT h' s c ∧ ∀ n ∈ c, h'.lightsource n = h.lightsource n ∧ h'.targ n = h.targ n
  | [], h, h', _, e, s, c, _, _, _, hc => by
    simp only [linkAll, Option.some.injEq] at e
    subst e
    exact ⟨hc, fun n _ => ⟨rfl, rfl⟩⟩
  | t :: cs, h, h', hw, e, s, c, hs, h1, h2, hc => by
    obtain ⟨l, hl⟩ := exists_ChainT h hw (chainOf L t) (chainOf_isHead L t)
    simp only [linkAll, AddLightNodeAssign_linkStep h hw a t L l hl, Option.some_bind] at e
    obtain ⟨f1, f2⟩ := linkStep_frame h hw a t L l hl s c hs h1 h2 hc
    obtain ⟨g1, g2⟩ := linkAll_frame a L cs _ h' (WF_linkStep h hw a t L l) e s c hs h1 h2 f1
    refine ⟨g1, fun n hn => ?_⟩
    obtain ⟨p1, p2⟩ := f2 n hn
    obtain ⟨q1, q2⟩ := g2 n hn
    exact ⟨q1.trans p1, q2.trans p2⟩

/-- The sweep loops of a relink of light `L` leave the chain of any other head as it
is. -/
theorem Relink.sweep_frame {L : Nat} {h : Heap} {ss bs : List Nat} {calls : List Target}
    (hr : Relink L h ss bs calls) (s : TSlot) (c : List Nat) (hs : s.isHead = true)
    (h1 : s ≠ TSlot.touching_sides L) (h2 : s ≠ TSlot.touching_subsectors L)
    (hc : ChainT h s c) : ChainT (sweepHeap h ss bs) s c := by
  have hdis := hr.disjoint
  have hnd1 : (ss.filter (stale h)).Nodup := (ChainT_nodup h ss _ hr.sides).filter _
  have hnd2 : (bs.filter (stale h)).Nodup := (ChainT_nodup h bs _ hr.subs).filter _
  have hal1 : ∀ n ∈ ss.filter (stale h), h.alive n = true := fun n hn =>
    ChainT_alive h ss _ hr.sides n (List.mem_of_mem_filter hn)
  have hw4 := WF_unlinkAll _ h hr.wf hnd1 hal1
  have hal2 : ∀ n ∈ bs.filter (stale h), (unlinkAll h (ss.filter (stale h))).alive n = true := by
    intro n hn
    have hb := List.mem_of_mem_filter hn
    rw [unlinkAll_alive, if_neg]
    · exact ChainT_alive h bs _ hr.subs n hb
    · intro h3
      exact hdis n (List.mem_of_mem_filter h3) hb
  have d1 : ∀ n ∈ c, n ∉ ss.filter (stale h) := fun n hn hm =>
    h1 (ChainT_unique h hr.wf s _ c ss hs rfl hc hr.sides n hn (List.mem_of_mem_filter hm))
  have d2 : ∀ n ∈ c, n ∉ bs.filter (stale h) := fun n hn hm =>
    h2 (ChainT_unique h hr.wf s _ c bs hs rfl hc hr.subs n hn (List.mem_of_mem_filter hm))
  have c1 := ChainT_unlinkAll _ h hr.wf hnd1 hal1 s c hs hc
  rw [filter_disjoint c _ d1] at c1
  have c2 := ChainT_unlinkAll _ _ hw4 hnd2 hal2 s c hs c1
  rw [filter_disjoint c _ d2] at c2
  exact c2

/-- The two mark loops of a relink of light `L` leave the chain of any other head, and
the nodes in it, as they are. -/
theorem markAll_frame (L : Nat) (h : Heap) (hw : WF h) (ss bs : List Nat)
    (hss : ChainT h (TSlot.touching_sides L) ss)
    (hbs : ChainT h (TSlot.touching_subsectors L) bs) (s : TSlot) (c : List Nat)
    (hs : s.isHead = true) (h1 : s ≠ TSlot.touching_sides L)
    (h2 : s ≠ TSlot.touching_subsectors L) (hc : ChainT h s c) :
    ChainT (markAll (markAll h ss) bs) s c ∧
    ∀ n ∈ c, (markAll (markAll h ss) bs).lightsource n = h.lightsource n := by
  refine ⟨(ChainT_markAll _ bs _ _).2 ((ChainT_markAll _ ss _ _).2 hc), fun n hn => ?_⟩
  rw [markAll_lightsource, markAll_lightsource, if_neg, if_neg]
  · exact fun hm => h1 (ChainT_unique h hw s _ c ss hs rfl hc hss n hn hm)
  · exact fun hm => h2 (ChainT_unique h hw s _ c bs hs rfl hc hbs n hn hm)

/-- C1 (sweep completeness of `LinkLight`).  On a valid level and a well-formed
registry, with fuel above the number of subsectors, `LinkLight` returns.  With `ss`,
`bs` the light's two chains before and `ss'`, `bs'` after the call: the targets present
in the chains afterwards are exactly the targets for which the traversal of this call
invoked `AddLightNode` (the ghost list `calls`); every surviving node has its marker
equal to the light; every node of the old chains either survives or has been released
and is in no chain, of a light or of a target, any more; and an old node whose target
was not reconfirmed by the traversal does not survive.  The list `calls` is the one of
the traversal: `linkTraverse`, run on the registry in which the markers of `ss` and `bs`
are cleared, returns a world `w3` with that list, the registry of `w3` is the result of
the calls `AddLightNode` for the targets of the list in order, the stamps of the result
are those of `w3`, and an old node survives exactly if the traversal set its marker.
The chain of every other head, and the target and marker of the nodes in it, are as
before. -/
theorem LinkLight_sweep_complete (lv : Level) (hv : lv.Valid) (self : ADynamicLight)
    (fuel : Nat) (w : World) (hw : WF w.heap) (hf : lv.numsubsectors < fuel) :
    ∃ (w' : World) (ss bs ss' bs' : List Nat),
      LinkLight lv self fuel w = some w' ∧ WF w'.heap ∧
      ChainT w.heap (TSlot.touching_sides self.self) ss ∧
      ChainT w.heap (TSlot.touching_subsectors self.self) bs ∧
      ChainT w'.heap (TSlot.touching_sides self.self) ss' ∧
      ChainT w'.heap (TSlot.touching_subsectors self.self) bs' ∧
      (∀ t, (∃ n ∈ ss' ++ bs', w'.heap.targ n = t) ↔ t ∈ w'.calls) ∧
      (∀ n ∈ ss' ++ bs', w'.heap.lightsource n = some self.self) ∧
      (∀ n ∈ ss ++ bs, n ∈ ss' ++ bs' ∨
        (w'.heap.alive n = false ∧ (∀ s c, ChainT w'.heap s c → n ∉ c) ∧
          (∀ s c, ChainL w'.heap s c → n ∉ c) ∧
          (∀ s, w'.heap.okT s = true → w'.heap.getT s ≠ some n) ∧
          (∀ s, w'.heap.okL s = true → w'.heap.getL s ≠ some n))) ∧
      (∀ n ∈ ss ++ bs, w.heap.targ n ∉ w'.calls →
        n ∉ ss' ++ bs' ∧ w'.heap.alive n = false) ∧
      (∃ w3 : World, linkTraverse lv self fuel (markedWorld w ss bs) = some w3 ∧
        w'.calls = w3.calls ∧
        linkAll (self.additive || w.gl_lights_additive) self.self w3.calls
          (markedWorld w ss bs).heap = some w3.heap ∧
        w'.validcount = w3.validcount ∧ w'.sub_validcount = w3.sub_validcount ∧
        w'.line_validcount = w3.line_validcount ∧
        (∀ n ∈ ss ++ bs, n ∈ ss' ++ bs' ↔ w3.heap.lightsource n = some self.self)) ∧
      (∀ s c, s.isHead = true → s ≠ TSlot.touching_sides self.self →
        s ≠ TSlot.touching_subsectors self.self → ChainT w.heap s c →
        ChainT w'.heap s c ∧
        ∀ n ∈ c, w'.heap.lightsource n = w.heap.lightsource n ∧
          w'.heap.targ n = w.heap.targ n) := by
  obtain ⟨ss, hss⟩ := exists_ChainT w.heap hw (TSlot.touching_sides self.self) rfl
  obtain ⟨bs, hbs⟩ := exists_ChainT w.heap hw (TSlot.touching_subsectors self.self) rfl
  have hwm : WF (markedWorld w ss bs).heap := WF_markAll _ (WF_markAll _ hw ss) bs
  obtain ⟨w3, ht⟩ := linkTraverse_runs lv hv self fuel (markedWorld w ss bs) hwm hf
  obtain ⟨ss3, bs3, hr, hs3, hb3, hL⟩ :=
    LinkLight_of_traverse lv self fuel w w3 hw ss bs hss hbs ht
  obtain ⟨-, -, hr5, hmk, hls, htg, -, hal⟩ := hr.sweep
  obtain ⟨-, cs, hcs, hl⟩ := linkTraverse_traced lv self fuel _ w3 ht
  have hcs' : w3.calls = cs := by
    rw [hcs]
    exact List.nil_append cs
  -- facts about the nodes of the old chains
  have hold : ∀ n ∈ ss ++ bs, w3.heap.alive n = true ∧ w3.heap.targ n = w.heap.targ n ∧
      n ∈ ss3 ++ bs3 := by
    intro n hn
    have hna : w.heap.alive n = true := by
      rcases List.mem_append.1 hn with h1 | h1
      · exact ChainT_alive _ _ _ hss n h1
      · exact ChainT_alive _ _ _ hbs n h1
    have := linkAll_old _ _ cs _ _ hwm hl n (by simpa [markedWorld] using hna)
    refine ⟨this.1, by simpa [markedWorld] using this.2, ?_⟩
    rcases List.mem_append.1 hn with h1 | h1
    · exact List.mem_append_left _ (hs3 n h1)
    · exact List.mem_append_right _ (hb3 n h1)
  have hsurv : ∀ n ∈ ss3 ++ bs3, stale w3.heap n = false →
      n ∈ ss3.filter (fun n => !stale w3.heap n) ++ bs3.filter (fun n => !stale w3.heap n) := by
    intro n hn hst
    rcases List.mem_append.1 hn with h1 | h1
    · exact List.mem_append_left _ (List.mem_filter.2 ⟨h1, by simp [hst]⟩)
    · exact List.mem_append_right _ (List.mem_filter.2 ⟨h1, by simp [hst]⟩)
  have hdead : ∀ n ∈ ss3 ++ bs3, stale w3.heap n = true →
      (sweepHeap w3.heap ss3 bs3).alive n = false := by
    intro n hn hst
    rw [hal, if_pos]
    rcases List.mem_append.1 hn with h1 | h1
    · exact List.mem_append_left _ (List.mem_filter.2 ⟨h1, hst⟩)
    · exact List.mem_append_right _ (List.mem_filter.2 ⟨h1, hst⟩)
  have htarg : ∀ n ∈ ss3.filter (fun n => !stale w3.heap n)
      ++ bs3.filter (fun n => !stale w3.heap n), w3.heap.targ n ∈ w3.calls := by
    intro n hn
    have hl' := hmk n hn
    rw [htg.symm]
    rcases List.mem_append.1 hn with h1 | h1
    · exact (hr5.called (Target.side 0) n h1 hl').1
    · exact (hr5.called (Target.subsector 0) n h1 hl').1
  refine ⟨_, ss, bs, _, _, hL, hr5.wf, hss, hbs, hr5.sides, hr5.subs, ?_, hmk, ?_, ?_,
    ⟨w3, ht, rfl, ?_, rfl, rfl, rfl, ?_⟩, ?_⟩
  · intro t
    constructor
    · rintro ⟨n, hn, rfl⟩
      show (sweepHeap w3.heap ss3 bs3).targ n ∈ w3.calls
      rw [htg]
      exact htarg n hn
    · intro ht'
      obtain ⟨n, hn, hnt, -⟩ := hr5.linked t ht'
      refine ⟨n, ?_, hnt⟩
      cases t with
      | side i => exact List.mem_append_left _ hn
      | subsector i => exact List.mem_append_right _ hn
  · intro n hn
    obtain ⟨-, -, h3⟩ := hold n hn
    cases hst : stale w3.heap n with
    | false => exact Or.inl (hsurv n h3 hst)
    | true =>
      have hd := hdead n h3 hst
      refine Or.inr ⟨hd, ?_, ?_, ?_, ?_⟩
      · intro s c hc hm
        have := ChainT_alive _ c s hc n hm
        rw [hd] at this; cases this
      · intro s c hc hm
        have := ChainL_alive _ c s hc n hm
        rw [hd] at this; cases this
      · intro s hs hg
        have := (hr5.wf.fwdT s n hs hg).1
        rw [hd] at this; cases this
      · intro s hs hg
        have := (hr5.wf.fwdL s n hs hg).1
        rw [hd] at this; cases this
  · intro n hn hnc
    obtain ⟨-, h2, h3⟩ := hold n hn
    have hnot : n ∉ ss3.filter (fun n => !stale w3.heap n)
        ++ bs3.filter (fun n => !stale w3.heap n) := by
      intro hm
      have := htarg n hm
      rw [h2] at this
      exact hnc this
    refine ⟨hnot, ?_⟩
    cases hst : stale w3.heap n with
    | false => exact absurd (hsurv n h3 hst) hnot
    | true => exact hdead n h3 hst
  · rw [hcs']
    exact hl
  · intro n hn
    obtain ⟨-, -, h3⟩ := hold n hn
    constructor
    · intro hm
      have := hmk n hm
      rw [hls] at this
      exact this
    · intro hm
      exact hsurv n h3 (by simp [stale, hm])
  · intro s c hs h1 h2 hc
    obtain ⟨m1, m2⟩ := markAll_frame self.self w.heap hw ss bs hss hbs s c hs h1 h2 hc
    obtain ⟨l1, l2⟩ := linkAll_frame _ self.self cs _ _ hwm hl s c hs h1 h2 m1
    refine ⟨hr.sweep_frame s c hs h1 h2 l1, fun n hn => ?_⟩
    obtain ⟨p1, p2⟩ := l2 n hn
    constructor
    · show (sweepHeap w3.heap ss3 bs3).lightsource n = _
      rw [hls, p1]
      exact m2 n hn
    · show (sweepHeap w3.heap ss3 bs3).targ n = _
      rw [htg, p2]
      simp [markedWorld]

/-- C1, witness: light 7, linked to subsectors 0 and 1, is relinked in a level where
its flood fill reaches subsector 0 only. -/
theorem LinkLight_sweep_complete_witness :
    ∃ (w' : World) (ss bs ss' bs' : List Nat),
      LinkLight sampleLevel sampleLight 3 sampleWorld = some w' ∧ WF w'.heap ∧
      ChainT sampleWorld.heap (TSlot.touching_sides sampleLight.self) ss ∧
      ChainT sampleWorld.heap (TSlot.touching_subsectors sampleLight.self) bs ∧
      ChainT w'.heap (TSlot.touching_sides sampleLight.self) ss' ∧
      ChainT w'.heap (TSlot.touching_subsectors sampleLight.self) bs' ∧
      (∀ t, (∃ n ∈ ss' ++ bs', w'.heap.targ n = t) ↔ t ∈ w'.calls) ∧
      (∀ n ∈ ss' ++ bs', w'.heap.lightsource n = some sampleLight.self) ∧
      (∀ n ∈ ss ++ bs, n ∈ ss' ++ bs' ∨
        (w'.heap.alive n = false ∧ (∀ s c, ChainT w'.heap s c → n ∉ c) ∧
          (∀ s c, ChainL w'.heap s c → n ∉ c) ∧
          (∀ s, w'.heap.okT s = true → w'.heap.getT s ≠ some n) ∧
          (∀ s, w'.heap.okL s = true → w'.heap.getL s ≠ some n))) ∧
      (∀ n ∈ ss ++ bs, sampleWorld.heap.targ n ∉ w'.calls →
        n ∉ ss' ++ bs' ∧ w'.heap.alive n = false) ∧
      (∃ w3 : World, linkTraverse sampleLevel sampleLight 3 (markedWorld sampleWorld ss bs)
          = some w3 ∧
        w'.calls = w3.calls ∧
        linkAll (sampleLight.additive || sampleWorld.gl_lights_additive) sampleLight.self
          w3.calls (markedWorld sampleWorld ss bs).heap = some w3.heap ∧
        w'.validcount = w3.validcount ∧ w'.sub_validcount = w3.sub_validcount ∧
        w'.line_validcount = w3.line_validcount ∧
        (∀ n ∈ ss ++ bs, n ∈ ss' ++ bs' ↔ w3.heap.lightsource n = some sampleLight.self)) ∧
      (∀ s c, s.isHead = true → s ≠ TSlot.touching_sides sampleLight.self →
        s ≠ TSlot.touching_subsectors sampleLight.self → ChainT sampleWorld.heap s c →
        ChainT w'.heap s c ∧
        ∀ n ∈ c, w'.heap.lightsource n = sampleWorld.heap.lightsource n ∧
          w'.heap.targ n = sampleWorld.heap.targ n) :=
  LinkLight_sweep_complete sampleLevel sampleLevel_valid sampleLight 3 sampleWorld WF_sample2
    (by decide)

/-- C10 (non-positive link radius).  If the light's link radius is `<= 0`, `LinkLight`
returns for every fuel; it performs no traversal (no call of `AddLightNode` is logged,
`::validcount` and every stamp keep their value, no address is handed out and no node
comes to life) and still sweeps: afterwards both chains of the light are empty, and
every node that was in them has been released and is a member of no target chain. -/
theorem LinkLight_nonpositive_radius (lv : Level) (self : ADynamicLight) (fuel : Nat)
    (w : World) (hw : WF w.heap) (hrad : self.radius ≤ 0) :
    ∃ (w' : World) (ss bs : List Nat),
      LinkLight lv self fuel w = some w' ∧ WF w'.heap ∧
      ChainT w.heap (TSlot.touching_sides self.self) ss ∧
      ChainT w.heap (TSlot.touching_subsectors self.self) bs ∧
      w'.calls = [] ∧ w'.validcount = w.validcount ∧
      w'.sub_validcount = w.sub_validcount ∧ w'.line_validcount = w.line_validcount ∧
      w'.heap.nextFree = w.heap.nextFree ∧
      (∀ a, w'.heap.alive a = true → w.heap.alive a = true) ∧
      w'.heap.touching_sides self.self = none ∧
      w'.heap.touching_subsectors self.self = none ∧
      (∀ n ∈ ss ++ bs, w'.heap.alive n = false ∧ (∀ s c, ChainL w'.heap s c → n ∉ c)) := by
  obtain ⟨ss, hss⟩ := exists_ChainT w.heap hw (TSlot.touching_sides self.self) rfl
  obtain ⟨bs, hbs⟩ := exists_ChainT w.heap hw (TSlot.touching_subsectors self.self) rfl
  have ht : linkTraverse lv self fuel (markedWorld w ss bs) = some (markedWorld w ss bs) := by
    unfold linkTraverse
    rw [if_neg (not_lt.2 hrad)]
  obtain ⟨ss3, bs3, hr, -, -, hL⟩ :=
    LinkLight_of_traverse lv self fuel w _ hw ss bs hss hbs ht
  have hr0 := markedWorld_relink self.self w hw ss bs hss hbs
  have e1 : ss3 = ss := ChainT_det _ _ _ _ hr.sides hr0.sides
  have e2 : bs3 = bs := ChainT_det _ _ _ _ hr.subs hr0.subs
  subst e1 e2
  obtain ⟨-, -, hr5, -, -, -, hnf, hal⟩ := hr.sweep
  have hst : ∀ n ∈ ss3 ++ bs3, stale (markedWorld w ss3 bs3).heap n = true := by
    intro n hn
    have : (markAll (markAll w.heap ss3) bs3).lightsource n = none := by
      rw [markAll_lightsource, markAll_lightsource]
      rcases List.mem_append.1 hn with h1 | h1 <;> simp [h1]
    simpa [stale, markedWorld] using this
  have hf1 : ss3.filter (fun n => !stale (markedWorld w ss3 bs3).heap n) = [] := by
    rw [List.filter_eq_nil_iff]
    intro n hn
    simp [hst n (List.mem_append_left _ hn)]
  have hf2 : bs3.filter (fun n => !stale (markedWorld w ss3 bs3).heap n) = [] := by
    rw [List.filter_eq_nil_iff]
    intro n hn
    simp [hst n (List.mem_append_right _ hn)]
  have hs5 := hr5.sides
  have hb5 := hr5.subs
  rw [hf1] at hs5
  rw [hf2] at hb5
  have hdead : ∀ n ∈ ss3 ++ bs3,
      (sweepHeap (markedWorld w ss3 bs3).heap ss3 bs3).alive n = false := by
    intro n hn
    rw [hal, if_pos]
    rcases List.mem_append.1 hn with h1 | h1
    · exact List.mem_append_left _
        (List.mem_filter.2 ⟨h1, hst n (List.mem_append_left _ h1)⟩)
    · exact List.mem_append_right _
        (List.mem_filter.2 ⟨h1, hst n (List.mem_append_right _ h1)⟩)
  refine ⟨_, ss3, bs3, hL, hr5.wf, hss, hbs, rfl, rfl, rfl, rfl, ?_, ?_, hs5, hb5, ?_⟩
  · show (sweepHeap (markedWorld w ss3 bs3).heap ss3 bs3).nextFree = w.heap.nextFree
    rw [hnf]
    simp [markedWorld]
  · intro a ha
    have : (sweepHeap (markedWorld w ss3 bs3).heap ss3 bs3).alive a = true := ha
    rw [hal] at this
    split at this
    · cases this
    · simpa [markedWorld] using this
  · intro n hn
    refine ⟨hdead n hn, ?_⟩
    intro s c hc hm
    have := ChainL_alive _ c s hc n hm
    have hd : (sweepHeap (markedWorld w ss3 bs3).heap ss3 bs3).alive n = false := hdead n hn
    rw [hd] at this
    cases this

/-- C10, witness: light 7, linked to subsectors 0 and 1, has link radius 0. -/
theorem LinkLight_nonpositive_radius_witness :
    ∃ (w' : World) (ss bs : List Nat),
      LinkLight sampleLevel darkLight 0 sampleWorld = some w' ∧ WF w'.heap ∧
      ChainT sampleWorld.heap (TSlot.touching_sides darkLight.self) ss ∧
      ChainT sampleWorld.heap (TSlot.touching_subsectors darkLight.self) bs ∧
      w'.calls = [] ∧ w'.validcount = sampleWorld.validcount ∧
      w'.sub_validcount = sampleWorld.sub_validcount ∧
      w'.line_validcount = sampleWorld.line_validcount ∧
      w'.heap.nextFree = sampleWorld.heap.nextFree ∧
      (∀ a, w'.heap.alive a = true → sampleWorld.heap.alive a = true) ∧
      w'.heap.touching_sides darkLight.self = none ∧
      w'.heap.touching_subsectors darkLight.self = none ∧
      (∀ n ∈ ss ++ bs, w'.heap.alive n = false ∧ (∀ s c, ChainL w'.heap s c → n ∉ c)) :=
  LinkLight_nonpositive_radius sampleLevel darkLight 0 sampleWorld WF_sample2 (by decide)

theorem SameVisit_link (w1 w2 w1' w2' : World) (a1 a2 : Bool) (t : Target) (L : Nat)
    (h1 : World.link w1 a1 t L = some w1') (h2 : World.link w2 a2 t L = some w2')
    (hs : SameVisit w1 w2) : SameVisit w1' w2' := by
  unfold World.link at h1 h2
  obtain ⟨g1, -, e1⟩ := Option.map_eq_some'.1 h1
  obtain ⟨g2, -, e2⟩ := Option.map_eq_some'.1 h2
  subst e1 e2
  exact ⟨hs.sub, hs.line, hs.additive, by simp [hs.calls]⟩

theorem SameVisit_stampSub (w1 w2 : World) (s : Nat) (hs : SameVisit w1 w2) :
    SameVisit (w1.stamp s) (w2.stamp s) := by
  refine ⟨?_, hs.line, hs.additive, hs.calls⟩
  intro i
  simp only [World.stamp, Function.update_apply]
  by_cases e : i = s
  · simp [e]
  · simp only [e, if_false]; exact hs.sub i

theorem SameVisit_stampLine (w1 w2 : World) (l : Nat) (hs : SameVisit w1 w2) :
    SameVisit
      { w1 with line_validcount := Function.update w1.line_validcount l w1.validcount }
      { w2 with line_validcount := Function.update w2.line_validcount l w2.validcount } := by
  refine ⟨hs.sub, ?_, hs.additive, hs.calls⟩
  intro i
  simp only [Function.update_apply]
  by_cases e : i = l
  · simp [e]
  · simp only [e, if_false]; exact hs.line i

theorem collectSide_sim (self : ADynamicLight) (a1 a2 : Bool) (pos : DVector3) (seg : seg_t)
    (w1 w2 w1' w2' : World) (h1 : collectSide self a1 pos seg w1 = some w1')
    (h2 : collectSide self a2 pos seg w2 = some w2') (hs : SameVisit w1 w2) :
    SameVisit w1' w2' := by
  unfold collectSide at h1 h2
  cases hsd : seg.sidedef with
  | none =>
    simp only [hsd] at h1 h2
    cases h1; cases h2; exact hs
  | some sd =>
    cases hld : seg.linedef with
    | none =>
      simp only [hsd, hld] at h1 h2
      cases h1; cases h2; exact hs
    | some ld =>
      simp only [hsd, hld] at h1 h2
      by_cases hc : w1.line_validcount ld = w1.validcount
      · have hc2 := (hs.line ld).1 hc
        simp only [ne_eq, hc, hc2, not_true_eq_false, if_false] at h1 h2
        cases h1; cases h2; exact hs
      · have hc2 : ¬ w2.line_validcount ld = w2.validcount := fun e => hc ((hs.line ld).2 e)
        simp only [ne_eq, hc, hc2, not_false_eq_true, if_true] at h1 h2
        split at h1
        · rename_i hfront
          rw [if_pos hfront] at h2
          exact SameVisit_link _ _ _ _ a1 a2 _ _ h1 h2 (SameVisit_stampLine w1 w2 ld hs)
        · rename_i hfront
          rw [if_neg hfront] at h2
          cases h1; cases h2; exact hs

theorem collectPortal_sim (lv : Level) (self : ADynamicLight)
    (rec1 rec2 : DVector3 → Option Nat → ℚ → World → Option World)
    (hrec : ∀ pos sub r w1 w2 w1' w2', rec1 pos sub r w1 = some w1' →
      rec2 pos sub r w2 = some w2' → SameVisit w1 w2 → SameVisit w1' w2')
    (seg : seg_t) (radius : ℚ) (w1 w2 w1' w2' : World)
    (h1 : collectPortal lv self rec1 seg radius w1 = some w1')
    (h2 : collectPortal lv self rec2 seg radius w2 = some w2') (hs : SameVisit w1 w2) :
    SameVisit w1' w2' := by
  unfold collectPortal at h1 h2
  cases hld : seg.linedef with
  | none =>
    simp only [hld] at h1 h2
    cases h1; cases h2; exact hs
  | some ld =>
    cases hp : (lv.lines ld).getPortal with
    | none =>
      simp only [hld, hp] at h1 h2
      cases h1; cases h2; exact hs
    | some port =>
      simp only [hld, hp] at h1 h2
      by_cases hl : port.linked = true
      · simp only [hl, if_true] at h1 h2
        by_cases hc : w1.line_validcount port.mDestination = w1.validcount
        · have hc2 := (hs.line _).1 hc
          simp only [ne_eq, hc, hc2, not_true_eq_false, if_false] at h1 h2
          cases h1; cases h2; exact hs
        · have hc2 : ¬ w2.line_validcount port.mDestination = w2.validcount :=
            fun e => hc ((hs.line _).2 e)
          simp only [ne_eq, hc, hc2, not_false_eq_true, if_true] at h1 h2
          by_cases hd : w1.sub_validcount
              (lv.R_PointInSubsector (lv.lines port.mDestination).mid) = w1.validcount
          · have hd2 := (hs.sub _).1 hd
            simp only [hd, hd2, not_true_eq_false, if_false] at h1 h2
            cases h1; cases h2; exact hs
          · have hd2 : ¬ w2.sub_validcount
                (lv.R_PointInSubsector (lv.lines port.mDestination).mid) = w2.validcount :=
              fun e => hd ((hs.sub _).2 e)
            simp only [hd, hd2, not_false_eq_true, if_true] at h1 h2
            exact hrec _ _ _ _ _ _ _ h1 h2 hs
      · simp only [hl, if_false] at h1 h2
        cases h1; cases h2; exact hs

theorem collectPartner_sim (lv : Level)
    (rec1 rec2 : DVector3 → Option Nat → ℚ → World → Option World)
    (hrec : ∀ pos sub r w1 w2 w1' w2', rec1 pos sub r w1 = some w1' →
      rec2 pos sub r w2 = some w2' → SameVisit w1 w2 → SameVisit w1' w2')
    (pos : DVector3) (seg : seg_t) (radius : ℚ) (w1 w2 w1' w2' : World)
    (h1 : collectPartner lv rec1 pos seg radius w1 = some w1')
    (h2 : collectPartner lv rec2 pos seg radius w2 = some w2') (hs : SameVisit w1 w2) :
    SameVisit w1' w2' := by
  unfold collectPartner at h1 h2
  cases hp : seg.PartnerSeg with
  | none =>
    simp only [hp] at h1 h2
    cases h1; cases h2; exact hs
  | some partner =>
    cases hsub : (lv.segs partner).Subsector with
    | none =>
      simp only [hp, hsub] at h1 h2
      cases h1; cases h2; exact hs
    | some sub =>
      simp only [hp, hsub] at h1 h2
      by_cases hc : w1.sub_validcount sub = w1.validcount
      · have hc2 := (hs.sub _).1 hc
        simp only [ne_eq, hc, hc2, not_true_eq_false, if_false] at h1 h2
        cases h1; cases h2; exact hs
      · have hc2 : ¬ w2.sub_validcount sub = w2.validcount := fun e => hc ((hs.sub _).2 e)
        simp only [ne_eq, hc, hc2, not_false_eq_true, if_true] at h1 h2
        exact hrec _ _ _ _ _ _ _ h1 h2 hs

theorem collectSeg_sim (lv : Level) (self : ADynamicLight) (a1 a2 : Bool)
    (rec1 rec2 : DVector3 → Option Nat → ℚ → World → Option World)
    (hrec : ∀ pos sub r w1 w2 w1' w2', rec1 pos sub r w1 = some w1' →
      rec2 pos sub r w2 = some w2' → SameVisit w1 w2 → SameVisit w1' w2')
    (pos : DVector3) (subSec : Nat) (radius : ℚ) (w1 w2 w1' w2' : World) (i : Nat)
    (h1 : collectSeg lv self a1 rec1 pos subSec radius w1 i = some w1')
    (h2 : collectSeg lv self a2 rec2 pos subSec radius w2 i = some w2')
    (hs : SameVisit w1 w2) : SameVisit w1' w2' := by
  unfold collectSeg at h1 h2
  simp only at h1 h2
  split at h1
  · rename_i hd
    rw [if_pos hd] at h2
    obtain ⟨u1, e1, h1⟩ := Option.bind_eq_some.1 h1
    obtain ⟨v1, f1, h1⟩ := Option.bind_eq_some.1 h1
    obtain ⟨u2, e2, h2⟩ := Option.bind_eq_some.1 h2
    obtain ⟨v2, f2, h2⟩ := Option.bind_eq_some.1 h2
    have s1 := collectSide_sim self a1 a2 pos _ w1 w2 u1 u2 e1 e2 hs
    have s2 := collectPortal_sim lv self rec1 rec2 hrec _ radius u1 u2 v1 v2 f1 f2 s1
    exact collectPartner_sim lv rec1 rec2 hrec pos _ radius v1 v2 w1' w2' h1 h2 s2
  · rename_i hd
    rw [if_neg hd] at h2
    cases h1; cases h2; exact hs

theorem foldlM_sim (f1 f2 : World → Nat → Option World)
    (hf : ∀ i w1 w2 w1' w2', f1 w1 i = some w1' → f2 w2 i = some w2' → SameVisit w1 w2 →
      SameVisit w1' w2') : ∀ (l : List Nat) (w1 w2 w1' w2' : World),
    l.foldlM f1 w1 = some w1' → l.foldlM f2 w2 = some w2' → SameVisit w1 w2 →
    SameVisit w1' w2'
  | [], w1, w2, w1', w2', h1, h2, hs => by
    simp only [List.foldlM_nil] at h1 h2
    cases h1; cases h2; exact hs
  | i :: l, w1, w2, w1', w2', h1, h2, hs => by
    simp only [List.foldlM_cons] at h1 h2
    obtain ⟨u1, e1, h1⟩ := Option.bind_eq_some.1 h1
    obtain ⟨u2, e2, h2⟩ := Option.bind_eq_some.1 h2
    exact foldlM_sim f1 f2 hf l u1 u2 w1' w2' h1 h2 (hf i w1 w2 u1 u2 e1 e2 hs)

theorem collectPlane_sim (lv : Level) (self : ADynamicLight)
    (rec1 rec2 : DVector3 → Option Nat → ℚ → World → Option World)
    (hrec : ∀ pos sub r w1 w2 w1' w2', rec1 pos sub r w1 = some w1' →
      rec2 pos sub r w2 = some w2' → SameVisit w1 w2 → SameVisit w1' w2')
    (plane : Plane) (subSec : Nat) (radius : ℚ) (w1 w2 w1' w2' : World)
    (h1 : collectPlane lv self rec1 plane subSec radius w1 = some w1')
    (h2 : collectPlane lv self rec2 plane subSec radius w2 = some w2')
    (hs : SameVisit w1 w2) : SameVisit w1' w2' := by
  unfold collectPlane at h1 h2
  simp only at h1 h2
  split at h1
  · rename_i hb
    rw [if_pos hb] at h2
    cases hsb : (lv.sectors (lv.subsectors subSec).sector).SkyBoxes plane with
    | none => simp only [hsb] at h1; cases h1
    | some sb =>
      simp only [hsb] at h1 h2
      split at h1
      · rename_i hz
        rw [if_pos hz] at h2
        cases ho : (lv.segs (lv.subsectors subSec).firstline).linedef with
        | none => simp only [ho] at h1; cases h1
        | some other =>
          simp only [ho] at h1 h2
          split at h1
          · rename_i hc
            have hc2 := fun e => hc ((hs.sub _).2 e)
            rw [if_pos hc2] at h2
            exact hrec _ _ _ _ _ _ _ h1 h2 hs
          · rename_i hc
            have hc' := not_not.1 hc
            have hc2 := (hs.sub _).1 hc'
            rw [if_neg (not_not.2 hc2)] at h2
            cases h1; cases h2; exact hs
      · rename_i hz
        rw [if_neg hz] at h2
        cases h1; cases h2; exact hs
  · rename_i hb
    rw [if_neg hb] at h2
    cases h1; cases h2; exact hs

/-- Two runs of the flood fill from worlds with the same visited marks end in worlds
with the same visited marks and the same list of calls, whatever the registries and the
fuels are. -/
theorem CollectWithinRadius_sim (lv : Level) (self : ADynamicLight) :
    ∀ (f1 f2 : Nat) (pos : DVector3) (sub : Option Nat) (r : ℚ) (w1 w2 w1' w2' : World),
    CollectWithinRadius lv self f1 pos sub r w1 = some w1' →
    CollectWithinRadius lv self f2 pos sub r w2 = some w2' →
    SameVisit w1 w2 → SameVisit w1' w2' := by
  intro f1
  induction f1 with
  | zero =>
    intro f2 pos sub r w1 w2 w1' w2' h1 h2 hs
    cases sub with
    | none =>
      cases f2 <;> simp only [CollectWithinRadius] at h1 h2 <;>
        (cases h1; cases h2; exact hs)
    | some s => simp [CollectWithinRadius] at h1
  | succ f1 ih =>
    intro f2 pos sub r w1 w2 w1' w2' h1 h2 hs
    cases sub with
    | none =>
      cases f2 <;> simp only [CollectWithinRadius] at h1 h2 <;>
        (cases h1; cases h2; exact hs)
    | some s =>
      cases f2 with
      | zero => simp [CollectWithinRadius] at h2
      | succ f2 =>
        rw [CollectWithinRadius_succ] at h1 h2
        obtain ⟨a1, e1, h1⟩ := Option.bind_eq_some.1 h1
        obtain ⟨b1, g1, h1⟩ := Option.bind_eq_some.1 h1
        obtain ⟨c1, k1, h1⟩ := Option.bind_eq_some.1 h1
        obtain ⟨a2, e2, h2⟩ := Option.bind_eq_some.1 h2
        obtain ⟨b2, g2, h2⟩ := Option.bind_eq_some.1 h2
        obtain ⟨c2, k2, h2⟩ := Option.bind_eq_some.1 h2
        have hrec := ih f2
        have s1 := SameVisit_link _ _ _ _ _ _ _ _ e1 e2 (SameVisit_stampSub w1 w2 s hs)
        have s2 := foldlM_sim _ _
          (fun i u1 u2 u1' u2' x1 x2 xs =>
            collectSeg_sim lv self _ _ _ _ hrec pos s r u1 u2 u1' u2' i x1 x2 xs)
          _ a1 a2 b1 b2 g1 g2 s1
        have s3 := collectPlane_sim lv self _ _ hrec _ s r b1 b2 c1 c2 k1 k2 s2
        exact collectPlane_sim lv self _ _ hrec _ s r c1 c2 w1' w2' h1 h2 s3

@[simp] theorem setMarkers_getT (h : Heap) (f : Nat → Option Nat) (s : TSlot) :
    (h.setMarkers f).getT s = h.getT s := by cases s <;> rfl

@[simp] theorem setMarkers_getL (h : Heap) (f : Nat → Option Nat) (s : LSlot) :
    (h.setMarkers f).getL s = h.getL s := by cases s <;> rfl

@[simp] theorem setMarkers_okT (h : Heap) (f : Nat → Option Nat) (s : TSlot) :
    (h.setMarkers f).okT s = h.okT s := by cases s <;> rfl

@[simp] theorem setMarkers_okL (h : Heap) (f : Nat → Option Nat) (s : LSlot) :
    (h.setMarkers f).okL s = h.okL s := by cases s <;> rfl

@[simp] theorem setMarkers_alive (h : Heap) (f : Nat → Option Nat) :
    (h.setMarkers f).alive = h.alive := rfl

@[simp] theorem setMarkers_nextFree (h : Heap) (f : Nat → Option Nat) :
    (h.setMarkers f).nextFree = h.nextFree := rfl

@[simp] theorem setMarkers_prevTarget (h : Heap) (f : Nat → Option Nat) :
    (h.setMarkers f).prevTarget = h.prevTarget := rfl

@[simp] theorem setMarkers_prevLight (h : Heap) (f : Nat → Option Nat) :
    (h.setMarkers f).prevLight = h.prevLight := rfl

@[simp] theorem setMarkers_nextTarget (h : Heap) (f : Nat → Option Nat) :
    (h.setMarkers f).nextTarget = h.nextTarget := rfl

@[simp] theorem setMarkers_targ (h : Heap) (f : Nat → Option Nat) :
    (h.setMarkers f).targ = h.targ := rfl

@[simp] theorem setMarkers_lightsource (h : Heap) (f : Nat → Option Nat) :
    (h.setMarkers f).lightsource = f := rfl

theorem setMarkers_self (h : Heap) : h.setMarkers h.lightsource = h := rfl

theorem setMarkers_setMarkers (h : Heap) (f g : Nat → Option Nat) :
    (h.setMarkers f).setMarkers g = h.setMarkers g := rfl

theorem mark_eq_setMarkers (h : Heap) (n : Nat) (v : Option Nat) :
    h.mark n v = h.setMarkers (Function.update h.lightsource n v) := rfl

theorem WF_setMarkers (h : Heap) (hw : WF h) (f : Nat → Option Nat) : WF (h.setMarkers f) :=
  ⟨by simpa using hw.fresh, by simpa using hw.backT, by simpa using hw.backL,
   by simpa using hw.fwdT, by simpa using hw.fwdL⟩

theorem ChainT_setMarkers (h : Heap) (f : Nat → Option Nat) (s : TSlot) (l : List Nat)
    (hc : ChainT h s l) : ChainT (h.setMarkers f) s l :=
  ChainT_congr h _ l s s (by simp)
    (fun m hm => ⟨by simpa using ChainT_alive _ l s hc m hm, by simp⟩) hc

theorem markAll_eq_setMarkers (h : Heap) (l : List Nat) :
    markAll h l = h.setMarkers (markAll h l).lightsource := by
  induction l generalizing h with
  | nil => rfl
  | cons a l ih =>
    rw [markAll_cons, ih (h.mark a none)]
    rfl

/-- On a registry in which every called target already has a node, the calls of a
traversal only set markers: each call marks the first node of the chain with its
target. -/
theorem linkAll_reuse (a : Bool) (L : Nat) (h1 : Heap) (hw : WF h1) (ss bs : List Nat)
    (hss : ChainT h1 (TSlot.touching_sides L) ss)
    (hbs : ChainT h1 (TSlot.touching_subsectors L) bs) :
    ∀ (cs : List Target) (f : Nat → Option Nat),
    (∀ t ∈ cs, ∃ n ∈ chainList ss bs t, h1.targ n = t) →
    ∃ f', linkAll a L cs (h1.setMarkers f) = some (h1.setMarkers f') ∧
      ∀ n, f' n = if (∃ t ∈ cs, (chainList ss bs t).find?
        (fun m => decide (h1.targ m = t)) = some n) then some L else f n
  | [], f, _ => ⟨f, rfl, fun n => by simp⟩
  | c :: cs, f, hex => by
    have hc : ChainT (h1.setMarkers f) (chainOf L c) (chainList ss bs c) :=
      ChainT_setMarkers h1 f _ _ (chain_of_lists L h1 ss bs hss hbs c)
    obtain ⟨n, hn, hnt⟩ := hex c (List.mem_cons_self _ _)
    cases hf : (chainList ss bs c).find? (fun m => decide (h1.targ m = c)) with
    | none =>
      have := List.find?_eq_none.1 hf n hn
      simp [hnt] at this
    | some k =>
      have hstep : linkStep (h1.setMarkers f) a c L (chainList ss bs c)
          = h1.setMarkers (Function.update f k (some L)) := by
        unfold linkStep
        simp only [setMarkers_targ, hf]
        rfl
      obtain ⟨f', e, hf'⟩ := linkAll_reuse a L h1 hw ss bs hss hbs cs
        (Function.update f k (some L)) (fun t ht => hex t (List.mem_cons_of_mem _ ht))
      refine ⟨f', ?_, ?_⟩
      · simp only [linkAll, AddLightNodeAssign_linkStep _ (WF_setMarkers h1 hw f) a c L _ hc,
          Option.some_bind, hstep]
        exact e
      · intro m
        rw [hf' m]
        by_cases h2 : ∃ t ∈ cs, (chainList ss bs t).find?
            (fun m => decide (h1.targ m = t)) = some m
        · have h3 : ∃ t ∈ c :: cs, (chainList ss bs t).find?
              (fun m => decide (h1.targ m = t)) = some m := by
            obtain ⟨t, ht, e⟩ := h2
            exact ⟨t, List.mem_cons_of_mem _ ht, e⟩
          rw [if_pos h2, if_pos h3]
        · rw [if_neg h2, Function.update_apply]
          by_cases h4 : m = k
          · subst h4
            rw [if_pos rfl, if_pos ⟨c, List.mem_cons_self _ _, hf⟩]
          · rw [if_neg h4, if_neg]
            rintro ⟨t, ht, e⟩
            rcases List.mem_cons.1 ht with rfl | ht
            · rw [hf] at e
              exact h4 (Option.some.inj e).symm
            · exact h2 ⟨t, ht, e⟩

/-- What is known of a world that `LinkLight` returned. -/
theorem LinkLight_inv (lv : Level) (self : ADynamicLight) (fuel : Nat) (w w1 : World)
    (hw : WF w.heap) (h : LinkLight lv self fuel w = some w1) :
    ∃ (ss bs : List Nat) (w3 : World) (ss3 bs3 : List Nat),
      ChainT w.heap (TSlot.touching_sides self.self) ss ∧
      ChainT w.heap (TSlot.touching_subsectors self.self) bs ∧
      linkTraverse lv self fuel (markedWorld w ss bs) = some w3 ∧
      Relink self.self w3.heap ss3 bs3 w3.calls ∧
      w1 = { w3 with heap := sweepHeap w3.heap ss3 bs3 } := by
  obtain ⟨ss, hss⟩ := exists_ChainT w.heap hw (TSlot.touching_sides self.self) rfl
  obtain ⟨bs, hbs⟩ := exists_ChainT w.heap hw (TSlot.touching_subsectors self.self) rfl
  obtain ⟨m1, m2⟩ := markLoops_eq self.self w hw ss bs hss hbs
  have h' := h
  unfold LinkLight at h'
  rw [m1, Option.some_bind, m2, Option.some_bind] at h'
  obtain ⟨w3, ht, -⟩ := Option.bind_eq_some.1 h'
  have ht' : linkTraverse lv self fuel (markedWorld w ss bs) = some w3 := ht
  obtain ⟨ss3, bs3, hr, -, -, hL⟩ :=
    LinkLight_of_traverse lv self fuel w w3 hw ss bs hss hbs ht'
  rw [hL] at h
  exact ⟨ss, bs, w3, ss3, bs3, hss, hbs, ht', hr, (Option.some.inj h).symm⟩

/-- After `LinkLight` the chains of the light satisfy the relink invariant for the
calls of that relink, and every node carries the marker. -/
theorem LinkLight_linked (lv : Level) (self : ADynamicLight) (fuel : Nat) (w w1 : World)
    (hw : WF w.heap) (h : LinkLight lv self fuel w = some w1) :
    ∃ ss bs : List Nat, Relink self.self w1.heap ss bs w1.calls ∧
      ∀ n ∈ ss ++ bs, w1.heap.lightsource n = some self.self := by
  obtain ⟨ss, bs, w3, ss3, bs3, -, -, -, hr, e⟩ := LinkLight_inv lv self fuel w w1 hw h
  obtain ⟨-, -, hr5, hmk, -⟩ := hr.sweep
  subst e
  exact ⟨_, _, hr5, hmk⟩

/-- The call `LinkLight` returns on a valid level and a well-formed registry once the fuel
exceeds the number of subsectors. -/
theorem LinkLight_runs (lv : Level) (hv : lv.Valid) (self : ADynamicLight) (fuel : Nat)
    (w : World) (hw : WF w.heap) (hf : lv.numsubsectors < fuel) :
    ∃ w', LinkLight lv self fuel w = some w' := by
  obtain ⟨ss, hss⟩ := exists_ChainT w.heap hw (TSlot.touching_sides self.self) rfl
  obtain ⟨bs, hbs⟩ := exists_ChainT w.heap hw (TSlot.touching_subsectors self.self) rfl
  have hwm : WF (markedWorld w ss bs).heap := WF_markAll _ (WF_markAll _ hw ss) bs
  obtain ⟨w3, ht⟩ := linkTraverse_runs lv hv self fuel (markedWorld w ss bs) hwm hf
  obtain ⟨ss3, bs3, -, -, -, hL⟩ := LinkLight_of_traverse lv self fuel w w3 hw ss bs hss hbs ht
  exact ⟨_, hL⟩

theorem relinkedWorld_eq :
    LinkLight sampleLevel sampleLight 3 sampleWorld = some relinkedWorld := by
  obtain ⟨w', e⟩ := LinkLight_runs sampleLevel sampleLevel_valid sampleLight 3 sampleWorld
    WF_sample2 (by decide)
  rw [relinkedWorld, e]
  rfl

/-- The traversal of a second relink makes the calls of the first one. -/
theorem linkTraverse_same_calls (lv : Level) (self : ADynamicLight) (fuel1 fuel2 : Nat)
    (u1 u2 w3 w3' : World)
    (hsub1 : ∀ i, u1.sub_validcount i ≤ u1.validcount)
    (hline1 : ∀ i, u1.line_validcount i ≤ u1.validcount)
    (hc1 : u1.calls = []) (hc2 : u2.calls = [])
    (ha : u1.gl_lights_additive = u2.gl_lights_additive)
    (ht1 : linkTraverse lv self fuel1 u1 = some w3)
    (hsub2 : ∀ i, u2.sub_validcount i = w3.sub_validcount i)
    (hline2 : ∀ i, u2.line_validcount i = w3.line_validcount i)
    (hv2 : u2.validcount = w3.validcount)
    (ht2 : linkTraverse lv self fuel2 u2 = some w3') : w3'.calls = w3.calls := by
  unfold linkTraverse at ht1 ht2
  by_cases hr : self.radius > 0
  · rw [if_pos hr] at ht1 ht2
    have t1 := CollectWithinRadius_traced lv self fuel1 _ _ _ _ w3 ht1
    have hv3 : w3.validcount = u1.validcount + 1 := t1.validcount
    have hs : SameVisit { u1 with validcount := u1.validcount + 1 }
        { u2 with validcount := u2.validcount + 1 } := by
      refine ⟨?_, ?_, ha, by rw [hc1, hc2]⟩
      · intro i
        show u1.sub_validcount i = u1.validcount + 1 ↔ u2.sub_validcount i = u2.validcount + 1
        have h1 := hsub1 i
        have h2 : w3.sub_validcount i ≤ u1.validcount + 1 := by
          rcases t1.subStamp i with e | e
          · rw [e]; show u1.sub_validcount i ≤ _; omega
          · rw [e]
        rw [hsub2 i, hv2, hv3]
        constructor <;> intro e <;> omega
      · intro i
        show u1.line_validcount i = u1.validcount + 1 ↔
          u2.line_validcount i = u2.validcount + 1
        have h1 := hline1 i
        have h2 : w3.line_validcount i ≤ u1.validcount + 1 := by
          rcases t1.lineStamp i with e | e
          · rw [e]; show u1.line_validcount i ≤ _; omega
          · rw [e]
        rw [hline2 i, hv2, hv3]
        constructor <;> intro e <;> omega
    exact (CollectWithinRadius_sim lv self fuel1 fuel2 _ _ _ _ _ w3 w3' ht1 ht2 hs).calls.symm
  · rw [if_neg hr] at ht1 ht2
    cases ht1; cases ht2
    rw [hc1, hc2]

/-- C2 (reuse idempotence).  Let `LinkLight` have returned `w1` from a well-formed
world in which no stamp is ahead of `::validcount`.  A second `LinkLight` on `w1` for
the same light (same position, link radius and additive flag) in the same level
returns a world with the very same registry: the same allocator position (no node was
allocated), the same live nodes (none was deleted), the same chains with the same nodes
in the same order, the same targets and markers; and its traversal called
`AddLightNode` for the same targets in the same order. -/
theorem LinkLight_idempotent (lv : Level) (hv : lv.Valid) (self : ADynamicLight)
    (fuel1 fuel2 : Nat) (w w1 : World) (hw : WF w.heap)
    (hsub : ∀ i, w.sub_validcount i ≤ w.validcount)
    (hline : ∀ i, w.line_validcount i ≤ w.validcount)
    (h1 : LinkLight lv self fuel1 w = some w1) (hf : lv.numsubsectors < fuel2) :
    ∃ w2, LinkLight lv self fuel2 w1 = some w2 ∧ w2.heap = w1.heap ∧
      w2.calls = w1.calls ∧ w2.heap.nextFree = w1.heap.nextFree ∧
      w2.heap.alive = w1.heap.alive ∧
      (∀ s c, ChainT w2.heap s c ↔ ChainT w1.heap s c) ∧
      (∀ s c, ChainL w2.heap s c ↔ ChainL w1.heap s c) := by
  obtain ⟨ss, bs, w3, ss3, bs3, -, -, ht1, hr, e⟩ := LinkLight_inv lv self fuel1 w w1 hw h1
  obtain ⟨-, -, hr5, hmk, -⟩ := hr.sweep
  have hheap : w1.heap = sweepHeap w3.heap ss3 bs3 := by rw [e]
  have hcalls : w1.calls = w3.calls := by rw [e]
  rw [← hheap, ← hcalls] at hr5
  rw [← hheap] at hmk
  generalize hS : ss3.filter (fun n => !stale w3.heap n) = S at hr5 hmk
  generalize hB : bs3.filter (fun n => !stale w3.heap n) = B at hr5 hmk
  have hwm : WF (markedWorld w1 S B).heap := WF_markAll _ (WF_markAll _ hr5.wf S) B
  obtain ⟨w3', ht2⟩ := linkTraverse_runs lv hv self fuel2 (markedWorld w1 S B) hwm hf
  -- the second traversal makes the same calls
  have hsame : w3'.calls = w3.calls :=
    linkTraverse_same_calls lv self fuel1 fuel2 (markedWorld w ss bs) (markedWorld w1 S B)
      w3 w3' hsub hline rfl rfl
      (by
        obtain ⟨ha, -⟩ := linkTraverse_traced lv self fuel1 _ w3 ht1
        show w.gl_lights_additive = w1.gl_lights_additive
        rw [e]; exact ha.symm)
      ht1 (by intro i; rw [e]; rfl) (by intro i; rw [e]; rfl) (by rw [e]; rfl) ht2
  -- hence it only sets markers, and it sets all of them
  obtain ⟨-, cs, hcs, hl⟩ := linkTraverse_traced lv self fuel2 _ w3' ht2
  have hcs' : cs = w1.calls := by
    have : w3'.calls = cs := by simpa [markedWorld] using hcs
    rw [← this, hsame, hcalls]
  subst hcs'
  have hm0 : (markedWorld w1 S B).heap
      = w1.heap.setMarkers (markAll (markAll w1.heap S) B).lightsource := by
    show markAll (markAll w1.heap S) B = _
    rw [markAll_eq_setMarkers (markAll w1.heap S) B, markAll_eq_setMarkers w1.heap S]
    rfl
  rw [hm0] at hl
  obtain ⟨f', hl', hf'⟩ := linkAll_reuse
    (self.additive || (markedWorld w1 S B).gl_lights_additive) self.self w1.heap hr5.wf S B
    hr5.sides hr5.subs w1.calls (markAll (markAll w1.heap S) B).lightsource
    (fun t ht => by
      obtain ⟨n, hn, hnt, -⟩ := hr5.linked t ht
      exact ⟨n, hn, hnt⟩)
  rw [hl'] at hl
  have hf'eq : f' = w1.heap.lightsource := by
    funext n
    rw [hf' n]
    by_cases hn : n ∈ S ++ B
    · have hex : ∃ t0, n ∈ chainList S B t0 := by
        rcases List.mem_append.1 hn with h | h
        · exact ⟨Target.side 0, h⟩
        · exact ⟨Target.subsector 0, h⟩
      obtain ⟨t0, ht0⟩ := hex
      have hl0 := hmk n hn
      obtain ⟨hc1, hc2⟩ := hr5.called t0 n ht0 hl0
      have hfirst := hr5.first t0 n ht0 hl0
      rw [← chainOf_eq_iff self.self t0 (w1.heap.targ n) S B hc2] at hfirst
      rw [if_pos ⟨w1.heap.targ n, hc1, hfirst⟩, hl0]
    · rw [if_neg, markAll_lightsource, markAll_lightsource, if_neg, if_neg]
      · exact fun h => hn (List.mem_append_left _ h)
      · exact fun h => hn (List.mem_append_right _ h)
      · rintro ⟨t, -, hfind⟩
        have := List.mem_of_find?_eq_some hfind
        cases t with
        | side i => exact hn (List.mem_append_left _ this)
        | subsector i => exact hn (List.mem_append_right _ this)
  have hheap3 : w3'.heap = w1.heap := by
    have := (Option.some.inj hl).symm
    rw [this, hf'eq]
    rfl
  -- the sweep finds nothing to delete
  obtain ⟨ss', bs', hr', -, -, hL⟩ :=
    LinkLight_of_traverse lv self fuel2 w1 w3' hr5.wf S B hr5.sides hr5.subs ht2
  rw [hheap3] at hr'
  have e1 : ss' = S := ChainT_det _ _ _ _ hr'.sides hr5.sides
  have e2 : bs' = B := ChainT_det _ _ _ _ hr'.subs hr5.subs
  subst e1 e2
  have hsw : sweepHeap w3'.heap ss' bs' = w1.heap := by
    rw [hheap3, sweepHeap]
    have h1 : ss'.filter (stale w1.heap) = [] := by
      rw [List.filter_eq_nil_iff]
      intro n hn
      simp [stale, hmk n (List.mem_append_left _ hn)]
    have h2 : bs'.filter (stale w1.heap) = [] := by
      rw [List.filter_eq_nil_iff]
      intro n hn
      simp [stale, hmk n (List.mem_append_right _ hn)]
    rw [h1, h2]
    rfl
  rw [hsw] at hL
  refine ⟨_, hL, rfl, ?_, rfl, rfl, fun _ _ => Iff.rfl, fun _ _ => Iff.rfl⟩
  show w3'.calls = w1.calls
  rw [hsame, hcalls]

/-- C2, witness: the sample light is relinked twice in the sample level. -/
theorem LinkLight_idempotent_witness :
    ∃ w2, LinkLight sampleLevel sampleLight 3 relinkedWorld = some w2 ∧
      w2.heap = relinkedWorld.heap ∧ w2.calls = relinkedWorld.calls ∧
      w2.heap.nextFree = relinkedWorld.heap.nextFree ∧
      w2.heap.alive = relinkedWorld.heap.alive ∧
      (∀ s c, ChainT w2.heap s c ↔ ChainT relinkedWorld.heap s c) ∧
      (∀ s c, ChainL w2.heap s c ↔ ChainL relinkedWorld.heap s c) :=
  LinkLight_idempotent sampleLevel sampleLevel_valid sampleLight 3 3 sampleWorld
    relinkedWorld WF_sample2 (fun _ => le_refl _) (fun _ => le_refl _) relinkedWorld_eq
    (by decide)

theorem Dual_empty : Dual Heap.empty := by
  refine ⟨WF_empty, ?_, ?_⟩
  · intro n hn; cases hn
  · intro n hn; cases hn

theorem Dual_mark (h : Heap) (hd : Dual h) (n : Nat) (v : Option Nat) : Dual (h.mark n v) := by
  refine ⟨WF_mark h hd.wf n v, ?_, ?_⟩
  · intro a ha
    obtain ⟨s, l, hs, hc, hm⟩ := hd.inLight a ha
    exact ⟨s, l, hs, (ChainT_mark h n v s l).2 hc, hm⟩
  · intro a ha
    obtain ⟨b, l, hc, hm⟩ := hd.inTarget a ha
    exact ⟨b, l, (ChainL_mark h n v _ l).2 hc, hm⟩

theorem Dual_markAll (h : Heap) (hd : Dual h) (l : List Nat) : Dual (markAll h l) := by
  induction l generalizing h with
  | nil => exact hd
  | cons a l ih => exact ih _ (Dual_mark h hd a none)

theorem Dual_linkNew (h : Heap) (hd : Dual h) (t : Target) (b : Bool) (light : Nat)
    (c : TSlot) (hc : c.isHead = true) :
    Dual (linkNew (LSlot.lighthead t b) t light c h) := by
  have hw := hd.wf
  have hok := TSlot.isHead_okT h c hc
  have hfr := hw.fresh h.nextFree (le_refl _)
  obtain ⟨lc, hlc⟩ := exists_ChainT h hw c hc
  obtain ⟨lt, hlt⟩ := exists_ChainL h hw (LSlot.lighthead t b) rfl
  have hnew := ChainT_linkNew_head h hw (LSlot.lighthead t b) t light c lc hok hlc
  have hnewL := ChainL_linkNew_head h hw (LSlot.lighthead t b) t light c lt rfl hlt
  refine ⟨WF_linkNew h hw _ t light c hok rfl, ?_, ?_⟩
  · intro a ha
    rw [linkNew_alive] at ha
    by_cases e : a = h.nextFree
    · exact ⟨c, _, hc, hnew, by rw [e]; exact List.mem_cons_self _ _⟩
    · rw [if_neg e] at ha
      obtain ⟨s, l, hs, hcs, hm⟩ := hd.inLight a ha
      by_cases es : s = c
      · subst es
        rw [ChainT_det h _ _ _ hcs hlc] at hm
        exact ⟨s, _, hs, hnew, List.mem_cons_of_mem _ hm⟩
      · refine ⟨s, l, hs, ?_, hm⟩
        refine ChainT_linkNew_frame h hw _ t light c s l es (TSlot.isHead_okT h s hs) ?_ hcs
        intro m _ e2
        rw [← e2] at hc
        simp [TSlot.isHead] at hc
  · intro a ha
    rw [linkNew_alive] at ha
    rw [linkNew_targ]
    by_cases e : a = h.nextFree
    · rw [if_pos e]
      exact ⟨b, _, hnewL, by rw [e]; exact List.mem_cons_self _ _⟩
    · rw [if_neg e] at ha ⊢
      obtain ⟨b', l, hcs, hm⟩ := hd.inTarget a ha
      by_cases es : LSlot.lighthead (h.targ a) b' = LSlot.lighthead t b
      · have ht : h.targ a = t := (LSlot.lighthead.inj es).1
        rw [es] at hcs
        rw [ChainL_det h _ _ _ hcs hlt] at hm
        refine ⟨b, h.nextFree :: lt, ?_, List.mem_cons_of_mem _ hm⟩
        rw [ht]
        exact hnewL
      · refine ⟨b', l, ?_, hm⟩
        refine ChainL_linkNew_frame h hw _ t light c _ l es rfl ?_ hcs
        intro m _ e2
        cases e2

theorem Dual_unlinkNode (h : Heap) (hd : Dual h) (n : Nat) (hn : h.alive n = true) :
    Dual (unlinkNode h n) := by
  refine ⟨WF_unlinkNode h hd.wf n hn, ?_, ?_⟩
  · intro a ha
    rw [unlinkNode_alive] at ha
    by_cases e : a = n
    · simp [e] at ha
    · rw [if_neg e] at ha
      obtain ⟨s, l, hs, hc, hm⟩ := hd.inLight a ha
      refine ⟨s, l.erase n, hs, ?_, (List.mem_erase_of_ne e).2 hm⟩
      refine ChainT_unlinkNode h hd.wf n hn l s (TSlot.isHead_okT h s hs) ?_ hc
      intro e2; rw [e2] at hs; simp [TSlot.isHead] at hs
  · intro a ha
    rw [unlinkNode_alive] at ha
    rw [unlinkNode_targ]
    by_cases e : a = n
    · simp [e] at ha
    · rw [if_neg e] at ha
      obtain ⟨b, l, hc, hm⟩ := hd.inTarget a ha
      refine ⟨b, l.erase n, ?_, (List.mem_erase_of_ne e).2 hm⟩
      refine ChainL_unlinkNode h hd.wf n hn l _ rfl ?_ hc
      intro e2; cases e2

theorem Dual_unlinkAll : ∀ (l : List Nat) (h : Heap), Dual h → l.Nodup →
    (∀ n ∈ l, h.alive n = true) → Dual (unlinkAll h l)
  | [], _, hd, _, _ => hd
  | a :: l, h, hd, hnd, hal => by
    rw [unlinkAll_cons]
    have hnd' := List.nodup_cons.1 hnd
    refine Dual_unlinkAll l _ (Dual_unlinkNode h hd a (hal a (List.mem_cons_self _ _)))
      hnd'.2 ?_
    intro n hn
    rw [unlinkNode_alive, if_neg (fun e : n = a => hnd'.1 (e ▸ hn))]
    exact hal n (List.mem_cons_of_mem _ hn)

theorem Dual_linkStep (h : Heap) (hd : Dual h) (a : Bool) (t : Target) (L : Nat)
    (l : List Nat) : Dual (linkStep h a t L l) := by
  unfold linkStep
  cases l.find? (fun m => decide (h.targ m = t)) with
  | some n => exact Dual_mark h hd n _
  | none => exact Dual_linkNew h hd t a L _ (chainOf_isHead L t)

theorem Dual_linkAll (a : Bool) (L : Nat) : ∀ (cs : List Target) (h h' : Heap), Dual h →
    linkAll a L cs h = some h' → Dual h'
  | [], h, h', hd, e => by
    simp only [linkAll, Option.some.injEq] at e
    subst e; exact hd
  | c :: cs, h, h', hd, e => by
    obtain ⟨l, hl⟩ := exists_ChainT h hd.wf (chainOf L c) (chainOf_isHead L c)
    simp only [linkAll, AddLightNodeAssign_linkStep h hd.wf a c L l hl, Option.some_bind] at e
    exact Dual_linkAll a L cs _ h' (Dual_linkStep h hd a c L l) e

theorem Dual_AddLightNodeAssign (h h' : Heap) (hd : Dual h) (t : Target) (b : Bool)
    (light : Nat) (head : TSlot) (hh : head.isHead = true)
    (e : AddLightNodeAssign (LSlot.lighthead t b) t light head h = some h') : Dual h' := by
  obtain ⟨l, hl⟩ := exists_ChainT h hd.wf head hh
  have hok := TSlot.isHead_okT h head hh
  cases hf : l.find? (fun m => decide (h.targ m = t)) with
  | some n =>
    rw [AddLightNodeAssign_reuse h hd.wf _ t light head l n hok hl hf] at e
    rw [← Option.some.inj e]
    exact Dual_mark h hd n _
  | none =>
    rw [AddLightNodeAssign_create h hd.wf (LSlot.lighthead t b) t light head l hok rfl hl
      hf] at e
    rw [← Option.some.inj e]
    exact Dual_linkNew h hd t b light head hh

theorem DeleteLightNode_alive (h h' : Heap) (n : Nat) (r : Option Nat)
    (e : DeleteLightNode h (some n) = some (h', r)) : h.alive n = true := by
  unfold DeleteLightNode at e
  by_cases hn : h.alive n = true
  · exact hn
  · simp [hn] at e

theorem Dual_DeleteLightNode (h h' : Heap) (hd : Dual h) (n : Nat) (r : Option Nat)
    (e : DeleteLightNode h (some n) = some (h', r)) : Dual h' := by
  have hn := DeleteLightNode_alive h h' n r e
  rw [DeleteLightNode_eq h hd.wf n hn] at e
  have := Option.some.inj e
  rw [← (Prod.mk.inj this).1]
  exact Dual_unlinkNode h hd n hn

/-- The loop `while (head) head = DeleteLightNode(head);` deletes the whole chain. -/
theorem unlinkLoop_chain (slot : TSlot) (hs : slot.isHead = true) :
    ∀ (l : List Nat) (h : Heap) (fuel : Nat), WF h → ChainT h slot l → l.length ≤ fuel →
    unlinkLoop slot fuel h = some (unlinkAll h l)
  | [], h, fuel, _, hc, _ => by
    simp only [ChainT] at hc
    cases fuel <;> simp [unlinkLoop, hc, unlinkAll_nil]
  | a :: l, h, 0, _, _, hf => by simp at hf
  | a :: l, h, fuel + 1, hw, hc, hf => by
    have hsn : slot ≠ TSlot.nextTarget a := by
      intro e; rw [e] at hs; simp [TSlot.isHead] at hs
    have hc1 := ChainT_unlinkNode h hw a hc.2.1 (a :: l) slot (TSlot.isHead_okT h slot hs)
      hsn hc
    rw [List.erase_cons_head] at hc1
    have hhead : h.nextTarget a = (unlinkNode h a).getT slot := by
      rw [ChainT_head _ _ _ hc1]
      exact ChainT_head h _ l hc.2.2
    simp only [unlinkLoop, hc.1, DeleteLightNode_eq h hw a hc.2.1, Option.some_bind,
      Heap.storeT, TSlot.isHead_okT _ slot hs, if_true, hhead, setT_getT_self]
    rw [unlinkLoop_chain slot hs l _ fuel (WF_unlinkNode h hw a hc.2.1) hc1
      (by simp at hf; omega)]
    rfl

theorem Dual_UnlinkLight (h h' : Heap) (hd : Dual h) (light : Nat)
    (e : UnlinkLight light h = some h') : Dual h' := by
  obtain ⟨ss, hss⟩ := exists_ChainT h hd.wf (TSlot.touching_sides light) rfl
  have e1 := unlinkLoop_chain (TSlot.touching_sides light) rfl ss h (h.nextFree + 1) hd.wf hss
    (Nat.le_succ_of_le (ChainT_length h hd.wf ss _ hss))
  have hd1 : Dual (unlinkAll h ss) := Dual_unlinkAll ss h hd (ChainT_nodup h ss _ hss)
    (ChainT_alive h ss _ hss)
  obtain ⟨bs, hbs⟩ := exists_ChainT _ hd1.wf (TSlot.touching_subsectors light) rfl
  have e2 := unlinkLoop_chain (TSlot.touching_subsectors light) rfl bs _
    ((unlinkAll h ss).nextFree + 1) hd1.wf hbs
    (Nat.le_succ_of_le (ChainT_length _ hd1.wf bs _ hbs))
  unfold UnlinkLight at e
  rw [e1, Option.some_bind, e2] at e
  rw [← Option.some.inj e]
  exact Dual_unlinkAll bs _ hd1 (ChainT_nodup _ bs _ hbs) (ChainT_alive _ bs _ hbs)

theorem Dual_LinkLight (lv : Level) (self : ADynamicLight) (fuel : Nat) (w w' : World)
    (hd : Dual w.heap) (e : LinkLight lv self fuel w = some w') : Dual w'.heap := by
  obtain ⟨ss, bs, w3, ss3, bs3, -, -, ht, hr, e1⟩ := LinkLight_inv lv self fuel w w' hd.wf e
  obtain ⟨-, cs, -, hl⟩ := linkTraverse_traced lv self fuel _ w3 ht
  have hd3 : Dual w3.heap :=
    Dual_linkAll _ _ cs _ _ (Dual_markAll _ (Dual_markAll _ hd ss) bs) hl
  rw [e1]
  show Dual (sweepHeap w3.heap ss3 bs3)
  rw [sweepHeap, ← unlinkAll_append]
  refine Dual_unlinkAll _ _ hd3 ?_ ?_
  · rw [List.nodup_append]
    refine ⟨(ChainT_nodup _ ss3 _ hr.sides).filter _, (ChainT_nodup _ bs3 _ hr.subs).filter _, ?_⟩
    intro n h1 h2
    exact hr.disjoint n (List.mem_of_mem_filter h1) (List.mem_of_mem_filter h2)
  · intro n hn
    rcases List.mem_append.1 hn with h1 | h1
    · exact ChainT_alive _ ss3 _ hr.sides n (List.mem_of_mem_filter h1)
    · exact ChainT_alive _ bs3 _ hr.subs n (List.mem_of_mem_filter h1)

/-- Every reachable registry satisfies the duality invariant. -/
theorem Reachable.dual {h : Heap} (hr : Reachable h) : Dual h := by
  induction hr with
  | empty => exact Dual_empty
  | add h h' t b light head _ hh e ih => exact Dual_AddLightNodeAssign h h' ih t b light head hh e
  | delete h h' n r _ e ih => exact Dual_DeleteLightNode h h' ih n r e
  | link lv self fuel w w' _ e ih => exact Dual_LinkLight lv self fuel w w' ih e
  | unlink h h' light _ e ih => exact Dual_UnlinkLight h h' ih light e

theorem Reachable_sample2 : Reachable sample2 := by
  have h1 : Reachable sample1 := by
    refine Reachable.add Heap.empty sample1 (Target.subsector 0) false 7
      (TSlot.touching_subsectors 7) Reachable.empty rfl ?_
    rw [AddLightNodeAssign_create Heap.empty WF_empty (LSlot.lighthead (Target.subsector 0) false)
      (Target.subsector 0) 7 (TSlot.touching_subsectors 7) [] rfl rfl (ChainT_empty _ rfl) rfl,
      sample1_eq]
  refine Reachable.add sample1 sample2 (Target.subsector 1) false 7
    (TSlot.touching_subsectors 7) h1 rfl ?_
  rw [AddLightNodeAssign_create sample1 WF_sample1 (LSlot.lighthead (Target.subsector 1) false)
    (Target.subsector 1) 7 (TSlot.touching_subsectors 7) [0] rfl rfl ChainT_sample1
    (by simp [sample1_targ]), sample2_eq]

/-- C8 (node chain duality).  In every registry reachable from the empty index by
`head = AddLightNode(&t->lighthead[b], t, light, head)`, `DeleteLightNode`, `LinkLight`
and `UnlinkLight`, for every node `n`: `n` is a member of the chain of some light head
if and only if it is a member of the chain of some target head (and exactly when it is
live); the light head is unique, the target head is unique and is a `lighthead` of the
node's own `targ`; and one `DeleteLightNode(n)` returns and leaves `n` in no chain of
either kind. -/
theorem node_chain_duality (h : Heap) (hr : Reachable h) (n : Nat) :
    ((∃ (s : TSlot) (l : List Nat), s.isHead = true ∧ ChainT h s l ∧ n ∈ l) ↔
      (∃ (s : LSlot) (l : List Nat), s.isHead = true ∧ ChainL h s l ∧ n ∈ l)) ∧
    ((∃ (s : TSlot) (l : List Nat), s.isHead = true ∧ ChainT h s l ∧ n ∈ l) ↔
      h.alive n = true) ∧
    (∀ (s s' : TSlot) (l l' : List Nat), s.isHead = true → s'.isHead = true →
      ChainT h s l → ChainT h s' l' → n ∈ l → n ∈ l' → s = s') ∧
    (∀ (s s' : LSlot) (l l' : List Nat), s.isHead = true → s'.isHead = true →
      ChainL h s l → ChainL h s' l' → n ∈ l → n ∈ l' → s = s') ∧
    (∀ (s : LSlot) (l : List Nat), s.isHead = true → ChainL h s l → n ∈ l →
      ∃ b, s = LSlot.lighthead (h.targ n) b) ∧
    (h.alive n = true → ∃ h' r, DeleteLightNode h (some n) = some (h', r) ∧
      (∀ s l, ChainT h' s l → n ∉ l) ∧ (∀ s l, ChainL h' s l → n ∉ l)) := by
  have hd := hr.dual
  refine ⟨⟨?_, ?_⟩, ⟨?_, ?_⟩, ?_, ?_, ?_, ?_⟩
  · rintro ⟨s, l, _, hc, hm⟩
    obtain ⟨b, l', hc', hm'⟩ := hd.inTarget n (ChainT_alive h l s hc n hm)
    exact ⟨LSlot.lighthead (h.targ n) b, l', rfl, hc', hm'⟩
  · rintro ⟨s, l, _, hc, hm⟩
    exact hd.inLight n (ChainL_alive h l s hc n hm)
  · rintro ⟨s, l, _, hc, hm⟩
    exact ChainT_alive h l s hc n hm
  · intro hn
    exact hd.inLight n hn
  · intro s s' l l' hs hs' hc hc' hm hm'
    exact ChainT_unique h hd.wf s s' l l' hs hs' hc hc' n hm hm'
  · intro s s' l l' hs hs' hc hc' hm hm'
    exact ChainL_unique h hd.wf s s' l l' hs hs' hc hc' n hm hm'
  · intro s l hs hc hm
    obtain ⟨b, l', hc', hm'⟩ := hd.inTarget n (ChainL_alive h l s hc n hm)
    exact ⟨b, ChainL_unique h hd.wf s _ l l' hs rfl hc hc' n hm hm'⟩
  · intro hn
    refine ⟨_, _, DeleteLightNode_eq h hd.wf n hn, ?_, ?_⟩
    · intro s l hc hm
      have := ChainT_alive _ l s hc n hm
      rw [unlinkNode_alive, if_pos rfl] at this
      cases this
    · intro s l hc hm
      have := ChainL_alive _ l s hc n hm
      rw [unlinkNode_alive, if_pos rfl] at this
      cases this

/-- C8, witness: node 0 of the registry in which light 7 is linked to subsectors 0
and 1. -/
theorem node_chain_duality_witness :
    ((∃ (s : TSlot) (l : List Nat), s.isHead = true ∧ ChainT sample2 s l ∧ 0 ∈ l) ↔
      (∃ (s : LSlot) (l : List Nat), s.isHead = true ∧ ChainL sample2 s l ∧ 0 ∈ l)) ∧
    ((∃ (s : TSlot) (l : List Nat), s.isHead = true ∧ ChainT sample2 s l ∧ 0 ∈ l) ↔
      sample2.alive 0 = true) ∧
    (∀ (s s' : TSlot) (l l' : List Nat), s.isHead = true → s'.isHead = true →
      ChainT sample2 s l → ChainT sample2 s' l' → 0 ∈ l → 0 ∈ l' → s = s') ∧
    (∀ (s s' : LSlot) (l l' : List Nat), s.isHead = true → s'.isHead = true →
      ChainL sample2 s l → ChainL sample2 s' l' → 0 ∈ l → 0 ∈ l' → s = s') ∧
    (∀ (s : LSlot) (l : List Nat), s.isHead = true → ChainL sample2 s l → 0 ∈ l →
      ∃ b, s = LSlot.lighthead (sample2.targ 0) b) ∧
    (sample2.alive 0 = true → ∃ h' r, DeleteLightNode sample2 (some 0) = some (h', r) ∧
      (∀ s l, ChainT h' s l → 0 ∉ l) ∧ (∀ s l, ChainL h' s l → 0 ∉ l)) :=
  node_chain_duality sample2 Reachable_sample2 0

theorem link_calls (w w' : World) (a : Bool) (t : Target) (L : Nat)
    (h : World.link w a t L = some w') :
    w'.calls = w.calls ++ [t] ∧ w'.validcount = w.validcount ∧
    w'.sub_validcount = w.sub_validcount ∧ w'.line_validcount = w.line_validcount := by
  unfold World.link at h
  obtain ⟨h1, _, e⟩ := Option.map_eq_some'.mp h
  subst e
  exact ⟨rfl, rfl, rfl, rfl⟩

theorem EnteredOnce_side (w w' : World) (a : Bool) (sd : Nat) (L : Nat)
    (l : Nat → Int)
    (h : World.link { w with line_validcount := l } a (Target.side sd) L = some w')
    (hj : EnteredOnce w) : EnteredOnce w' := by
  obtain ⟨ec, ev, es, _⟩ := link_calls _ _ _ _ _ h
  refine ⟨fun s hs => ?_, fun s hs => ?_, fun s => ?_⟩
  · rw [ec] at hs
    simp only [List.mem_append, List.mem_singleton] at hs
    rcases hs with hs | hs
    · rw [es, ev]; exact hj.stamped s hs
    · cases hs
  · rw [es, ev] at hs
    rw [ec]
    exact List.mem_append_left _ (hj.logged s hs)
  · rw [ec, List.count_append]
    have : List.count (Target.subsector s) [Target.side sd] = 0 := by
      simp [List.count_cons]
    rw [this]
    exact hj.once s

theorem EnteredOnce_enter (w w' : World) (a : Bool) (s : Nat) (L : Nat)
    (h : World.link (w.stamp s) a (Target.subsector s) L = some w')
    (hj : EnteredOnce w) (hne : w.sub_validcount s ≠ w.validcount) : EnteredOnce w' := by
  have hn : Target.subsector s ∉ w.calls := fun hm => hne (hj.stamped s hm)
  obtain ⟨ec, ev, es, _⟩ := link_calls _ _ _ _ _ h
  have ec' : w'.calls = w.calls ++ [Target.subsector s] := ec
  have ev' : w'.validcount = w.validcount := ev
  have es' : w'.sub_validcount = Function.update w.sub_validcount s w.validcount := es
  refine ⟨fun t ht => ?_, fun t ht => ?_, fun t => ?_⟩
  · rw [ec'] at ht
    simp only [List.mem_append, List.mem_singleton] at ht
    rw [es', ev', Function.update_apply]
    split
    · rfl
    · rcases ht with ht | ht
      · exact hj.stamped t ht
      · rename_i hne
        exact absurd (Target.subsector.inj ht) hne
  · rw [es', ev', Function.update_apply] at ht
    rw [ec']
    by_cases e : t = s
    · subst e
      exact List.mem_append_right _ (List.mem_singleton.mpr rfl)
    · rw [if_neg e] at ht
      exact List.mem_append_left _ (hj.logged t ht)
  · rw [ec', List.count_append]
    by_cases e : t = s
    · subst e
      rw [List.count_eq_zero_of_not_mem hn]
      simp
    · have : List.count (Target.subsector t) [Target.subsector s] = 0 := by
        rw [List.count_eq_zero]
        simp only [List.mem_singleton]
        intro hts
        exact e (Target.subsector.inj hts)
      rw [this]
      exact hj.once t

theorem collectSide_once (self : ADynamicLight) (a : Bool) (pos : DVector3) (seg : seg_t)
    (w w' : World) (h : collectSide self a pos seg w = some w') (hj : EnteredOnce w) :
    EnteredOnce w' := by
  unfold collectSide at h
  split at h
  · split at h
    · split at h
      · exact EnteredOnce_side w w' a _ _ _ h hj
      · cases h; exact hj
    · cases h; exact hj
  · cases h; exact hj

theorem collectPortal_once (lv : Level) (self : ADynamicLight)
    (recurse : DVector3 → Option Nat → ℚ → World → Option World)
    (hrec : ∀ pos s r w w', recurse pos (some s) r w = some w' → EnteredOnce w →
      w.sub_validcount s ≠ w.validcount → EnteredOnce w')
    (seg : seg_t) (radius : ℚ) (w w' : World)
    (h : collectPortal lv self recurse seg radius w = some w') (hj : EnteredOnce w) :
    EnteredOnce w' := by
  unfold collectPortal at h
  split at h
  · cases h; exact hj
  · split at h
    · cases h; exact hj
    · split at h
      · simp only at h
        split at h
        · split at h
          · rename_i hne
            exact hrec _ _ _ w w' h hj hne
          · cases h; exact hj
        · cases h; exact hj
      · cases h; exact hj

theorem collectPartner_once (lv : Level)
    (recurse : DVector3 → Option Nat → ℚ → World → Option World)
    (hrec : ∀ pos s r w w', recurse pos (some s) r w = some w' → EnteredOnce w →
      w.sub_validcount s ≠ w.validcount → EnteredOnce w')
    (pos : DVector3) (seg : seg_t) (radius : ℚ) (w w' : World)
    (h : collectPartner lv recurse pos seg radius w = some w') (hj : EnteredOnce w) :
    EnteredOnce w' := by
  unfold collectPartner at h
  split at h
  · cases h; exact hj
  · split at h
    · cases h; exact hj
    · split at h
      · rename_i hne
        exact hrec _ _ _ w w' h hj hne
      · cases h; exact hj

theorem collectPlane_once (lv : Level) (self : ADynamicLight)
    (recurse : DVector3 → Option Nat → ℚ → World → Option World)
    (hrec : ∀ pos s r w w', recurse pos (some s) r w = some w' → EnteredOnce w →
      w.sub_validcount s ≠ w.validcount → EnteredOnce w')
    (plane : Plane) (subSec : Nat) (radius : ℚ) (w w' : World)
    (h : collectPlane lv self recurse plane subSec radius w = some w') (hj : EnteredOnce w) :
    EnteredOnce w' := by
  unfold collectPlane at h
  simp only at h
  split at h
  · split at h
    · cases h
    · split at h
      · split at h
        · cases h
        · split at h
          · rename_i hne
            exact hrec _ _ _ w w' h hj hne
          · cases h; exact hj
      · cases h; exact hj
  · cases h; exact hj

theorem collectSeg_once (lv : Level) (self : ADynamicLight) (a : Bool)
    (recurse : DVector3 → Option Nat → ℚ → World → Option World)
    (hrec : ∀ pos s r w w', recurse pos (some s) r w = some w' → EnteredOnce w →
      w.sub_validcount s ≠ w.validcount → EnteredOnce w')
    (pos : DVector3) (subSec : Nat) (radius : ℚ) (w w' : World) (i : Nat)
    (h : collectSeg lv self a recurse pos subSec radius w i = some w') (hj : EnteredOnce w) :
    EnteredOnce w' := by
  unfold collectSeg at h
  simp only at h
  split at h
  · obtain ⟨w1, h1, h⟩ := Option.bind_eq_some.mp h
    obtain ⟨w2, h2, h3⟩ := Option.bind_eq_some.mp h
    exact collectPartner_once lv recurse hrec pos _ radius w2 w' h3
      (collectPortal_once lv self recurse hrec _ radius w1 w2 h2
        (collectSide_once self a pos _ w w1 h1 hj))
  · cases h; exact hj

theorem foldlM_once (f : World → Nat → Option World)
    (hf : ∀ i w w', f w i = some w' → EnteredOnce w → EnteredOnce w') :
    ∀ (l : List Nat) (w w' : World), l.foldlM f w = some w' → EnteredOnce w →
    EnteredOnce w'
  | [], w, w', h, hj => by
    simp only [List.foldlM_nil] at h
    cases h; exact hj
  | i :: l, w, w', h, hj => by
    simp only [List.foldlM_cons] at h
    obtain ⟨w1, h1, h2⟩ := Option.bind_eq_some.mp h
    exact foldlM_once f hf l w1 w' h2 (hf i w w1 h1 hj)

/-- Entering a subsector whose stamp is not the current one keeps the invariant; every
nested entry is behind that stamp test. -/
theorem CollectWithinRadius_once (lv : Level) (self : ADynamicLight) :
    ∀ (fuel : Nat) (pos : DVector3) (s : Nat) (r : ℚ) (w w' : World),
    CollectWithinRadius lv self fuel pos (some s) r w = some w' → EnteredOnce w →
    w.sub_validcount s ≠ w.validcount → EnteredOnce w' := by
  intro fuel
  induction fuel with
  | zero => intro pos s r w w' h; simp [CollectWithinRadius] at h
  | succ fuel ih =>
    intro pos s r w w' h hj hn
    rw [CollectWithinRadius_succ] at h
    obtain ⟨w2, h2, h⟩ := Option.bind_eq_some.mp h
    obtain ⟨w3, h3, h⟩ := Option.bind_eq_some.mp h
    obtain ⟨w4, h4, h5⟩ := Option.bind_eq_some.mp h
    have j2 := EnteredOnce_enter w w2 _ s _ h2 hj hn
    have j3 := foldlM_once _
      (fun i u u' hu => collectSeg_once lv self _ _ ih pos s r u u' i hu) _ w2 w3 h3 j2
    have j4 := collectPlane_once lv self _ ih Plane.ceiling s r w3 w4 h4 j3
    exact collectPlane_once lv self _ ih Plane.floor s r w4 w' h5 j4

/-- The traversal step of a relink that starts with an empty ghost list and with no
stamp ahead of `::validcount`. -/
theorem linkTraverse_once (lv : Level) (self : ADynamicLight) (fuel : Nat) (w w3 : World)
    (hc : w.calls = []) (hle : ∀ s, w.sub_validcount s ≤ w.validcount)
    (h : linkTraverse lv self fuel w = some w3) :
    (∀ s, w3.calls.count (Target.subsector s) ≤ 1) ∧ (0 < self.radius → EnteredOnce w3) := by
  unfold linkTraverse at h
  split at h
  · simp only at h
    have hne : ∀ s, w.sub_validcount s ≠ w.validcount + 1 := fun s e => by
      have := hle s
      omega
    have j0 : EnteredOnce { w with validcount := w.validcount + 1 } := by
      refine ⟨fun s hs => ?_, fun s hs => ?_, fun s => ?_⟩
      · exact absurd hs (by show _ ∉ w.calls; rw [hc]; exact List.not_mem_nil _)
      · exact absurd hs (hne s)
      · show List.count _ w.calls ≤ 1
        rw [hc]; simp
    have j3 := CollectWithinRadius_once lv self fuel _ _ _ _ w3 h j0 (hne _)
    exact ⟨j3.once, fun _ => j3⟩
  · rename_i hr
    cases h
    exact ⟨fun s => by rw [hc]; simp, fun hp => absurd hp hr⟩

theorem LinkLight_calls (lv : Level) (self : ADynamicLight) (fuel : Nat) (w w' : World)
    (h : LinkLight lv self fuel w = some w') :
    ∃ h2 w3, linkTraverse lv self fuel { w with heap := h2, calls := [] } = some w3 ∧
      w'.calls = w3.calls ∧ w'.sub_validcount = w3.sub_validcount ∧
      w'.validcount = w3.validcount := by
  unfold LinkLight at h
  obtain ⟨h1, _, h⟩ := Option.bind_eq_some.mp h
  obtain ⟨h2, _, h⟩ := Option.bind_eq_some.mp h
  obtain ⟨w3, e3, h⟩ := Option.bind_eq_some.mp h
  obtain ⟨h4, _, h⟩ := Option.bind_eq_some.mp h
  obtain ⟨h5, _, h⟩ := Option.bind_eq_some.mp h
  cases h
  exact ⟨h2, w3, e3, rfl, rfl, rfl⟩

theorem loopLevel_valid : loopLevel.Valid := by
  refine ⟨?_, ?_, ?_, ?_⟩
  · intro p
    show (0 : Nat) < 2
    decide
  · intro k s hs
    have e : k % 2 = s := Option.some.inj hs
    show s < 2
    omega
  · intro k pl hb; cases hb
  · intro i pl hb; cases hb

theorem unvisited_stamp_lt_card (lv : Level) (w : World) (s : Nat)
    (hs : s < lv.numsubsectors) : unvisited lv (w.stamp s) < lv.numsubsectors := by
  unfold unvisited
  have : ((Finset.range lv.numsubsectors).filter
      (fun i => (w.stamp s).sub_validcount i ≠ (w.stamp s).validcount)).card
      < (Finset.range lv.numsubsectors).card := by
    apply Finset.card_lt_card
    rw [Finset.ssubset_iff_of_subset (Finset.filter_subset _ _)]
    exact ⟨s, by simp [hs], by simp [World.stamp]⟩
  simpa using this

theorem collectPortal_congr (lv : Level) (hv : lv.Valid) (self : ADynamicLight)
    (rec1 rec2 : DVector3 → Option Nat → ℚ → World → Option World)
    (hrec : ∀ p t q u, t < lv.numsubsectors → unvisited lv (u.stamp t) < unvisited lv u →
      rec1 p (some t) q u = rec2 p (some t) q u)
    (seg : seg_t) (radius : ℚ) (w : World) :
    collectPortal lv self rec1 seg radius w = collectPortal lv self rec2 seg radius w := by
  unfold collectPortal
  split
  · rfl
  · split
    · rfl
    · split
      · simp only
        split
        · split
          · rename_i hne
            exact hrec _ _ _ w (hv.point _) (unvisited_stamp_lt lv w _ (hv.point _) hne)
          · rfl
        · rfl
      · rfl

theorem collectPartner_congr (lv : Level) (hv : lv.Valid)
    (rec1 rec2 : DVector3 → Option Nat → ℚ → World → Option World)
    (hrec : ∀ p t q u, t < lv.numsubsectors → unvisited lv (u.stamp t) < unvisited lv u →
      rec1 p (some t) q u = rec2 p (some t) q u)
    (pos : DVector3) (seg : seg_t) (radius : ℚ) (w : World) :
    collectPartner lv rec1 pos seg radius w = collectPartner lv rec2 pos seg radius w := by
  unfold collectPartner
  split
  · rfl
  · split
    · rfl
    · split
      · rename_i partner sub hsub hne
        exact hrec _ _ _ w (hv.partner _ _ hsub)
          (unvisited_stamp_lt lv w _ (hv.partner _ _ hsub) hne)
      · rfl

theorem collectPlane_congr (lv : Level) (hv : lv.Valid) (self : ADynamicLight)
    (rec1 rec2 : DVector3 → Option Nat → ℚ → World → Option World)
    (hrec : ∀ p t q u, t < lv.numsubsectors → unvisited lv (u.stamp t) < unvisited lv u →
      rec1 p (some t) q u = rec2 p (some t) q u)
    (plane : Plane) (subSec : Nat) (radius : ℚ) (w : World) :
    collectPlane lv self rec1 plane subSec radius w
      = collectPlane lv self rec2 plane subSec radius w := by
  unfold collectPlane
  simp only
  split
  · split
    · rfl
    · split
      · split
        · rfl
        · split
          · rename_i hne
            exact hrec _ _ _ w (hv.point _) (unvisited_stamp_lt lv w _ (hv.point _) hne)
          · rfl
      · rfl
  · rfl

theorem collectSeg_congr (lv : Level) (hv : lv.Valid) (self : ADynamicLight) (a : Bool)
    (rec1 rec2 : DVector3 → Option Nat → ℚ → World → Option World)
    (hrec : ∀ p t q u, t < lv.numsubsectors → unvisited lv (u.stamp t) < unvisited lv u →
      rec1 p (some t) q u = rec2 p (some t) q u)
    (pos : DVector3) (subSec : Nat) (radius : ℚ) :
    collectSeg lv self a rec1 pos subSec radius
      = collectSeg lv self a rec2 pos subSec radius := by
  funext w i
  simp only [collectSeg, collectPortal_congr lv hv self rec1 rec2 hrec,
    collectPartner_congr lv hv rec1 rec2 hrec]

/-- The body calls the function its nested calls go to only for subsectors of the level
whose stamping makes the number of unvisited subsectors strictly smaller. -/
theorem collectBody_congr (lv : Level) (hv : lv.Valid) (self : ADynamicLight)
    (rec1 rec2 : DVector3 → Option Nat → ℚ → World → Option World)
    (hrec : ∀ p t q u, t < lv.numsubsectors → unvisited lv (u.stamp t) < unvisited lv u →
      rec1 p (some t) q u = rec2 p (some t) q u)
    (pos : DVector3) (subSec : Nat) (radius : ℚ) (w : World) :
    collectBody lv self rec1 pos subSec radius w
      = collectBody lv self rec2 pos subSec radius w := by
  simp only [collectBody, collectSeg_congr lv hv self _ rec1 rec2 hrec,
    collectPlane_congr lv hv self rec1 rec2 hrec]

theorem CollectWithinRadius_body (lv : Level) (self : ADynamicLight) (fuel : Nat)
    (pos : DVector3) (sub : Nat) (r : ℚ) (w : World) :
    CollectWithinRadius lv self (fuel + 1) pos (some sub) r w
      = collectBody lv self (CollectWithinRadius lv self fuel) pos sub r w := by
  rw [CollectWithinRadius_succ, collectBody]

/-- C11 (epoch safety).  Take any level, light and world in which no subsector stamp is
greater than `::validcount`, and a call of `LinkLight` that returns.  Every entry of
`CollectWithinRadius` with a subsector makes the call of line 545, which is the only
call whose target is a subsector, so the entries are the subsector items of the ghost
list.  Each subsector occurs there at most once, whatever the partner segs, linked
portals and sky transfers of the level are; and when the radius is positive the
subsectors entered are exactly the ones that carry the stamp of this relink. -/
theorem LinkLight_epoch_safety (lv : Level) (self : ADynamicLight) (fuel : Nat)
    (w w' : World) (hle : ∀ s, w.sub_validcount s ≤ w.validcount)
    (h : LinkLight lv self fuel w = some w') :
    (∀ s, w'.calls.count (Target.subsector s) ≤ 1) ∧
    (0 < self.radius → w'.validcount = w.validcount + 1 ∧
      ∀ s, Target.subsector s ∈ w'.calls ↔ w'.sub_validcount s = w'.validcount) := by
  obtain ⟨h2, w3, e3, ec, es, ev⟩ := LinkLight_calls lv self fuel w w' h
  obtain ⟨h1, hj⟩ := linkTraverse_once lv self fuel { w with heap := h2, calls := [] } w3
    rfl hle e3
  refine ⟨fun s => by rw [ec]; exact h1 s, fun hr => ⟨?_, fun s => ?_⟩⟩
  · rw [ev]
    unfold linkTraverse at e3
    rw [if_pos hr] at e3
    exact (CollectWithinRadius_traced lv self fuel _ _ _ _ w3 e3).validcount
  · rw [ec, es, ev]
    exact ⟨(hj hr).stamped s, (hj hr).logged s⟩

/-- The relink of the sample light on the level with a cycle returns, and enters each
subsector at most once. -/
theorem LinkLight_epoch_safety_witness :
    ∃ w', LinkLight loopLevel sampleLight 3 sampleWorld = some w' ∧
      ((∀ s, w'.calls.count (Target.subsector s) ≤ 1) ∧
      (0 < sampleLight.radius → w'.validcount = sampleWorld.validcount + 1 ∧
        ∀ s, Target.subsector s ∈ w'.calls ↔ w'.sub_validcount s = w'.validcount)) := by
  obtain ⟨w', e⟩ := LinkLight_runs loopLevel loopLevel_valid sampleLight 3 sampleWorld
    WF_sample2 (by decide)
  exact ⟨w', e, LinkLight_epoch_safety loopLevel sampleLight 3 sampleWorld w'
    (fun _ => le_refl _) e⟩

/-- C12 (termination of the flood fill).  On a level with `numsubsectors` subsectors
whose host data is valid, with a well-formed registry, `CollectWithinRadius` returns for
every start subsector of the level, every origin and every radius as soon as the bound
on the nesting depth is the number of subsectors.  A call with depth bound `fuel + 1`
runs the body with the nested calls going to depth bound `fuel`; the body makes a nested
call only for a subsector of the level whose stamping, the first action of the entry,
makes the number of subsectors with a stamp other than `::validcount` strictly
smaller. -/
theorem CollectWithinRadius_terminates (lv : Level) (hv : lv.Valid) (self : ADynamicLight)
    (pos : DVector3) (sub : Nat) (hs : sub < lv.numsubsectors) (r : ℚ) (w : World)
    (hw : WF w.heap) :
    (∀ fuel, lv.numsubsectors ≤ fuel →
      ∃ w', CollectWithinRadius lv self fuel pos (some sub) r w = some w') ∧
    (∀ fuel, CollectWithinRadius lv self (fuel + 1) pos (some sub) r w
      = collectBody lv self (CollectWithinRadius lv self fuel) pos sub r w) ∧
    (∀ rec1 rec2 : DVector3 → Option Nat → ℚ → World → Option World,
      (∀ p t q u, t < lv.numsubsectors → unvisited lv (u.stamp t) < unvisited lv u →
        rec1 p (some t) q u = rec2 p (some t) q u) →
      collectBody lv self rec1 pos sub r w = collectBody lv self rec2 pos sub r w) :=
  ⟨fun fuel hf => CollectWithinRadius_runs lv hv self fuel pos sub r w hw hs
      (lt_of_lt_of_le (unvisited_stamp_lt_card lv w sub hs) hf),
    fun fuel => CollectWithinRadius_body lv self fuel pos sub r w,
    fun rec1 rec2 hrec => collectBody_congr lv hv self rec1 rec2 hrec pos sub r w⟩

/-- The flood fill on the level with a cycle, started in subsector 0. -/
theorem CollectWithinRadius_terminates_witness :
    (∀ fuel, loopLevel.numsubsectors ≤ fuel →
      ∃ w', CollectWithinRadius loopLevel sampleLight fuel sampleLight.Pos (some 0) 10000
        sampleWorld = some w') ∧
    (∀ fuel, CollectWithinRadius loopLevel sampleLight (fuel + 1) sampleLight.Pos (some 0)
        10000 sampleWorld
      = collectBody loopLevel sampleLight (CollectWithinRadius loopLevel sampleLight fuel)
        sampleLight.Pos 0 10000 sampleWorld) ∧
    (∀ rec1 rec2 : DVector3 → Option Nat → ℚ → World → Option World,
      (∀ p t q u, t < loopLevel.numsubsectors →
        unvisited loopLevel (u.stamp t) < unvisited loopLevel u →
        rec1 p (some t) q u = rec2 p (some t) q u) →
      collectBody loopLevel sampleLight rec1 sampleLight.Pos 0 10000 sampleWorld
        = collectBody loopLevel sampleLight rec2 sampleLight.Pos 0 10000 sampleWorld) :=
  CollectWithinRadius_terminates loopLevel loopLevel_valid sampleLight sampleLight.Pos 0
    (by decide) 10000 sampleWorld WF_sample2

/-- The two loops of `UnlinkLight` delete the nodes of both chains of the light. -/
theorem UnlinkLight_eq (h : Heap) (hw : WF h) (light : Nat) (ss bs : List Nat)
    (hss : ChainT h (TSlot.touching_sides light) ss)
    (hbs : ChainT h (TSlot.touching_subsectors light) bs) :
    UnlinkLight light h = some (unlinkAll h (ss ++ bs)) ∧ (ss ++ bs).Nodup ∧
    ∀ n ∈ ss ++ bs, h.alive n = true := by
  have hdis : ∀ n ∈ bs, n ∉ ss := fun n hb hs => by
    have := ChainT_unique h hw (TSlot.touching_sides light) (TSlot.touching_subsectors light)
      ss bs rfl rfl hss hbs n hs hb
    cases this
  have e1 := unlinkLoop_chain (TSlot.touching_sides light) rfl ss h (h.nextFree + 1) hw hss
    (Nat.le_succ_of_le (ChainT_length h hw ss _ hss))
  have hw1 : WF (unlinkAll h ss) :=
    WF_unlinkAll ss h hw (ChainT_nodup h ss _ hss) (ChainT_alive h ss _ hss)
  have hbs1 := ChainT_unlinkAll ss h hw (ChainT_nodup h ss _ hss) (ChainT_alive h ss _ hss)
    (TSlot.touching_subsectors light) bs rfl hbs
  rw [filter_disjoint bs ss hdis] at hbs1
  have e2 := unlinkLoop_chain (TSlot.touching_subsectors light) rfl bs _
    ((unlinkAll h ss).nextFree + 1) hw1 hbs1
    (Nat.le_succ_of_le (ChainT_length _ hw1 bs _ hbs1))
  refine ⟨?_, ?_, ?_⟩
  · unfold UnlinkLight
    rw [e1, Option.some_bind, e2, unlinkAll_append]
  · rw [List.nodup_append]
    exact ⟨ChainT_nodup h ss _ hss, ChainT_nodup h bs _ hbs,
      fun n hs hb => hdis n hb hs⟩
  · intro n hn
    rcases List.mem_append.1 hn with hn | hn
    · exact ChainT_alive h ss _ hss n hn
    · exact ChainT_alive h bs _ hbs n hn

/-- C15 (destroying a light unlinks everything).  On a well-formed registry
`UnlinkLight`, which is all that `Destroy` does to the registry, returns.  With `ss` and
`bs` the two chains of the light beforehand: afterwards the registry is well-formed,
both chains of the light are empty, every node of `ss` and `bs` is freed, the chain of
every target is its old chain with exactly those nodes taken out (the other nodes stay,
in their order), every other node is as alive as before, and the chains of the other
lights are unchanged. -/
theorem UnlinkLight_unlinks_all (h : Heap) (hw : WF h) (light : Nat) :
    ∃ (ss bs : List Nat) (h' : Heap),
      ChainT h (TSlot.touching_sides light) ss ∧
      ChainT h (TSlot.touching_subsectors light) bs ∧
      UnlinkLight light h = some h' ∧ Destroy light h = some h' ∧ WF h' ∧
      h'.touching_sides light = none ∧ h'.touching_subsectors light = none ∧
      (∀ n ∈ ss ++ bs, h'.alive n = false) ∧
      (∀ n, n ∉ ss ++ bs → h'.alive n = h.alive n) ∧
      (∀ t b c, ChainL h (LSlot.lighthead t b) c →
        ChainL h' (LSlot.lighthead t b) (c.filter (fun n => decide (n ∉ ss ++ bs)))) ∧
      (∀ s c, s.isHead = true → s ≠ TSlot.touching_sides light →
        s ≠ TSlot.touching_subsectors light → ChainT h s c → ChainT h' s c) ∧
      h'.targ = h.targ ∧ h'.lightsource = h.lightsource := by
  obtain ⟨ss, hss⟩ := exists_ChainT h hw (TSlot.touching_sides light) rfl
  obtain ⟨bs, hbs⟩ := exists_ChainT h hw (TSlot.touching_subsectors light) rfl
  obtain ⟨e, hnd, hal⟩ := UnlinkLight_eq h hw light ss bs hss hbs
  have hT := ChainT_unlinkAll (ss ++ bs) h hw hnd hal
  have f1 : ss.filter (fun n => decide (n ∉ ss ++ bs)) = [] := by
    rw [List.filter_eq_nil_iff]
    intro a ha
    simp [ha]
  have f2 : bs.filter (fun n => decide (n ∉ ss ++ bs)) = [] := by
    rw [List.filter_eq_nil_iff]
    intro a ha
    simp [ha]
  have c1 := hT (TSlot.touching_sides light) ss rfl hss
  have c2 := hT (TSlot.touching_subsectors light) bs rfl hbs
  rw [f1] at c1
  rw [f2] at c2
  refine ⟨ss, bs, unlinkAll h (ss ++ bs), hss, hbs, e, e,
    WF_unlinkAll _ h hw hnd hal, c1, c2, ?_, ?_, ?_, ?_, unlinkAll_targ _ _,
    unlinkAll_lightsource _ _⟩
  · intro n hn
    rw [unlinkAll_alive, if_pos hn]
  · intro n hn
    rw [unlinkAll_alive, if_neg hn]
  · intro t b c hc
    exact ChainL_unlinkAll (ss ++ bs) h hw hnd hal (LSlot.lighthead t b) c rfl hc
  · intro s c hs h1 h2 hc
    have := hT s c hs hc
    rw [filter_disjoint c (ss ++ bs)] at this
    · exact this
    · intro n hn hm
      rcases List.mem_append.1 hm with hm | hm
      · exact h1 (ChainT_unique h hw s _ c ss hs rfl hc hss n hn hm)
      · exact h2 (ChainT_unique h hw s _ c bs hs rfl hc hbs n hn hm)

/-- Unlinking light 7 of the sample registry, in which it is linked to two
subsectors. -/
theorem UnlinkLight_unlinks_all_witness :
    ∃ (ss bs : List Nat) (h' : Heap),
      ChainT sample2 (TSlot.touching_sides 7) ss ∧
      ChainT sample2 (TSlot.touching_subsectors 7) bs ∧
      UnlinkLight 7 sample2 = some h' ∧ Destroy 7 sample2 = some h' ∧ WF h' ∧
      h'.touching_sides 7 = none ∧ h'.touching_subsectors 7 = none ∧
      (∀ n ∈ ss ++ bs, h'.alive n = false) ∧
      (∀ n, n ∉ ss ++ bs → h'.alive n = sample2.alive n) ∧
      (∀ t b c, ChainL sample2 (LSlot.lighthead t b) c →
        ChainL h' (LSlot.lighthead t b) (c.filter (fun n => decide (n ∉ ss ++ bs)))) ∧
      (∀ s c, s.isHead = true → s ≠ TSlot.touching_sides 7 →
        s ≠ TSlot.touching_subsectors 7 → ChainT sample2 s c → ChainT h' s c) ∧
      h'.targ = sample2.targ ∧ h'.lightsource = sample2.lightsource :=
  UnlinkLight_unlinks_all sample2 WF_sample2 7

theorem collectSeg_far (lv : Level) (self : ADynamicLight) (a : Bool)
    (recurse : DVector3 → Option Nat → ℚ → World → Option World)
    (pos : DVector3) (subSec : Nat) (radius : ℚ) (w : World) (i : Nat)
    (hfar : radius < DistToSeg pos (lv.segs ((lv.subsectors subSec).firstline + i))) :
    collectSeg lv self a recurse pos subSec radius w i = some w := by
  unfold collectSeg
  simp only
  rw [if_neg (fun h => absurd h.2 (not_le.mpr hfar))]

theorem foldlM_skip (f : World → Nat → Option World) (w : World) :
    ∀ (l : List Nat), (∀ i ∈ l, f w i = some w) → l.foldlM f w = some w
  | [], _ => rfl
  | i :: l, h => by
    simp only [List.foldlM_cons, h i (List.mem_cons_self _ _), Option.some_bind]
    exact foldlM_skip f w l (fun j hj => h j (List.mem_cons_of_mem _ hj))

theorem collectPlane_blocked (lv : Level) (self : ADynamicLight)
    (recurse : DVector3 → Option Nat → ℚ → World → Option World)
    (plane : Plane) (subSec : Nat) (radius : ℚ) (w : World)
    (hb : (lv.sectors (lv.subsectors subSec).sector).PortalBlocksSight plane = true) :
    collectPlane lv self recurse plane subSec radius w = some w := by
  unfold collectPlane
  simp [hb]

/-- A subsector all of whose edges are out of range and whose planes block sight: the
entry links the subsector and nothing else. -/
theorem CollectWithinRadius_closed (lv : Level) (self : ADynamicLight) (fuel : Nat)
    (pos : DVector3) (s : Nat) (r : ℚ) (w : World)
    (hfar : ∀ i, i < (lv.subsectors s).numlines →
      r < DistToSeg pos (lv.segs ((lv.subsectors s).firstline + i)))
    (hb : ∀ pl, (lv.sectors (lv.subsectors s).sector).PortalBlocksSight pl = true) :
    CollectWithinRadius lv self (fuel + 1) pos (some s) r w =
      World.link (w.stamp s) (self.additive || w.gl_lights_additive) (Target.subsector s)
        self.self := by
  rw [CollectWithinRadius_succ]
  cases e : World.link (w.stamp s) (self.additive || w.gl_lights_additive)
      (Target.subsector s) self.self with
  | none => rfl
  | some w2 =>
    rw [Option.some_bind, foldlM_skip _ w2 _
      (fun i hi => collectSeg_far lv self _ _ pos s r w2 i (hfar i (List.mem_range.1 hi))),
      Option.some_bind, collectPlane_blocked lv self _ _ s r w2 (hb _), Option.some_bind,
      collectPlane_blocked lv self _ _ s r w2 (hb _)]

theorem Tick_of_guards (h : Host) (lv : Level) (rnd : Nat) (l : LightActor)
    (hg : tickGuards h l = true) :
    Tick h lv rnd l = ⟨(UpdateLocation h lv (tickSwitch h rnd l).1).1, (tickSwitch h rnd l).2,
      (UpdateLocation h lv (tickSwitch h rnd l).1).2, false⟩ := by
  unfold tickGuards at hg
  simp only [Bool.and_eq_true, Bool.or_eq_true, decide_eq_true_eq, Bool.not_eq_true'] at hg
  obtain ⟨⟨h1, h2⟩, h3⟩ := hg
  unfold Tick
  rw [if_neg h1]
  cases ho : l.owned with
  | false => simp [h3]
  | true =>
    rw [ho] at h2
    cases ht : l.target with
    | none => rw [ht] at h2; simp at h2
    | some t =>
      rw [ht] at h2
      have h2' : t.state = true ∧ t.unmorphed = false := by
        rcases h2 with h2 | h2
        · cases h2
        · simpa using h2
      simp [h2'.1, h2'.2, h3]

/-- What the `switch` leaves alone. -/
theorem tickSwitch_frame (h : Host) (rnd : Nat) (l : LightActor) :
    (tickSwitch h rnd l).1.lighttype = l.lighttype ∧
    (tickSwitch h rnd l).1.m_Radius = l.m_Radius ∧
    (tickSwitch h rnd l).1.Pos = l.Pos ∧ (tickSwitch h rnd l).1.radius = l.radius ∧
    (tickSwitch h rnd l).1.target = l.target ∧ (tickSwitch h rnd l).1.m_off = l.m_off ∧
    (tickSwitch h rnd l).1.dormant = l.dormant := by
  unfold tickSwitch
  split
  · exact ⟨rfl, rfl, rfl, rfl, rfl, rfl, rfl⟩
  · exact ⟨rfl, rfl, rfl, rfl, rfl, rfl, rfl⟩
  · simp only
    split <;> exact ⟨rfl, rfl, rfl, rfl, rfl, rfl, rfl⟩
  · exact ⟨rfl, rfl, rfl, rfl, rfl, rfl, rfl⟩
  · exact ⟨rfl, rfl, rfl, rfl, rfl, rfl, rfl⟩
  · exact ⟨rfl, rfl, rfl, rfl, rfl, rfl, rfl⟩

/-- What `UpdateLocation` leaves alone. -/
theorem UpdateLocation_frame (h : Host) (lv : Level) (l : LightActor) :
    (UpdateLocation h lv l).1.lighttype = l.lighttype ∧
    (UpdateLocation h lv l).1.m_Radius = l.m_Radius ∧
    (UpdateLocation h lv l).1.m_currentRadius = l.m_currentRadius ∧
    (UpdateLocation h lv l).1.m_tickCount = l.m_tickCount ∧
    (UpdateLocation h lv l).1.dormant = l.dormant := by
  unfold UpdateLocation
  simp only
  split
  · cases l.target <;> exact ⟨rfl, rfl, rfl, rfl, rfl⟩
  · exact ⟨rfl, rfl, rfl, rfl, rfl⟩

/-- The link radius of an active light whose variant can spike back up. -/
theorem UpdateLocation_radius (h : Host) (lv : Level) (l : LightActor)
    (hact : l.dormant = false)
    (hty : l.lighttype = LightType.FlickerLight ∨ l.lighttype = LightType.RandomFlickerLight
      ∨ l.lighttype = LightType.PulseLight) :
    (UpdateLocation h lv l).1.radius
      = ((max (l.m_Radius 0) (l.m_Radius 1) : Int) : ℚ) * 2 * h.gl_lights_size := by
  unfold UpdateLocation
  simp only [LightActor.IsActive, hact, Bool.not_false, if_true]
  cases l.target <;> simp only [if_pos hty]

/-- The position of an active light after `UpdateLocation`. -/
theorem UpdateLocation_pos (h : Host) (lv : Level) (l : LightActor)
    (hact : l.dormant = false) :
    (UpdateLocation h lv l).1.Pos
      = match l.target with
        | some t => t.offsetPos l.m_off
        | none => l.Pos := by
  unfold UpdateLocation
  simp only [LightActor.IsActive, hact, Bool.not_false, if_true]
  cases l.target <;> rfl

/-- The flag of `UpdateLocation` is the comparison of line 375. -/
theorem UpdateLocation_flag (h : Host) (lv : Level) (l : LightActor) :
    (UpdateLocation h lv l).2 = decide ((UpdateLocation h lv l).1.Pos.X ≠ l.Pos.X ∨
      (UpdateLocation h lv l).1.Pos.Y ≠ l.Pos.Y ∨ (UpdateLocation h lv l).1.radius ≠ l.radius) := by
  unfold UpdateLocation
  simp only
  split
  · rfl
  · simp

theorem convex_between (a b t : ℚ) (h0 : 0 ≤ t) (h1 : t ≤ 1) :
    min a b ≤ a + t * (b - a) ∧ a + t * (b - a) ≤ max a b := by
  rcases le_total a b with hab | hab
  · rw [min_eq_left hab, max_eq_right hab]
    constructor <;> nlinarith
  · rw [min_eq_right hab, max_eq_left hab]
    constructor <;> nlinarith

theorem InRange_R0 (l : LightActor) (e : l.m_currentRadius = ((l.m_Radius 0 : Int) : ℚ)) :
    InRange l := by
  unfold InRange
  rw [e]
  exact ⟨Int.cast_le.2 (min_le_left _ _), Int.cast_le.2 (le_max_left _ _)⟩

theorem InRange_R1 (l : LightActor) (e : l.m_currentRadius = ((l.m_Radius 1 : Int) : ℚ)) :
    InRange l := by
  unfold InRange
  rw [e]
  exact ⟨Int.cast_le.2 (min_le_right _ _), Int.cast_le.2 (le_max_right _ _)⟩

theorem tickSwitch_range (h : Host) (rnd : Nat) (l : LightActor) (hrnd : rnd ≤ 255)
    (hty : l.lighttype = LightType.PointLight ∨ l.lighttype = LightType.FlickerLight
      ∨ l.lighttype = LightType.RandomFlickerLight)
    (hr : InRange l) : InRange (tickSwitch h rnd l).1 := by
  unfold tickSwitch
  rcases hty with e | e | e
  · rw [e]
    exact InRange_R0 _ rfl
  · rw [e]
    simp only
    split
    · exact InRange_R1 _ rfl
    · exact InRange_R0 _ rfl
  · rw [e]
    simp only
    split
    · have h0 : (0 : ℚ) ≤ (rnd : ℚ) / 255 := by positivity
      have h1 : (rnd : ℚ) / 255 ≤ 1 := by
        rw [div_le_one (by norm_num)]
        exact_mod_cast hrnd
      have := convex_between ((l.m_Radius 0 : Int) : ℚ) ((l.m_Radius 1 : Int) : ℚ) _ h0 h1
      unfold InRange
      simp only [Int.cast_min, Int.cast_max, Int.cast_sub]
      exact this
    · exact hr

theorem Tick_range (h : Host) (lv : Level) (rnd : Nat) (l : LightActor) (hrnd : rnd ≤ 255)
    (hty : l.lighttype = LightType.PointLight ∨ l.lighttype = LightType.FlickerLight
      ∨ l.lighttype = LightType.RandomFlickerLight)
    (hr : InRange l) :
    (Tick h lv rnd l).light.lighttype = l.lighttype ∧
    (Tick h lv rnd l).light.m_Radius = l.m_Radius ∧ InRange (Tick h lv rnd l).light := by
  unfold Tick
  split
  · exact ⟨rfl, rfl, hr⟩
  · split
    · exact ⟨rfl, rfl, hr⟩
    · split
      · exact ⟨rfl, rfl, hr⟩
      · split
        · exact ⟨rfl, rfl, hr⟩
        · simp only
          obtain ⟨u1, u2, u3, -, -⟩ := UpdateLocation_frame h lv (tickSwitch h rnd l).1
          obtain ⟨s1, s2, -⟩ := tickSwitch_frame h rnd l
          refine ⟨u1.trans s1, u2.trans s2, ?_⟩
          have := tickSwitch_range h rnd l hrnd hty hr
          unfold InRange at this ⊢
          rw [u2, u3]
          exact this

theorem Ticks_range (lv : Level) : ∀ (steps : List (Host × Nat)) (l : LightActor),
    (∀ s ∈ steps, s.2 ≤ 255) →
    (l.lighttype = LightType.PointLight ∨ l.lighttype = LightType.FlickerLight
      ∨ l.lighttype = LightType.RandomFlickerLight) → InRange l →
    (Ticks lv steps l).lighttype = l.lighttype ∧ (Ticks lv steps l).m_Radius = l.m_Radius ∧
    InRange (Ticks lv steps l)
  | [], l, _, _, hr => ⟨rfl, rfl, hr⟩
  | s :: ss, l, hb, hty, hr => by
    obtain ⟨t1, t2, t3⟩ := Tick_range s.1 lv s.2 l (hb s (List.mem_cons_self _ _)) hty hr
    obtain ⟨r1, r2, r3⟩ := Ticks_range lv ss (Tick s.1 lv s.2 l).light
      (fun x hx => hb x (List.mem_cons_of_mem _ hx)) (by rw [t1]; exact hty) t3
    exact ⟨r1.trans t1, r2.trans t2, r3⟩

theorem Activate_range (h : Host) (l : LightActor)
    (hty : l.lighttype = LightType.PointLight ∨ l.lighttype = LightType.FlickerLight
      ∨ l.lighttype = LightType.RandomFlickerLight) :
    (Activate h l).lighttype = l.lighttype ∧ (Activate h l).m_Radius = l.m_Radius ∧
    (Activate h l).m_currentRadius = ((l.m_Radius 0 : Int) : ℚ) ∧
    (Activate h l).dormant = false := by
  unfold Activate
  have hne : l.lighttype ≠ LightType.PulseLight := by
    rcases hty with e | e | e <;> rw [e] <;> decide
  simp [hne]

theorem clamp_eq (x : ℚ) : clamp x 0 255 = max 0 (min 255 x) := by
  unfold clamp
  split
  · rename_i h1
    rw [max_eq_left]
    exact (min_le_right _ _).trans h1
  · rename_i h1
    split
    · rename_i h2
      rw [min_eq_left h2, max_eq_right (by norm_num)]
    · rename_i h2
      rw [min_eq_right (le_of_lt (not_le.1 h2)), max_eq_right (le_of_lt (not_le.1 h1))]

/-- A `Tick` that one of the tests of lines 226-241 cuts short changes nothing, draws
nothing and does not relink. -/
theorem Tick_cut_short (h : Host) (lv : Level) (rnd : Nat) (l : LightActor)
    (hg : tickGuards h l = false) :
    (Tick h lv rnd l).light = l ∧ (Tick h lv rnd l).randCalls = 0 ∧
    (Tick h lv rnd l).relinked = false := by
  unfold Tick
  split
  · exact ⟨rfl, rfl, rfl⟩
  · split
    · exact ⟨rfl, rfl, rfl⟩
    · split
      · exact ⟨rfl, rfl, rfl⟩
      · split
        · exact ⟨rfl, rfl, rfl⟩
        · rename_i h1 h2 h3 h4
          exfalso
          have : tickGuards h l = true := by
            unfold tickGuards
            cases ho : l.owned with
            | false => simpa [h1] using h4
            | true =>
              rw [ho] at h2 h3
              cases ht : l.target with
              | none => rw [ht] at h2; simp at h2
              | some t =>
                rw [ht] at h2 h3
                simp only [Bool.true_and, Bool.not_eq_true', Bool.not_eq_false] at h2 h3
                simp only [Bool.not_eq_true, Bool.not_eq_false] at h2 h3 h4
                simp [h1, h2, h3]
                simpa using h4
          rw [this] at hg
          cases hg

/-- Whether a `Tick` calls `Destroy()` (lines 232-236). -/
theorem Tick_destroyed (h : Host) (lv : Level) (rnd : Nat) (l : LightActor) :
    (Tick h lv rnd l).destroyed = true ↔
      h.vid_renderer ≠ 0 ∧ l.owned = true ∧
        (l.target = none ∨ ∃ t, l.target = some t ∧ t.state = false) := by
  unfold Tick
  split
  · rename_i h1
    simp [h1]
  · rename_i h1
    split
    · rename_i h2
      simp only [Bool.and_eq_true] at h2
      refine ⟨fun _ => ⟨h1, h2.1, ?_⟩, fun _ => rfl⟩
      cases ht : l.target with
      | none => exact Or.inl rfl
      | some t =>
        rw [ht] at h2
        exact Or.inr ⟨t, rfl, by simpa using h2.2⟩
    · rename_i h2
      have hno : ¬ (h.vid_renderer ≠ 0 ∧ l.owned = true ∧
          (l.target = none ∨ ∃ t, l.target = some t ∧ t.state = false)) := by
        rintro ⟨-, ho, ht⟩
        apply h2
        rw [ho]
        rcases ht with ht | ⟨t, ht, hs⟩
        · rw [ht]; rfl
        · rw [ht]; simp [hs]
      split
      · exact ⟨fun e => (by cases e), fun e => absurd e hno⟩
      · split
        · exact ⟨fun e => (by cases e), fun e => absurd e hno⟩
        · exact ⟨fun e => (by cases e), fun e => absurd e hno⟩

/-- The `Tick` of a Flicker light that gets past the tests of lines 226-241. -/
theorem flickerTick_radius (h : Host) (lv : Level) (rnd : Nat) (l : LightActor)
    (hty : l.lighttype = LightType.FlickerLight) (hrnd : rnd ≤ 255)
    (hg : tickGuards h l = true) :
    (Tick h lv rnd l).randCalls = 1 ∧
    (Tick h lv rnd l).light.m_currentRadius
      = (if (rnd : ℚ) ≥ toFloat (toFloat (l.Yaw / 360) * 255) then ((l.m_Radius 1 : Int) : ℚ)
          else ((l.m_Radius 0 : Int) : ℚ)) ∧
    (Tick h lv rnd l).destroyed = false := by
  have hm : rnd % 256 = rnd := Nat.mod_eq_of_lt (by omega)
  rw [Tick_of_guards h lv rnd l hg]
  simp only
  rw [(UpdateLocation_frame h lv _).2.2.1]
  unfold tickSwitch
  rw [hty]
  simp only [hm]
  refine ⟨trivial, ?_, trivial⟩
  split <;> rfl

/-- The threshold of the flicker test for the angle of `skewActor`: the quotient
`0.33333335452609592` becomes the `float` `11184811 / 33554432`, and its product with
255, `85.0000025331974`, becomes the `float` 85. -/
theorem toFloat_skew : toFloat (toFloat (skewActor.Yaw / 360) * 255) = 85 := by
  have h1 : toFloat (skewActor.Yaw / 360) = 11184811 / 33554432 := by
    show toFloat ((15728641 / 131072 : ℚ) / 360) = _
    rw [toFloat_of_bounds _ (-2) (by norm_num) (by norm_num) (by norm_num)]
    rw [roundHalfEven_near _ 11184811 (by norm_num) (by norm_num)]
    norm_num
  rw [h1, toFloat_of_bounds _ 6 (by norm_num) (by norm_num) (by norm_num)]
  rw [roundHalfEven_near _ 11141120 (by norm_num) (by norm_num)]
  norm_num

/-- C13 (conservative link radius).  For an active light of variant Flicker,
RandomFlicker or Pulse the link radius that `UpdateLocation` computes is
`max(R0, R1) * 2 * gl_lights_size`, whatever the current radius is.  Hence, for a light
`l2` of such a variant that has the radii `R0`, `R1` of `l`, whose link radius is the one
`UpdateLocation` computed for `l`, and whose owner, if it has one, leaves its X and Y
where they are: a `Tick` under the same size factor does not call `LinkLight`, whatever
value `randLight()` returns. -/
theorem link_radius_conservative (h h2 : Host) (lv : Level) (l l2 : LightActor) (rnd : Nat)
    (hact : l.dormant = false)
    (hty : l.lighttype = LightType.FlickerLight ∨ l.lighttype = LightType.RandomFlickerLight
      ∨ l.lighttype = LightType.PulseLight)
    (hty2 : l2.lighttype = LightType.FlickerLight ∨
      l2.lighttype = LightType.RandomFlickerLight ∨ l2.lighttype = LightType.PulseLight)
    (hR : l2.m_Radius = l.m_Radius) (hsize : h2.gl_lights_size = h.gl_lights_size)
    (hrad : l2.radius = (UpdateLocation h lv l).1.radius)
    (hpos : ∀ t, l2.target = some t →
      (t.offsetPos l2.m_off).X = l2.Pos.X ∧ (t.offsetPos l2.m_off).Y = l2.Pos.Y) :
    (UpdateLocation h lv l).1.radius
      = ((max (l.m_Radius 0) (l.m_Radius 1) : Int) : ℚ) * 2 * h.gl_lights_size ∧
    (∀ r, (UpdateLocation h lv { l with m_currentRadius := r }).1.radius
      = (UpdateLocation h lv l).1.radius) ∧
    (Tick h2 lv rnd l2).relinked = false := by
  have e1 := UpdateLocation_radius h lv l hact hty
  refine ⟨e1, fun r => ?_, ?_⟩
  · rw [e1]
    exact UpdateLocation_radius h lv { l with m_currentRadius := r } hact hty
  · unfold Tick
    split
    · rfl
    · split
      · rfl
      · split
        · rfl
        · split
          · rfl
          · rename_i hactive
            simp only
            obtain ⟨s1, s2, s3, s4, s5, s6, s7⟩ := tickSwitch_frame h2 rnd l2
            have hd : l2.dormant = false := by
              simpa [LightActor.IsActive] using hactive
            have hd' : (tickSwitch h2 rnd l2).1.dormant = false := by rw [s7]; exact hd
            have r1 := UpdateLocation_radius h2 lv (tickSwitch h2 rnd l2).1 hd'
              (by rw [s1]; exact hty2)
            have p1 := UpdateLocation_pos h2 lv (tickSwitch h2 rnd l2).1 hd'
            rw [UpdateLocation_flag, decide_eq_false_iff_not]
            rw [r1, p1, s2, s3, s4, s5, s6, hR, hsize, hrad, e1]
            cases ht : l2.target with
            | none => simp
            | some t =>
              obtain ⟨hx, hy⟩ := hpos t ht
              simp [hx, hy]

/-- A flickering sample light: after `UpdateLocation` has computed its link radius, a
`Tick` with the random value 200 makes no relink. -/
theorem link_radius_conservative_witness :
    (UpdateLocation sampleHost sampleLevel (sampleActor LightType.FlickerLight)).1.radius
      = ((max ((sampleActor LightType.FlickerLight).m_Radius 0)
          ((sampleActor LightType.FlickerLight).m_Radius 1) : Int) : ℚ) * 2
        * sampleHost.gl_lights_size ∧
    (∀ r, (UpdateLocation sampleHost sampleLevel
        { sampleActor LightType.FlickerLight with m_currentRadius := r }).1.radius
      = (UpdateLocation sampleHost sampleLevel (sampleActor LightType.FlickerLight)).1.radius) ∧
    (Tick sampleHost sampleLevel 200
      (UpdateLocation sampleHost sampleLevel (sampleActor LightType.FlickerLight)).1).relinked
      = false :=
  link_radius_conservative sampleHost sampleHost sampleLevel
    (sampleActor LightType.FlickerLight)
    (UpdateLocation sampleHost sampleLevel (sampleActor LightType.FlickerLight)).1 200
    rfl (Or.inl rfl) (Or.inl rfl) rfl rfl rfl (fun t ht => by cases ht)

/-- C14, counterexample.  The steady sample light is active, lies at the origin and is
attached to an owner that has risen to height 5: `UpdateLocation` changes its Z
coordinate from 0 to 5, leaves X, Y and the link radius as they are, and does not call
`LinkLight`. -/
theorem UpdateLocation_relink_counterexample :
    liftedActor.dormant = false ∧ liftedActor.Pos.Z = 0 ∧
    (UpdateLocation sampleHost sampleLevel liftedActor).1.Pos.Z = 5 ∧
    (UpdateLocation sampleHost sampleLevel liftedActor).1.radius = liftedActor.radius ∧
    (UpdateLocation sampleHost sampleLevel liftedActor).2 = false := by
  refine ⟨rfl, rfl, ?_, ?_, ?_⟩
  · norm_num [UpdateLocation, liftedActor, liftedOwner, sampleActor, sampleHost,
      LightActor.IsActive]
  · norm_num [UpdateLocation, liftedActor, liftedOwner, sampleActor, sampleHost,
      LightActor.IsActive]
    exact ⟨by decide, by decide, by decide⟩
  · rw [UpdateLocation_flag, decide_eq_false_iff_not]
    norm_num [UpdateLocation, liftedActor, liftedOwner, sampleActor, sampleHost,
      LightActor.IsActive]
    exact ⟨by decide, by decide, by decide⟩

/-- C14 (relink trigger), amended.  For every active light `UpdateLocation` calls
`LinkLight` exactly when it changes the X coordinate, the Y coordinate or the link
radius of the light; a change of the Z coordinate alone does not count. -/
theorem UpdateLocation_relink (h : Host) (lv : Level) (l : LightActor)
    (hact : l.dormant = false) :
    (UpdateLocation h lv l).1.dormant = false ∧
    ((UpdateLocation h lv l).2 = true ↔
      ((UpdateLocation h lv l).1.Pos.X ≠ l.Pos.X ∨ (UpdateLocation h lv l).1.Pos.Y ≠ l.Pos.Y ∨
        (UpdateLocation h lv l).1.radius ≠ l.radius)) := by
  refine ⟨?_, ?_⟩
  · rw [(UpdateLocation_frame h lv l).2.2.2.2]; exact hact
  · rw [UpdateLocation_flag, decide_eq_true_iff]

/-- The lifted sample light. -/
theorem UpdateLocation_relink_witness :
    (UpdateLocation sampleHost sampleLevel liftedActor).1.dormant = false ∧
    ((UpdateLocation sampleHost sampleLevel liftedActor).2 = true ↔
      ((UpdateLocation sampleHost sampleLevel liftedActor).1.Pos.X ≠ liftedActor.Pos.X ∨
        (UpdateLocation sampleHost sampleLevel liftedActor).1.Pos.Y ≠ liftedActor.Pos.Y ∨
        (UpdateLocation sampleHost sampleLevel liftedActor).1.radius ≠ liftedActor.radius)) :=
  UpdateLocation_relink sampleHost sampleLevel liftedActor rfl

/-- C17 (radius range invariant).  Take a light of variant Point, Flicker or
RandomFlicker, any angle, any host states and any values 0..255 of `randLight()`.  After
`Activate` and any number of calls of `Tick` the variant and the radii `R0`, `R1` are the
ones before `Activate`, and the current radius lies between `min(R0, R1)` and
`max(R0, R1)`. -/
theorem radius_in_range (lv : Level) (h0 : Host) (l : LightActor)
    (hty : l.lighttype = LightType.PointLight ∨ l.lighttype = LightType.FlickerLight
      ∨ l.lighttype = LightType.RandomFlickerLight)
    (steps : List (Host × Nat)) (hb : ∀ s ∈ steps, s.2 ≤ 255) :
    (Ticks lv steps (Activate h0 l)).lighttype = l.lighttype ∧
    (Ticks lv steps (Activate h0 l)).m_Radius = l.m_Radius ∧
    ((min (l.m_Radius 0) (l.m_Radius 1) : Int) : ℚ)
      ≤ (Ticks lv steps (Activate h0 l)).m_currentRadius ∧
    (Ticks lv steps (Activate h0 l)).m_currentRadius
      ≤ ((max (l.m_Radius 0) (l.m_Radius 1) : Int) : ℚ) := by
  obtain ⟨a1, a2, a3, -⟩ := Activate_range h0 l hty
  obtain ⟨r1, r2, r3⟩ := Ticks_range lv steps (Activate h0 l) hb (by rw [a1]; exact hty)
    (InRange_R0 _ (by rw [a3, a2]))
  unfold InRange at r3
  rw [r2, a2] at r3
  exact ⟨r1.trans a1, r2.trans a2, r3.1, r3.2⟩

/-- The random-flicker sample light, activated and ticked three times. -/
theorem radius_in_range_witness :
    (Ticks sampleLevel [(sampleHost, 255), (sampleHost, 0), (sampleHost, 77)]
      (Activate sampleHost (sampleActor LightType.RandomFlickerLight))).lighttype
      = (sampleActor LightType.RandomFlickerLight).lighttype ∧
    (Ticks sampleLevel [(sampleHost, 255), (sampleHost, 0), (sampleHost, 77)]
      (Activate sampleHost (sampleActor LightType.RandomFlickerLight))).m_Radius
      = (sampleActor LightType.RandomFlickerLight).m_Radius ∧
    ((min ((sampleActor LightType.RandomFlickerLight).m_Radius 0)
        ((sampleActor LightType.RandomFlickerLight).m_Radius 1) : Int) : ℚ)
      ≤ (Ticks sampleLevel [(sampleHost, 255), (sampleHost, 0), (sampleHost, 77)]
        (Activate sampleHost (sampleActor LightType.RandomFlickerLight))).m_currentRadius ∧
    (Ticks sampleLevel [(sampleHost, 255), (sampleHost, 0), (sampleHost, 77)]
        (Activate sampleHost (sampleActor LightType.RandomFlickerLight))).m_currentRadius
      ≤ ((max ((sampleActor LightType.RandomFlickerLight).m_Radius 0)
        ((sampleActor LightType.RandomFlickerLight).m_Radius 1) : Int) : ℚ) :=
  radius_in_range sampleLevel sampleHost (sampleActor LightType.RandomFlickerLight)
    (Or.inr (Or.inr rfl)) [(sampleHost, 255), (sampleHost, 0), (sampleHost, 77)]
    (by decide)

/-- C18, counterexample.  First, the flicker sample light (active, yaw 180, `R0 = 32`,
`R1 = 64`, current radius 32) under the software renderer: the byte 200 is not below
the threshold `(180 / 360) * 255`, yet `Tick` returns at line 228 without a call of
`randLight()` and leaves the current radius at 32, not at `R1`.  Second, the same light
with the angle `120 + 2 ^ (-17)` under the hardware renderer and the byte 85: the byte is
below `(yaw / 360) * 255 = 85.0000054...`, so that the rule gives `R0 = 32`, but the
source computes the threshold in `float`, where it is 85, and `Tick` sets the current
radius to `R1 = 64`. -/
theorem Tick_flicker_counterexample :
    ((sampleActor LightType.FlickerLight).IsActive = true ∧
      (sampleActor LightType.FlickerLight).lighttype = LightType.FlickerLight ∧
      ((200 : Nat) : ℚ) ≥ ((sampleActor LightType.FlickerLight).Yaw / 360) * 255 ∧
      (((sampleActor LightType.FlickerLight).m_Radius 1 : Int) : ℚ) = 64 ∧
      (Tick softwareHost sampleLevel 200 (sampleActor LightType.FlickerLight)).randCalls = 0 ∧
      (Tick softwareHost sampleLevel 200
        (sampleActor LightType.FlickerLight)).light.m_currentRadius = 32) ∧
    (skewActor.IsActive = true ∧ skewActor.lighttype = LightType.FlickerLight ∧
      sampleHost.vid_renderer ≠ 0 ∧ skewActor.owned = false ∧
      ¬ (((85 : Nat) : ℚ) ≥ (skewActor.Yaw / 360) * 255) ∧
      ((skewActor.m_Radius 0 : Int) : ℚ) = 32 ∧
      (Tick sampleHost sampleLevel 85 skewActor).randCalls = 1 ∧
      (Tick sampleHost sampleLevel 85 skewActor).light.m_currentRadius = 64) := by
  refine ⟨⟨rfl, rfl, ?_, ?_, rfl, rfl⟩, ⟨rfl, rfl, by decide, rfl, ?_, ?_, ?_, ?_⟩⟩
  · norm_num [sampleActor]
  · norm_num [sampleActor]
  · norm_num [skewActor]
  · norm_num [skewActor, sampleActor]
  · exact (flickerTick_radius sampleHost sampleLevel 85 skewActor rfl (by decide) rfl).1
  · rw [(flickerTick_radius sampleHost sampleLevel 85 skewActor rfl (by decide) rfl).2.1,
      toFloat_skew]
    norm_num [skewActor, sampleActor]

/-- C18 (flicker rule), amended.  For a Flicker light and a byte `rnd` returned by
`randLight()`: if the `Tick` gets past the tests of lines 226-241 (hardware renderer, an
owned light has an owner with a state that is not unmorphed, light active), it calls
`randLight()` exactly once, does not destroy the light, and sets the current radius to
`R1` when `rnd` is not below the threshold and to `R0` otherwise, where the threshold is
the one the source computes in `float`: the quotient `yaw / 360` rounded to `float`,
times 255, rounded to `float`.  The result is `R0` or `R1`, and it is given by `rnd`, the
yaw, `R0` and `R1`: a second Flicker light with the same yaw and radii gets the same
current radius from the same byte under any host.  If one of the tests cuts the `Tick`
short, nothing is drawn, the members of the light stay as they are and nothing is
relinked; such a `Tick` destroys the light exactly when the renderer is not the software
one and the light is owned while its owner is gone or has no state (lines 232-236). -/
theorem Tick_flicker (h : Host) (lv : Level) (rnd : Nat) (l : LightActor)
    (hty : l.lighttype = LightType.FlickerLight) (hrnd : rnd ≤ 255) :
    (tickGuards h l = true →
      (Tick h lv rnd l).randCalls = 1 ∧
      (Tick h lv rnd l).destroyed = false ∧
      (Tick h lv rnd l).light.m_currentRadius
        = (if (rnd : ℚ) ≥ toFloat (toFloat (l.Yaw / 360) * 255)
            then ((l.m_Radius 1 : Int) : ℚ) else ((l.m_Radius 0 : Int) : ℚ)) ∧
      ((Tick h lv rnd l).light.m_currentRadius = ((l.m_Radius 0 : Int) : ℚ) ∨
        (Tick h lv rnd l).light.m_currentRadius = ((l.m_Radius 1 : Int) : ℚ)) ∧
      (∀ (h2 : Host) (lv2 : Level) (l2 : LightActor),
        l2.lighttype = LightType.FlickerLight → tickGuards h2 l2 = true →
        l2.Yaw = l.Yaw → l2.m_Radius 0 = l.m_Radius 0 → l2.m_Radius 1 = l.m_Radius 1 →
        (Tick h2 lv2 rnd l2).light.m_currentRadius
          = (Tick h lv rnd l).light.m_currentRadius)) ∧
    (tickGuards h l = false →
      (Tick h lv rnd l).randCalls = 0 ∧ (Tick h lv rnd l).light = l ∧
      (Tick h lv rnd l).relinked = false ∧
      ((Tick h lv rnd l).destroyed = true ↔
        h.vid_renderer ≠ 0 ∧ l.owned = true ∧
          (l.target = none ∨ ∃ t, l.target = some t ∧ t.state = false))) := by
  refine ⟨fun hg => ?_, fun hg => ?_⟩
  · obtain ⟨e1, e2, e3⟩ := flickerTick_radius h lv rnd l hty hrnd hg
    refine ⟨e1, e3, e2, ?_, ?_⟩
    · rw [e2]
      split
      · exact Or.inr rfl
      · exact Or.inl rfl
    · intro h2 lv2 l2 hty2 hg2 hy h0 h1
      rw [e2, (flickerTick_radius h2 lv2 rnd l2 hty2 hrnd hg2).2.1, hy, h0, h1]
  · obtain ⟨c1, c2, c3⟩ := Tick_cut_short h lv rnd l hg
    exact ⟨c2, c1, c3, Tick_destroyed h lv rnd l⟩

/-- The flicker sample light (yaw 180, threshold 127.5) with the byte 128 under the
hardware renderer. -/
theorem Tick_flicker_witness :
    (tickGuards sampleHost (sampleActor LightType.FlickerLight) = true →
      (Tick sampleHost sampleLevel 128 (sampleActor LightType.FlickerLight)).randCalls = 1 ∧
      (Tick sampleHost sampleLevel 128 (sampleActor LightType.FlickerLight)).destroyed
        = false ∧
      (Tick sampleHost sampleLevel 128
        (sampleActor LightType.FlickerLight)).light.m_currentRadius
        = (if ((128 : Nat) : ℚ)
              ≥ toFloat (toFloat ((sampleActor LightType.FlickerLight).Yaw / 360) * 255)
            then (((sampleActor LightType.FlickerLight).m_Radius 1 : Int) : ℚ)
            else (((sampleActor LightType.FlickerLight).m_Radius 0 : Int) : ℚ)) ∧
      ((Tick sampleHost sampleLevel 128
          (sampleActor LightType.FlickerLight)).light.m_currentRadius
          = (((sampleActor LightType.FlickerLight).m_Radius 0 : Int) : ℚ) ∨
        (Tick sampleHost sampleLevel 128
          (sampleActor LightType.FlickerLight)).light.m_currentRadius
          = (((sampleActor LightType.FlickerLight).m_Radius 1 : Int) : ℚ)) ∧
      (∀ (h2 : Host) (lv2 : Level) (l2 : LightActor),
        l2.lighttype = LightType.FlickerLight → tickGuards h2 l2 = true →
        l2.Yaw = (sampleActor LightType.FlickerLight).Yaw →
        l2.m_Radius 0 = (sampleActor LightType.FlickerLight).m_Radius 0 →
        l2.m_Radius 1 = (sampleActor LightType.FlickerLight).m_Radius 1 →
        (Tick h2 lv2 128 l2).light.m_currentRadius
          = (Tick sampleHost sampleLevel 128
              (sampleActor LightType.FlickerLight)).light.m_currentRadius)) ∧
    (tickGuards sampleHost (sampleActor LightType.FlickerLight) = false →
      (Tick sampleHost sampleLevel 128 (sampleActor LightType.FlickerLight)).randCalls = 0 ∧
      (Tick sampleHost sampleLevel 128 (sampleActor LightType.FlickerLight)).light
        = sampleActor LightType.FlickerLight ∧
      (Tick sampleHost sampleLevel 128 (sampleActor LightType.FlickerLight)).relinked
        = false ∧
      ((Tick sampleHost sampleLevel 128 (sampleActor LightType.FlickerLight)).destroyed
          = true ↔
        sampleHost.vid_renderer ≠ 0 ∧ (sampleActor LightType.FlickerLight).owned = true ∧
          ((sampleActor LightType.FlickerLight).target = none ∨
            ∃ t, (sampleActor LightType.FlickerLight).target = some t ∧ t.state = false))) :=
  Tick_flicker sampleHost sampleLevel 128 (sampleActor LightType.FlickerLight) rfl
    (by decide)

/-- C19, counterexample.  The random-flicker sample light (active, tick count 0,
angle 180) under the software renderer: `0 + 1 > 180` fails, yet after the `Tick`, which
returns at line 228, the tick count is still 0 and not 1, and `randLight()` was not
called. -/
theorem Tick_randomFlicker_counterexample :
    (sampleActor LightType.RandomFlickerLight).IsActive = true ∧
    (sampleActor LightType.RandomFlickerLight).lighttype = LightType.RandomFlickerLight ∧
    (sampleActor LightType.RandomFlickerLight).m_tickCount = 0 ∧
    ¬ ((((sampleActor LightType.RandomFlickerLight).m_tickCount + 1 : Nat) : ℚ)
        > (sampleActor LightType.RandomFlickerLight).Yaw) ∧
    (Tick softwareHost sampleLevel 51
      (sampleActor LightType.RandomFlickerLight)).light.m_tickCount = 0 ∧
    (Tick softwareHost sampleLevel 51
      (sampleActor LightType.RandomFlickerLight)).randCalls = 0 := by
  refine ⟨rfl, rfl, rfl, ?_, rfl, rfl⟩
  norm_num [sampleActor]

/-- C19 (random-flicker rule), amended.  For a RandomFlicker light with tick count `t`,
angle `h` and value `rnd` of `randLight()`: if the `Tick` gets past the tests of lines
226-241 it calls `randLight()` exactly once, and if `t + 1 > h` the current radius
becomes `R0 + (rnd / 255) * (R1 - R0)` and the tick count 0, otherwise the current
radius stays and the tick count becomes `t + 1`; if one of the tests cuts the `Tick`
short, nothing is drawn and the light, its tick count included, stays as it is. -/
theorem Tick_randomFlicker (h : Host) (lv : Level) (rnd : Nat) (l : LightActor)
    (hty : l.lighttype = LightType.RandomFlickerLight) :
    (tickGuards h l = true →
      (Tick h lv rnd l).randCalls = 1 ∧
      (((l.m_tickCount + 1 : Nat) : ℚ) > l.Yaw →
        (Tick h lv rnd l).light.m_currentRadius
          = ((l.m_Radius 0 : Int) : ℚ)
            + ((rnd : ℚ) / 255) * (((l.m_Radius 1 : Int) : ℚ) - ((l.m_Radius 0 : Int) : ℚ)) ∧
        (Tick h lv rnd l).light.m_tickCount = 0) ∧
      (¬ ((l.m_tickCount + 1 : Nat) : ℚ) > l.Yaw →
        (Tick h lv rnd l).light.m_currentRadius = l.m_currentRadius ∧
        (Tick h lv rnd l).light.m_tickCount = l.m_tickCount + 1)) ∧
    (tickGuards h l = false →
      (Tick h lv rnd l).randCalls = 0 ∧ (Tick h lv rnd l).light = l) := by
  refine ⟨fun hg => ?_, fun hg => ?_⟩
  · rw [Tick_of_guards h lv rnd l hg]
    simp only
    rw [(UpdateLocation_frame h lv _).2.2.1, (UpdateLocation_frame h lv _).2.2.2.1]
    unfold tickSwitch
    rw [hty]
    simp only
    refine ⟨?_, fun hgt => ?_, fun hle => ?_⟩
    · split <;> rfl
    · rw [if_pos hgt]
      simp
    · rw [if_neg hle]
      exact ⟨rfl, rfl⟩
  · obtain ⟨c1, c2, -⟩ := Tick_cut_short h lv rnd l hg
    exact ⟨c2, c1⟩

/-- The random-flicker sample light with angle 180 and tick count 0 under the hardware
renderer: the first `Tick` only counts. -/
theorem Tick_randomFlicker_witness :
    (tickGuards sampleHost (sampleActor LightType.RandomFlickerLight) = true →
      (Tick sampleHost sampleLevel 51
        (sampleActor LightType.RandomFlickerLight)).randCalls = 1 ∧
      (((((sampleActor LightType.RandomFlickerLight).m_tickCount + 1 : Nat) : ℚ)
          > (sampleActor LightType.RandomFlickerLight).Yaw →
        (Tick sampleHost sampleLevel 51
          (sampleActor LightType.RandomFlickerLight)).light.m_currentRadius
          = (((sampleActor LightType.RandomFlickerLight).m_Radius 0 : Int) : ℚ)
            + (((51 : Nat) : ℚ) / 255)
              * ((((sampleActor LightType.RandomFlickerLight).m_Radius 1 : Int) : ℚ)
                - (((sampleActor LightType.RandomFlickerLight).m_Radius 0 : Int) : ℚ)) ∧
        (Tick sampleHost sampleLevel 51
          (sampleActor LightType.RandomFlickerLight)).light.m_tickCount = 0)) ∧
      (¬ ((((sampleActor LightType.RandomFlickerLight).m_tickCount + 1 : Nat) : ℚ)
          > (sampleActor LightType.RandomFlickerLight).Yaw) →
        (Tick sampleHost sampleLevel 51
          (sampleActor LightType.RandomFlickerLight)).light.m_currentRadius
          = (sampleActor LightType.RandomFlickerLight).m_currentRadius ∧
        (Tick sampleHost sampleLevel 51
          (sampleActor LightType.RandomFlickerLight)).light.m_tickCount
          = (sampleActor LightType.RandomFlickerLight).m_tickCount + 1)) ∧
    (tickGuards sampleHost (sampleActor LightType.RandomFlickerLight) = false →
      (Tick sampleHost sampleLevel 51
        (sampleActor LightType.RandomFlickerLight)).randCalls = 0 ∧
      (Tick sampleHost sampleLevel 51 (sampleActor LightType.RandomFlickerLight)).light
        = sampleActor LightType.RandomFlickerLight) :=
  Tick_randomFlicker sampleHost sampleLevel 51 (sampleActor LightType.RandomFlickerLight)
    rfl

/-- C20, counterexample.  The sector sample light (active, scale argument 0, current
radius 32) in a sector of light level 160 under the software renderer: the rule asks
for the radius 160, yet `Tick` returns at line 228 and the current radius is still
32. -/
theorem Tick_sector_counterexample :
    (sampleActor LightType.SectorLight).IsActive = true ∧
    (sampleActor LightType.SectorLight).lighttype = LightType.SectorLight ∧
    (sampleActor LightType.SectorLight).scaleArg = 0 ∧
    softwareHost.lightlevel (sampleActor LightType.SectorLight).Sector = 160 ∧
    max (0 : ℚ) (min 255 (160 * 1)) = 160 ∧
    (Tick softwareHost sampleLevel 0
      (sampleActor LightType.SectorLight)).light.m_currentRadius = 32 := by
  refine ⟨rfl, rfl, rfl, rfl, ?_, rfl⟩
  norm_num

/-- C20 (sector-linked rule), amended.  For a Sector light, with `L` the light level of
the sector the light is in and `s` the scale `args[LIGHT_SCALE] / 8`, replaced by 1 when
it is zero: if the `Tick` gets past the tests of lines 226-241, the current radius
afterwards is `L * s` limited to the interval from 0 to 255; it lies in that interval
and is the same whatever `R0`, `R1` and the previous current radius were.  If one of the
tests cuts the `Tick` short, the light stays as it is. -/
theorem Tick_sector (h : Host) (lv : Level) (rnd : Nat) (l : LightActor)
    (hty : l.lighttype = LightType.SectorLight) :
    (tickGuards h l = true →
      (Tick h lv rnd l).light.m_currentRadius
        = max 0 (min 255 ((h.lightlevel l.Sector : ℚ)
            * (if l.scaleArg = 0 then 1 else (l.scaleArg : ℚ) / 8))) ∧
      0 ≤ (Tick h lv rnd l).light.m_currentRadius ∧
      (Tick h lv rnd l).light.m_currentRadius ≤ 255 ∧
      (∀ (R : Nat → Int) (r : ℚ),
        (Tick h lv rnd { l with m_Radius := R, m_currentRadius := r }).light.m_currentRadius
          = (Tick h lv rnd l).light.m_currentRadius)) ∧
    (tickGuards h l = false → (Tick h lv rnd l).light = l) := by
  have key : ∀ l : LightActor, tickGuards h l = true →
      l.lighttype = LightType.SectorLight →
      (Tick h lv rnd l).light.m_currentRadius
        = max 0 (min 255 ((h.lightlevel l.Sector : ℚ)
          * (if l.scaleArg = 0 then 1 else (l.scaleArg : ℚ) / 8))) := by
    intro l hg hty
    rw [Tick_of_guards h lv rnd l hg]
    simp only
    rw [(UpdateLocation_frame h lv _).2.2.1]
    unfold tickSwitch
    rw [hty]
    simp only
    have hs : (if (l.scaleArg : ℚ) / 8 = 0 then (1 : ℚ) else (l.scaleArg : ℚ) / 8)
        = (if l.scaleArg = 0 then 1 else (l.scaleArg : ℚ) / 8) := by
      by_cases e : l.scaleArg = 0
      · simp [e]
      · have : (l.scaleArg : ℚ) / 8 ≠ 0 := by
          have : (l.scaleArg : ℚ) ≠ 0 := by exact_mod_cast e
          positivity
        rw [if_neg this, if_neg e]
    rw [hs, clamp_eq]
  refine ⟨fun hg => ?_, fun hg => (Tick_cut_short h lv rnd l hg).1⟩
  have e := key l hg hty
  refine ⟨e, ?_, ?_, fun R r => ?_⟩
  · rw [e]; exact le_max_left _ _
  · rw [e]; exact max_le (by norm_num) (min_le_left _ _)
  · rw [e]
    exact key { l with m_Radius := R, m_currentRadius := r } hg hty

/-- The sector sample light in a sector of light level 160 with scale argument 0 under
the hardware renderer. -/
theorem Tick_sector_witness :
    (tickGuards sampleHost (sampleActor LightType.SectorLight) = true →
      (Tick sampleHost sampleLevel 0 (sampleActor LightType.SectorLight)).light.m_currentRadius
        = max 0 (min 255
            ((sampleHost.lightlevel (sampleActor LightType.SectorLight).Sector : ℚ)
            * (if (sampleActor LightType.SectorLight).scaleArg = 0 then 1
                else ((sampleActor LightType.SectorLight).scaleArg : ℚ) / 8))) ∧
      0 ≤ (Tick sampleHost sampleLevel 0
        (sampleActor LightType.SectorLight)).light.m_currentRadius ∧
      (Tick sampleHost sampleLevel 0 (sampleActor LightType.SectorLight)).light.m_currentRadius
        ≤ 255 ∧
      (∀ (R : Nat → Int) (r : ℚ),
        (Tick sampleHost sampleLevel 0
          { sampleActor LightType.SectorLight with m_Radius := R, m_currentRadius := r }
          ).light.m_currentRadius
          = (Tick sampleHost sampleLevel 0
            (sampleActor LightType.SectorLight)).light.m_currentRadius)) ∧
    (tickGuards sampleHost (sampleActor LightType.SectorLight) = false →
      (Tick sampleHost sampleLevel 0 (sampleActor LightType.SectorLight)).light
        = sampleActor LightType.SectorLight) :=
  Tick_sector sampleHost sampleLevel 0 (sampleActor LightType.SectorLight) rfl

theorem seg_length_sq_pos (seg : seg_t) (hne : seg.v1 ≠ seg.v2) :
    0 < (seg.v2.X - seg.v1.X) * (seg.v2.X - seg.v1.X)
      + (seg.v2.Y - seg.v1.Y) * (seg.v2.Y - seg.v1.Y) := by
  by_contra hc
  have h1 := mul_self_nonneg (seg.v2.X - seg.v1.X)
  have h2 := mul_self_nonneg (seg.v2.Y - seg.v1.Y)
  have hx : (seg.v2.X - seg.v1.X) * (seg.v2.X - seg.v1.X) = 0 := by linarith
  have hy : (seg.v2.Y - seg.v1.Y) * (seg.v2.Y - seg.v1.Y) = 0 := by linarith
  have ex : seg.v1.X = seg.v2.X := by
    have := mul_self_eq_zero.1 hx
    linarith
  have ey : seg.v1.Y = seg.v2.Y := by
    have := mul_self_eq_zero.1 hy
    linarith
  apply hne
  cases hv1 : seg.v1
  cases hv2 : seg.v2
  rw [hv1, hv2] at ex ey
  simp only at ex ey
  rw [ex, ey]

/-- The result of `DistToSeg` is a number exactly for the segs with `v1 ≠ v2`. -/
theorem DistToSeg_isNumber_eq (seg : seg_t) :
    DistToSeg_isNumber seg = decide (seg.v1 ≠ seg.v2) := by
  unfold DistToSeg_isNumber
  simp only
  by_cases e : seg.v1 = seg.v2
  · rw [e]
    simp
  · have hpos := seg_length_sq_pos seg e
    rw [decide_eq_true (ne_of_gt hpos), decide_eq_true e]

/-- The result of `DistToSeg` is the squared distance to the point at the clamped
projection parameter. -/
theorem DistToSeg_eq_point (pos : DVector3) (seg : seg_t) :
    DistToSeg pos seg = sqDist pos (seg.point (clampUnit (projParam pos seg))) := rfl

theorem clampUnit_mem (u : ℚ) : 0 ≤ clampUnit u ∧ clampUnit u ≤ 1 := by
  unfold clampUnit
  split
  · exact ⟨le_refl _, zero_le_one⟩
  · split
    · exact ⟨zero_le_one, le_refl _⟩
    · rename_i h1 h2
      exact ⟨not_lt.1 h1, not_lt.1 h2⟩

/-- The quadratic `t ↦ (t a - wx)² + (t b - wy)²` on the unit interval is least at the
clamped vertex. -/
theorem quad_clamp_le (a b wx wy u0 t : ℚ) (hL : 0 < a * a + b * b)
    (hu0 : u0 * (a * a + b * b) = wx * a + wy * b) (h0 : 0 ≤ t) (h1 : t ≤ 1) :
    (clampUnit u0 * a - wx) * (clampUnit u0 * a - wx)
      + (clampUnit u0 * b - wy) * (clampUnit u0 * b - wy)
    ≤ (t * a - wx) * (t * a - wx) + (t * b - wy) * (t * b - wy) := by
  have key : ∀ u : ℚ, (t * a - wx) * (t * a - wx) + (t * b - wy) * (t * b - wy)
      - ((u * a - wx) * (u * a - wx) + (u * b - wy) * (u * b - wy))
      = (a * a + b * b) * ((t - u) * (t + u - 2 * u0)) := by
    intro u
    linear_combination (2 * (t - u)) * hu0
  have hk := key (clampUnit u0)
  have hnn : 0 ≤ (t - clampUnit u0) * (t + clampUnit u0 - 2 * u0) := by
    unfold clampUnit
    split
    · rename_i hu
      have : 0 ≤ t * (t - 2 * u0) := mul_nonneg h0 (by linarith)
      simpa using this
    · split
      · rename_i hu
        have : 0 ≤ (1 - t) * (2 * u0 - t - 1) := mul_nonneg (by linarith) (by linarith)
        nlinarith
      · have := mul_self_nonneg (t - u0)
        nlinarith
  have := mul_nonneg hL.le hnn
  linarith

theorem projParam_spec (pos : DVector3) (seg : seg_t) (hne : seg.v1 ≠ seg.v2) :
    projParam pos seg * ((seg.v2.X - seg.v1.X) * (seg.v2.X - seg.v1.X)
      + (seg.v2.Y - seg.v1.Y) * (seg.v2.Y - seg.v1.Y))
    = (pos.X - seg.v1.X) * (seg.v2.X - seg.v1.X) + (pos.Y - seg.v1.Y) * (seg.v2.Y - seg.v1.Y) := by
  unfold projParam
  exact div_mul_cancel₀ _ (ne_of_gt (seg_length_sq_pos seg hne))

/-- The result of `DistToSeg` is a lower bound of the squared distances to the points of
the seg. -/
theorem DistToSeg_le_point (pos : DVector3) (seg : seg_t) (hne : seg.v1 ≠ seg.v2)
    (t : ℚ) (h0 : 0 ≤ t) (h1 : t ≤ 1) : DistToSeg pos seg ≤ sqDist pos (seg.point t) := by
  have := quad_clamp_le (seg.v2.X - seg.v1.X) (seg.v2.Y - seg.v1.Y) (pos.X - seg.v1.X)
    (pos.Y - seg.v1.Y) (projParam pos seg) t (seg_length_sq_pos seg hne)
    (projParam_spec pos seg hne) h0 h1
  rw [DistToSeg_eq_point]
  unfold sqDist seg_t.point
  simp only
  have e : ∀ s : ℚ, (seg.v1.X + s * (seg.v2.X - seg.v1.X) - pos.X)
        * (seg.v1.X + s * (seg.v2.X - seg.v1.X) - pos.X)
      + (seg.v1.Y + s * (seg.v2.Y - seg.v1.Y) - pos.Y)
        * (seg.v1.Y + s * (seg.v2.Y - seg.v1.Y) - pos.Y)
      = (s * (seg.v2.X - seg.v1.X) - (pos.X - seg.v1.X))
        * (s * (seg.v2.X - seg.v1.X) - (pos.X - seg.v1.X))
      + (s * (seg.v2.Y - seg.v1.Y) - (pos.Y - seg.v1.Y))
        * (s * (seg.v2.Y - seg.v1.Y) - (pos.Y - seg.v1.Y)) := by
    intro s; ring
  rw [e, e]
  exact this

theorem swap_point (seg : seg_t) (t : ℚ) : seg.swap.point t = seg.point (1 - t) := by
  unfold seg_t.swap seg_t.point
  simp only [DVector2.mk.injEq]
  constructor <;> ring

theorem DistToSeg_swap_le (pos : DVector3) (seg : seg_t) (hne : seg.v1 ≠ seg.v2) :
    DistToSeg pos seg.swap ≤ DistToSeg pos seg := by
  have hm := clampUnit_mem (projParam pos seg)
  have h := DistToSeg_le_point pos seg.swap (fun e => hne e.symm)
    (1 - clampUnit (projParam pos seg)) (by linarith) (by linarith)
  rw [swap_point, sub_sub_cancel] at h
  rw [DistToSeg_eq_point pos seg]
  exact h

/-- C24 (`DistToSeg` is the true minimum).  For every position and every seg with
`v1 ≠ v2`, over the rationals, the result of `DistToSeg` is at most the squared
horizontal distance from the position to `v1 + t * (v2 - v1)` for every `t` between 0 and
1, and it is that distance for some such `t`; it is not negative, it is the same for
every height `Z` of the position, and it is the same for the seg with `v1` and `v2`
exchanged. -/
theorem DistToSeg_minimum (pos : DVector3) (seg : seg_t) (hne : seg.v1 ≠ seg.v2) :
    (∀ t : ℚ, 0 ≤ t → t ≤ 1 → DistToSeg pos seg ≤ sqDist pos (seg.point t)) ∧
    (∃ t : ℚ, 0 ≤ t ∧ t ≤ 1 ∧ DistToSeg pos seg = sqDist pos (seg.point t)) ∧
    0 ≤ DistToSeg pos seg ∧
    (∀ z : ℚ, DistToSeg { pos with Z := z } seg = DistToSeg pos seg) ∧
    DistToSeg pos seg.swap = DistToSeg pos seg := by
  refine ⟨fun t h0 h1 => DistToSeg_le_point pos seg hne t h0 h1,
    ⟨clampUnit (projParam pos seg), (clampUnit_mem _).1, (clampUnit_mem _).2,
      DistToSeg_eq_point pos seg⟩, ?_, fun z => rfl, ?_⟩
  · rw [DistToSeg_eq_point]
    exact add_nonneg (mul_self_nonneg _) (mul_self_nonneg _)
  · apply le_antisymm (DistToSeg_swap_le pos seg hne)
    have h := DistToSeg_swap_le pos seg.swap (fun e => hne e.symm)
    exact h

/-- The segment (0,0)-(10,0) and the point (15,5,0). -/
theorem DistToSeg_minimum_witness :
    (∀ t : ℚ, 0 ≤ t → t ≤ 1 →
      DistToSeg ⟨15, 5, 0⟩ sampleSeg ≤ sqDist ⟨15, 5, 0⟩ (sampleSeg.point t)) ∧
    (∃ t : ℚ, 0 ≤ t ∧ t ≤ 1 ∧
      DistToSeg ⟨15, 5, 0⟩ sampleSeg = sqDist ⟨15, 5, 0⟩ (sampleSeg.point t)) ∧
    0 ≤ DistToSeg ⟨15, 5, 0⟩ sampleSeg ∧
    (∀ z : ℚ, DistToSeg { (⟨15, 5, 0⟩ : DVector3) with Z := z } sampleSeg
      = DistToSeg ⟨15, 5, 0⟩ sampleSeg) ∧
    DistToSeg ⟨15, 5, 0⟩ sampleSeg.swap = DistToSeg ⟨15, 5, 0⟩ sampleSeg :=
  DistToSeg_minimum ⟨15, 5, 0⟩ sampleSeg (by decide)

/-- C21 (front-side test), the code at the failing input.  Light 7 with link radius 300
stands at the origin of the room; the east wall (seg 2, from (200,200) to (200,-200)) is
in range, has a side and an unvisited line, and the cross product is `-80000 ≤ 0`: the
light is in front of it.  The expression of line 558 evaluates to `200 > 0`, and
`collectSide` returns the world as it is: the side is not linked and the line is not
marked.  Conversely, for the wall from (-200,200) to (-200,-200) of the square that is
run through the other way round, the cross product is `80000 > 0`, the expression of
line 558 is `-200 ≤ 0`, and the side is linked and the line marked. -/
theorem front_test_divergence :
    (DistToSeg wideLight.Pos (roomSeg 2) ≤ wideLight.radius * wideLight.radius ∧
      (roomSeg 2).sidedef = some 2 ∧ (roomSeg 2).linedef = some 2 ∧
      freshWorld.line_validcount 2 ≠ freshWorld.validcount ∧
      crossProduct wideLight.Pos (roomSeg 2) = -80000 ∧
      collectSide wideLight false wideLight.Pos (roomSeg 2) freshWorld = some freshWorld) ∧
    (DistToSeg wideLight.Pos (squareSeg 3) ≤ wideLight.radius * wideLight.radius ∧
      (squareSeg 3).sidedef = some 3 ∧ (squareSeg 3).linedef = some 3 ∧
      freshWorld.line_validcount 3 ≠ freshWorld.validcount ∧
      crossProduct wideLight.Pos (squareSeg 3) = 80000 ∧
      ∃ w', collectSide wideLight false wideLight.Pos (squareSeg 3) freshWorld = some w' ∧
        w'.calls = [Target.side 3] ∧ w'.line_validcount 3 = w'.validcount) := by
  refine ⟨⟨?_, rfl, rfl, by decide, ?_, ?_⟩, ⟨?_, rfl, rfl, by decide, ?_, ?_⟩⟩
  · norm_num [DistToSeg, roomSeg, wideLight]
  · norm_num [crossProduct, roomSeg, wideLight]
  · have hv : freshWorld.line_validcount 2 ≠ freshWorld.validcount := by decide
    simp only [collectSide, roomSeg, hv, ne_eq, not_false_eq_true, if_true]
    norm_num [wideLight]
  · norm_num [DistToSeg, squareSeg, wideLight]
  · norm_num [crossProduct, squareSeg, wideLight]
  · have hv : freshWorld.line_validcount 3 ≠ freshWorld.validcount := by decide
    have hc : collectSide wideLight false wideLight.Pos (squareSeg 3) freshWorld
        = World.link { freshWorld with
            line_validcount := Function.update freshWorld.line_validcount 3
              freshWorld.validcount } false (Target.side 3) wideLight.self := by
      simp only [collectSide, squareSeg, hv, ne_eq, not_false_eq_true, if_true]
      norm_num [wideLight]
    obtain ⟨w', e⟩ := link_runs { freshWorld with
      line_validcount := Function.update freshWorld.line_validcount 3
        freshWorld.validcount } WF_empty false (Target.side 3) wideLight.self
    obtain ⟨c1, c2, -, c4⟩ := link_calls _ _ _ _ _ e
    refine ⟨w', hc.trans e, c1, ?_⟩
    rw [c4, c2]
    simp

theorem skyLevel_valid : skyLevel.Valid := by
  refine ⟨?_, ?_, ?_, ?_⟩
  · intro p
    show (if p.X ≥ 500 then 1 else 0) < 2
    split <;> decide
  · intro k s hs; cases hs
  · intro k pl _ hn; cases hn
  · intro i pl _ hn; cases hn

/-- The ceiling branch of `collectPlane` (lines 589-599) when the plane lets light
through and the test of line 593 succeeds. -/
theorem collectPlane_ceiling_open (lv : Level) (self : ADynamicLight)
    (recurse : DVector3 → Option Nat → ℚ → World → Option World)
    (subSec : Nat) (radius : ℚ) (w : World) (sb : SkyBox) (other : Nat)
    (hb : (lv.sectors (lv.subsectors subSec).sector).PortalBlocksSight Plane.ceiling = false)
    (hsb : (lv.sectors (lv.subsectors subSec).sector).SkyBoxes Plane.ceiling = some sb)
    (ht : sb.specialf1 < self.Pos.Z + radius)
    (ho : (lv.segs (lv.subsectors subSec).firstline).linedef = some other)
    (hv : w.sub_validcount (lv.R_PointInSubsector
      ⟨(lv.lines other).mid.X + sb.Scale.X, (lv.lines other).mid.Y + sb.Scale.Y⟩)
        ≠ w.validcount) :
    collectPlane lv self recurse Plane.ceiling subSec radius w
      = recurse (lv.PosRelativeSector self (lv.subsectors (lv.R_PointInSubsector
          ⟨(lv.lines other).mid.X + sb.Scale.X, (lv.lines other).mid.Y + sb.Scale.Y⟩)).sector)
        (some (lv.R_PointInSubsector
          ⟨(lv.lines other).mid.X + sb.Scale.X, (lv.lines other).mid.Y + sb.Scale.Y⟩))
        radius w := by
  unfold collectPlane
  simp only [hb, hsb, ho, Bool.not_false, if_true, decide_eq_true ht, if_pos hv]

/-- The flood fill of the sample light on `skyLevel` from any world in which subsector 1
is unvisited: it enters subsector 0 and, through the ceiling transfer, subsector 1. -/
theorem skyLevel_collect (w : World) (hw : WF w.heap)
    (h1 : w.sub_validcount 1 ≠ w.validcount) :
    ∃ w2 w3, World.link (w.stamp 0) (sampleLight.additive || w.gl_lights_additive)
        (Target.subsector 0) sampleLight.self = some w2 ∧
      World.link (w2.stamp 1) (sampleLight.additive || w2.gl_lights_additive)
        (Target.subsector 1) sampleLight.self = some w3 ∧
      CollectWithinRadius skyLevel sampleLight 2 sampleLight.Pos (some 0)
        (toFloat (sampleLight.radius * sampleLight.radius)) w = some w3 := by
  obtain ⟨w2, e2⟩ := link_runs (w.stamp 0) hw (sampleLight.additive || w.gl_lights_additive)
    (Target.subsector 0) sampleLight.self
  have t2 : Traced sampleLight (w.stamp 0) w2 := Traced_link sampleLight _ w2 _ e2
  have hw2 : WF w2.heap := t2.heap_WF hw
  obtain ⟨w3, e3⟩ := link_runs (w2.stamp 1) hw2
    (sampleLight.additive || w2.gl_lights_additive) (Target.subsector 1) sampleLight.self
  obtain ⟨-, c2, c3, -⟩ := link_calls _ _ _ _ _ e2
  have hv2 : w2.sub_validcount 1 ≠ w2.validcount := by
    rw [c3, c2]
    show Function.update w.sub_validcount 0 w.validcount 1 ≠ w.validcount
    rw [Function.update_noteq (by decide)]
    exact h1
  refine ⟨w2, w3, e2, e3, ?_⟩
  have hR : toFloat (sampleLight.radius * sampleLight.radius) = 10000 := toFloat_sq100
  rw [hR, CollectWithinRadius_succ, e2, Option.some_bind]
  have hf : (List.range (skyLevel.subsectors 0).numlines).foldlM
      (collectSeg skyLevel sampleLight (sampleLight.additive || w.gl_lights_additive)
        (CollectWithinRadius skyLevel sampleLight 1) sampleLight.Pos 0
        10000) w2 = some w2 := rfl
  rw [hf, Option.some_bind]
  have hsub : skyLevel.R_PointInSubsector
      ⟨(skyLevel.lines 0).mid.X + (0 : ℚ), (skyLevel.lines 0).mid.Y + (0 : ℚ)⟩ = 1 := by
    norm_num [skyLevel, line_t.mid]
  have hc : collectPlane skyLevel sampleLight (CollectWithinRadius skyLevel sampleLight 1)
      Plane.ceiling 0 10000 w2 = some w3 := by
    have hrec : CollectWithinRadius skyLevel sampleLight 1 sampleLight.Pos (some 1)
        10000 w2 = some w3 := by
      rw [CollectWithinRadius_closed skyLevel sampleLight 0 sampleLight.Pos 1 _ w2
        (fun i hi => absurd hi (Nat.not_lt_zero i))
        (fun pl => by simp [skyLevel])]
      exact e3
    rw [collectPlane_ceiling_open skyLevel sampleLight _ 0 _ w2
      { specialf1 := 5000, Scale := ⟨0, 0⟩ } 0 (by simp [skyLevel]) rfl
      (by norm_num [sampleLight]) rfl (by rw [hsub]; exact hv2)]
    simp only [hsub]
    exact hrec
  rw [hc, Option.some_bind]
  exact collectPlane_blocked skyLevel sampleLight _ Plane.floor 0 _ w3 (by simp [skyLevel])

/-- C22 (vertical reach of sky transfers), the code at the failing input.  The sample
light has link radius 100 and height 0; the ceiling of its subsector lets light through
and has a sky transfer at height 5000, which is not below `Z + r = 100`.  `LinkLight`
passes `radius * radius = 10000` to `CollectWithinRadius`, the test of line 593 is
`5000 < 0 + 10000`, and the relink returns having entered subsector 1 beneath the
transfer: the light is linked to it. -/
theorem sky_reach_divergence :
    sampleLight.radius = 100 ∧ sampleLight.Pos.Z = 0 ∧
    (skyLevel.sectors (skyLevel.subsectors 0).sector).PortalBlocksSight Plane.ceiling = false ∧
    (skyLevel.sectors (skyLevel.subsectors 0).sector).SkyBoxes Plane.ceiling
      = some { specialf1 := 5000, Scale := ⟨0, 0⟩ } ∧
    ¬ ((5000 : ℚ) < sampleLight.Pos.Z + sampleLight.radius) ∧
    ∃ (w' : World) (bs : List Nat) (n : Nat),
      LinkLight skyLevel sampleLight 2 freshWorld = some w' ∧
      w'.calls = [Target.subsector 0, Target.subsector 1] ∧
      ChainT w'.heap (TSlot.touching_subsectors 7) bs ∧ n ∈ bs ∧
      w'.heap.targ n = Target.subsector 1 := by
  refine ⟨rfl, rfl, by simp [skyLevel], rfl, by norm_num [sampleLight], ?_⟩
  have hw : WF freshWorld.heap := WF_empty
  have hss : ChainT freshWorld.heap (TSlot.touching_sides sampleLight.self) [] :=
    ChainT_empty _ rfl
  have hbs : ChainT freshWorld.heap (TSlot.touching_subsectors sampleLight.self) [] :=
    ChainT_empty _ rfl
  obtain ⟨w2, w3, e2, e3, ec⟩ := skyLevel_collect
    { markedWorld freshWorld [] [] with
      validcount := (markedWorld freshWorld [] []).validcount + 1 } WF_empty (by decide)
  have ht : linkTraverse skyLevel sampleLight 2 (markedWorld freshWorld [] []) = some w3 := by
    unfold linkTraverse
    rw [if_pos (by norm_num [sampleLight])]
    exact ec
  obtain ⟨c2, -⟩ := link_calls _ _ _ _ _ e2
  obtain ⟨c3, -⟩ := link_calls _ _ _ _ _ e3
  have hc3 : w3.calls = [Target.subsector 0, Target.subsector 1] := by
    rw [c3]
    show w2.calls ++ [Target.subsector 1] = _
    rw [c2]
    rfl
  obtain ⟨ss3, bs3, -, -, -, hL⟩ :=
    LinkLight_of_traverse skyLevel sampleLight 2 freshWorld w3 hw [] [] hss hbs ht
  obtain ⟨ss', bs', hrel, -⟩ := LinkLight_linked skyLevel sampleLight 2 freshWorld _ hw hL
  have hcalls : ({ w3 with heap := sweepHeap w3.heap ss3 bs3 } : World).calls
      = [Target.subsector 0, Target.subsector 1] := hc3
  obtain ⟨n, hn, tn, -⟩ := hrel.linked (Target.subsector 1) (by rw [hcalls]; simp)
  exact ⟨_, bs', n, hL, hc3, hrel.subs, hn, tn⟩

theorem ChainT_sample1_sides : ChainT sample1 (TSlot.touching_sides 7) [] := by
  rw [sample1_eq]
  exact ChainT_linkNew_frame _ WF_empty _ _ _ _ (TSlot.touching_sides 7) []
    (by decide) rfl (fun m hm => by cases hm) (ChainT_empty _ rfl)

theorem ChainL_sample1_additive :
    ChainL sample1 (LSlot.lighthead (Target.subsector 0) true) [] := by
  rw [sample1_eq]
  exact ChainL_linkNew_frame _ WF_empty _ _ _ _ (LSlot.lighthead (Target.subsector 0) true) []
    (by decide) rfl (fun m hm => by cases hm) (ChainL_empty _ rfl)

/-- The relink of the sample light in `additiveWorld`: the traversal makes the single
call for subsector 0, which takes the reuse path, and nothing is deleted. -/
theorem additiveWorld_relink :
    LinkLight sampleLevel sampleLight 1 additiveWorld
      = some { additiveWorld with
          heap := ((sample1.mark 0 none).mark 0 (some 7)),
          validcount := 1,
          sub_validcount := Function.update additiveWorld.sub_validcount 0 1,
          calls := [Target.subsector 0] } := by
  have hw : WF additiveWorld.heap := WF_sample1
  have hss : ChainT additiveWorld.heap (TSlot.touching_sides sampleLight.self) [] :=
    ChainT_sample1_sides
  have hbs : ChainT additiveWorld.heap (TSlot.touching_subsectors sampleLight.self) [0] :=
    ChainT_sample1
  have hm : (markedWorld additiveWorld [] [0]).heap = sample1.mark 0 none := rfl
  have hwm : WF (sample1.mark 0 none) := WF_mark _ WF_sample1 _ _
  have hcm : ChainT (sample1.mark 0 none) (TSlot.touching_subsectors 7) [0] :=
    (ChainT_mark _ _ _ _ _).2 ChainT_sample1
  have hadd : AddLightNodeAssign (LSlot.lighthead (Target.subsector 0) true)
      (Target.subsector 0) 7 (TSlot.touching_subsectors 7) (sample1.mark 0 none)
      = some ((sample1.mark 0 none).mark 0 (some 7)) := by
    refine AddLightNodeAssign_reuse _ hwm _ _ _ _ [0] 0 rfl hcm ?_
    have : (sample1.mark 0 none).targ 0 = Target.subsector 0 := by
      rw [mark_targ]; exact sample1_targ
    simp [List.find?, this]
  have ht : linkTraverse sampleLevel sampleLight 1 (markedWorld additiveWorld [] [0])
      = some { additiveWorld with
          heap := ((sample1.mark 0 none).mark 0 (some 7)),
          validcount := 1,
          sub_validcount := Function.update additiveWorld.sub_validcount 0 1,
          calls := [Target.subsector 0] } := by
    unfold linkTraverse
    rw [if_pos (by norm_num [sampleLight])]
    simp only
    rw [CollectWithinRadius_closed sampleLevel sampleLight 0 sampleLight.Pos _ _ _
      (fun i hi => absurd hi (Nat.not_lt_zero i)) (fun pl => rfl)]
    show World.link _ true (Target.subsector 0) 7 = _
    unfold World.link
    show Option.map _ (AddLightNodeAssign (LSlot.lighthead (Target.subsector 0) true)
      (Target.subsector 0) 7 (TSlot.touching_subsectors 7) (sample1.mark 0 none)) = _
    rw [hadd]
    rfl
  obtain ⟨ss3, bs3, hr, -, -, hL⟩ :=
    LinkLight_of_traverse sampleLevel sampleLight 1 additiveWorld _ hw [] [0] hss hbs ht
  have hc3s : ChainT ((sample1.mark 0 none).mark 0 (some 7)) (TSlot.touching_sides 7) [] :=
    (ChainT_mark _ _ _ _ _).2 ((ChainT_mark _ _ _ _ _).2 ChainT_sample1_sides)
  have hc3b : ChainT ((sample1.mark 0 none).mark 0 (some 7))
      (TSlot.touching_subsectors 7) [0] := (ChainT_mark _ _ _ _ _).2 hcm
  have es : ss3 = [] := ChainT_det _ _ _ _ hr.sides hc3s
  have eb : bs3 = [0] := ChainT_det _ _ _ _ hr.subs hc3b
  rw [hL, es, eb]
  have hst : stale ((sample1.mark 0 none).mark 0 (some 7)) 0 = false := by
    simp [stale, mark_lightsource]
  have hsw : sweepHeap ((sample1.mark 0 none).mark 0 (some 7)) [] [0]
      = (sample1.mark 0 none).mark 0 (some 7) := by
    simp [sweepHeap, hst, unlinkAll_nil]
  simp only [hsw]

/-- C23 (blend bucketing), the code at the failing input.  Light 7 is linked to
subsector 0 by node 0, which was put into the bucket `lighthead[0]`; then the global
additive setting is switched on, so that the additive state of the light is `true`.
The next `LinkLight` reuses node 0: afterwards it is still the one node of the light, it
is still a member of the chain `lighthead[0]` of subsector 0, and the chain
`lighthead[1]` of subsector 0 is empty. -/
theorem bucket_divergence :
    (sampleLight.additive || additiveWorld.gl_lights_additive) = true ∧
    ChainL additiveWorld.heap (LSlot.lighthead (Target.subsector 0) false) [0] ∧
    ∃ w', LinkLight sampleLevel sampleLight 1 additiveWorld = some w' ∧
      w'.gl_lights_additive = true ∧
      ChainT w'.heap (TSlot.touching_sides 7) [] ∧
      ChainT w'.heap (TSlot.touching_subsectors 7) [0] ∧
      w'.heap.targ 0 = Target.subsector 0 ∧
      ChainL w'.heap (LSlot.lighthead (Target.subsector 0) false) [0] ∧
      ChainL w'.heap (LSlot.lighthead (Target.subsector 0) true) [] := by
  refine ⟨rfl, ChainL_sample1, _, additiveWorld_relink, rfl, ?_, ?_, ?_, ?_, ?_⟩
  · exact (ChainT_mark _ _ _ _ _).2 ((ChainT_mark _ _ _ _ _).2 ChainT_sample1_sides)
  · exact (ChainT_mark _ _ _ _ _).2 ((ChainT_mark _ _ _ _ _).2 ChainT_sample1)
  · show ((sample1.mark 0 none).mark 0 (some 7)).targ 0 = _
    rw [mark_targ, mark_targ]
    exact sample1_targ
  · exact (ChainL_mark _ _ _ _ _).2 ((ChainL_mark _ _ _ _ _).2 ChainL_sample1)
  · exact (ChainL_mark _ _ _ _ _).2 ((ChainL_mark _ _ _ _ _).2 ChainL_sample1_additive)

theorem chainOf_light (L L0 : Nat) (t t0 : Target) (e : chainOf L t = chainOf L0 t0) :
    L = L0 := by
  cases t <;> cases t0 <;> simp [chainOf] at e <;> exact e

theorem isHead_chainOf (s : TSlot) (hs : s.isHead = true) : ∃ L t, s = chainOf L t := by
  cases s with
  | touching_sides L => exact ⟨L, Target.side 0, rfl⟩
  | touching_subsectors L => exact ⟨L, Target.subsector 0, rfl⟩
  | nextTarget n => simp [TSlot.isHead] at hs

theorem linkNew_chain (h : Heap) (hw : WF h) (thread : LSlot) (linkto : Target)
    (light : Nat) (nextnode : TSlot) (hn : nextnode.isHead = true) (s : TSlot)
    (hs : s.isHead = true) (l' : List Nat)
    (hc : ChainT (linkNew thread linkto light nextnode h) s l') :
    (s = nextnode ∧ ∃ l, ChainT h nextnode l ∧ l' = h.nextFree :: l) ∨
    (s ≠ nextnode ∧ ChainT h s l') := by
  by_cases e : s = nextnode
  · subst e
    obtain ⟨l, hl⟩ := exists_ChainT h hw s hs
    have := ChainT_linkNew_head h hw thread linkto light s l (TSlot.isHead_okT h s hs) hl
    exact Or.inl ⟨rfl, l, hl, ChainT_det _ _ _ _ hc this⟩
  · obtain ⟨l, hl⟩ := exists_ChainT h hw s hs
    have := ChainT_linkNew_frame h hw thread linkto light nextnode s l e
      (TSlot.isHead_okT h s hs)
      (fun m _ e2 => by rw [← e2] at hn; simp [TSlot.isHead] at hn) hl
    rw [ChainT_det _ _ _ _ hc this]
    exact Or.inr ⟨e, hl⟩

theorem unlinkNode_chain (h : Heap) (hw : WF h) (n : Nat) (hn : h.alive n = true)
    (s : TSlot) (hs : s.isHead = true) (l' : List Nat)
    (hc : ChainT (unlinkNode h n) s l') : ∃ l, ChainT h s l ∧ l' = l.erase n := by
  obtain ⟨l, hl⟩ := exists_ChainT h hw s hs
  have := ChainT_unlinkNode h hw n hn l s (TSlot.isHead_okT h s hs)
    (fun e => by rw [e] at hs; simp [TSlot.isHead] at hs) hl
  exact ⟨l, hl, ChainT_det _ _ _ _ hc this⟩

theorem OneNode_empty : OneNode Heap.empty none := by
  have hnil : ∀ (s : TSlot) (l : List Nat), s.isHead = true → ChainT Heap.empty s l →
      l = [] := fun s l hs hc => ChainT_det _ _ _ _ hc (ChainT_empty s hs)
  refine ⟨Dual_empty, ?_, ?_, ?_⟩
  · intro L t l hc n hn
    rw [hnil _ l (chainOf_isHead L t) hc] at hn
    cases hn
  · intro s l hs hc n hn
    rw [hnil s l hs hc] at hn
    cases hn
  · intro L t l _ hc n hn
    rw [hnil _ l (chainOf_isHead L t) hc] at hn
    cases hn

theorem OneNode.exempt {h : Heap} (ho : OneNode h none) (L0 : Nat) : OneNode h (some L0) :=
  ⟨ho.dual, ho.kind, ho.uniq,
    fun L t l _ hc n hn => ho.owner L t l (by simp) hc n hn⟩

theorem OneNode_mark (h : Heap) (L0 : Nat) (ho : OneNode h (some L0)) (n : Nat)
    (v : Option Nat) (hj : h.joins L0 n) : OneNode (h.mark n v) (some L0) := by
  refine ⟨Dual_mark h ho.dual n v, ?_, ?_, ?_⟩
  · intro L t l hc m hm
    exact ho.kind L t l ((ChainT_mark h n v _ l).1 hc) m hm
  · intro s l hs hc a ha b hb e
    exact ho.uniq s l hs ((ChainT_mark h n v s l).1 hc) a ha b hb e
  · intro L t l hL hc m hm
    have hc' := (ChainT_mark h n v _ l).1 hc
    rw [mark_lightsource, if_neg]
    · exact ho.owner L t l hL hc' m hm
    · intro e
      subst e
      obtain ⟨t0, l0, hc0, hm0⟩ := hj
      have := ChainT_unique h ho.dual.wf _ _ l l0 (chainOf_isHead L t) (chainOf_isHead L0 t0)
        hc' hc0 m hm hm0
      exact hL (by rw [chainOf_light L L0 t t0 this])

theorem OneNode_markAll (L0 : Nat) : ∀ (l : List Nat) (h : Heap), OneNode h (some L0) →
    (∀ n ∈ l, h.joins L0 n) → OneNode (markAll h l) (some L0)
  | [], _, ho, _ => ho
  | a :: l, h, ho, hj => by
    rw [markAll_cons]
    refine OneNode_markAll L0 l _ (OneNode_mark h L0 ho a none (hj a (List.mem_cons_self _ _))) ?_
    intro n hn
    obtain ⟨t, c, hc, hm⟩ := hj n (List.mem_cons_of_mem _ hn)
    exact ⟨t, c, (ChainT_mark h a none _ c).2 hc, hm⟩

theorem OneNode_linkNew (h : Heap) (L0 : Nat) (ho : OneNode h (some L0)) (a : Bool)
    (t : Target) (l : List Nat) (hl : ChainT h (chainOf L0 t) l)
    (hno : ∀ m ∈ l, h.targ m ≠ t) :
    OneNode (linkNew (LSlot.lighthead t a) t L0 (chainOf L0 t) h) (some L0) := by
  have hw := ho.dual.wf
  have hfr := hw.fresh h.nextFree (le_refl _)
  have hold : ∀ (s : TSlot) (c : List Nat), ChainT h s c → ∀ m ∈ c, m ≠ h.nextFree := by
    intro s c hc m hm e
    have := ChainT_alive h c s hc m hm
    rw [e, hfr] at this
    cases this
  refine ⟨Dual_linkNew h ho.dual t a L0 _ (chainOf_isHead L0 t), ?_, ?_, ?_⟩
  · intro L t2 c hc n hn
    rw [linkNew_targ]
    rcases linkNew_chain h hw _ t L0 _ (chainOf_isHead L0 t) _ (chainOf_isHead L t2) c hc
      with ⟨e, c0, hc0, rfl⟩ | ⟨_, hc0⟩
    · have eL : L = L0 := chainOf_light L L0 t2 t e
      subst eL
      rcases List.mem_cons.1 hn with e1 | e1
      · rw [if_pos e1]; exact e.symm
      · rw [if_neg (hold _ c0 hc0 n e1)]
        rw [e]
        have := ho.kind L t c0 hc0 n e1
        exact this
    · rw [if_neg (hold _ c hc0 n hn)]
      exact ho.kind L t2 c hc0 n hn
  · intro s c hs hc n hn m hm e
    rw [linkNew_targ, linkNew_targ] at e
    rcases linkNew_chain h hw _ t L0 _ (chainOf_isHead L0 t) s hs c hc
      with ⟨e0, c0, hc0, rfl⟩ | ⟨_, hc0⟩
    · have ec : c0 = l := ChainT_det _ _ _ _ hc0 hl
      subst ec
      rcases List.mem_cons.1 hn with e1 | e1 <;> rcases List.mem_cons.1 hm with e2 | e2
      · rw [e1, e2]
      · rw [if_pos e1, if_neg (hold _ c0 hc0 m e2)] at e
        exact absurd e.symm (hno m e2)
      · rw [if_neg (hold _ c0 hc0 n e1), if_pos e2] at e
        exact absurd e (hno n e1)
      · rw [if_neg (hold _ c0 hc0 n e1), if_neg (hold _ c0 hc0 m e2)] at e
        exact ho.uniq _ c0 (chainOf_isHead L0 t) hc0 n e1 m e2 e
    · rw [if_neg (hold _ c hc0 n hn), if_neg (hold _ c hc0 m hm)] at e
      exact ho.uniq s c hs hc0 n hn m hm e
  · intro L t2 c hL hc n hn
    rcases linkNew_chain h hw _ t L0 _ (chainOf_isHead L0 t) _ (chainOf_isHead L t2) c hc
      with ⟨e, _⟩ | ⟨_, hc0⟩
    · exact absurd (by rw [chainOf_light L L0 t2 t e]) hL
    · rw [linkNew_lightsource, if_neg (hold _ c hc0 n hn)]
      exact ho.owner L t2 c hL hc0 n hn

theorem OneNode_linkStep (h : Heap) (L0 : Nat) (ho : OneNode h (some L0)) (a : Bool)
    (t : Target) (l : List Nat) (hl : ChainT h (chainOf L0 t) l) :
    OneNode (linkStep h a t L0 l) (some L0) := by
  unfold linkStep
  cases hf : l.find? (fun m => decide (h.targ m = t)) with
  | some n =>
    exact OneNode_mark h L0 ho n _ ⟨t, l, hl, List.mem_of_find?_eq_some hf⟩
  | none =>
    refine OneNode_linkNew h L0 ho a t l hl ?_
    intro m hm
    simpa using List.find?_eq_none.1 hf m hm

theorem OneNode_linkAll (a : Bool) (L0 : Nat) : ∀ (cs : List Target) (h h' : Heap),
    OneNode h (some L0) → linkAll a L0 cs h = some h' → OneNode h' (some L0)
  | [], h, h', ho, e => by
    simp only [linkAll, Option.some.injEq] at e
    subst e; exact ho
  | c :: cs, h, h', ho, e => by
    obtain ⟨l, hl⟩ := exists_ChainT h ho.dual.wf (chainOf L0 c) (chainOf_isHead L0 c)
    simp only [linkAll, AddLightNodeAssign_linkStep h ho.dual.wf a c L0 l hl,
      Option.some_bind] at e
    exact OneNode_linkAll a L0 cs _ h' (OneNode_linkStep h L0 ho a c l hl) e

theorem OneNode_unlinkNode (h : Heap) (x : Option Nat) (ho : OneNode h x) (n : Nat)
    (hn : h.alive n = true) : OneNode (unlinkNode h n) x := by
  have hw := ho.dual.wf
  refine ⟨Dual_unlinkNode h ho.dual n hn, ?_, ?_, ?_⟩
  · intro L t c hc m hm
    obtain ⟨c0, hc0, rfl⟩ := unlinkNode_chain h hw n hn _ (chainOf_isHead L t) c hc
    rw [unlinkNode_targ]
    exact ho.kind L t c0 hc0 m (List.mem_of_mem_erase hm)
  · intro s c hs hc a ha b hb e
    obtain ⟨c0, hc0, rfl⟩ := unlinkNode_chain h hw n hn s hs c hc
    rw [unlinkNode_targ] at e
    exact ho.uniq s c0 hs hc0 a (List.mem_of_mem_erase ha) b (List.mem_of_mem_erase hb) e
  · intro L t c hL hc m hm
    obtain ⟨c0, hc0, rfl⟩ := unlinkNode_chain h hw n hn _ (chainOf_isHead L t) c hc
    rw [unlinkNode_lightsource]
    exact ho.owner L t c0 hL hc0 m (List.mem_of_mem_erase hm)

theorem OneNode_unlinkAll (x : Option Nat) : ∀ (l : List Nat) (h : Heap), OneNode h x →
    l.Nodup → (∀ n ∈ l, h.alive n = true) → OneNode (unlinkAll h l) x
  | [], _, ho, _, _ => ho
  | a :: l, h, ho, hnd, hal => by
    rw [unlinkAll_cons]
    have hnd' := List.nodup_cons.1 hnd
    refine OneNode_unlinkAll x l _
      (OneNode_unlinkNode h x ho a (hal a (List.mem_cons_self _ _))) hnd'.2 ?_
    intro n hn
    rw [unlinkNode_alive, if_neg (fun e : n = a => hnd'.1 (e ▸ hn))]
    exact hal n (List.mem_cons_of_mem _ hn)

theorem OneNode.close {h : Heap} {L0 : Nat} (ho : OneNode h (some L0))
    (hm : ∀ (t : Target) (l : List Nat), ChainT h (chainOf L0 t) l →
      ∀ n ∈ l, h.lightsource n = some L0) : OneNode h none := by
  refine ⟨ho.dual, ho.kind, ho.uniq, ?_⟩
  intro L t l _ hc n hn
  by_cases e : L = L0
  · subst e
    exact hm t l hc n hn
  · exact ho.owner L t l (fun e2 => e (Option.some.inj e2)) hc n hn

theorem OneNode_UnlinkLight (h h' : Heap) (ho : OneNode h none) (light : Nat)
    (e : UnlinkLight light h = some h') : OneNode h' none := by
  obtain ⟨ss, hss⟩ := exists_ChainT h ho.dual.wf (TSlot.touching_sides light) rfl
  obtain ⟨bs, hbs⟩ := exists_ChainT h ho.dual.wf (TSlot.touching_subsectors light) rfl
  obtain ⟨e1, hnd, hal⟩ := UnlinkLight_eq h ho.dual.wf light ss bs hss hbs
  rw [e1] at e
  rw [← Option.some.inj e]
  exact OneNode_unlinkAll none _ h ho hnd hal

theorem OneNode_LinkLight (lv : Level) (self : ADynamicLight) (fuel : Nat) (w w' : World)
    (ho : OneNode w.heap none) (e : LinkLight lv self fuel w = some w') :
    OneNode w'.heap none := by
  have hw := ho.dual.wf
  obtain ⟨ss, bs, w3, ss3, bs3, hss, hbs, ht, hr, e1⟩ := LinkLight_inv lv self fuel w w' hw e
  obtain ⟨-, cs, -, hl⟩ := linkTraverse_traced lv self fuel _ w3 ht
  have ho1 : OneNode (markAll w.heap ss) (some self.self) :=
    OneNode_markAll self.self ss _ (ho.exempt self.self)
      (fun n hn => ⟨Target.side 0, ss, hss, hn⟩)
  have ho2 : OneNode (markAll (markAll w.heap ss) bs) (some self.self) :=
    OneNode_markAll self.self bs _ ho1
      (fun n hn => ⟨Target.subsector 0, bs, (ChainT_markAll _ _ _ _).2 hbs, hn⟩)
  have ho3 : OneNode w3.heap (some self.self) := OneNode_linkAll _ _ cs _ _ ho2 hl
  have ho4 : OneNode (sweepHeap w3.heap ss3 bs3) (some self.self) := by
    rw [sweepHeap, ← unlinkAll_append]
    refine OneNode_unlinkAll _ _ _ ho3 ?_ ?_
    · rw [List.nodup_append]
      refine ⟨(ChainT_nodup _ ss3 _ hr.sides).filter _,
        (ChainT_nodup _ bs3 _ hr.subs).filter _, ?_⟩
      intro n h1 h2
      exact hr.disjoint n (List.mem_of_mem_filter h1) (List.mem_of_mem_filter h2)
    · intro n hn
      rcases List.mem_append.1 hn with h1 | h1
      · exact ChainT_alive _ ss3 _ hr.sides n (List.mem_of_mem_filter h1)
      · exact ChainT_alive _ bs3 _ hr.subs n (List.mem_of_mem_filter h1)
  obtain ⟨ss', bs', hrel, hmk⟩ := LinkLight_linked lv self fuel w w' hw e
  rw [e1] at hrel hmk ⊢
  refine ho4.close ?_
  intro t l hc n hn
  have : l = chainList ss' bs' t := ChainT_det _ _ _ _ hc (hrel.chain t)
  rw [this] at hn
  apply hmk
  cases t
  · exact List.mem_append_left _ hn
  · exact List.mem_append_right _ hn

/-- Every registry reachable through `LinkLight` and `UnlinkLight` has the invariant. -/
theorem LinkReachable.oneNode {h : Heap} (hr : LinkReachable h) : OneNode h none := by
  induction hr with
  | empty => exact OneNode_empty
  | link lv self fuel w w' _ e ih => exact OneNode_LinkLight lv self fuel w w' ih e
  | unlink h h' light _ e ih => exact OneNode_UnlinkLight h h' ih light e

/-- One call `head = AddLightNode(thread, target, light, head)` on a chain without two
nodes for one target. -/
theorem AddLightNodeAssign_unique (h : Heap) (hw : WF h) (thread : LSlot)
    (hokL : h.okL thread = true) (target : Target) (light : Nat) (head : TSlot)
    (hh : head.isHead = true) (l : List Nat) (hc : ChainT h head l)
    (hu : ∀ n ∈ l, ∀ m ∈ l, h.targ n = h.targ m → n = m) :
    ∃ (h' : Heap) (l' : List Nat),
      AddLightNodeAssign thread target light head h = some h' ∧ ChainT h' head l' ∧
      (∀ n ∈ l', ∀ m ∈ l', h'.targ n = h'.targ m → n = m) ∧
      ∃ n ∈ l', h'.targ n = target ∧ ∀ m ∈ l', h'.targ m = target → m = n := by
  have hok := TSlot.isHead_okT h head hh
  cases hf : l.find? (fun m => decide (h.targ m = target)) with
  | some n =>
    have hn : n ∈ l := List.mem_of_find?_eq_some hf
    have ht : h.targ n = target := by simpa using List.find?_some hf
    refine ⟨h.mark n (some light), l,
      AddLightNodeAssign_reuse h hw thread target light head l n hok hc hf,
      (ChainT_mark h n _ head l).2 hc, hu, n, hn, ht, ?_⟩
    intro m hm e
    exact hu m hm n hn (e.trans ht.symm)
  | none =>
    have hno : ∀ m ∈ l, h.targ m ≠ target := by
      intro m hm
      simpa using List.find?_eq_none.1 hf m hm
    have hfr := hw.fresh h.nextFree (le_refl _)
    have hold : ∀ m ∈ l, m ≠ h.nextFree := by
      intro m hm e
      have := ChainT_alive h l head hc m hm
      rw [e, hfr] at this
      cases this
    refine ⟨linkNew thread target light head h, h.nextFree :: l,
      AddLightNodeAssign_create h hw thread target light head l hok hokL hc hf,
      ChainT_linkNew_head h hw thread target light head l hok hc, ?_,
      h.nextFree, List.mem_cons_self _ _, by rw [linkNew_targ, if_pos rfl], ?_⟩
    · intro n hn m hm e
      rw [linkNew_targ, linkNew_targ] at e
      rcases List.mem_cons.1 hn with e1 | e1 <;> rcases List.mem_cons.1 hm with e2 | e2
      · rw [e1, e2]
      · rw [if_pos e1, if_neg (hold m e2)] at e
        exact absurd e.symm (hno m e2)
      · rw [if_neg (hold n e1), if_pos e2] at e
        exact absurd e (hno n e1)
      · rw [if_neg (hold n e1), if_neg (hold m e2)] at e
        exact hu n e1 m e2 e
    · intro m hm e
      rcases List.mem_cons.1 hm with e1 | e1
      · exact e1
      · rw [linkNew_targ, if_neg (hold m e1)] at e
        exact absurd e (hno m e1)

/-- In a registry with the invariant a light and a target are joined by at most one
node. -/
theorem OneNode.pair {h : Heap} (ho : OneNode h none) (L n m : Nat)
    (hn : h.joins L n) (hm : h.joins L m) (e : h.targ n = h.targ m) : n = m := by
  obtain ⟨t1, l1, c1, m1⟩ := hn
  obtain ⟨t2, l2, c2, m2⟩ := hm
  have k1 := ho.kind L t1 l1 c1 n m1
  have k2 := ho.kind L t2 l2 c2 m m2
  rw [e] at k1
  have es : chainOf L t1 = chainOf L t2 := k1.symm.trans k2
  rw [es] at c1
  have el : l1 = l2 := ChainT_det _ _ _ _ c1 c2
  subst el
  exact ho.uniq _ l1 (chainOf_isHead L t2) c1 n m1 m m2 e

theorem OneNode.joined {h : Heap} (ho : OneNode h none) (n : Nat)
    (hn : h.alive n = true) : ∃ L, h.joins L n ∧ h.lightsource n = some L := by
  obtain ⟨s, l, hs, hc, hm⟩ := ho.dual.inLight n hn
  obtain ⟨L, t, rfl⟩ := isHead_chainOf s hs
  exact ⟨L, ⟨t, l, hc, hm⟩, ho.owner L t l (by simp) hc n hm⟩

/-- In a registry with the invariant the chains of a target list each light at most
once. -/
theorem OneNode.target {h : Heap} (ho : OneNode h none) (t : Target) (b1 b2 : Bool)
    (c1 c2 : List Nat) (h1 : ChainL h (LSlot.lighthead t b1) c1)
    (h2 : ChainL h (LSlot.lighthead t b2) c2) (n m : Nat) (hn : n ∈ c1) (hm : m ∈ c2)
    (e : h.lightsource n = h.lightsource m) : n = m := by
  have an := ChainL_alive h c1 _ h1 n hn
  have am := ChainL_alive h c2 _ h2 m hm
  have tn : h.targ n = t := by
    obtain ⟨b, l, hc, hl⟩ := ho.dual.inTarget n an
    have := ChainL_unique h ho.dual.wf (LSlot.lighthead (h.targ n) b) (LSlot.lighthead t b1)
      l c1 rfl rfl hc h1 n hl hn
    exact (LSlot.lighthead.inj this).1
  have tm : h.targ m = t := by
    obtain ⟨b, l, hc, hl⟩ := ho.dual.inTarget m am
    have := ChainL_unique h ho.dual.wf (LSlot.lighthead (h.targ m) b) (LSlot.lighthead t b2)
      l c2 rfl rfl hc h2 m hl hm
    exact (LSlot.lighthead.inj this).1
  obtain ⟨L, jn, sn⟩ := ho.joined n an
  obtain ⟨L2, jm, sm⟩ := ho.joined m am
  rw [sn, sm] at e
  have eL : L = L2 := Option.some.inj e
  subst eL
  exact ho.pair L n m jn jm (tn.trans tm.symm)

/-- C25 (no duplicate links).  If the chain `l` of a light's head in a well-formed
registry has no two nodes with the same target, then the call
`head = AddLightNode(thread, target, light, head)` returns, and the chain afterwards
has no two nodes with the same target and exactly one node for `target`.  Hence in every
registry reachable through `LinkLight` and `UnlinkLight`: two nodes of a light with the
same target are one node, every node of a light carries the light as its `lightsource`,
and two nodes in the chains `lighthead[]` of one target with the same `lightsource` are
one node. -/
theorem no_duplicate_links (h : Heap) (hw : WF h) (thread : LSlot)
    (hokL : h.okL thread = true) (target : Target) (light : Nat) (head : TSlot)
    (hh : head.isHead = true) (l : List Nat) (hc : ChainT h head l)
    (hu : ∀ n ∈ l, ∀ m ∈ l, h.targ n = h.targ m → n = m) :
    (∃ (h' : Heap) (l' : List Nat),
      AddLightNodeAssign thread target light head h = some h' ∧ ChainT h' head l' ∧
      (∀ n ∈ l', ∀ m ∈ l', h'.targ n = h'.targ m → n = m) ∧
      ∃ n ∈ l', h'.targ n = target ∧ ∀ m ∈ l', h'.targ m = target → m = n) ∧
    (∀ g : Heap, LinkReachable g →
      (∀ L n m, g.joins L n → g.joins L m → g.targ n = g.targ m → n = m) ∧
      (∀ L n, g.joins L n → g.lightsource n = some L) ∧
      (∀ (t : Target) (b1 b2 : Bool) (c1 c2 : List Nat),
        ChainL g (LSlot.lighthead t b1) c1 → ChainL g (LSlot.lighthead t b2) c2 →
        ∀ n ∈ c1, ∀ m ∈ c2, g.lightsource n = g.lightsource m → n = m)) := by
  refine ⟨AddLightNodeAssign_unique h hw thread hokL target light head hh l hc hu, ?_⟩
  intro g hg
  have ho := hg.oneNode
  refine ⟨fun L n m hn hm e => ho.pair L n m hn hm e, ?_,
    fun t b1 b2 c1 c2 h1 h2 n hn m hm e => ho.target t b1 b2 c1 c2 h1 h2 n m hn hm e⟩
  intro L n hn
  obtain ⟨t, c, hc, hm⟩ := hn
  exact ho.owner L t c (by simp) hc n hm

/-- Light 7, linked to subsector 0 by the one node of its chain, is linked to
subsector 1. -/
theorem no_duplicate_links_witness :
    (∃ (h' : Heap) (l' : List Nat),
      AddLightNodeAssign (LSlot.lighthead (Target.subsector 1) false) (Target.subsector 1) 7
        (TSlot.touching_subsectors 7) sample1 = some h' ∧
      ChainT h' (TSlot.touching_subsectors 7) l' ∧
      (∀ n ∈ l', ∀ m ∈ l', h'.targ n = h'.targ m → n = m) ∧
      ∃ n ∈ l', h'.targ n = Target.subsector 1 ∧
        ∀ m ∈ l', h'.targ m = Target.subsector 1 → m = n) ∧
    (∀ g : Heap, LinkReachable g →
      (∀ L n m, g.joins L n → g.joins L m → g.targ n = g.targ m → n = m) ∧
      (∀ L n, g.joins L n → g.lightsource n = some L) ∧
      (∀ (t : Target) (b1 b2 : Bool) (c1 c2 : List Nat),
        ChainL g (LSlot.lighthead t b1) c1 → ChainL g (LSlot.lighthead t b2) c2 →
        ∀ n ∈ c1, ∀ m ∈ c2, g.lightsource n = g.lightsource m → n = m)) :=
  no_duplicate_links sample1 WF_sample1 (LSlot.lighthead (Target.subsector 1) false) rfl
    (Target.subsector 1) 7 (TSlot.touching_subsectors 7) rfl [0] ChainT_sample1
    (fun n hn m hm _ => by
      rw [List.mem_singleton.1 hn, List.mem_singleton.1 hm])

end DynLight
